import Mathlib

/-!
# Kierki: the wire codec of `common.cpp`

A shallow embedding of the card model and the message codec of the
trick-taking game (`src/common.h`, `src/common.cpp`), followed by theorems
about decoding and encoding.

Conventions of the embedding.

* A `std::string` is a list of characters (`Str`); every character stands for
  one octet.
* A C++ function that may throw returns an `Outcome`: either a value or the
  kind of the exception thrown (`std::invalid_argument` or
  `std::out_of_range`, the two kinds the standard library calls used here can
  raise).
* `int` values are integers; `std::stoi` reports `out_of_range` when the
  number read does not fit the 32-bit `int`.
-/

namespace Kierki

/-- A `std::string`, one `Char` per octet. -/
abbrev Str := List Char

/-- The exception kinds that the codec and the library calls it uses can raise. -/
inductive Exn
  | invalid_argument
  | out_of_range
  deriving DecidableEq, Repr

/-- The result of a C++ call: a value, or an exception of the given kind. -/
inductive Outcome (α : Type)
  | ok (v : α)
  | throw (e : Exn)
  deriving DecidableEq, Repr

namespace Outcome

/-- Sequencing: an exception in the first call propagates. -/
def bind {α β : Type} (x : Outcome α) (f : α → Outcome β) : Outcome β :=
  match x with
  | ok v => f v
  | throw e => throw e

/-- The block `try { x } catch (const std::invalid_argument &) { h }`. -/
def catchInvalid {α : Type} (x : Outcome α) (h : Outcome α) : Outcome α :=
  match x with
  | throw Exn.invalid_argument => h
  | r => r

/-- The call returned normally. -/
def isOk {α : Type} (x : Outcome α) : Bool :=
  match x with
  | ok _ => true
  | throw _ => false

end Outcome

open Outcome

/-! ## Library functions -/

/-- The call `std::string::substr(pos, n)`: throws `std::out_of_range` when `pos > size()`. -/
def substr (s : Str) (pos n : Nat) : Outcome Str :=
  if pos > s.length then throw Exn.out_of_range else ok ((s.drop pos).take n)

/-- The call `std::string::substr(pos)`: the rest of the string from `pos`. -/
def substrFrom (s : Str) (pos : Nat) : Outcome Str :=
  if pos > s.length then throw Exn.out_of_range else ok (s.drop pos)

/-- The function `isspace` in the "C" locale: space, `\t`, `\n`, `\v`, `\f`, `\r`. -/
def isspace (c : Char) : Bool :=
  c.toNat = 32 || (9 ≤ c.toNat && c.toNat ≤ 13)

/-- The function `isdigit`, also the regular-expression class `[0-9]`. -/
def isdigit (c : Char) : Bool :=
  48 ≤ c.toNat && c.toNat ≤ 57

/-- Largest `int`. -/
def INT_MAX : Int := 2147483647

/-- Smallest `int`. -/
def INT_MIN : Int := -2147483648

/-- The number denoted by a run of decimal digits. -/
def digitsVal (ds : Str) : Nat :=
  ds.foldl (fun acc c => acc * 10 + (c.toNat - 48)) 0

/-- The call `std::stoi(str, &pos)` in base 10: skips leading white space, reads an
optional sign and the longest run of digits. Throws `std::invalid_argument`
when there is no digit to read and `std::out_of_range` when the number does not
fit an `int`. Returns the number and `pos`, the count of characters consumed. -/
def stoi (str : Str) : Outcome (Int × Nat) :=
  let s1 := str.dropWhile isspace
  let neg : Bool := s1.head? = some '-'
  let s2 := if s1.head? = some '-' ∨ s1.head? = some '+' then s1.tail else s1
  let ds := s2.takeWhile isdigit
  if ds = [] then throw Exn.invalid_argument
  else
    let v : Int := if neg then -(digitsVal ds : Int) else (digitsVal ds : Int)
    if v < INT_MIN ∨ v > INT_MAX then throw Exn.out_of_range
    else ok (v, (str.length - s2.length) + ds.length)

/-- The function `std::to_string(int)`: decimal digits, with a leading `-` for a negative number. -/
def std_to_string (v : Int) : Str :=
  if v < 0 then '-' :: Nat.toDigits 10 v.natAbs else Nat.toDigits 10 v.natAbs

/-- Equivalence of two keys of an ordered container under its `<`. -/
def keyEquiv {α : Type} (lt : α → α → Bool) (a b : α) : Bool :=
  !lt a b && !lt b a

/-- The method `std::set::insert`: the element is added unless an equivalent one is present.
The set is kept as the list of its elements; only its size is observed. -/
def setInsert {α : Type} (lt : α → α → Bool) (s : List α) (x : α) : List α :=
  if s.any (fun y => keyEquiv lt x y) then s else s ++ [x]

/-- The operator `std::string::operator<`: lexicographic order on octets. -/
def strLt : Str → Str → Bool
  | [], [] => false
  | [], _ :: _ => true
  | _ :: _, [] => false
  | a :: as, b :: bs =>
    if a.toNat < b.toNat then true
    else if b.toNat < a.toNat then false
    else strLt as bs

/-! ## Enumerations -/

/-- The `enum class Color`; the underlying value is the suit letter. -/
inductive Color
  | Hearts
  | Diamonds
  | Clubs
  | Spades
  deriving DecidableEq, Repr

/-- The underlying `char` of a `Color`. -/
def Color.toChar : Color → Char
  | Color.Hearts => 'H'
  | Color.Diamonds => 'D'
  | Color.Clubs => 'C'
  | Color.Spades => 'S'

/-- The function `to_string<Color>`. -/
def to_string_Color (color : Color) : Str := [color.toChar]

/-- The function `from_string<Color>`. -/
def from_string_Color (str : Str) : Outcome Color :=
  match str with
  | ['H'] => ok Color.Hearts
  | ['D'] => ok Color.Diamonds
  | ['C'] => ok Color.Clubs
  | ['S'] => ok Color.Spades
  | _ => throw Exn.invalid_argument

/-- The `enum class MessageType`. -/
inductive MessageType
  | IAM | BUSY | DEAL | TRICK | WRONG | TAKEN | SCORE | TOTAL
  deriving DecidableEq, Repr

/-- The function `to_string<MessageType>`. -/
def to_string_MessageType : MessageType → Str
  | MessageType.IAM => "IAM".toList
  | MessageType.BUSY => "BUSY".toList
  | MessageType.DEAL => "DEAL".toList
  | MessageType.TRICK => "TRICK".toList
  | MessageType.WRONG => "WRONG".toList
  | MessageType.TAKEN => "TAKEN".toList
  | MessageType.SCORE => "SCORE".toList
  | MessageType.TOTAL => "TOTAL".toList

/-- The `enum class Position`; the underlying value is the seat letter. -/
inductive Position
  | North
  | East
  | South
  | West
  deriving DecidableEq, Repr

/-- The underlying `char` of a `Position`. -/
def Position.toChar : Position → Char
  | Position.North => 'N'
  | Position.East => 'E'
  | Position.South => 'S'
  | Position.West => 'W'

/-- The function `to_string<Position>` (its `default:` branch needs a value
outside the enumeration and has no counterpart here). -/
def to_string_Position (position : Position) : Str := [position.toChar]

/-- The function `from_string<Position>`. -/
def from_string_Position (str : Str) : Outcome Position :=
  match str with
  | ['N'] => ok Position.North
  | ['E'] => ok Position.East
  | ['S'] => ok Position.South
  | ['W'] => ok Position.West
  | _ => throw Exn.invalid_argument

/-- The `enum class DealType`, values 1 to 7. -/
inductive DealType
  | TRICK | HEART | QUEEN | LORD | KING_HEART | SEVENTH_LAST | BANDIT
  deriving DecidableEq, Repr

/-- The underlying `int` of a `DealType`. -/
def DealType.toInt : DealType → Int
  | DealType.TRICK => 1
  | DealType.HEART => 2
  | DealType.QUEEN => 3
  | DealType.LORD => 4
  | DealType.KING_HEART => 5
  | DealType.SEVENTH_LAST => 6
  | DealType.BANDIT => 7

/-- The cast `static_cast<DealType>(value)` for a value already known to be in 1..7. -/
def DealType.ofInt (value : Int) : DealType :=
  if value = 1 then DealType.TRICK
  else if value = 2 then DealType.HEART
  else if value = 3 then DealType.QUEEN
  else if value = 4 then DealType.LORD
  else if value = 5 then DealType.KING_HEART
  else if value = 6 then DealType.SEVENTH_LAST
  else DealType.BANDIT

/-- The function `to_string<DealType>`. -/
def to_string_DealType (deal_type : DealType) : Str :=
  std_to_string deal_type.toInt

/-- The function `from_string<DealType>`: only `std::invalid_argument` from
`std::stoi` is caught and rethrown. -/
def from_string_DealType (str : Str) : Outcome DealType :=
  (catchInvalid (stoi str) (throw Exn.invalid_argument)).bind fun r =>
    if r.1 < 1 ∨ r.1 > 7 then throw Exn.invalid_argument
    else ok (DealType.ofInt r.1)

/-! ## Cards -/

/-- The class `Card`: the figure as printed, the suit, and the private numeric value. -/
structure Card where
  figure : Str
  color : Color
  value : Int
  deriving DecidableEq, Repr

namespace Card

/-- The method `Card::validate_and_evaluate`, returning the value it stores.
`figure[0]` of an empty string is the terminating NUL. The final test of the
colour cannot fail for a value of the enumeration. -/
def validate_and_evaluate (figure : Str) (_color : Color) : Outcome Int :=
  let c := figure.headD (Char.ofNat 0)
  if c = 'J' then ok 11
  else if c = 'Q' then ok 12
  else if c = 'K' then ok 13
  else if c = 'A' then ok 14
  else
    catchInvalid
      ((stoi figure).bind fun r =>
        if r.2 ≠ figure.length ∨ r.1 < 2 ∨ r.1 > 10 then throw Exn.invalid_argument
        else ok r.1)
      (throw Exn.invalid_argument)

/-- The constructor `Card::Card(const std::string &figure, Color color)`. -/
def Card_figure_color (figure : Str) (color : Color) : Outcome Card :=
  (validate_and_evaluate figure color).bind fun value => ok ⟨figure, color, value⟩

/-- The constructor `Card::Card(const std::string &str)`. -/
def Card_str (str : Str) : Outcome Card :=
  if str.length < 2 then throw Exn.invalid_argument
  else
    (substr str 0 (str.length - 1)).bind fun figure =>
    (substrFrom str (str.length - 1)).bind fun suit =>
    (from_string_Color suit).bind fun color =>
    (validate_and_evaluate figure color).bind fun value =>
    ok ⟨figure, color, value⟩

/-- The comparison `Color < Color` of the enumeration: by underlying `char`. -/
def colorLt (a b : Color) : Bool := a.toChar.toNat < b.toChar.toNat

/-- The method `Card::operator<`. -/
def lt (a b : Card) : Bool :=
  if a.color ≠ b.color then colorLt a.color b.color
  else strLt a.figure b.figure

/-- The method `Card::to_string`. -/
def to_string (c : Card) : Str := c.figure ++ to_string_Color c.color

/-- The thirteen figures as printed: `2` to `10`, `J`, `Q`, `K`, `A`. -/
def figures : List Str :=
  ["2".toList, "3".toList, "4".toList, "5".toList, "6".toList, "7".toList, "8".toList,
    "9".toList, "10".toList, "J".toList, "Q".toList, "K".toList, "A".toList]

/-- The four suits. -/
def colors : List Color := [Color.Hearts, Color.Diamonds, Color.Clubs, Color.Spades]

/-- The valid card representations: a figure followed by one suit letter. -/
def strings : List Str :=
  figures.flatMap fun f => colors.map fun col => f ++ to_string_Color col

/-- The value of a call that returned, if it did. -/
def outcomeValue {α : Type} : Outcome α → Option α
  | Outcome.ok v => some v
  | Outcome.throw _ => none

/-- The pack: the cards the constructor `Card::Card(str)` builds from the 52 valid
card representations. -/
def pack : List Card := strings.filterMap fun s => outcomeValue (Card_str s)

/-- The class `[SHDC]` of the card pattern. -/
def isSuitChar (c : Char) : Bool := "SHDC".toList.contains c

/-- The class `[2-9JQKA]` of the card pattern. -/
def isFigureChar (c : Char) : Bool := "23456789JQKA".toList.contains c

/-- The alternative `10` of the card pattern followed by `[SHDC]`, matched at
the start of the input: the matched text and the rest. -/
def card_pattern_ten (s : Str) : Option (Str × Str) :=
  match s with
  | a :: b :: c :: rest =>
    if a = '1' ∧ b = '0' ∧ isSuitChar c then some ([a, b, c], rest) else none
  | _ => none

/-- The alternative `[2-9JQKA]` of the card pattern followed by `[SHDC]`,
matched at the start of the input. -/
def card_pattern_one (s : Str) : Option (Str × Str) :=
  match s with
  | a :: c :: rest =>
    if isFigureChar a ∧ isSuitChar c then some ([a, c], rest) else none
  | _ => none

/-- The pattern `(10|[2-9JQKA])[SHDC]` matched at the start of the input; the
alternatives are tried in order. -/
def card_pattern_at (s : Str) : Option (Str × Str) :=
  match card_pattern_ten s with
  | some r => some r
  | none => card_pattern_one s

/-- A `std::regex_search` for the card pattern: the leftmost match, as the
matched text and what follows it. -/
def card_pattern_search : Str → Option (Str × Str)
  | [] => none
  | c :: rest =>
    match card_pattern_at (c :: rest) with
    | some r => some r
    | none => card_pattern_search rest

/-- The matches a `std::sregex_iterator` over the card pattern walks through:
each search resumes where the previous match ended. Every match is at least
two characters long, so `fuel` equal to the length of the input never runs out
(`card_matches_fuel` below). -/
def card_matches : Nat → Str → List Str
  | 0, _ => []
  | fuel + 1, s =>
    match card_pattern_search s with
    | none => []
    | some (m, rest) => m :: card_matches fuel rest

/-- The `while (iter != end)` loop of `Card::parse_cards` over the remaining
matches, with the locals `cards`, `unique_cards` and `total_match_length`. An
`std::invalid_argument` from the `Card` constructor is rethrown as such. -/
def parse_cards_loop : List Str → List Card → List Card → Nat →
    Outcome (List Card × List Card × Nat)
  | [], cards, unique_cards, total_match_length =>
    ok (cards, unique_cards, total_match_length)
  | m :: ms, cards, unique_cards, total_match_length =>
    (catchInvalid (Card_str m) (throw Exn.invalid_argument)).bind fun card =>
      parse_cards_loop ms (cards ++ [card]) (setInsert lt unique_cards card)
        (total_match_length + m.length)

/-- The static method `Card::parse_cards`. -/
def parse_cards (card_list : Str) : Outcome (List Card) :=
  (parse_cards_loop (card_matches card_list.length card_list) [] [] 0).bind fun r =>
    if r.2.2 ≠ card_list.length then throw Exn.invalid_argument
    else if r.1.length ≠ r.2.1.length then throw Exn.invalid_argument
    else ok r.1

end Card

/-! ## Messages -/

/-- A `std::map<Position, int>`: for each of the four keys, the mapped value if
the key is present. -/
structure PosMap where
  north : Option Int
  east : Option Int
  south : Option Int
  west : Option Int
  deriving DecidableEq, Repr

namespace PosMap

/-- The empty map. -/
def empty : PosMap := ⟨none, none, none, none⟩

/-- The lookup `find`. -/
def find (m : PosMap) : Position → Option Int
  | Position.North => m.north
  | Position.East => m.east
  | Position.South => m.south
  | Position.West => m.west

/-- The assignment `m[position] = value`. -/
def set (m : PosMap) (position : Position) (value : Int) : PosMap :=
  match position with
  | Position.North => { m with north := some value }
  | Position.East => { m with east := some value }
  | Position.South => { m with south := some value }
  | Position.West => { m with west := some value }

/-- The number of keys present, `size()`. -/
def size (m : PosMap) : Nat :=
  (if m.north.isSome then 1 else 0) + (if m.east.isSome then 1 else 0) +
    (if m.south.isSome then 1 else 0) + (if m.west.isSome then 1 else 0)

end PosMap

/-- The fields the subclasses of `Message` add to it. -/
inductive Payload
  | IAM (position : Position)
  | BUSY (positions : List Position)
  | DEAL (type : DealType) (first_player : Position) (cards : List Card)
  | TRICK (trick_number : Int) (cards : List Card)
  | WRONG (trick_number : Int)
  | TAKEN (trick_number : Int) (cards : List Card) (taken_by : Position)
  | SCORE (scores : PosMap)
  | TOTAL (totals : PosMap)
  deriving DecidableEq, Repr

/-- The class `Message` with the fields of its dynamic type. -/
structure Message where
  type : MessageType
  data : Str
  payload : Payload
  deriving DecidableEq, Repr

/-- CRLF, the line terminator. -/
def CRLF : Str := ['\r', '\n']

/-- The data string of a list of cards: their `to_string()` appended in order. -/
def cards_data (cards : List Card) : Str :=
  cards.foldl (fun data card => data ++ card.to_string) []

/-- The method `Message::to_string`. -/
def Message.to_string (m : Message) : Str :=
  to_string_MessageType m.type ++ m.data ++ CRLF

/-- The constructor `IAMMessage::IAMMessage`. -/
def IAMMessage (position : Position) : Message :=
  ⟨MessageType.IAM, [position.toChar], Payload.IAM position⟩

/-- The method `IAMMessage::from_string`. -/
def IAMMessage.from_string (str : Str) : Outcome Message :=
  if str.length ≠ 4 then throw Exn.invalid_argument
  else
    (substr str 3 1).bind fun s =>
    (from_string_Position s).bind fun position =>
    ok (IAMMessage position)

/-- The constructor `BUSYMessage::BUSYMessage`. -/
def BUSYMessage (positions : List Position) : Message :=
  ⟨MessageType.BUSY,
    positions.foldl (fun data position => data ++ to_string_Position position) [],
    Payload.BUSY positions⟩

/-- The comparison `Position < Position` of the enumeration: by underlying `char`. -/
def positionLt (a b : Position) : Bool := a.toChar.toNat < b.toChar.toNat

/-- The `for` loop of `BUSYMessage::from_string` from index `i`, with the locals
`positions` and `unique_positions`; `n` counts the indices still to visit. -/
def BUSYMessage.from_string_loop (str : Str) : Nat → Nat → List Position → List Position →
    Outcome (List Position × List Position)
  | 0, _, positions, unique_positions => ok (positions, unique_positions)
  | n + 1, i, positions, unique_positions =>
    (substr str i 1).bind fun s =>
    (from_string_Position s).bind fun position =>
    BUSYMessage.from_string_loop str n (i + 1) (positions ++ [position])
      (setInsert positionLt unique_positions position)

/-- The method `BUSYMessage::from_string`. -/
def BUSYMessage.from_string (str : Str) : Outcome Message :=
  if str.length < 4 ∨ str.length > 8 then throw Exn.invalid_argument
  else
    (BUSYMessage.from_string_loop str (str.length - 4) 4 [] []).bind fun r =>
      if r.1.length ≠ r.2.length then throw Exn.invalid_argument
      else ok (BUSYMessage r.1)

/-- The constructor `DEALMessage::DEALMessage`. -/
def DEALMessage (deal_type : DealType) (first_player : Position) (cards : List Card) :
    Outcome Message :=
  if cards.length ≠ 13 then throw Exn.invalid_argument
  else
    ok ⟨MessageType.DEAL,
      to_string_DealType deal_type ++ to_string_Position first_player ++ cards_data cards,
      Payload.DEAL deal_type first_player cards⟩

/-- The method `DEALMessage::from_string`. -/
def DEALMessage.from_string (str : Str) : Outcome Message :=
  if str.length < 8 then throw Exn.invalid_argument
  else
    (substr str 4 1).bind fun s1 =>
    (from_string_DealType s1).bind fun deal_type =>
    (substr str 5 1).bind fun s2 =>
    (from_string_Position s2).bind fun starting_player =>
    (substrFrom str 6).bind fun s3 =>
    (Card.parse_cards s3).bind fun cards =>
    DEALMessage deal_type starting_player cards

/-- The constructor `TRICKMessage::TRICKMessage`. -/
def TRICKMessage (trick_number : Int) (cards : List Card) : Outcome Message :=
  if trick_number < 1 ∨ trick_number > 13 then throw Exn.invalid_argument
  else if cards.length > 3 then throw Exn.invalid_argument
  else
    ok ⟨MessageType.TRICK, std_to_string trick_number ++ cards_data cards,
      Payload.TRICK trick_number cards⟩

/-- One attempt of `TRICKMessage::from_string`: the trick number read from
`width` characters and the card list from what follows them. -/
def TRICKMessage.from_string_split (str : Str) (width : Nat) : Outcome (Int × List Card) :=
  (substr str 5 width).bind fun s1 =>
  (stoi s1).bind fun r =>
  (substrFrom str (5 + width)).bind fun s2 =>
  (Card.parse_cards s2).bind fun cards =>
  ok (r.1, cards)

/-- The method `TRICKMessage::from_string`. -/
def TRICKMessage.from_string (str : Str) : Outcome Message :=
  if str.length < 6 then throw Exn.invalid_argument
  else
    (catchInvalid (TRICKMessage.from_string_split str 1)
      (catchInvalid (TRICKMessage.from_string_split str 2)
        (throw Exn.invalid_argument))).bind fun r =>
    TRICKMessage r.1 r.2

/-- The constructor `WRONGMessage::WRONGMessage`. -/
def WRONGMessage (trick_number : Int) : Outcome Message :=
  if trick_number < 1 ∨ trick_number > 13 then throw Exn.invalid_argument
  else ok ⟨MessageType.WRONG, std_to_string trick_number, Payload.WRONG trick_number⟩

/-- The method `WRONGMessage::from_string`. -/
def WRONGMessage.from_string (str : Str) : Outcome Message :=
  if str.length < 6 ∨ str.length > 7 then throw Exn.invalid_argument
  else
    (catchInvalid
      ((substrFrom str 5).bind fun s =>
        (stoi s).bind fun r =>
        if r.2 ≠ s.length then throw Exn.invalid_argument else ok r.1)
      (throw Exn.invalid_argument)).bind fun trick_number =>
    WRONGMessage trick_number

/-- The constructor `TAKENMessage::TAKENMessage`. -/
def TAKENMessage (trick_number : Int) (cards : List Card) (taken_by : Position) :
    Outcome Message :=
  if trick_number < 1 ∨ trick_number > 13 then throw Exn.invalid_argument
  else if cards.length ≠ 4 then throw Exn.invalid_argument
  else
    ok ⟨MessageType.TAKEN,
      std_to_string trick_number ++ cards_data cards ++ to_string_Position taken_by,
      Payload.TAKEN trick_number cards taken_by⟩

/-- One attempt of `TAKENMessage::from_string`: the trick number read from
`width` characters, the card list from what lies between them and the last
character, the seat from the last character. -/
def TAKENMessage.from_string_split (str : Str) (width : Nat) :
    Outcome (Int × List Card × Position) :=
  (substr str 5 width).bind fun s1 =>
  (stoi s1).bind fun r =>
  (substr str (5 + width) (str.length - (6 + width))).bind fun s2 =>
  (Card.parse_cards s2).bind fun cards =>
  (substrFrom str (str.length - 1)).bind fun s3 =>
  (from_string_Position s3).bind fun taken_by =>
  ok (r.1, cards, taken_by)

/-- The method `TAKENMessage::from_string`. -/
def TAKENMessage.from_string (str : Str) : Outcome Message :=
  if str.length < 9 then throw Exn.invalid_argument
  else
    (catchInvalid (TAKENMessage.from_string_split str 1)
      (catchInvalid (TAKENMessage.from_string_split str 2)
        (throw Exn.invalid_argument))).bind fun r =>
    TAKENMessage r.1 r.2.1 r.2.2

/-- One repetition of the group `((N[0-9]{1,})|(E[0-9]{1,})|(S[0-9]{1,})|(W[0-9]{1,}))`
matched at the start of the input: the number (2 to 5) of the inner group that
took part, the matched text and the rest. The run of digits is taken whole: a
shorter run leaves a digit next, where neither a further repetition (which
starts with a letter) nor the end of the input can match, so backtracking into
`[0-9]{1,}` never yields a match. -/
def score_group_at (s : Str) : Option (Nat × Str × Str) :=
  match s with
  | [] => none
  | c :: rest =>
    let ds := rest.takeWhile isdigit
    if ds = [] then none
    else if c = 'N' then some (2, c :: ds, rest.dropWhile isdigit)
    else if c = 'E' then some (3, c :: ds, rest.dropWhile isdigit)
    else if c = 'S' then some (4, c :: ds, rest.dropWhile isdigit)
    else if c = 'W' then some (5, c :: ds, rest.dropWhile isdigit)
    else none

/-- The repetitions still to match, then the end of the input (`$`). `caps`
holds the text of the sub-matches 1 to 5 (at indices 0 to 4), empty while
unmatched. A repetition overwrites sub-match 1 and the sub-match of its inner
group and leaves the others as they are: the sub-matches set by earlier
repetitions stay, which is what the test `SCOREMessageSuite.FromString` of the
repository relies on (it reads all four scores back from one match). -/
def score_groups_match : Nat → Str → List Str → Option (List Str)
  | 0, s, caps => if s = [] then some caps else none
  | k + 1, s, caps =>
    match score_group_at s with
    | none => none
    | some (i, g, rest) => score_groups_match k rest ((caps.set 0 g).set (i - 1) g)

/-- A `std::regex_match` of the whole of `str` against
`^TAG((N[0-9]{1,})|(E[0-9]{1,})|(S[0-9]{1,})|(W[0-9]{1,})){4}$`, where `TAG` is
`tag`: on success the text of the sub-matches 1 to 5. -/
def score_regex_match (tag : Str) (str : Str) : Option (List Str) :=
  if tag.isPrefixOf str then
    score_groups_match 4 (str.drop tag.length) [[], [], [], [], []]
  else none

/-- The `for` loop of `parse_score_message` over the sub-matches, filling `values`. -/
def parse_score_loop : List Str → PosMap → Outcome PosMap
  | [], values => ok values
  | g :: gs, values =>
    if g = [] then parse_score_loop gs values
    else
      (from_string_Position [g.headD (Char.ofNat 0)]).bind fun position =>
      (substrFrom g 1).bind fun digits =>
      (stoi digits).bind fun r =>
      parse_score_loop gs (values.set position r.1)

/-- The function template `parse_score_message<T>`; `T`'s constructor is `mk` and
the regular expression is given by its tag. -/
def parse_score_message (mk : PosMap → Outcome Message) (str : Str) (tag : Str) :
    Outcome Message :=
  match score_regex_match tag str with
  | none => throw Exn.invalid_argument
  | some caps => (parse_score_loop caps PosMap.empty).bind mk

/-- The loop over North, East, South, West in the constructors of `SCOREMessage`
and `TOTALMessage`, appending to `data`; a missing key throws. -/
def score_data (values : PosMap) : List Position → Str → Outcome Str
  | [], data => ok data
  | pos :: rest, data =>
    match values.find pos with
    | none => throw Exn.invalid_argument
    | some v => score_data values rest (data ++ to_string_Position pos ++ std_to_string v)

/-- The seats in the order the constructors walk them. -/
def seat_order : List Position :=
  [Position.North, Position.East, Position.South, Position.West]

/-- An assignment of a value to each seat, given in the order North, East,
South, West. -/
def seat_values (a b c d : Int) : Position → Int
  | Position.North => a
  | Position.East => b
  | Position.South => c
  | Position.West => d

/-- The constructor `SCOREMessage::SCOREMessage`. -/
def SCOREMessage (scores : PosMap) : Outcome Message :=
  if scores.size ≠ 4 then throw Exn.invalid_argument
  else
    (score_data scores seat_order []).bind fun data =>
      ok ⟨MessageType.SCORE, data, Payload.SCORE scores⟩

/-- The method `SCOREMessage::from_string`. -/
def SCOREMessage.from_string (str : Str) : Outcome Message :=
  parse_score_message SCOREMessage str "SCORE".toList

/-- The constructor `TOTALMessage::TOTALMessage`. -/
def TOTALMessage (totals : PosMap) : Outcome Message :=
  if totals.size ≠ 4 then throw Exn.invalid_argument
  else
    (score_data totals seat_order []).bind fun data =>
      ok ⟨MessageType.TOTAL, data, Payload.TOTAL totals⟩

/-- The method `TOTALMessage::from_string`. -/
def TOTALMessage.from_string (str : Str) : Outcome Message :=
  parse_score_message TOTALMessage str "TOTAL".toList

/-- The alternatives of `header_pattern`, in order. -/
def header_keywords : List Str :=
  ["IAM".toList, "BUSY".toList, "DEAL".toList, "TRICK".toList, "WRONG".toList,
    "TAKEN".toList, "SCORE".toList, "TOTAL".toList]

/-- A `std::regex_search` of `header_pattern` in the given range: some keyword
starts at some position of it. -/
def header_pattern_search (s : Str) : Bool :=
  s.tails.any fun t => header_keywords.any fun k => k.isPrefixOf t

/-- The static method `Message::from_string`. -/
def Message.from_string (str : Str) : Outcome Message :=
  if str.length < 5 then throw Exn.invalid_argument
  else
    (substrFrom str (str.length - 2)).bind fun tl =>
    if tl ≠ CRLF then throw Exn.invalid_argument
    else if !header_pattern_search (str.take 5) then throw Exn.invalid_argument
    else
      (substr str 0 (str.length - 2)).bind fun new_str =>
      (substr new_str 0 3).bind fun h3 =>
      if h3 = "IAM".toList then IAMMessage.from_string new_str
      else
        (substr new_str 0 4).bind fun h4 =>
        if h4 = "BUSY".toList then BUSYMessage.from_string new_str
        else if h4 = "DEAL".toList then DEALMessage.from_string new_str
        else
          (substr new_str 0 5).bind fun h5 =>
          if h5 = "TRICK".toList then TRICKMessage.from_string new_str
          else if h5 = "WRONG".toList then WRONGMessage.from_string new_str
          else if h5 = "TAKEN".toList then TAKENMessage.from_string new_str
          else if h5 = "SCORE".toList then SCOREMessage.from_string new_str
          else if h5 = "TOTAL".toList then TOTALMessage.from_string new_str
          else throw Exn.invalid_argument

/-! ## The trick-taking comparison -/

namespace Card

/-- The method `Card::operator==`: the figure and the suit are compared, the
numeric value is not. -/
def eq (a b : Card) : Bool := decide (a.figure = b.figure) && decide (a.color = b.color)

/-- The method `Card::compare`. -/
def compare (a other : Card) (specialColor : Color) : Bool :=
  if a.color = other.color then decide (a.value < other.value)
  else if a.color = specialColor then false
  else if other.color = specialColor then true
  else false

end Card

/-- Spec: the numeric value of a rank, "2..10, J=11, Q=12, K=13, A=14", by the
figure as printed. -/
def spec_value (figure : Str) : Int :=
  if figure = "2".toList then 2
  else if figure = "3".toList then 3
  else if figure = "4".toList then 4
  else if figure = "5".toList then 5
  else if figure = "6".toList then 6
  else if figure = "7".toList then 7
  else if figure = "8".toList then 8
  else if figure = "9".toList then 9
  else if figure = "10".toList then 10
  else if figure = "J".toList then 11
  else if figure = "Q".toList then 12
  else if figure = "K".toList then 13
  else if figure = "A".toList then 14
  else 0

/-- Spec: the comparison `beats(a, b, lead_suit)`, "if `a.suit == b.suit`, the
higher numeric value wins; else the card of `lead_suit` wins; else neither beats
the other". -/
def spec_beats (a b : Card) (lead_suit : Color) : Bool :=
  if a.color = b.color then decide (spec_value b.figure < spec_value a.figure)
  else if a.color = lead_suit then true
  else false

/-- Spec: what a trick is worth under a deal type (section 3 of the
specification): 1 per trick; 1 per heart; 5 per queen; 2 per jack or king; 18 if
the king of hearts is in the trick; 10 if it is the 7th or the 13th trick; for
the Bandit the sum of these six. -/
def spec_trick_points (deal_type : DealType) (cards : List Card) (t : Int) : Int :=
  let r1 : Int := 1
  let r2 : Int := cards.countP fun c => decide (c.color = Color.Hearts)
  let r3 : Int := 5 * cards.countP fun c => decide (c.figure = "Q".toList)
  let r4 : Int := 2 * cards.countP fun c =>
    decide (c.figure = "J".toList) || decide (c.figure = "K".toList)
  let r5 : Int := if cards.any fun c =>
    decide (c.figure = "K".toList) && decide (c.color = Color.Hearts) then 18 else 0
  let r6 : Int := if t = 7 ∨ t = 13 then 10 else 0
  match deal_type with
  | DealType.TRICK => r1
  | DealType.HEART => r2
  | DealType.QUEEN => r3
  | DealType.LORD => r4
  | DealType.KING_HEART => r5
  | DealType.SEVENTH_LAST => r6
  | DealType.BANDIT => r1 + r2 + r3 + r4 + r5 + r6

/-! ## Connections and the server's match state -/

/-- The operator `%` on `int`: the remainder of the division that truncates
toward zero. -/
def c_rem (a b : Int) : Int := Int.tmod a b

/-- The value of a result of `int` arithmetic: the representative of `v` in the
32 bits of an `int`, in two's complement. (Overflow of signed arithmetic is
undefined in the source; the machine wraps around.) -/
def int_value (v : Int) : Int := (v + 2147483648) % 4294967296 - 2147483648

/-- The value of a result of `long long` arithmetic: the representative of `v` in
64 bits, in two's complement. -/
def long_long_value (v : Int) : Int :=
  (v + 9223372036854775808) % 18446744073709551616 - 9223372036854775808

/-- The fields of the class `Socket` that the match reads or writes. -/
structure Socket where
  write_queue : Str
  awaited_message : Option MessageType
  timestamp : Int
  closed : Bool
  all_messages_received : Bool
  deriving DecidableEq, Repr

namespace Socket

/-- The method `Socket::send` (its logging apart). -/
def send (s : Socket) (message : Str) : Socket :=
  { s with write_queue := s.write_queue ++ message }

/-- The method `Socket::await_message`; `now` is the value of
`get_current_time_in_millis()`, a `long long`; the product `timeout * 1000` is
computed in `int` and added in `long long`. -/
def await_message (s : Socket) (type : MessageType) (timeout now : Int) : Socket :=
  { s with
    awaited_message := some type
    timestamp := long_long_value (now + int_value (timeout * 1000)) }

/-- A socket after `n` copies of `text` were appended to its write queue. -/
def sent (sock : Socket) (n : Nat) (text : Str) : Socket :=
  { sock with write_queue := sock.write_queue ++ (List.replicate n text).flatten }

end Socket

/-- A `std::map<Position, std::shared_ptr<Socket>>` holding the four seats as
keys: for each seat the socket it points to, as an index into the sockets that
exist, or nothing for `nullptr`. -/
structure SocketMap where
  north : Option Nat
  east : Option Nat
  south : Option Nat
  west : Option Nat
  deriving DecidableEq, Repr

namespace SocketMap

/-- The lookup `player_sockets[position]`. -/
def get (m : SocketMap) : Position → Option Nat
  | Position.North => m.north
  | Position.East => m.east
  | Position.South => m.south
  | Position.West => m.west

/-- The assignment `player_sockets[position] = socket`. -/
def set (m : SocketMap) (position : Position) (socket : Option Nat) : SocketMap :=
  match position with
  | Position.North => { m with north := socket }
  | Position.East => { m with east := socket }
  | Position.South => { m with south := socket }
  | Position.West => { m with west := socket }

end SocketMap

/-- The order in which a range-`for` walks a `std::map` keyed by `Position`: by
the underlying `char`, `E` < `N` < `S` < `W`. -/
def map_order : List Position :=
  [Position.East, Position.North, Position.South, Position.West]

/-- The value `m[p]` of a `std::map<Position, int>` read through `operator[]`: a
missing key reads as 0. -/
def PosMap.at (m : PosMap) (p : Position) : Int := (m.find p).getD 0

/-- One deal of the schedule file: the header line and the four lines of cards,
in the order North, East, South, West. -/
structure Deal where
  deal_type : DealType
  starting_player : Position
  north : List Card
  east : List Card
  south : List Card
  west : List Card
  deriving DecidableEq, Repr

/-- The hands of a deal, in the order North, East, South, West. -/
def Deal.hands (d : Deal) : List (List Card) := [d.north, d.east, d.south, d.west]

/-- The members of `ServerGameState` that its constructor leaves uninitialised. -/
structure Uninitialised where
  first_move : Int
  trick_started : Bool
  deal_type : DealType
  starting_player : Position
  deriving DecidableEq, Repr

/-- The class `ServerGameState`. The member `order` is the constant list North,
East, South, West (`seat_order`). The `int` members are integers. `heap` holds
the `Socket` objects that the shared pointers refer to, a pointer being an index
into it. -/
structure ServerGameState where
  timeout : Int
  current_trick : Int
  current_move : Int
  first_move : Int
  trick_started : Bool
  trick_cards : List Card
  awaited_player : Option Position
  current_deal : Int
  deal_started : Bool
  deal_type : DealType
  starting_player : Position
  current_hands : List (List Card)
  starting_hands : List (List Card)
  taken_messages : List Message
  game_ended : Bool
  deal_types : List DealType
  hands : List (List (List Card))
  starting_players : List Position
  player_sockets : SocketMap
  deal_scores : PosMap
  total_scores : PosMap
  heap : List Socket
  deriving DecidableEq, Repr

namespace ServerGameState

/-- The constructor `ServerGameState::ServerGameState`, after the schedule file
is read: every pass of its reading loop appends one deal type, one opener and one
hand for each of the four seats. `heap` are the sockets that exist. -/
def init (schedule : List Deal) (timeout : Int) (u : Uninitialised) (heap : List Socket) :
    ServerGameState :=
  { timeout := timeout
    current_trick := 0
    current_move := 0
    first_move := u.first_move
    trick_started := u.trick_started
    trick_cards := []
    awaited_player := none
    current_deal := 0
    deal_started := false
    deal_type := u.deal_type
    starting_player := u.starting_player
    current_hands := []
    starting_hands := []
    taken_messages := []
    game_ended := false
    deal_types := schedule.map Deal.deal_type
    hands := [schedule.map Deal.north, schedule.map Deal.east, schedule.map Deal.south,
      schedule.map Deal.west]
    starting_players := schedule.map Deal.starting_player
    player_sockets := ⟨none, none, none, none⟩
    deal_scores := ⟨some 0, some 0, some 0, some 0⟩
    total_scores := ⟨some 0, some 0, some 0, some 0⟩
    heap := heap }

/-- The static method `ServerGameState::position_order`. -/
def position_order : Position → Int
  | Position.North => 0
  | Position.East => 1
  | Position.South => 2
  | Position.West => 3

/-- The element `order[i]`. -/
def order_at (i : Int) : Position := seat_order.getD i.toNat Position.North

/-- A call through the pointer `player_sockets[position]`: the socket it points
to is replaced by `f` of it. Every caller has the seat filled; a null pointer
leaves the sockets as they are. -/
def on_socket (s : ServerGameState) (position : Position) (f : Socket → Socket) :
    ServerGameState :=
  { s with heap :=
      match s.player_sockets.get position with
      | none => s.heap
      | some i => List.modify f i s.heap }

/-- The element `current_hands[position_order(position)]`. -/
def hand_of (s : ServerGameState) (position : Position) : List Card :=
  s.current_hands.getD (position_order position).toNat []

/-- The element `hands[i][current_deal - 1]`. -/
def schedule_hand (s : ServerGameState) (i : Nat) : List Card :=
  (s.hands.getD i []).getD (s.current_deal - 1).toNat []

/-- The method `ServerGameState::find_position`: the first seat, in the order
of the map, that holds this socket. -/
def find_position (s : ServerGameState) (socket : Nat) : Option Position :=
  map_order.find? fun pos => decide (s.player_sockets.get pos = some socket)

/-- The method `ServerGameState::are_players_ready`. -/
def are_players_ready (s : ServerGameState) : Bool :=
  map_order.all fun pos => (s.player_sockets.get pos).isSome

/-- The method `ServerGameState::send_trick_message`. -/
def send_trick_message (s : ServerGameState) (position : Position) (now : Int) :
    Outcome ServerGameState :=
  (TRICKMessage s.current_trick s.trick_cards).bind fun trick_message =>
    ok (on_socket s position fun sock =>
      (sock.send trick_message.to_string).await_message MessageType.TRICK s.timeout now)

/-- The method `ServerGameState::send_deal_message`. -/
def send_deal_message (s : ServerGameState) (position : Position) :
    Outcome ServerGameState :=
  let hand := s.starting_hands.getD (position_order position).toNat []
  (DEALMessage s.deal_type s.starting_player hand).bind fun deal_message =>
    ok (on_socket s position fun sock => sock.send deal_message.to_string)

/-- A loop `for (auto pos : order)` that sends the given messages, in order, to
every seat. -/
def send_to_all (messages : List Str) : List Position → ServerGameState → ServerGameState
  | [], s => s
  | pos :: rest, s =>
    send_to_all messages rest
      (on_socket s pos fun sock => messages.foldl (fun k m => k.send m) sock)

/-- The method `ServerGameState::send_score_messages`. -/
def send_score_messages (s : ServerGameState) : Outcome ServerGameState :=
  (SCOREMessage s.deal_scores).bind fun score_message =>
  (TOTALMessage s.total_scores).bind fun total_message =>
    ok (send_to_all [score_message.to_string, total_message.to_string] seat_order s)

/-- The method `ServerGameState::send_taken_messages`. -/
def send_taken_messages (s : ServerGameState) : Outcome ServerGameState :=
  (TAKENMessage s.current_trick s.trick_cards (order_at s.first_move)).bind fun taken_message =>
    ok (send_to_all [taken_message.to_string] seat_order
      { s with taken_messages := s.taken_messages ++ [taken_message] })

/-- The loop of `calculate_points` that finds the winner, over the indices still
to visit, with the locals `lead_card` and `winner`. Reading `trick_cards[i]` past
the end is undefined in the source; here such an index is skipped (the caller has
four cards). -/
def winner_loop (trick_cards : List Card) (lead_color : Color) (first_move : Int) :
    List Nat → Card → Int → Int
  | [], _, winner => winner
  | i :: rest, lead_card, winner =>
    match trick_cards.get? i with
    | none => winner_loop trick_cards lead_color first_move rest lead_card winner
    | some c =>
      if lead_card.compare c lead_color then
        winner_loop trick_cards lead_color first_move rest c (c_rem (first_move + (i : Int)) 4)
      else winner_loop trick_cards lead_color first_move rest lead_card winner

/-- The local `score` of `calculate_points` after its six `if` statements. -/
def trick_score (deal_type : DealType) (trick_cards : List Card) (current_trick : Int) : Int :=
  let s0 : Int := 0
  let s1 := if deal_type = DealType.TRICK ∨ deal_type = DealType.BANDIT then s0 + 1 else s0
  let s2 := if deal_type = DealType.HEART ∨ deal_type = DealType.BANDIT then
    trick_cards.foldl (fun score card =>
      if card.color = Color.Hearts then score + 1 else score) s1 else s1
  let s3 := if deal_type = DealType.QUEEN ∨ deal_type = DealType.BANDIT then
    trick_cards.foldl (fun score card =>
      if card.figure = "Q".toList then score + 5 else score) s2 else s2
  let s4 := if deal_type = DealType.LORD ∨ deal_type = DealType.BANDIT then
    trick_cards.foldl (fun score card =>
      if card.figure = "J".toList ∨ card.figure = "K".toList then score + 2 else score) s3
    else s3
  let s5 := if deal_type = DealType.KING_HEART ∨ deal_type = DealType.BANDIT then
    trick_cards.foldl (fun score card =>
      if card.figure = "K".toList ∧ card.color = Color.Hearts then score + 18 else score) s4
    else s4
  let s6 := if deal_type = DealType.SEVENTH_LAST ∨ deal_type = DealType.BANDIT then
    (if current_trick = 7 ∨ current_trick = 13 then s5 + 10 else s5) else s5
  s6

/-- The method `ServerGameState::calculate_points`. With no card on the table
(`trick_cards[0]` undefined, not reached) the state is left as it is. -/
def calculate_points (s : ServerGameState) : ServerGameState :=
  match s.trick_cards with
  | [] => s
  | lead_card :: _ =>
    let winner := winner_loop s.trick_cards lead_card.color s.first_move [1, 2, 3] lead_card
      s.first_move
    let score := trick_score s.deal_type s.trick_cards s.current_trick
    let winner_pos := order_at winner
    { s with first_move := winner
             deal_scores := s.deal_scores.set winner_pos (s.deal_scores.at winner_pos + score) }

/-- The method `ServerGameState::is_valid_move`. -/
def is_valid_move (s : ServerGameState) (card : Card) (position : Position) : Bool :=
  let player_hand := hand_of s position
  let valid_moves : List Card :=
    match s.trick_cards with
    | [] => []
    | lead :: _ => player_hand.filter fun player_card => decide (player_card.color = lead.color)
  let valid_moves := if valid_moves.isEmpty then player_hand else valid_moves
  valid_moves.any fun c => c.eq card

/-- The last statements of `handle_trick_message`, past its checks: the card
goes on the table and out of the hand of the seat, which is awaited no more. -/
def accept_move (s : ServerGameState) (socket : Nat) (position : Position) (last_card : Card) :
    ServerGameState :=
  { s with
      trick_cards := s.trick_cards ++ [last_card]
      current_hands := List.modify (fun hand => hand.eraseP fun c => c.eq last_card)
        (position_order position).toNat s.current_hands
      current_move := s.current_move + 1
      awaited_player := none
      heap := List.modify (fun sock => { sock with awaited_message := none }) socket s.heap }

/-- The method `ServerGameState::handle_trick_message`, given the members
`trick_number` and `cards` of the message: the state it leaves and what it
returns or throws. The `WRONG` message is built first, and its constructor
throws before anything is changed. -/
def handle_trick_message (s : ServerGameState) (socket : Nat) (trick_number : Int)
    (cards : List Card) : ServerGameState × Outcome (Option Message) :=
  let position := find_position s socket
  match WRONGMessage s.current_trick with
  | Outcome.throw e => (s, Outcome.throw e)
  | Outcome.ok wrong_message =>
    match position with
    | none => (s, ok (some wrong_message))
    | some p =>
      if some p ≠ s.awaited_player then (s, ok (some wrong_message))
      else if trick_number ≠ s.current_trick then (s, ok (some wrong_message))
      else
        match cards.getLast? with
        | none => (s, ok (some wrong_message))
        | some last_card =>
          if !is_valid_move s last_card p then (s, ok (some wrong_message))
          else (accept_move s socket p last_card, ok none)

/-- The loop of `start_deal` over the seats still to visit. -/
def start_deal_loop : List Nat → ServerGameState → Outcome ServerGameState
  | [], s => ok s
  | i :: rest, s =>
    let hand := schedule_hand s i
    let position := order_at (i : Int)
    (send_deal_message { s with starting_hands := s.starting_hands.set i hand } position).bind
      fun s1 =>
        start_deal_loop rest { s1 with deal_scores := s1.deal_scores.set position 0 }

/-- The method `ServerGameState::start_deal`. -/
def start_deal (s : ServerGameState) : Outcome ServerGameState :=
  let s1 := { s with current_deal := s.current_deal + 1, deal_started := true }
  let s2 := { s1 with
    deal_type := s1.deal_types.getD (s1.current_deal - 1).toNat DealType.TRICK
    starting_player := s1.starting_players.getD (s1.current_deal - 1).toNat Position.North
    starting_hands := [[], [], [], []] }
  (start_deal_loop [0, 1, 2, 3] s2).bind fun s3 =>
    ok { s3 with
      current_hands := s3.starting_hands
      current_trick := 0
      trick_started := false
      current_move := 0
      trick_cards := []
      taken_messages := []
      first_move := position_order s3.starting_player }

/-- The method `ServerGameState::end_game`. -/
def end_game (s : ServerGameState) : ServerGameState :=
  map_order.foldl (fun k pos => on_socket k pos fun sock =>
    { sock with closed := true, all_messages_received := true }) { s with game_ended := true }

/-- The method `ServerGameState::continue_trick`. -/
def continue_trick (s : ServerGameState) (now : Int) : Outcome ServerGameState :=
  let s1 := if !s.trick_started then
      { s with current_trick := s.current_trick + 1, trick_started := true, current_move := 0,
               trick_cards := [], awaited_player := none }
    else s
  if s1.current_move = 4 then
    (send_taken_messages (calculate_points { s1 with trick_started := false })).bind fun s2 =>
      ok (if s2.current_trick = 13 then { s2 with current_trick := s2.current_trick + 1 } else s2)
  else if s1.awaited_player.isNone then
    let player_idx := c_rem (s1.current_move + s1.first_move) 4
    send_trick_message { s1 with awaited_player := some (order_at player_idx) }
      (order_at player_idx) now
  else ok s1

/-- The method `ServerGameState::continue_deal`. -/
def continue_deal (s : ServerGameState) (now : Int) : Outcome ServerGameState :=
  if s.current_trick ≤ 13 then continue_trick s now
  else
    let s1 := seat_order.foldl (fun k pos =>
      { k with total_scores := k.total_scores.set pos (k.total_scores.at pos + k.deal_scores.at pos) })
      s
    (send_score_messages s1).bind fun s2 => ok { s2 with deal_started := false }

/-- The method `ServerGameState::continue_game`. -/
def continue_game (s : ServerGameState) (now : Int) : Outcome ServerGameState :=
  if !are_players_ready s then ok s
  else if !s.deal_started then
    if s.current_deal = (s.deal_types.length : Int) then ok (end_game s)
    else (start_deal s).bind fun s1 => continue_deal s1 now
  else continue_deal s now

/-- The method `ServerGameState::rejoin_client`: the state it leaves and the
exception it ends with, if any. -/
def rejoin_client (s : ServerGameState) (position : Position) (now : Int) :
    ServerGameState × Option Exn :=
  match send_deal_message s position with
  | Outcome.throw e => (s, some e)
  | Outcome.ok s1 =>
    let s2 := s1.taken_messages.foldl (fun k taken_message =>
      on_socket k position fun sock => sock.send taken_message.to_string) s1
    if s2.trick_started ∧ s2.awaited_player = some position then
      match send_trick_message s2 position now with
      | Outcome.throw e => (s2, some e)
      | Outcome.ok s3 => (s3, none)
    else (s2, none)

/-- The method `ServerGameState::new_player`: the state it leaves and what it
returns or throws. -/
def new_player (s : ServerGameState) (position : Position) (socket : Nat) (now : Int) :
    ServerGameState × Outcome (Option Message) :=
  if (s.player_sockets.get position).isSome then
    (s, ok (some (BUSYMessage (seat_order.filter fun pos =>
      (s.player_sockets.get pos).isSome || decide (s.player_sockets.get pos = some socket)))))
  else
    let s1 := { s with player_sockets := s.player_sockets.set position (some socket) }
    let clear_iam : Socket → Socket := fun sock =>
      if sock.awaited_message = some MessageType.IAM then { sock with awaited_message := none }
      else sock
    let s2 := { s1 with heap := List.modify clear_iam socket s1.heap }
    if s2.deal_started then
      match rejoin_client s2 position now with
      | (s3, some e) => (s3, Outcome.throw e)
      | (s3, none) => (s3, ok none)
    else (s2, ok none)

/-- The method `ServerGameState::disconnect_client`. -/
def disconnect_client (s : ServerGameState) (socket : Nat) : ServerGameState :=
  map_order.foldl (fun k pos =>
    if k.player_sockets.get pos = some socket then
      { k with player_sockets := k.player_sockets.set pos none }
    else k) s

/-- The call of `continue_game` in this state runs `continue_deal` to its end:
it adds the deal scores to the totals and sends `SCORE` and `TOTAL`. -/
def broadcasts_scores (s : ServerGameState) : Bool :=
  are_players_ready s && s.deal_started && decide (13 < s.current_trick)

/-- The states the server can be in between two calls, each with the scores of
the deals completed on the way to it (the value of `deal_scores` at each call of
`continue_game` that reached the end of `continue_deal`). The server starts in
the state the constructor leaves, every hand of the schedule being what
`Card::parse_cards` returned for some line; then come `new_player`,
`disconnect_client`, `handle_trick_message` with a message the decoder returned
(cards of the pack), a `continue_game` that returns, and whatever else happens
to the sockets alone (accepting a connection, reading, writing, a timeout that
sends the prompt again). -/
inductive Reachable : List PosMap → ServerGameState → Prop
  | init (schedule : List Deal) (timeout : Int) (u : Uninitialised) (heap : List Socket)
      (hparse : ∀ d ∈ schedule, ∀ hand ∈ d.hands, ∃ line, Card.parse_cards line = ok hand) :
      Reachable [] (init schedule timeout u heap)
  | new_player {done : List PosMap} {s : ServerGameState} (h : Reachable done s)
      (position : Position) (socket : Nat) (now : Int) :
      Reachable done (new_player s position socket now).1
  | disconnect_client {done : List PosMap} {s : ServerGameState} (h : Reachable done s)
      (socket : Nat) : Reachable done (disconnect_client s socket)
  | handle_trick_message {done : List PosMap} {s : ServerGameState} (h : Reachable done s)
      (socket : Nat) (trick_number : Int) (cards : List Card)
      (hcards : ∀ c ∈ cards, c ∈ Card.pack) :
      Reachable done (handle_trick_message s socket trick_number cards).1
  | continue_game {done : List PosMap} {s s1 : ServerGameState} (h : Reachable done s)
      (now : Int) (hs : continue_game s now = ok s1) :
      Reachable (if broadcasts_scores s then done ++ [s.deal_scores] else done) s1
  | sockets {done : List PosMap} {s : ServerGameState} (h : Reachable done s)
      (heap : List Socket) : Reachable done { s with heap := heap }

/-- The cards of the trick in progress: the cards on the table while a trick is
open, none between the `TAKEN` of a trick and the prompt that opens the next. -/
def in_progress (s : ServerGameState) : List Card :=
  if s.trick_started then s.trick_cards else []

/-- The cards a recorded `TAKEN` message carries. -/
def taken_cards (m : Message) : List Card :=
  match m.payload with
  | Payload.TAKEN _ cards _ => cards
  | _ => []

/-- The cards of the completed tricks of the deal: those of the recorded `TAKEN`
messages. -/
def completed_cards (s : ServerGameState) : List Card :=
  s.taken_messages.flatMap taken_cards

/-- What a recorded `TAKEN` message brought the seat `p` under a deal type: the
amount `calculate_points` computes for its cards and trick number if `p` took
the trick, nothing otherwise. -/
def won_amount (deal_type : DealType) (p : Position) (m : Message) : Int :=
  match m.payload with
  | Payload.TAKEN trick_number cards taken_by =>
    if taken_by = p then trick_score deal_type cards trick_number else 0
  | _ => 0

/-- Spec: what a recorded trick brought the seat `p` by the rule of the deal
type: the amount of section 3 of the specification for its cards and trick
number if `p` took the trick, nothing otherwise. -/
def spec_won_amount (deal_type : DealType) (p : Position) (m : Message) : Int :=
  match m.payload with
  | Payload.TAKEN trick_number cards taken_by =>
    if taken_by = p then spec_trick_points deal_type cards trick_number else 0
  | _ => 0

/-- The number of seats the socket `i` holds. -/
def seats_held (s : ServerGameState) (i : Nat) : Nat :=
  seat_order.countP fun p => decide (s.player_sockets.get p = some i)

/-- What holds in every state the server can be in, `done` being the scores of
the deals completed so far. -/
structure Inv (done : List PosMap) (s : ServerGameState) : Prop where
  move_len : s.current_move = (s.trick_cards.length : Int)
  awaited : ∀ p, s.awaited_player = some p →
    s.deal_started = true ∧ s.trick_started = true ∧ s.current_move ≤ 3 ∧
      p = order_at (c_rem (s.current_move + s.first_move) 4)
  phase : s.deal_started = true →
    0 ≤ s.first_move ∧ s.first_move ≤ 3 ∧ s.current_hands.length = 4 ∧
    (s.trick_started = true →
      1 ≤ s.current_trick ∧ s.current_trick ≤ 13 ∧
        (s.taken_messages.length : Int) + 1 = s.current_trick ∧ s.current_move ≤ 4) ∧
    (s.trick_started = false →
      ((0 ≤ s.current_trick ∧ s.current_trick ≤ 12 ∧
          (s.taken_messages.length : Int) = s.current_trick) ∨
        (s.current_trick = 14 ∧ s.taken_messages.length = 13)) ∧
      s.awaited_player = none)
  deal_keys : ∀ p, (s.deal_scores.find p).isSome = true
  total_keys : ∀ p, (s.total_scores.find p).isSome = true
  deal_sum : ∀ p, s.deal_scores.at p = (s.taken_messages.map (won_amount s.deal_type p)).sum
  total_sum : ∀ p, s.total_scores.at p = (done.map fun d => d.at p).sum
  sched_pack : ∀ l ∈ s.hands, ∀ h ∈ l, (∀ c ∈ h, c ∈ Card.pack) ∧ h.Nodup
  hands_pack : ∀ h ∈ s.current_hands, (∀ c ∈ h, c ∈ Card.pack) ∧ h.Nodup
  trick_pack : ∀ c ∈ s.trick_cards, c ∈ Card.pack
  start_sched : s.deal_started = true →
    s.starting_hands = [schedule_hand s 0, schedule_hand s 1, schedule_hand s 2, schedule_hand s 3]
  conserve : s.deal_started = true →
    List.Perm (s.current_hands.flatten ++ in_progress s ++ completed_cards s)
      s.starting_hands.flatten
  taken_four : ∀ m ∈ s.taken_messages, (taken_cards m).length = 4

/-- The state after a call of `continue_game`, when it returns. -/
def tick (s : ServerGameState) (now : Int) : ServerGameState :=
  match continue_game s now with
  | Outcome.ok s1 => s1
  | Outcome.throw _ => s

/-- The state after a call of `handle_trick_message` for a `TRICK` message with
this trick number and this one card. -/
def play (s : ServerGameState) (socket : Nat) (trick_number : Int) (card : Card) :
    ServerGameState :=
  (handle_trick_message s socket trick_number [card]).1

/-- What the server loop does to the match between two polls: it hands over a
`TRICK` message with one card that a socket sent, or it calls `continue_game`. -/
inductive Event
  | trick (socket : Nat) (trick_number : Int) (card : Card)
  | tick (now : Int)
  deriving DecidableEq, Repr

/-- The state after a sequence of events. -/
def run (s : ServerGameState) : List Event → ServerGameState
  | [] => s
  | Event.trick socket trick_number card :: rest => run (play s socket trick_number card) rest
  | Event.tick now :: rest => run (tick s now) rest

end ServerGameState

/-! ## A match to run the definitions on -/

/-- The hand `ASKCQDJH10S9C8D7H6S5C4D3H2S`. -/
def demo_north : List Card :=
  [⟨"A".toList, Color.Spades, 14⟩, ⟨"K".toList, Color.Clubs, 13⟩,
    ⟨"Q".toList, Color.Diamonds, 12⟩, ⟨"J".toList, Color.Hearts, 11⟩,
    ⟨"10".toList, Color.Spades, 10⟩, ⟨"9".toList, Color.Clubs, 9⟩,
    ⟨"8".toList, Color.Diamonds, 8⟩, ⟨"7".toList, Color.Hearts, 7⟩,
    ⟨"6".toList, Color.Spades, 6⟩, ⟨"5".toList, Color.Clubs, 5⟩, ⟨"4".toList, Color.Diamonds, 4⟩,
    ⟨"3".toList, Color.Hearts, 3⟩, ⟨"2".toList, Color.Spades, 2⟩]

/-- The hand `AHKSQCJD10H9S8C7D6H5S4C3D2H`. -/
def demo_east : List Card :=
  [⟨"A".toList, Color.Hearts, 14⟩, ⟨"K".toList, Color.Spades, 13⟩, ⟨"Q".toList, Color.Clubs, 12⟩,
    ⟨"J".toList, Color.Diamonds, 11⟩, ⟨"10".toList, Color.Hearts, 10⟩,
    ⟨"9".toList, Color.Spades, 9⟩, ⟨"8".toList, Color.Clubs, 8⟩, ⟨"7".toList, Color.Diamonds, 7⟩,
    ⟨"6".toList, Color.Hearts, 6⟩, ⟨"5".toList, Color.Spades, 5⟩, ⟨"4".toList, Color.Clubs, 4⟩,
    ⟨"3".toList, Color.Diamonds, 3⟩, ⟨"2".toList, Color.Hearts, 2⟩]

/-- The hand `ADKHQSJC10D9H8S7C6D5H4S3C2D`. -/
def demo_south : List Card :=
  [⟨"A".toList, Color.Diamonds, 14⟩, ⟨"K".toList, Color.Hearts, 13⟩,
    ⟨"Q".toList, Color.Spades, 12⟩, ⟨"J".toList, Color.Clubs, 11⟩,
    ⟨"10".toList, Color.Diamonds, 10⟩, ⟨"9".toList, Color.Hearts, 9⟩,
    ⟨"8".toList, Color.Spades, 8⟩, ⟨"7".toList, Color.Clubs, 7⟩, ⟨"6".toList, Color.Diamonds, 6⟩,
    ⟨"5".toList, Color.Hearts, 5⟩, ⟨"4".toList, Color.Spades, 4⟩, ⟨"3".toList, Color.Clubs, 3⟩,
    ⟨"2".toList, Color.Diamonds, 2⟩]

/-- The hand `ACKDQHJS10C9D8H7S6C5D4H3S2C`. -/
def demo_west : List Card :=
  [⟨"A".toList, Color.Clubs, 14⟩, ⟨"K".toList, Color.Diamonds, 13⟩,
    ⟨"Q".toList, Color.Hearts, 12⟩, ⟨"J".toList, Color.Spades, 11⟩,
    ⟨"10".toList, Color.Clubs, 10⟩, ⟨"9".toList, Color.Diamonds, 9⟩,
    ⟨"8".toList, Color.Hearts, 8⟩, ⟨"7".toList, Color.Spades, 7⟩, ⟨"6".toList, Color.Clubs, 6⟩,
    ⟨"5".toList, Color.Diamonds, 5⟩, ⟨"4".toList, Color.Hearts, 4⟩,
    ⟨"3".toList, Color.Spades, 3⟩, ⟨"2".toList, Color.Clubs, 2⟩]

/-- A schedule of one deal of type 1 opened by North. -/
def demo_schedule : List Deal :=
  [⟨DealType.TRICK, Position.North, demo_north, demo_east, demo_south, demo_west⟩]

/-- Four connections just accepted. -/
def demo_sockets : List Socket :=
  List.replicate 4 ⟨[], some MessageType.IAM, 5000, false, false⟩

/-- The server of the demonstration match as constructed. -/
def demo_start : ServerGameState :=
  ServerGameState.init demo_schedule 5 ⟨0, false, DealType.TRICK, Position.North⟩ demo_sockets

/-- The socket 0 has taken the seat North, nobody else is seated. -/
def demo_alone : ServerGameState :=
  (ServerGameState.new_player demo_start Position.North 0 0).1

/-- The four sockets have taken the seats North, East, South, West. -/
def demo_seated : ServerGameState :=
  (ServerGameState.new_player (ServerGameState.new_player (ServerGameState.new_player
    demo_alone Position.East 1 0).1 Position.South 2 0).1 Position.West 3 0).1

/-- The deal is out and North is prompted for the first card. -/
def demo_dealt : ServerGameState := ServerGameState.tick demo_seated 0

/-- North has played the ace of spades; the next call of `continue_game` has not
come yet. -/
def demo_one : ServerGameState :=
  ServerGameState.play demo_dealt 0 1 ⟨"A".toList, Color.Spades, 14⟩

/-- East is prompted with the ace of spades on the table. -/
def demo_east_prompted : ServerGameState := ServerGameState.tick demo_one 0

/-- The cards `AS`, `KS`, `QS`, `JS` have been played by North, East, South,
West in the first trick, a call of `continue_game` after each but the last. -/
def demo_four : ServerGameState :=
  ServerGameState.play (ServerGameState.tick (ServerGameState.play (ServerGameState.tick
    (ServerGameState.play demo_east_prompted 1 1 ⟨"K".toList, Color.Spades, 13⟩) 0)
    2 1 ⟨"Q".toList, Color.Spades, 12⟩) 0) 3 1 ⟨"J".toList, Color.Spades, 11⟩

/-- The first trick is closed and announced. -/
def demo_taken : ServerGameState := ServerGameState.tick demo_four 0

/-- The thirteen tricks of the demonstration deal from the first prompt on, each
seat playing the first card of its hand that it may play: a call of
`continue_game` after every card, and one more after each of the first twelve
tricks is closed. -/
def demo_play : List ServerGameState.Event :=
  [ServerGameState.Event.trick 0 1 ⟨"A".toList, Color.Spades, 14⟩, ServerGameState.Event.tick 0,
    ServerGameState.Event.trick 1 1 ⟨"K".toList, Color.Spades, 13⟩, ServerGameState.Event.tick 0,
    ServerGameState.Event.trick 2 1 ⟨"Q".toList, Color.Spades, 12⟩, ServerGameState.Event.tick 0,
    ServerGameState.Event.trick 3 1 ⟨"J".toList, Color.Spades, 11⟩, ServerGameState.Event.tick 0,
    ServerGameState.Event.tick 0, ServerGameState.Event.trick 0 2 ⟨"K".toList, Color.Clubs, 13⟩,
    ServerGameState.Event.tick 0, ServerGameState.Event.trick 1 2 ⟨"Q".toList, Color.Clubs, 12⟩,
    ServerGameState.Event.tick 0, ServerGameState.Event.trick 2 2 ⟨"J".toList, Color.Clubs, 11⟩,
    ServerGameState.Event.tick 0, ServerGameState.Event.trick 3 2 ⟨"A".toList, Color.Clubs, 14⟩,
    ServerGameState.Event.tick 0, ServerGameState.Event.tick 0,
    ServerGameState.Event.trick 3 3 ⟨"K".toList, Color.Diamonds, 13⟩,
    ServerGameState.Event.tick 0,
    ServerGameState.Event.trick 0 3 ⟨"Q".toList, Color.Diamonds, 12⟩,
    ServerGameState.Event.tick 0,
    ServerGameState.Event.trick 1 3 ⟨"J".toList, Color.Diamonds, 11⟩,
    ServerGameState.Event.tick 0,
    ServerGameState.Event.trick 2 3 ⟨"A".toList, Color.Diamonds, 14⟩,
    ServerGameState.Event.tick 0, ServerGameState.Event.tick 0,
    ServerGameState.Event.trick 2 4 ⟨"K".toList, Color.Hearts, 13⟩, ServerGameState.Event.tick 0,
    ServerGameState.Event.trick 3 4 ⟨"Q".toList, Color.Hearts, 12⟩, ServerGameState.Event.tick 0,
    ServerGameState.Event.trick 0 4 ⟨"J".toList, Color.Hearts, 11⟩, ServerGameState.Event.tick 0,
    ServerGameState.Event.trick 1 4 ⟨"A".toList, Color.Hearts, 14⟩, ServerGameState.Event.tick 0,
    ServerGameState.Event.tick 0,
    ServerGameState.Event.trick 1 5 ⟨"10".toList, Color.Hearts, 10⟩,
    ServerGameState.Event.tick 0, ServerGameState.Event.trick 2 5 ⟨"9".toList, Color.Hearts, 9⟩,
    ServerGameState.Event.tick 0, ServerGameState.Event.trick 3 5 ⟨"8".toList, Color.Hearts, 8⟩,
    ServerGameState.Event.tick 0, ServerGameState.Event.trick 0 5 ⟨"7".toList, Color.Hearts, 7⟩,
    ServerGameState.Event.tick 0, ServerGameState.Event.tick 0,
    ServerGameState.Event.trick 1 6 ⟨"9".toList, Color.Spades, 9⟩, ServerGameState.Event.tick 0,
    ServerGameState.Event.trick 2 6 ⟨"8".toList, Color.Spades, 8⟩, ServerGameState.Event.tick 0,
    ServerGameState.Event.trick 3 6 ⟨"7".toList, Color.Spades, 7⟩, ServerGameState.Event.tick 0,
    ServerGameState.Event.trick 0 6 ⟨"10".toList, Color.Spades, 10⟩,
    ServerGameState.Event.tick 0, ServerGameState.Event.tick 0,
    ServerGameState.Event.trick 0 7 ⟨"9".toList, Color.Clubs, 9⟩, ServerGameState.Event.tick 0,
    ServerGameState.Event.trick 1 7 ⟨"8".toList, Color.Clubs, 8⟩, ServerGameState.Event.tick 0,
    ServerGameState.Event.trick 2 7 ⟨"7".toList, Color.Clubs, 7⟩, ServerGameState.Event.tick 0,
    ServerGameState.Event.trick 3 7 ⟨"10".toList, Color.Clubs, 10⟩, ServerGameState.Event.tick 0,
    ServerGameState.Event.tick 0,
    ServerGameState.Event.trick 3 8 ⟨"9".toList, Color.Diamonds, 9⟩,
    ServerGameState.Event.tick 0,
    ServerGameState.Event.trick 0 8 ⟨"8".toList, Color.Diamonds, 8⟩,
    ServerGameState.Event.tick 0,
    ServerGameState.Event.trick 1 8 ⟨"7".toList, Color.Diamonds, 7⟩,
    ServerGameState.Event.tick 0,
    ServerGameState.Event.trick 2 8 ⟨"10".toList, Color.Diamonds, 10⟩,
    ServerGameState.Event.tick 0, ServerGameState.Event.tick 0,
    ServerGameState.Event.trick 2 9 ⟨"6".toList, Color.Diamonds, 6⟩,
    ServerGameState.Event.tick 0,
    ServerGameState.Event.trick 3 9 ⟨"5".toList, Color.Diamonds, 5⟩,
    ServerGameState.Event.tick 0,
    ServerGameState.Event.trick 0 9 ⟨"4".toList, Color.Diamonds, 4⟩,
    ServerGameState.Event.tick 0,
    ServerGameState.Event.trick 1 9 ⟨"3".toList, Color.Diamonds, 3⟩,
    ServerGameState.Event.tick 0, ServerGameState.Event.tick 0,
    ServerGameState.Event.trick 2 10 ⟨"5".toList, Color.Hearts, 5⟩, ServerGameState.Event.tick 0,
    ServerGameState.Event.trick 3 10 ⟨"4".toList, Color.Hearts, 4⟩, ServerGameState.Event.tick 0,
    ServerGameState.Event.trick 0 10 ⟨"3".toList, Color.Hearts, 3⟩, ServerGameState.Event.tick 0,
    ServerGameState.Event.trick 1 10 ⟨"6".toList, Color.Hearts, 6⟩, ServerGameState.Event.tick 0,
    ServerGameState.Event.tick 0, ServerGameState.Event.trick 1 11 ⟨"5".toList, Color.Spades, 5⟩,
    ServerGameState.Event.tick 0, ServerGameState.Event.trick 2 11 ⟨"4".toList, Color.Spades, 4⟩,
    ServerGameState.Event.tick 0, ServerGameState.Event.trick 3 11 ⟨"3".toList, Color.Spades, 3⟩,
    ServerGameState.Event.tick 0, ServerGameState.Event.trick 0 11 ⟨"6".toList, Color.Spades, 6⟩,
    ServerGameState.Event.tick 0, ServerGameState.Event.tick 0,
    ServerGameState.Event.trick 0 12 ⟨"5".toList, Color.Clubs, 5⟩, ServerGameState.Event.tick 0,
    ServerGameState.Event.trick 1 12 ⟨"4".toList, Color.Clubs, 4⟩, ServerGameState.Event.tick 0,
    ServerGameState.Event.trick 2 12 ⟨"3".toList, Color.Clubs, 3⟩, ServerGameState.Event.tick 0,
    ServerGameState.Event.trick 3 12 ⟨"6".toList, Color.Clubs, 6⟩, ServerGameState.Event.tick 0,
    ServerGameState.Event.tick 0, ServerGameState.Event.trick 3 13 ⟨"2".toList, Color.Clubs, 2⟩,
    ServerGameState.Event.tick 0, ServerGameState.Event.trick 0 13 ⟨"2".toList, Color.Spades, 2⟩,
    ServerGameState.Event.tick 0, ServerGameState.Event.trick 1 13 ⟨"2".toList, Color.Hearts, 2⟩,
    ServerGameState.Event.tick 0,
    ServerGameState.Event.trick 2 13 ⟨"2".toList, Color.Diamonds, 2⟩,
    ServerGameState.Event.tick 0]

/-- The thirteenth trick of the demonstration deal is closed and announced; the
scores are not yet. -/
def demo_deal_played : ServerGameState := ServerGameState.run demo_dealt demo_play

/-! ## More of the server's match state -/

namespace ServerGameState

/-- What the deal in progress has from the schedule, in every state the server
can be in: four hands of 13 cards, the deal type and the opener of the entry
`current_deal - 1`. -/
structure DealInv (s : ServerGameState) : Prop where
  hands13 : s.deal_started = true → ∀ i, i < 4 → (s.starting_hands.getD i []).length = 13
  type_sched : s.deal_started = true →
    s.deal_type = s.deal_types.getD (s.current_deal - 1).toNat DealType.TRICK
  opener_sched : s.deal_started = true →
    s.starting_player = s.starting_players.getD (s.current_deal - 1).toNat Position.North

/-- The line `send_deal_message` puts on the write queue of the seat: the text
of the `DEAL` it builds from the deal type, the opener and the starting hand of
the seat. -/
def deal_line (s : ServerGameState) (position : Position) : Str :=
  Message.to_string ⟨MessageType.DEAL,
    to_string_DealType s.deal_type ++ to_string_Position s.starting_player ++
      cards_data (s.starting_hands.getD (position_order position).toNat []),
    Payload.DEAL s.deal_type s.starting_player
      (s.starting_hands.getD (position_order position).toNat [])⟩

/-- The line `send_trick_message` puts on the write queue of a seat: the text of
the `TRICK` it builds from the trick number and the cards on the table. -/
def trick_line (s : ServerGameState) : Str :=
  Message.to_string ⟨MessageType.TRICK,
    std_to_string s.current_trick ++ cards_data s.trick_cards,
    Payload.TRICK s.current_trick s.trick_cards⟩

end ServerGameState

/-- North has opened the second trick of the demonstration deal with the king of
clubs and East is prompted. -/
def demo_east_owed : ServerGameState :=
  ServerGameState.run demo_taken
    [ServerGameState.Event.tick 0,
      ServerGameState.Event.trick 0 2 ⟨"K".toList, Color.Clubs, 13⟩,
      ServerGameState.Event.tick 0]

/-- The socket of East is gone and a fifth connection has just been accepted. -/
def demo_east_gone : ServerGameState :=
  { ServerGameState.disconnect_client demo_east_owed 1 with
    heap := (ServerGameState.disconnect_client demo_east_owed 1).heap ++
      [⟨[], some MessageType.IAM, 5000, false, false⟩] }

/-! ## The client's match state -/

/-- The class `ClientGameState`. The member `order` is the constant list North,
East, South, West; what the methods print when `verbose` is set is left out. The
`int` members are integers. -/
structure ClientGameState where
  total_points : Int
  points : Int
  deal : Int
  trick : Int
  got_score : Bool
  got_total : Bool
  deal_ended : Bool
  trick_ended : Bool
  verbose : Bool
  waiting_for_move : Bool
  deal_type : DealType
  position : Position
  starting_player : Position
  hand : List Card
  trick_cards : List Card
  taken_tricks : List (List Card)
  deriving DecidableEq, Repr

namespace ClientGameState

/-- The constructor `ClientGameState::ClientGameState`; it leaves `deal_type` and
`starting_player` uninitialised, here given. -/
def init (position : Position) (verbose : Bool) (deal_type : DealType)
    (starting_player : Position) : ClientGameState :=
  { total_points := 0
    points := 0
    deal := 0
    trick := 1
    got_score := false
    got_total := false
    deal_ended := true
    trick_ended := true
    verbose := verbose
    waiting_for_move := false
    deal_type := deal_type
    position := position
    starting_player := starting_player
    hand := []
    trick_cards := []
    taken_tricks := [] }

/-- The method `ClientGameState::new_deal`, given the members `type`,
`first_player` and `cards` of the message. A method that throws has changed
nothing of the object by then: the state stays the one it was called in. -/
def new_deal (s : ClientGameState) (type : DealType) (first_player : Position)
    (cards : List Card) : Outcome ClientGameState :=
  if !s.deal_ended then throw Exn.invalid_argument
  else
    ok { s with
      deal := s.deal + 1
      deal_ended := false
      got_score := false
      got_total := false
      trick := 1
      trick_ended := true
      deal_type := type
      starting_player := first_player
      hand := cards
      taken_tricks := []
      waiting_for_move := false }

/-- The method `ClientGameState::new_trick`, given the members `trick_number`
and `cards` of the message. -/
def new_trick (s : ClientGameState) (trick_number : Int) (cards : List Card) :
    Outcome ClientGameState :=
  if !s.trick_ended && decide (trick_number ≠ s.trick) then throw Exn.invalid_argument
  else if s.deal_ended then throw Exn.invalid_argument
  else if trick_number ≠ s.trick then throw Exn.invalid_argument
  else ok { s with trick_ended := false, trick_cards := cards, waiting_for_move := true }

/-- The loop of `end_trick`: each card of the message is looked up in the hand
with `std::find` and the element found, if any, is erased. -/
def erase_taken (hand : List Card) (cards : List Card) : List Card :=
  cards.foldl (fun hand card => hand.eraseP fun c => c.eq card) hand

/-- The method `ClientGameState::end_trick`, given the members `trick_number`,
`cards` and `taken_by` of the message. -/
def end_trick (s : ClientGameState) (trick_number : Int) (cards : List Card)
    (taken_by : Position) : Outcome ClientGameState :=
  if s.deal_ended then throw Exn.invalid_argument
  else if trick_number ≠ s.trick then throw Exn.invalid_argument
  else
    ok { s with
      trick_ended := true
      waiting_for_move := false
      taken_tricks := if taken_by = s.position then s.taken_tricks ++ [cards] else s.taken_tricks
      hand := erase_taken s.hand cards
      trick := trick_number + 1 }

/-- The method `ClientGameState::get_score`, given the member `scores` of the
message; `scores[position]` reads a missing key as 0; the sum of
`total_points += points` is computed in `int`. -/
def get_score (s : ClientGameState) (scores : PosMap) : Outcome ClientGameState :=
  if s.deal_ended then throw Exn.invalid_argument
  else if s.got_score then throw Exn.invalid_argument
  else
    ok { s with
      got_score := true
      deal_ended := true && s.got_total
      waiting_for_move := false
      points := scores.at s.position
      total_points := int_value (s.total_points + scores.at s.position) }

/-- The method `ClientGameState::get_total`, given the member `totals` of the
message. -/
def get_total (s : ClientGameState) (totals : PosMap) : Outcome ClientGameState :=
  if s.deal_ended then throw Exn.invalid_argument
  else if s.got_total then throw Exn.invalid_argument
  else
    ok { s with
      got_total := true
      deal_ended := s.got_score && true
      waiting_for_move := false
      total_points := totals.at s.position }

/-- The method `ClientGameState::get_valid_moves`. -/
def get_valid_moves (s : ClientGameState) : Outcome (List Card) :=
  if s.deal_ended then throw Exn.invalid_argument
  else if s.trick_ended then throw Exn.invalid_argument
  else
    match s.trick_cards with
    | [] => ok s.hand
    | lead :: _ =>
      let valid_moves := s.hand.filter fun card => decide (card.color = lead.color)
      if valid_moves.isEmpty then ok s.hand else ok valid_moves

/-- The method `ClientGameState::is_valid_move`. -/
def is_valid_move (s : ClientGameState) (card : Card) : Outcome Bool :=
  (get_valid_moves s).bind fun valid_moves => ok (valid_moves.any fun c => c.eq card)

/-- The call `std::min_element(first, last)` with `Card::operator<`: the first
element that no other is less than, nothing for an empty range (where the
iterator returned is `last`). -/
def min_element : List Card → Option Card
  | [] => none
  | c :: rest => some (rest.foldl (fun smallest x => if x.lt smallest then x else smallest) c)

/-- The loop of `get_best_move` over the valid moves, `best_move` being the
first of them at the start. -/
def best_loop (first_trick_card : Card) (valid_moves : List Card) (best_move : Card) : Card :=
  valid_moves.foldl (fun best_move card =>
    if !card.compare best_move first_trick_card.color &&
        card.compare first_trick_card first_trick_card.color then card
    else best_move) best_move

/-- The method `ClientGameState::get_best_move`. With an empty hand the source
dereferences the end of the hand or reads `valid_moves[0]` of an empty vector,
which is undefined: this is the result `none`. -/
def get_best_move (s : ClientGameState) : Outcome (Option Card) :=
  if s.deal_ended then throw Exn.invalid_argument
  else if s.trick_ended then throw Exn.invalid_argument
  else
    match s.trick_cards with
    | [] => ok (min_element s.hand)
    | first_trick_card :: _ =>
      (get_valid_moves s).bind fun valid_moves =>
        match valid_moves with
        | [] => ok none
        | best_move :: _ => ok (some (best_loop first_trick_card valid_moves best_move))

/-- One of the two score messages of a deal that the client accepted. -/
inductive Tally
  | score (scores : PosMap)
  | total (totals : PosMap)
  deriving DecidableEq, Repr

/-- The states the client can be in: from the state the constructor leaves, by
the calls of `handle_messages` that return, with messages the decoder returned
(a `DEAL` of 13 different cards of the pack, a `TRICK` of at most three and a
`TAKEN` of four different cards of the pack, scores for all four seats), and by
`waiting_for_move = false` after the client sent a card. A call that throws
leaves the state as it was. -/
inductive Reachable : ClientGameState → Prop
  | init (position : Position) (verbose : Bool) (deal_type : DealType)
      (starting_player : Position) : Reachable (init position verbose deal_type starting_player)
  | new_deal {s s1 : ClientGameState} (h : Reachable s) (type : DealType)
      (first_player : Position) (cards : List Card) (hpack : ∀ c ∈ cards, c ∈ Card.pack)
      (hnd : cards.Nodup) (hlen : cards.length = 13)
      (hs : new_deal s type first_player cards = ok s1) : Reachable s1
  | new_trick {s s1 : ClientGameState} (h : Reachable s) (trick_number : Int)
      (cards : List Card) (hpack : ∀ c ∈ cards, c ∈ Card.pack) (hnd : cards.Nodup)
      (hlen : cards.length ≤ 3) (hs : new_trick s trick_number cards = ok s1) : Reachable s1
  | end_trick {s s1 : ClientGameState} (h : Reachable s) (trick_number : Int)
      (cards : List Card) (taken_by : Position) (hpack : ∀ c ∈ cards, c ∈ Card.pack)
      (hnd : cards.Nodup) (hlen : cards.length = 4)
      (hs : end_trick s trick_number cards taken_by = ok s1) : Reachable s1
  | get_score {s s1 : ClientGameState} (h : Reachable s) (scores : PosMap)
      (hs : get_score s scores = ok s1) : Reachable s1
  | get_total {s s1 : ClientGameState} (h : Reachable s) (totals : PosMap)
      (hs : get_total s totals = ok s1) : Reachable s1
  | played {s : ClientGameState} (h : Reachable s) :
      Reachable { s with waiting_for_move := false }

/-- The states the client can be in within one deal, each with the score
messages accepted since the `DEAL`, in the order they came: from the state an
accepted `DEAL` leaves, by accepted `TRICK`, `TAKEN`, `SCORE` and `TOTAL`
messages and by `waiting_for_move = false`. -/
inductive SinceDeal : List Tally → ClientGameState → Prop
  | dealt {s s1 : ClientGameState} (type : DealType) (first_player : Position)
      (cards : List Card) (hs : new_deal s type first_player cards = ok s1) : SinceDeal [] s1
  | new_trick {log : List Tally} {s s1 : ClientGameState} (h : SinceDeal log s)
      (trick_number : Int) (cards : List Card)
      (hs : new_trick s trick_number cards = ok s1) : SinceDeal log s1
  | end_trick {log : List Tally} {s s1 : ClientGameState} (h : SinceDeal log s)
      (trick_number : Int) (cards : List Card) (taken_by : Position)
      (hs : end_trick s trick_number cards taken_by = ok s1) : SinceDeal log s1
  | get_score {log : List Tally} {s s1 : ClientGameState} (h : SinceDeal log s)
      (scores : PosMap) (hs : get_score s scores = ok s1) :
      SinceDeal (log ++ [Tally.score scores]) s1
  | get_total {log : List Tally} {s s1 : ClientGameState} (h : SinceDeal log s)
      (totals : PosMap) (hs : get_total s totals = ok s1) :
      SinceDeal (log ++ [Tally.total totals]) s1
  | played {log : List Tally} {s : ClientGameState} (h : SinceDeal log s) :
      SinceDeal log { s with waiting_for_move := false }

/-- The state after a call that returned, the state before it otherwise. -/
def after (s : ClientGameState) (r : Outcome ClientGameState) : ClientGameState :=
  match r with
  | Outcome.ok s1 => s1
  | Outcome.throw _ => s

end ClientGameState

/-- The client of North in the demonstration deal, as constructed. -/
def demo_client_north : ClientGameState :=
  ClientGameState.init Position.North false DealType.TRICK Position.North

/-- The client of North has its hand of the demonstration deal. -/
def demo_client_north_dealt : ClientGameState :=
  demo_client_north.after (demo_client_north.new_deal DealType.TRICK Position.North demo_north)

/-- The client of North is prompted to open the first trick. -/
def demo_client_north_leads : ClientGameState :=
  demo_client_north_dealt.after (demo_client_north_dealt.new_trick 1 [])

/-- The client of East in the demonstration deal with its hand. -/
def demo_client_east_dealt : ClientGameState :=
  (ClientGameState.init Position.East false DealType.TRICK Position.North).after
    ((ClientGameState.init Position.East false DealType.TRICK Position.North).new_deal
      DealType.TRICK Position.North demo_east)

/-- The client of East is prompted with the ace of spades on the table. -/
def demo_client_east_prompted : ClientGameState :=
  demo_client_east_dealt.after
    (demo_client_east_dealt.new_trick 1 [⟨"A".toList, Color.Spades, 14⟩])

/-- The client of East is prompted with the ten of spades on the table. -/
def demo_client_east_ten : ClientGameState :=
  demo_client_east_dealt.after
    (demo_client_east_dealt.new_trick 1 [⟨"10".toList, Color.Spades, 10⟩])

/-- A hand of the thirteen hearts, from the two up. -/
def demo_hearts : List Card :=
  [⟨"2".toList, Color.Hearts, 2⟩, ⟨"3".toList, Color.Hearts, 3⟩, ⟨"4".toList, Color.Hearts, 4⟩,
    ⟨"5".toList, Color.Hearts, 5⟩, ⟨"6".toList, Color.Hearts, 6⟩, ⟨"7".toList, Color.Hearts, 7⟩,
    ⟨"8".toList, Color.Hearts, 8⟩, ⟨"9".toList, Color.Hearts, 9⟩,
    ⟨"10".toList, Color.Hearts, 10⟩, ⟨"J".toList, Color.Hearts, 11⟩,
    ⟨"Q".toList, Color.Hearts, 12⟩, ⟨"K".toList, Color.Hearts, 13⟩,
    ⟨"A".toList, Color.Hearts, 14⟩]

/-- A client holding the thirteen hearts is prompted with the ten of spades on
the table. -/
def demo_client_hearts : ClientGameState :=
  (demo_client_north.after
    (demo_client_north.new_deal DealType.TRICK Position.North demo_hearts)).after
    ((demo_client_north.after
      (demo_client_north.new_deal DealType.TRICK Position.North demo_hearts)).new_trick 1
        [⟨"10".toList, Color.Spades, 10⟩])

/-- The trick `ASKSQSJS`, the first of the demonstration deal. -/
def demo_first_trick : List Card :=
  [⟨"A".toList, Color.Spades, 14⟩, ⟨"K".toList, Color.Spades, 13⟩,
    ⟨"Q".toList, Color.Spades, 12⟩, ⟨"J".toList, Color.Spades, 11⟩]

/-- The scores of a deal in which North took thirteen points. -/
def demo_tally : PosMap := ⟨some 13, some 0, some 0, some 0⟩

/-- The client of North has its hand and has accepted a `TOTAL`. -/
def demo_client_totalled : ClientGameState :=
  demo_client_north_dealt.after (demo_client_north_dealt.get_total demo_tally)

/-- The client of North has accepted a `TOTAL` and then a `SCORE`. -/
def demo_client_settled : ClientGameState :=
  demo_client_totalled.after (demo_client_totalled.get_score demo_tally)

/-! ## Lines out of the read queue -/

/-- The constant `MAX_MESSAGE_SIZE`. -/
def MAX_MESSAGE_SIZE : Nat := 50

namespace Socket

/-- The `while` loop of `Socket::extract_message`, `it != read_queue.end() &&
message.size() < MAX_MESSAGE_SIZE`: the first argument is the read queue from the
iterator `it` on, the second the index of `it` in the queue, the third the local
`message`. The result is the iterator and the message when the loop is left. -/
def extract_loop : Str → Nat → Str → Nat × Str
  | [], it, message => (it, message)
  | c :: rest, it, message =>
    if message.length < MAX_MESSAGE_SIZE then
      if c = '\n' then (it, message ++ [c])
      else extract_loop rest (it + 1) (message ++ [c])
    else (it, message)

/-- The method `Socket::extract_message` (its logging apart), with the member
`read_queue` given apart from the other members: the string returned, the read
queue and the socket it leaves. The call `read_queue.erase(read_queue.begin(),
it + 1)` with `it` at the end of the queue is undefined in the source: this is
the result `none`. -/
def extract_message (s : Socket) (read_queue : Str) : Option (Str × Str × Socket) :=
  let r := extract_loop read_queue 0 []
  let it := r.1
  let message := r.2
  if !message.isEmpty &&
      (decide (message.length = MAX_MESSAGE_SIZE) || decide (message.getLast? = some '\n')) then
    if it + 1 ≤ read_queue.length then some (message, read_queue.drop (it + 1), s)
    else none
  else
    some ([], read_queue, if s.closed then { s with all_messages_received := true } else s)

/-- What it is for a text to come out of the read queue as one line: it has at
most `MAX_MESSAGE_SIZE` octets, a line feed only as its last octet, and from a
read queue that holds it followed by anything `extract_message` returns it and
leaves what followed it. -/
def delivered (text : Str) : Prop :=
  text.length ≤ MAX_MESSAGE_SIZE ∧
  (∀ i : Nat, text[i]? = some '\n' → i + 1 = text.length) ∧
  ∀ (s : Socket) (tail : Str), extract_message s (text ++ tail) = some (text, tail, s)

end Socket

/-- A connection just accepted. -/
def demo_socket : Socket := ⟨[], some MessageType.IAM, 5000, false, false⟩

/-- Fifty octets with no line end among them, followed by the line `IAMN`. -/
def demo_long_queue : Str := List.replicate 50 'x' ++ "IAMN\r\n".toList

namespace ServerGameState

/-- What the recorded `TAKEN` messages of a deal in progress and the opener of
its tricks have to do with each other: the messages carry the trick numbers 1,
2, ... in their order; before the first of them the seat that opens is the opener
of the deal; after it, the seat that opens is the taker of the last of them. -/
structure TrickInv (s : ServerGameState) : Prop where
  numbered : s.deal_started = true → ∀ (i : Nat) (m : Message),
    s.taken_messages[i]? = some m →
      ∃ cards taken_by, m.payload = Payload.TAKEN ((i : Int) + 1) cards taken_by
  opener_first : s.deal_started = true → s.taken_messages = [] →
    s.first_move = position_order s.starting_player
  opener_next : s.deal_started = true → ∀ m, s.taken_messages.getLast? = some m →
    ∃ trick_number cards, m.payload = Payload.TAKEN trick_number cards (order_at s.first_move)

/-- The trick number a recorded `TAKEN` message carries. -/
def taken_number (m : Message) : Int :=
  match m.payload with
  | Payload.TAKEN trick_number _ _ => trick_number
  | _ => 0

/-- Spec: what the four seats take together in a deal played to its end, by the
deal type: 13, 13, 20, 16, 18, 20 and 100 for the types 1 to 7. -/
def spec_deal_total : DealType → Int
  | DealType.TRICK => 13
  | DealType.HEART => 13
  | DealType.QUEEN => 20
  | DealType.LORD => 16
  | DealType.KING_HEART => 18
  | DealType.SEVENTH_LAST => 20
  | DealType.BANDIT => 100

end ServerGameState

/-- The socket 0 has taken the seat North and then the seat East as well; the
sockets 2 and 3 have taken South and West. -/
def demo_double : ServerGameState :=
  (ServerGameState.new_player (ServerGameState.new_player (ServerGameState.new_player
    demo_alone Position.East 0 0).1 Position.South 2 0).1 Position.West 3 0).1

/-- The deal is out with the socket 0 on two seats, and North is prompted. -/
def demo_double_dealt : ServerGameState := ServerGameState.tick demo_double 0

/-- The totals of a match after a deal in which North took thirteen points. -/
def demo_totals : PosMap := ⟨some 20, some 5, some 3, some 10⟩

/-- The client of North has accepted the `SCORE` and then the `TOTAL` of a deal. -/
def demo_client_score_total : ClientGameState :=
  (demo_client_north_dealt.after (demo_client_north_dealt.get_score demo_tally)).after
    ((demo_client_north_dealt.after (demo_client_north_dealt.get_score demo_tally)).get_total
      demo_totals)

/-- The client of North has accepted the `TOTAL` and then the `SCORE` of a deal. -/
def demo_client_total_score : ClientGameState :=
  (demo_client_north_dealt.after (demo_client_north_dealt.get_total demo_totals)).after
    ((demo_client_north_dealt.after (demo_client_north_dealt.get_total demo_totals)).get_score
      demo_tally)

/-! ## Digits and `std::stoi` -/

theorem digitChar_isdigit (d : Nat) (h : d < 10) :
    isdigit (Nat.digitChar d) = true ∧ (Nat.digitChar d).toNat - 48 = d := by
  interval_cases d <;> decide

theorem digitsVal_append_single (pre : Str) (c : Char) :
    digitsVal (pre ++ [c]) = digitsVal pre * 10 + (c.toNat - 48) := by
  simp [digitsVal, List.foldl_append]

theorem toDigitsCore_spec (fuel : Nat) : ∀ (n : Nat) (ds : Str), n < fuel →
    ∃ pre : Str, Nat.toDigitsCore 10 fuel n ds = pre ++ ds ∧ pre ≠ [] ∧
      (∀ c ∈ pre, isdigit c = true) ∧ digitsVal pre = n := by
  induction fuel with
  | zero => intro n ds h; omega
  | succ fuel ih =>
    intro n ds h
    have hd := digitChar_isdigit (n % 10) (Nat.mod_lt _ (by decide))
    by_cases h0 : n / 10 = 0
    · refine ⟨[Nat.digitChar (n % 10)], ?_, by simp, ?_, ?_⟩
      · simp [Nat.toDigitsCore, h0]
      · intro c hc
        simp only [List.mem_singleton] at hc
        rw [hc]; exact hd.1
      · simp only [digitsVal, List.foldl_cons, List.foldl_nil, Nat.zero_mul, Nat.zero_add]
        rw [hd.2]; omega
    · obtain ⟨pre, h1, _, h3, h4⟩ := ih (n / 10) (Nat.digitChar (n % 10) :: ds) (by omega)
      refine ⟨pre ++ [Nat.digitChar (n % 10)], ?_, by simp, ?_, ?_⟩
      · simp [Nat.toDigitsCore, h0, h1]
      · intro c hc
        rcases List.mem_append.1 hc with hc | hc
        · exact h3 c hc
        · simp only [List.mem_singleton] at hc
          rw [hc]; exact hd.1
      · rw [digitsVal_append_single, h4, hd.2]; omega

theorem toDigits_spec (n : Nat) :
    Nat.toDigits 10 n ≠ [] ∧ (∀ c ∈ Nat.toDigits 10 n, isdigit c = true) ∧
      digitsVal (Nat.toDigits 10 n) = n := by
  obtain ⟨pre, h1, h2, h3, h4⟩ := toDigitsCore_spec (n + 1) n [] (by omega)
  have : Nat.toDigits 10 n = pre := by simp [Nat.toDigits, h1]
  rw [this]; exact ⟨h2, h3, h4⟩

theorem isdigit_not_space (c : Char) (h : isdigit c = true) : isspace c = false := by
  simp only [isdigit, isspace, Bool.and_eq_true, decide_eq_true_eq, Bool.or_eq_false_iff,
    decide_eq_false_iff_not, Bool.and_eq_false_iff] at *
  omega

theorem isdigit_not_sign (c : Char) (h : isdigit c = true) : c ≠ '-' ∧ c ≠ '+' := by
  constructor <;> (intro hc; rw [hc] at h; revert h; decide)

/-- On a non-empty run of digits followed by a non-digit (or by nothing),
`std::stoi` reads the run. -/
theorem stoi_digits (ds rest : Str) (hne : ds ≠ []) (hd : ∀ c ∈ ds, isdigit c = true)
    (hrest : ∀ c, rest.head? = some c → isdigit c = false)
    (hmax : (digitsVal ds : Int) ≤ INT_MAX) :
    stoi (ds ++ rest) = ok ((digitsVal ds : Int), ds.length) := by
  obtain ⟨c, t, rfl⟩ := List.exists_cons_of_ne_nil hne
  have hc : isdigit c = true := hd c (by simp)
  have hsp := isdigit_not_space c hc
  have hsg := isdigit_not_sign c hc
  have htake : List.takeWhile isdigit (c :: t ++ rest) = c :: t := by
    have : List.takeWhile isdigit ((c :: t) ++ rest) = c :: t := by
      rw [List.takeWhile_append_of_pos (fun x hx => hd x hx)]
      cases rest with
      | nil => simp
      | cons r rs =>
        have := hrest r rfl
        simp [List.takeWhile_cons, this]
    simpa using this
  have hnn : ¬ ((digitsVal (c :: t) : Int) < INT_MIN) := by
    have : (0 : Int) ≤ (digitsVal (c :: t) : Int) := Int.natCast_nonneg _
    simp only [INT_MIN]; omega
  unfold stoi
  simp only [List.cons_append, List.dropWhile_cons, hsp, Bool.false_eq_true, ↓reduceIte,
    List.head?_cons, Option.some.injEq, hsg.1, hsg.2, or_self, htake, decide_False,
    List.length_cons, List.length_append]
  rw [List.cons_append] at htake
  rw [htake]
  simp only [reduceCtorEq, ↓reduceIte, hnn, false_or, gt_iff_lt, not_lt.2 hmax, List.length_cons]
  congr 2
  omega

theorem stoi_toDigits (n : Nat) (h : (n : Int) ≤ INT_MAX) :
    stoi (Nat.toDigits 10 n) = ok ((n : Int), (Nat.toDigits 10 n).length) := by
  obtain ⟨h1, h2, h3⟩ := toDigits_spec n
  have := stoi_digits (Nat.toDigits 10 n) [] h1 h2 (by simp) (by rw [h3]; exact h)
  rw [h3] at this
  simpa using this

namespace Card

/-! ## The card pattern and the pack -/

/-- The pack has 52 cards. -/
theorem pack_length : pack.length = 52 := by decide

set_option maxRecDepth 100000 in
theorem pack_check : pack.all (fun c => decide (Card_str c.to_string = ok c) &&
    strings.contains c.to_string) = true := by decide

set_option maxRecDepth 100000 in
theorem strings_check : strings.all (fun s =>
    match Card_str s with
    | Outcome.ok c => pack.contains c && decide (c.to_string = s)
    | Outcome.throw _ => false) = true := by decide

theorem pack_to_string (c : Card) (h : c ∈ pack) :
    Card_str c.to_string = ok c ∧ c.to_string ∈ strings := by
  have := List.all_eq_true.1 pack_check c h
  simpa using this

theorem strings_card (s : Str) (h : s ∈ strings) :
    ∃ c, Card_str s = ok c ∧ c ∈ pack ∧ c.to_string = s := by
  have := List.all_eq_true.1 strings_check s h
  cases hc : Card_str s with
  | ok c =>
    rw [hc] at this
    refine ⟨c, rfl, ?_⟩
    simpa using this
  | throw e => rw [hc] at this; simp at this

theorem isSuitChar_iff (c : Char) :
    isSuitChar c = true ↔ c = 'S' ∨ c = 'H' ∨ c = 'D' ∨ c = 'C' := by
  have : "SHDC".toList = ['S', 'H', 'D', 'C'] := rfl
  simp [isSuitChar, this]

theorem isFigureChar_iff (c : Char) :
    isFigureChar c = true ↔ c = '2' ∨ c = '3' ∨ c = '4' ∨ c = '5' ∨ c = '6' ∨ c = '7' ∨
      c = '8' ∨ c = '9' ∨ c = 'J' ∨ c = 'Q' ∨ c = 'K' ∨ c = 'A' := by
  have : "23456789JQKA".toList =
      ['2', '3', '4', '5', '6', '7', '8', '9', 'J', 'Q', 'K', 'A'] := rfl
  simp [isFigureChar, this]


/-- A valid card representation is `10` or one figure character, then a suit letter. -/
theorem mem_strings_iff (s : Str) :
    s ∈ strings ↔ (∃ c, isSuitChar c = true ∧ s = ['1', '0', c]) ∨
      (∃ a c, isFigureChar a = true ∧ isSuitChar c = true ∧ s = [a, c]) := by
  constructor
  · intro h
    have hs := List.all_eq_true.1 (by decide : strings.all (fun s =>
      match s with
      | [a, b, c] => decide (a = '1') && decide (b = '0') && isSuitChar c
      | [a, c] => isFigureChar a && isSuitChar c
      | _ => false) = true) s h
    match s, hs with
    | [a, b, c], hs =>
      left
      simp only [Bool.and_eq_true, decide_eq_true_eq] at hs
      obtain ⟨⟨rfl, rfl⟩, h3⟩ := hs
      exact ⟨c, h3, rfl⟩
    | [a, c], hs =>
      right
      simp only [Bool.and_eq_true] at hs
      exact ⟨a, c, hs.1, hs.2, rfl⟩
  · rintro (⟨c, hc, rfl⟩ | ⟨a, c, ha, hc, rfl⟩)
    · rcases (isSuitChar_iff c).1 hc with rfl | rfl | rfl | rfl <;> decide
    · rcases (isSuitChar_iff c).1 hc with rfl | rfl | rfl | rfl <;>
        rcases (isFigureChar_iff a).1 ha with
          rfl | rfl | rfl | rfl | rfl | rfl | rfl | rfl | rfl | rfl | rfl | rfl <;> decide

theorem isFigureChar_ne_one (a : Char) (h : isFigureChar a = true) : a ≠ '1' := by
  rintro rfl; revert h; decide

/-- What the card pattern matches at the start of the input. -/
theorem card_pattern_at_eq_some (s m rest : Str) :
    card_pattern_at s = some (m, rest) ↔ s = m ++ rest ∧ m ∈ strings := by
  rw [mem_strings_iff]
  constructor
  · intro h
    unfold card_pattern_at at h
    cases h10 : card_pattern_ten s with
    | some r =>
      rw [h10] at h
      simp only [Option.some.injEq] at h
      subst h
      unfold card_pattern_ten at h10
      split at h10
      · split at h10
        · rename_i hcond
          simp only [Option.some.injEq, Prod.mk.injEq] at h10
          obtain ⟨rfl, rfl⟩ := h10
          obtain ⟨rfl, rfl, hc⟩ := hcond
          exact ⟨rfl, Or.inl ⟨_, hc, rfl⟩⟩
        · simp at h10
      · simp at h10
    | none =>
      rw [h10] at h
      simp only at h
      unfold card_pattern_one at h
      split at h
      · split at h
        · rename_i hcond
          simp only [Option.some.injEq, Prod.mk.injEq] at h
          obtain ⟨rfl, rfl⟩ := h
          exact ⟨rfl, Or.inr ⟨_, _, hcond.1, hcond.2, rfl⟩⟩
        · simp at h
      · simp at h
  · rintro ⟨rfl, ⟨c, hc, rfl⟩ | ⟨a, c, ha, hc, rfl⟩⟩
    · simp [card_pattern_at, card_pattern_ten, hc]
    · have h1 := isFigureChar_ne_one a ha
      have h2 : card_pattern_ten ([a, c] ++ rest) = none := by
        unfold card_pattern_ten
        split
        · rename_i a' b' c' rest' heq
          simp only [List.cons_append, List.nil_append, List.cons.injEq] at heq
          obtain ⟨rfl, rfl, _⟩ := heq
          simp [h1]
        · rfl
      simp only [List.cons_append, List.nil_append] at h2
      simp [card_pattern_at, h2, card_pattern_one, ha, hc]

end Card

namespace Card

/-! ## The iterator over the card pattern -/

theorem string_length_pos (m : Str) (h : m ∈ strings) : 2 ≤ m.length := by
  rcases (mem_strings_iff m).1 h with ⟨c, _, rfl⟩ | ⟨a, c, _, _, rfl⟩ <;> simp

theorem card_pattern_search_some (s m rest : Str)
    (h : card_pattern_search s = some (m, rest)) :
    m ∈ strings ∧ ∃ skipped, s = skipped ++ (m ++ rest) := by
  induction s with
  | nil => simp [card_pattern_search] at h
  | cons c t ih =>
    unfold card_pattern_search at h
    cases hat : card_pattern_at (c :: t) with
    | some r =>
      rw [hat] at h
      simp only [Option.some.injEq] at h
      subst h
      obtain ⟨h1, h2⟩ := (card_pattern_at_eq_some _ _ _).1 hat
      exact ⟨h2, [], by simpa using h1⟩
    | none =>
      rw [hat] at h
      obtain ⟨h1, sk, h2⟩ := ih h
      exact ⟨h1, c :: sk, by simp [h2]⟩

theorem card_pattern_search_string (m rest : Str) (h : m ∈ strings) :
    card_pattern_search (m ++ rest) = some (m, rest) := by
  have hat := (card_pattern_at_eq_some (m ++ rest) m rest).2 ⟨rfl, h⟩
  have hlen := string_length_pos m h
  match m, hlen with
  | a :: m', _ =>
    simp only [List.cons_append] at hat ⊢
    simp [card_pattern_search, hat]

theorem card_pattern_search_shorter (s m rest : Str)
    (h : card_pattern_search s = some (m, rest)) : rest.length + 2 ≤ s.length := by
  obtain ⟨h1, sk, rfl⟩ := card_pattern_search_some s m rest h
  have := string_length_pos m h1
  simp only [List.length_append]
  omega

/-- Enough fuel: any two amounts of fuel no smaller than the length of the input
give the same matches. -/
theorem card_matches_fuel (fuel1 : Nat) : ∀ (fuel2 : Nat) (s : Str),
    s.length ≤ fuel1 → s.length ≤ fuel2 → card_matches fuel1 s = card_matches fuel2 s := by
  induction fuel1 with
  | zero =>
    intro fuel2 s h1 _
    have hs : s = [] := List.length_eq_zero.1 (by omega)
    subst hs
    cases fuel2 <;> simp [card_matches, card_pattern_search]
  | succ f1 ih =>
    intro fuel2 s h1 h2
    cases fuel2 with
    | zero =>
      have hs : s = [] := List.length_eq_zero.1 (by omega)
      subst hs
      simp [card_matches, card_pattern_search]
    | succ f2 =>
      simp only [card_matches]
      cases hsr : card_pattern_search s with
      | none => rfl
      | some r =>
        obtain ⟨m, rest⟩ := r
        have := card_pattern_search_shorter s m rest hsr
        simp only
        rw [ih f2 rest (by omega) (by omega)]

theorem card_matches_strings (fuel : Nat) : ∀ (s : Str), ∀ m ∈ card_matches fuel s, m ∈ strings := by
  induction fuel with
  | zero => intro s m h; simp [card_matches] at h
  | succ f ih =>
    intro s m h
    simp only [card_matches] at h
    cases hsr : card_pattern_search s with
    | none => rw [hsr] at h; simp at h
    | some r =>
      obtain ⟨m', rest⟩ := r
      rw [hsr] at h
      simp only [List.mem_cons] at h
      rcases h with rfl | h
      · exact (card_pattern_search_some s m rest hsr).1
      · exact ih rest m h

/-- The matches never cover more than the input, and cover all of it only when
the input is the matches side by side. -/
theorem card_matches_length (fuel : Nat) : ∀ (s : Str),
    ((card_matches fuel s).map List.length).sum ≤ s.length ∧
      (((card_matches fuel s).map List.length).sum = s.length →
        s = (card_matches fuel s).flatten) := by
  induction fuel with
  | zero =>
    intro s
    simp only [card_matches, List.map_nil, List.sum_nil, Nat.zero_le, List.flatten_nil, true_and]
    intro h
    exact List.length_eq_zero.1 h.symm
  | succ f ih =>
    intro s
    simp only [card_matches]
    cases hsr : card_pattern_search s with
    | none =>
      simp only [List.map_nil, List.sum_nil, Nat.zero_le, List.flatten_nil, true_and]
      intro h
      exact List.length_eq_zero.1 h.symm
    | some r =>
      obtain ⟨m, rest⟩ := r
      obtain ⟨_, sk, rfl⟩ := card_pattern_search_some s m rest hsr
      obtain ⟨h1, h2⟩ := ih rest
      simp only [List.map_cons, List.sum_cons, List.length_append, List.flatten_cons]
      refine ⟨by omega, fun h => ?_⟩
      have hsk : sk = [] := List.length_eq_zero.1 (by omega)
      subst hsk
      have := h2 (by omega)
      simp only [List.nil_append]
      rw [← this]

theorem card_matches_flatten (ts : List Str) (hts : ∀ t ∈ ts, t ∈ strings) :
    ∀ fuel, ts.length ≤ fuel → card_matches fuel ts.flatten = ts := by
  induction ts with
  | nil =>
    intro fuel _
    cases fuel <;> simp [card_matches, card_pattern_search]
  | cons t ts ih =>
    intro fuel hf
    cases fuel with
    | zero => simp at hf
    | succ f =>
      simp only [card_matches, List.flatten_cons]
      rw [card_pattern_search_string t _ (hts t (by simp))]
      simp only
      rw [ih (fun x hx => hts x (by simp [hx])) f (by simpa using hf)]

theorem flatten_length_ge (ts : List Str) (hts : ∀ t ∈ ts, t ∈ strings) :
    2 * ts.length ≤ ts.flatten.length := by
  induction ts with
  | nil => simp
  | cons t ts ih =>
    have := string_length_pos t (hts t (by simp))
    have := ih (fun x hx => hts x (by simp [hx]))
    simp only [List.length_cons, List.flatten_cons, List.length_append]
    omega

theorem flatten_length_le (ts : List Str) (hts : ∀ t ∈ ts, t ∈ strings) :
    ts.flatten.length ≤ 3 * ts.length := by
  induction ts with
  | nil => simp
  | cons t ts ih =>
    have : t.length ≤ 3 := by
      rcases (mem_strings_iff t).1 (hts t (by simp)) with ⟨c, _, rfl⟩ | ⟨a, c, _, _, rfl⟩ <;> simp
    have := ih (fun x hx => hts x (by simp [hx]))
    simp only [List.length_cons, List.flatten_cons, List.length_append]
    omega

end Card

/-! ## `std::set` as a duplicate detector -/

/-- Inserting a run of keys into a duplicate-free set whose order identifies
keys: the size grows by the length of the run exactly when no key repeats. -/
theorem setInsert_foldl_length {α : Type} (lt : α → α → Bool) (P : α → Prop)
    (hP : ∀ a b, P a → P b → (keyEquiv lt a b = true ↔ a = b)) :
    ∀ (xs u : List α), (∀ x ∈ xs, P x) → (∀ x ∈ u, P x) → u.Nodup →
      (xs.foldl (setInsert lt) u).length ≤ u.length + xs.length ∧
      ((xs.foldl (setInsert lt) u).length = u.length + xs.length ↔ (u ++ xs).Nodup) := by
  intro xs
  induction xs with
  | nil => intro u _ _ hu; simp [hu]
  | cons x xs ih =>
    intro u hxs hu hnd
    have hx : P x := hxs x (by simp)
    have hxs' : ∀ y ∈ xs, P y := fun y hy => hxs y (by simp [hy])
    have hany : (u.any fun y => keyEquiv lt x y) = true ↔ x ∈ u := by
      simp only [List.any_eq_true]
      constructor
      · rintro ⟨y, hy, he⟩
        have := (hP x y hx (hu y hy)).1 he
        rw [this]; exact hy
      · intro h
        exact ⟨x, h, (hP x x hx hx).2 rfl⟩
    simp only [List.foldl_cons, setInsert]
    by_cases hmem : x ∈ u
    · rw [if_pos (hany.2 hmem)]
      obtain ⟨h1, _⟩ := ih u hxs' hu hnd
      refine ⟨by simp only [List.length_cons]; omega, ?_⟩
      constructor
      · intro h; simp only [List.length_cons] at h; omega
      · intro h
        exfalso
        rw [List.nodup_append] at h
        exact h.2.2 hmem (by simp)
    · rw [if_neg (fun h => hmem (hany.1 h))]
      have hu' : ∀ y ∈ u ++ [x], P y := by
        intro y hy
        rcases List.mem_append.1 hy with hy | hy
        · exact hu y hy
        · simp only [List.mem_singleton] at hy; rw [hy]; exact hx
      have hnd' : (u ++ [x]).Nodup := by
        rw [List.nodup_append]
        refine ⟨hnd, by simp, ?_⟩
        intro a ha hb
        simp only [List.mem_singleton] at hb
        exact hmem (hb ▸ ha)
      obtain ⟨h1, h2⟩ := ih (u ++ [x]) hxs' hu' hnd'
      simp only [List.length_append, List.length_cons, List.length_nil] at h1 h2 ⊢
      refine ⟨by omega, ?_⟩
      have : u ++ [x] ++ xs = u ++ x :: xs := by simp
      rw [← this]
      rw [← h2]
      omega

namespace Card

set_option maxRecDepth 1000000 in
theorem pack_keyEquiv_check : pack.all (fun a => pack.all (fun b =>
    keyEquiv lt a b == decide (a = b))) = true := by decide

theorem pack_keyEquiv (a b : Card) (ha : a ∈ pack) (hb : b ∈ pack) :
    keyEquiv lt a b = true ↔ a = b := by
  have := List.all_eq_true.1 (List.all_eq_true.1 pack_keyEquiv_check a ha) b hb
  simp only [beq_iff_eq] at this
  rw [this]; simp

theorem cards_data_eq (cs : List Card) : cards_data cs = (cs.map to_string).flatten := by
  have : ∀ (cs : List Card) (acc : Str),
      cs.foldl (fun data card => data ++ card.to_string) acc =
        acc ++ (cs.map to_string).flatten := by
    intro cs
    induction cs with
    | nil => intro acc; simp
    | cons c cs ih => intro acc; simp [ih]
  simpa [cards_data] using this cs []

/-- The loop over card strings that are the representations of `cs`. -/
theorem parse_cards_loop_pack (cs : List Card) (hcs : ∀ c ∈ cs, c ∈ pack) :
    ∀ (cards unique_cards : List Card) (total : Nat),
      parse_cards_loop (cs.map to_string) cards unique_cards total =
        ok (cards ++ cs, cs.foldl (setInsert lt) unique_cards,
          total + ((cs.map to_string).map List.length).sum) := by
  induction cs with
  | nil => intro cards u t; simp [parse_cards_loop]
  | cons c cs ih =>
    intro cards u t
    have h1 := (pack_to_string c (hcs c (by simp))).1
    simp only [List.map_cons, parse_cards_loop, h1, catchInvalid, Outcome.bind, List.foldl_cons,
      List.sum_cons]
    rw [ih (fun x hx => hcs x (by simp [hx]))]
    simp [Nat.add_assoc]

theorem strings_are_cards (ms : List Str) (h : ∀ m ∈ ms, m ∈ strings) :
    ∃ cs : List Card, (∀ c ∈ cs, c ∈ pack) ∧ cs.map to_string = ms := by
  induction ms with
  | nil => exact ⟨[], by simp, rfl⟩
  | cons m ms ih =>
    obtain ⟨cs, h1, h2⟩ := ih (fun x hx => h x (by simp [hx]))
    obtain ⟨c, _, hc, hs⟩ := strings_card m (h m (by simp))
    refine ⟨c :: cs, ?_, by simp [hs, h2]⟩
    intro x hx
    rcases List.mem_cons.1 hx with rfl | hx
    · exact hc
    · exact h1 x hx

/-- What `Card::parse_cards` computes, in terms of the matches of the iterator. -/
theorem parse_cards_eq (s : Str) :
    ∃ cs : List Card, (∀ c ∈ cs, c ∈ pack) ∧
      cs.map to_string = card_matches s.length s ∧
      parse_cards s =
        if ((cs.map to_string).map List.length).sum ≠ s.length then throw Exn.invalid_argument
        else if ¬ cs.Nodup then throw Exn.invalid_argument
        else ok cs := by
  obtain ⟨cs, h1, h2⟩ := strings_are_cards (card_matches s.length s)
    (card_matches_strings s.length s)
  refine ⟨cs, h1, h2, ?_⟩
  unfold parse_cards
  rw [← h2, parse_cards_loop_pack cs h1]
  simp only [Outcome.bind, List.nil_append, Nat.zero_add]
  have hset := (setInsert_foldl_length lt (fun c => c ∈ pack) pack_keyEquiv cs [] h1
    (by simp) List.nodup_nil).2
  simp only [List.length_nil, Nat.zero_add, List.nil_append] at hset
  by_cases hlen : ((cs.map to_string).map List.length).sum = s.length
  · simp only [hlen, ne_eq, not_true_eq_false, ↓reduceIte]
    by_cases hnd : cs.Nodup
    · have := hset.2 hnd
      simp [hnd, this]
    · have : ¬ (cs.foldl (setInsert lt) []).length = cs.length := fun h => hnd (hset.1 h)
      have this' : ¬ cs.length = (cs.foldl (setInsert lt) []).length := fun h => this h.symm
      simp [hnd, this']
  · simp only [List.map_map] at hlen
    simp [hlen]

/-- The method `Card::parse_cards` succeeds exactly on the representations of duplicate-free
lists of cards of the pack, side by side, and returns that list. -/
theorem parse_cards_ok_iff (s : Str) (cs : List Card) :
    parse_cards s = ok cs ↔ (∀ c ∈ cs, c ∈ pack) ∧ cs.Nodup ∧ s = cards_data cs := by
  constructor
  · intro h
    obtain ⟨cs', h1, h2, h3⟩ := parse_cards_eq s
    rw [h3] at h
    split at h
    · simp at h
    · rename_i hlen
      split at h
      · simp at h
      · rename_i hnd
        simp only [ok.injEq] at h
        subst h
        simp only [ne_eq, Decidable.not_not] at hlen hnd
        refine ⟨h1, hnd, ?_⟩
        rw [cards_data_eq, h2]
        rw [h2] at hlen
        exact (card_matches_length s.length s).2 hlen
  · rintro ⟨h1, h2, rfl⟩
    have hts : ∀ t ∈ cs.map to_string, t ∈ strings := by
      intro t ht
      obtain ⟨c, hc, rfl⟩ := List.mem_map.1 ht
      exact (pack_to_string c (h1 c hc)).2
    have hm := card_matches_flatten (cs.map to_string) hts (cards_data cs).length (by
      have := flatten_length_ge (cs.map to_string) hts
      rw [cards_data_eq]
      simp only [List.length_map] at this ⊢
      omega)
    rw [← cards_data_eq] at hm
    unfold parse_cards
    rw [hm, parse_cards_loop_pack cs h1]
    have hset := (setInsert_foldl_length lt (fun c => c ∈ pack) pack_keyEquiv cs [] h1
      (by simp) List.nodup_nil).2
    simp only [List.length_nil, Nat.zero_add, List.nil_append] at hset
    have hl := hset.2 h2
    have hsum : ((cs.map to_string).map List.length).sum = (cards_data cs).length := by
      rw [cards_data_eq, List.length_flatten]
    simp only [List.map_map] at hsum
    simp [Outcome.bind, hsum, hl]

/-- The method `Card::parse_cards` throws nothing but `std::invalid_argument`. -/
theorem parse_cards_throw (s : Str) (e : Exn) (h : parse_cards s = Outcome.throw e) :
    e = Exn.invalid_argument := by
  obtain ⟨cs', _, _, h3⟩ := parse_cards_eq s
  rw [h3] at h
  split at h
  · simp only [throw.injEq] at h; exact h.symm
  · split at h
    · simp only [throw.injEq] at h; exact h.symm
    · simp at h

end Card

/-! ## The dispatcher `Message::from_string` -/

theorem drop_append_CRLF (body : Str) :
    (body ++ CRLF).drop ((body ++ CRLF).length - 2) = CRLF := by
  have : (body ++ CRLF).length - 2 = body.length := by simp [CRLF]
  rw [this, List.drop_left]

theorem take_append_CRLF (body : Str) :
    (body ++ CRLF).take ((body ++ CRLF).length - 2) = body := by
  have : (body ++ CRLF).length - 2 = body.length := by simp [CRLF]
  rw [this, List.take_left]

/-- A string that ends with CRLF, split there. -/
theorem ends_CRLF (str : Str)
    (h : str.drop (str.length - 2) = CRLF) : str = str.take (str.length - 2) ++ CRLF := by
  conv_lhs => rw [← List.take_append_drop (str.length - 2) str]
  rw [h]

/-- The chain of tests on the start of the line, after the terminator is removed. -/
theorem from_string_body (body : Str) (h3 : 3 ≤ body.length)
    (hh : header_pattern_search ((body ++ CRLF).take 5) = true) :
    Message.from_string (body ++ CRLF) =
      if body.take 3 = "IAM".toList then IAMMessage.from_string body
      else if body.take 4 = "BUSY".toList then BUSYMessage.from_string body
      else if body.take 4 = "DEAL".toList then DEALMessage.from_string body
      else if body.take 5 = "TRICK".toList then TRICKMessage.from_string body
      else if body.take 5 = "WRONG".toList then WRONGMessage.from_string body
      else if body.take 5 = "TAKEN".toList then TAKENMessage.from_string body
      else if body.take 5 = "SCORE".toList then SCOREMessage.from_string body
      else if body.take 5 = "TOTAL".toList then TOTALMessage.from_string body
      else throw Exn.invalid_argument := by
  have hlen : ¬ (body ++ CRLF).length < 5 := by simp [CRLF]; omega
  have hle : ¬ (body ++ CRLF).length - 2 > (body ++ CRLF).length := by omega
  unfold Message.from_string
  simp only [hlen, ↓reduceIte, substrFrom, hle, Outcome.bind, drop_append_CRLF, ne_eq,
    not_true_eq_false, hh, Bool.not_true, Bool.false_eq_true, substr, gt_iff_lt,
    Nat.not_lt_zero, List.drop_zero, take_append_CRLF]

/-- Whatever `Message::from_string` does not reject at once ends with CRLF after
at least three characters. -/
theorem from_string_cases (str : Str) :
    Message.from_string str = throw Exn.invalid_argument ∨
      ∃ body, str = body ++ CRLF ∧ 3 ≤ body.length ∧
        header_pattern_search ((body ++ CRLF).take 5) = true := by
  by_cases hlen : str.length < 5
  · left; simp [Message.from_string, hlen]
  · by_cases hcr : str.drop (str.length - 2) = CRLF
    · have hstr := ends_CRLF str hcr
      by_cases hh : header_pattern_search (str.take 5) = true
      · right
        refine ⟨str.take (str.length - 2), hstr, ?_, ?_⟩
        · simp only [List.length_take]; omega
        · rw [← hstr]; exact hh
      · left
        have hle : ¬ str.length - 2 > str.length := by omega
        simp [Message.from_string, hlen, substrFrom, hle, Outcome.bind, hcr, hh]
    · left
      have hle : ¬ str.length - 2 > str.length := by omega
      simp [Message.from_string, hlen, substrFrom, hle, Outcome.bind, hcr]

/-- An input that does not end with CRLF is rejected with `std::invalid_argument`. -/
theorem from_string_no_CRLF (str : Str) (h : ¬ ∃ body, str = body ++ CRLF) :
    Message.from_string str = throw Exn.invalid_argument := by
  rcases from_string_cases str with h1 | ⟨body, h1, _⟩
  · exact h1
  · exact absurd ⟨body, h1⟩ h

theorem header_search_of_keyword (k rest : Str) (hk : k ∈ header_keywords) :
    header_pattern_search ((k ++ rest).take 5) = true := by
  have hklen : k.length ≤ 5 := by
    simp only [header_keywords, List.mem_cons, List.mem_singleton, List.not_mem_nil,
      or_false] at hk
    rcases hk with rfl | rfl | rfl | rfl | rfl | rfl | rfl | rfl <;> decide
  have htake : (k ++ rest).take 5 = k ++ rest.take (5 - k.length) := by
    rw [List.take_append_eq_append_take, List.take_of_length_le hklen]
  rw [htake]
  unfold header_pattern_search
  rw [List.any_eq_true]
  refine ⟨k ++ rest.take (5 - k.length), ?_, ?_⟩
  · cases h : k ++ rest.take (5 - k.length) <;> simp [List.tails]
  · rw [List.any_eq_true]
    exact ⟨k, hk, by simp [ List.isPrefixOf_iff_prefix]⟩

theorem tag_IAM : "IAM".toList = ['I', 'A', 'M'] := rfl
theorem tag_BUSY : "BUSY".toList = ['B', 'U', 'S', 'Y'] := rfl
theorem tag_DEAL : "DEAL".toList = ['D', 'E', 'A', 'L'] := rfl
theorem tag_TRICK : "TRICK".toList = ['T', 'R', 'I', 'C', 'K'] := rfl
theorem tag_WRONG : "WRONG".toList = ['W', 'R', 'O', 'N', 'G'] := rfl
theorem tag_TAKEN : "TAKEN".toList = ['T', 'A', 'K', 'E', 'N'] := rfl
theorem tag_SCORE : "SCORE".toList = ['S', 'C', 'O', 'R', 'E'] := rfl
theorem tag_TOTAL : "TOTAL".toList = ['T', 'O', 'T', 'A', 'L'] := rfl

theorem from_string_IAM (payload : Str) :
    Message.from_string ("IAM".toList ++ payload ++ CRLF) =
      IAMMessage.from_string ("IAM".toList ++ payload) := by
  rw [from_string_body _ (by simp [tag_IAM])
    (by rw [List.append_assoc]; exact header_search_of_keyword _ _ (by simp [header_keywords]))]
  simp [tag_IAM]

theorem from_string_BUSY (payload : Str) :
    Message.from_string ("BUSY".toList ++ payload ++ CRLF) =
      BUSYMessage.from_string ("BUSY".toList ++ payload) := by
  rw [from_string_body _ (by simp [tag_BUSY])
    (by rw [List.append_assoc]; exact header_search_of_keyword _ _ (by simp [header_keywords]))]
  simp [tag_IAM, tag_BUSY]

theorem from_string_DEAL (payload : Str) :
    Message.from_string ("DEAL".toList ++ payload ++ CRLF) =
      DEALMessage.from_string ("DEAL".toList ++ payload) := by
  rw [from_string_body _ (by simp [tag_DEAL])
    (by rw [List.append_assoc]; exact header_search_of_keyword _ _ (by simp [header_keywords]))]
  simp [tag_IAM, tag_BUSY, tag_DEAL]

theorem from_string_TRICK (payload : Str) :
    Message.from_string ("TRICK".toList ++ payload ++ CRLF) =
      TRICKMessage.from_string ("TRICK".toList ++ payload) := by
  rw [from_string_body _ (by simp [tag_TRICK])
    (by rw [List.append_assoc]; exact header_search_of_keyword _ _ (by simp [header_keywords]))]
  simp [tag_IAM, tag_BUSY, tag_DEAL, tag_TRICK]

theorem from_string_WRONG (payload : Str) :
    Message.from_string ("WRONG".toList ++ payload ++ CRLF) =
      WRONGMessage.from_string ("WRONG".toList ++ payload) := by
  rw [from_string_body _ (by simp [tag_WRONG])
    (by rw [List.append_assoc]; exact header_search_of_keyword _ _ (by simp [header_keywords]))]
  simp [tag_IAM, tag_BUSY, tag_DEAL, tag_TRICK, tag_WRONG]

theorem from_string_TAKEN (payload : Str) :
    Message.from_string ("TAKEN".toList ++ payload ++ CRLF) =
      TAKENMessage.from_string ("TAKEN".toList ++ payload) := by
  rw [from_string_body _ (by simp [tag_TAKEN])
    (by rw [List.append_assoc]; exact header_search_of_keyword _ _ (by simp [header_keywords]))]
  simp [tag_IAM, tag_BUSY, tag_DEAL, tag_TRICK, tag_WRONG, tag_TAKEN]

theorem from_string_SCORE (payload : Str) :
    Message.from_string ("SCORE".toList ++ payload ++ CRLF) =
      SCOREMessage.from_string ("SCORE".toList ++ payload) := by
  rw [from_string_body _ (by simp [tag_SCORE])
    (by rw [List.append_assoc]; exact header_search_of_keyword _ _ (by simp [header_keywords]))]
  simp [tag_IAM, tag_BUSY, tag_DEAL, tag_TRICK, tag_WRONG, tag_TAKEN, tag_SCORE]

theorem from_string_TOTAL (payload : Str) :
    Message.from_string ("TOTAL".toList ++ payload ++ CRLF) =
      TOTALMessage.from_string ("TOTAL".toList ++ payload) := by
  rw [from_string_body _ (by simp [tag_TOTAL])
    (by rw [List.append_assoc]; exact header_search_of_keyword _ _ (by simp [header_keywords]))]
  simp [tag_IAM, tag_BUSY, tag_DEAL, tag_TRICK, tag_WRONG, tag_TAKEN, tag_SCORE, tag_TOTAL]

/-- A body that starts with a given number of given characters. -/
theorem take_eq_append (body tag : Str) (h : body.take tag.length = tag) :
    body = tag ++ body.drop tag.length := by
  conv_lhs => rw [← List.take_append_drop tag.length body]
  rw [h]

/-- Every input is rejected with `std::invalid_argument` or handed, without its
terminator, to the `from_string` of the class its tag names. -/
theorem from_string_inversion (str : Str) :
    Message.from_string str = throw Exn.invalid_argument ∨
    (∃ p, str = "IAM".toList ++ p ++ CRLF ∧
      Message.from_string str = IAMMessage.from_string ("IAM".toList ++ p)) ∨
    (∃ p, str = "BUSY".toList ++ p ++ CRLF ∧
      Message.from_string str = BUSYMessage.from_string ("BUSY".toList ++ p)) ∨
    (∃ p, str = "DEAL".toList ++ p ++ CRLF ∧
      Message.from_string str = DEALMessage.from_string ("DEAL".toList ++ p)) ∨
    (∃ p, str = "TRICK".toList ++ p ++ CRLF ∧
      Message.from_string str = TRICKMessage.from_string ("TRICK".toList ++ p)) ∨
    (∃ p, str = "WRONG".toList ++ p ++ CRLF ∧
      Message.from_string str = WRONGMessage.from_string ("WRONG".toList ++ p)) ∨
    (∃ p, str = "TAKEN".toList ++ p ++ CRLF ∧
      Message.from_string str = TAKENMessage.from_string ("TAKEN".toList ++ p)) ∨
    (∃ p, str = "SCORE".toList ++ p ++ CRLF ∧
      Message.from_string str = SCOREMessage.from_string ("SCORE".toList ++ p)) ∨
    (∃ p, str = "TOTAL".toList ++ p ++ CRLF ∧
      Message.from_string str = TOTALMessage.from_string ("TOTAL".toList ++ p)) := by
  rcases from_string_cases str with h | ⟨body, rfl, hlen, hh⟩
  · exact Or.inl h
  by_cases h1 : body.take 3 = "IAM".toList
  · obtain ⟨p, rfl⟩ : ∃ p, body = "IAM".toList ++ p := ⟨_, take_eq_append body "IAM".toList h1⟩
    right; left
    exact ⟨p, rfl, from_string_IAM p⟩
  by_cases h2 : body.take 4 = "BUSY".toList
  · obtain ⟨p, rfl⟩ : ∃ p, body = "BUSY".toList ++ p := ⟨_, take_eq_append body "BUSY".toList h2⟩
    right; right; left
    exact ⟨p, rfl, from_string_BUSY p⟩
  by_cases h3 : body.take 4 = "DEAL".toList
  · obtain ⟨p, rfl⟩ : ∃ p, body = "DEAL".toList ++ p := ⟨_, take_eq_append body "DEAL".toList h3⟩
    right; right; right; left
    exact ⟨p, rfl, from_string_DEAL p⟩
  by_cases h4 : body.take 5 = "TRICK".toList
  · obtain ⟨p, rfl⟩ : ∃ p, body = "TRICK".toList ++ p := ⟨_, take_eq_append body "TRICK".toList h4⟩
    right; right; right; right; left
    exact ⟨p, rfl, from_string_TRICK p⟩
  by_cases h5 : body.take 5 = "WRONG".toList
  · obtain ⟨p, rfl⟩ : ∃ p, body = "WRONG".toList ++ p := ⟨_, take_eq_append body "WRONG".toList h5⟩
    right; right; right; right; right; left
    exact ⟨p, rfl, from_string_WRONG p⟩
  by_cases h6 : body.take 5 = "TAKEN".toList
  · obtain ⟨p, rfl⟩ : ∃ p, body = "TAKEN".toList ++ p := ⟨_, take_eq_append body "TAKEN".toList h6⟩
    right; right; right; right; right; right; left
    exact ⟨p, rfl, from_string_TAKEN p⟩
  by_cases h7 : body.take 5 = "SCORE".toList
  · obtain ⟨p, rfl⟩ : ∃ p, body = "SCORE".toList ++ p := ⟨_, take_eq_append body "SCORE".toList h7⟩
    right; right; right; right; right; right; right; left
    exact ⟨p, rfl, from_string_SCORE p⟩
  by_cases h8 : body.take 5 = "TOTAL".toList
  · obtain ⟨p, rfl⟩ : ∃ p, body = "TOTAL".toList ++ p := ⟨_, take_eq_append body "TOTAL".toList h8⟩
    right; right; right; right; right; right; right; right
    exact ⟨p, rfl, from_string_TOTAL p⟩
  left
  rw [from_string_body body hlen hh, if_neg h1, if_neg h2, if_neg h3, if_neg h4, if_neg h5,
    if_neg h6, if_neg h7, if_neg h8]

/-! ## Seats, `IAM` and `BUSY` -/

theorem from_string_Position_ok (s : Str) (p : Position) :
    from_string_Position s = ok p ↔ s = [p.toChar] := by
  constructor
  · intro h
    unfold from_string_Position at h
    split at h <;> simp only [ok.injEq, reduceCtorEq] at h <;> subst h <;> rfl
  · rintro rfl
    cases p <;> rfl

theorem from_string_Position_throw (s : Str) (e : Exn)
    (h : from_string_Position s = Outcome.throw e) : e = Exn.invalid_argument := by
  unfold from_string_Position at h
  split at h <;> simp only [throw.injEq, reduceCtorEq] at h
  exact h.symm

theorem positionLt_keyEquiv (a b : Position) : keyEquiv positionLt a b = true ↔ a = b := by
  cases a <;> cases b <;> decide

theorem position_nodup_length (ps : List Position) (h : ps.Nodup) : ps.length ≤ 4 := by
  have hsub : ps ⊆ seat_order := by
    intro p _
    cases p <;> simp [seat_order]
  exact (h.subperm hsub).length_le

theorem toChar_injective : Function.Injective Position.toChar := by
  intro a b h
  cases a <;> cases b <;> first | rfl | (revert h; decide)

/-- The loop of `BUSYMessage::from_string`: it ends normally exactly when the
characters it visits are seat letters. -/
theorem BUSY_loop (str : Str) : ∀ (n i : Nat) (positions u : List Position),
    i + n ≤ str.length →
    (∀ r, BUSYMessage.from_string_loop str n i positions u = ok r ↔
      ∃ ps : List Position, (str.drop i).take n = ps.map Position.toChar ∧
        r = (positions ++ ps, ps.foldl (setInsert positionLt) u)) ∧
    (∀ e, BUSYMessage.from_string_loop str n i positions u = Outcome.throw e →
      e = Exn.invalid_argument) := by
  intro n
  induction n with
  | zero =>
    intro i positions u _
    constructor
    · intro r
      simp only [BUSYMessage.from_string_loop, ok.injEq, List.take_zero]
      constructor
      · rintro rfl
        exact ⟨[], rfl, by simp⟩
      · rintro ⟨ps, h1, h2⟩
        have : ps = [] := by simpa using h1.symm
        subst this
        simpa using h2.symm
    · intro e h
      simp [BUSYMessage.from_string_loop] at h
  | succ n ih =>
    intro i positions u hi
    have hlt : i < str.length := by omega
    have hdrop : str.drop i = str.get ⟨i, hlt⟩ :: str.drop (i + 1) := by
      rw [List.drop_eq_getElem_cons hlt]; rfl
    have hsub : substr str i 1 = ok [str.get ⟨i, hlt⟩] := by
      have hgt : ¬ i > str.length := by omega
      unfold substr
      rw [if_neg hgt, hdrop]
      rfl
    have ih1 := fun positions u => (ih (i + 1) positions u (by omega)).1
    have ih2 := fun positions u => (ih (i + 1) positions u (by omega)).2
    simp only [BUSYMessage.from_string_loop, hsub, Outcome.bind, hdrop, List.take_succ_cons]
    cases hp : from_string_Position [str.get ⟨i, hlt⟩] with
    | ok p =>
      have hc := (from_string_Position_ok _ _).1 hp
      simp only [List.cons.injEq, and_true] at hc
      have hc' : str[i] = p.toChar := hc
      constructor
      · intro r
        simp only
        rw [ih1]
        constructor
        · rintro ⟨ps, h1, h2⟩
          exact ⟨p :: ps, by simp [hc', h1], by simp [h2]⟩
        · rintro ⟨ps, h1, h2⟩
          cases ps with
          | nil => simp at h1
          | cons q qs =>
            simp only [List.map_cons, List.cons.injEq] at h1
            have hq : q = p := toChar_injective (by rw [← h1.1, hc])
            subst hq
            exact ⟨qs, h1.2, by simp [h2]⟩
      · intro e h
        exact ih2 _ _ e h
    | throw e' =>
      have he := from_string_Position_throw _ _ hp
      constructor
      · intro r
        simp only [reduceCtorEq, false_iff, not_exists, not_and]
        intro ps h1 _
        cases ps with
        | nil => simp at h1
        | cons q qs =>
          simp only [List.map_cons, List.cons.injEq] at h1
          have := (from_string_Position_ok [str.get ⟨i, hlt⟩] q).2 (by rw [h1.1])
          rw [hp] at this
          simp at this
      · intro e h
        simp only [throw.injEq] at h
        rw [← h, he]

theorem busy_set_length (ps : List Position) :
    ps.length = (ps.foldl (setInsert positionLt) []).length ↔ ps.Nodup := by
  have h := (setInsert_foldl_length positionLt (fun _ => True)
    (fun a b _ _ => positionLt_keyEquiv a b) ps [] (by simp) (by simp) List.nodup_nil).2
  simp only [List.length_nil, Nat.zero_add, List.nil_append] at h
  rw [← h]
  exact eq_comm

/-- The method `BUSYMessage::from_string` accepts exactly the bodies made of `BUSY` and a
duplicate-free run of seat letters. -/
theorem BUSY_from_string_ok (p : Str) (m : Message) :
    BUSYMessage.from_string ("BUSY".toList ++ p) = ok m ↔
      ∃ ps : List Position, ps.Nodup ∧ p = ps.map Position.toChar ∧ m = BUSYMessage ps := by
  have hlen : ("BUSY".toList ++ p).length = 4 + p.length := by
    simp only [tag_BUSY, List.length_append, List.length_cons, List.length_nil]
  have hdrop : (("BUSY".toList ++ p).drop 4).take (("BUSY".toList ++ p).length - 4) = p := by
    simp [tag_BUSY]
  obtain ⟨h1, _⟩ := BUSY_loop ("BUSY".toList ++ p) (("BUSY".toList ++ p).length - 4) 4 [] []
    (by omega)
  unfold BUSYMessage.from_string
  constructor
  · intro h
    split at h
    · simp at h
    · cases hl : BUSYMessage.from_string_loop ("BUSY".toList ++ p)
          (("BUSY".toList ++ p).length - 4) 4 [] [] with
      | ok r =>
        rw [hl] at h
        obtain ⟨ps, h2, h3⟩ := (h1 r).1 hl
        rw [hdrop] at h2
        subst h3
        simp only [Outcome.bind, List.nil_append, ne_eq] at h
        split at h
        · simp at h
        · rename_i hne
          simp only [ok.injEq] at h
          exact ⟨ps, (busy_set_length ps).1 (not_not.1 hne), h2, h.symm⟩
      | throw e => rw [hl] at h; simp [Outcome.bind] at h
  · rintro ⟨ps, hnd, rfl, rfl⟩
    have h4 := position_nodup_length ps hnd
    have hcond : ¬ (("BUSY".toList ++ ps.map Position.toChar).length < 4 ∨
        ("BUSY".toList ++ ps.map Position.toChar).length > 8) := by
      rw [hlen]; simp only [List.length_map]; omega
    rw [if_neg hcond]
    have hl := (h1 ([] ++ ps, ps.foldl (setInsert positionLt) [])).2 ⟨ps, hdrop, rfl⟩
    rw [hl]
    simp [Outcome.bind, (busy_set_length ps).2 hnd]

/-- The method `BUSYMessage::from_string` throws nothing but `std::invalid_argument`. -/
theorem BUSY_from_string_throw (p : Str) (e : Exn)
    (h : BUSYMessage.from_string ("BUSY".toList ++ p) = Outcome.throw e) :
    e = Exn.invalid_argument := by
  have hlen : ("BUSY".toList ++ p).length = 4 + p.length := by
    simp only [tag_BUSY, List.length_append, List.length_cons, List.length_nil]
  obtain ⟨_, h2⟩ := BUSY_loop ("BUSY".toList ++ p) (("BUSY".toList ++ p).length - 4) 4 [] []
    (by omega)
  unfold BUSYMessage.from_string at h
  split at h
  · simp only [throw.injEq] at h; exact h.symm
  · cases hl : BUSYMessage.from_string_loop ("BUSY".toList ++ p)
          (("BUSY".toList ++ p).length - 4) 4 [] [] with
    | ok r =>
      rw [hl] at h
      simp only [Outcome.bind] at h
      split at h
      · simp only [throw.injEq] at h; exact h.symm
      · simp at h
    | throw e' =>
      rw [hl] at h
      simp only [Outcome.bind, throw.injEq] at h
      rw [← h]; exact h2 e' hl

theorem busy_data (ps : List Position) :
    (BUSYMessage ps).data = ps.map Position.toChar := by
  have : ∀ (ps : List Position) (acc : Str),
      ps.foldl (fun data position => data ++ to_string_Position position) acc =
        acc ++ ps.map Position.toChar := by
    intro ps
    induction ps with
    | nil => intro acc; simp
    | cons q qs ih =>
      intro acc
      rw [List.foldl_cons, ih]
      simp [to_string_Position]
  simpa [BUSYMessage] using this ps []

/-! ## Short numbers and `DEAL` -/

theorem isdigit_cases (c : Char) (h : isdigit c = true) :
    c = '0' ∨ c = '1' ∨ c = '2' ∨ c = '3' ∨ c = '4' ∨ c = '5' ∨ c = '6' ∨ c = '7' ∨
      c = '8' ∨ c = '9' := by
  have hc := Char.ofNat_toNat c
  simp only [isdigit, Bool.and_eq_true, decide_eq_true_eq] at h
  obtain ⟨h1, h2⟩ := h
  generalize c.toNat = n at hc h1 h2
  subst hc
  interval_cases n <;> simp

/-- The value of `std::stoi` on one character. -/
theorem stoi_single (c : Char) :
    stoi [c] = if isdigit c then ok (((c.toNat - 48 : Nat) : Int), 1)
      else throw Exn.invalid_argument := by
  by_cases hd : isdigit c = true
  · have := stoi_digits [c] [] (by simp) (by simpa using hd) (by simp) (by
      rcases isdigit_cases c hd with rfl | rfl | rfl | rfl | rfl | rfl | rfl | rfl | rfl | rfl <;>
        decide)
    simp only [List.append_nil, List.length_singleton] at this
    rw [this, if_pos hd]
    simp [digitsVal]
  · rw [if_neg hd]
    simp only [Bool.not_eq_true] at hd
    unfold stoi
    by_cases hs : isspace c = true
    · simp [List.dropWhile, hs]
    · simp only [Bool.not_eq_true] at hs
      by_cases hsign : c = '-' ∨ c = '+'
      · simp [List.dropWhile, hs, hsign]
      · simp [List.dropWhile, hs, hsign, List.takeWhile, hd]

theorem dealtype_digit (t : DealType) :
    ∃ d : Char, d ∈ "1234567".toList ∧ to_string_DealType t = [d] ∧
      DealType.ofInt ((d.toNat : Int) - 48) = t := by
  cases t
  · exact ⟨'1', by decide, by decide, by decide⟩
  · exact ⟨'2', by decide, by decide, by decide⟩
  · exact ⟨'3', by decide, by decide, by decide⟩
  · exact ⟨'4', by decide, by decide, by decide⟩
  · exact ⟨'5', by decide, by decide, by decide⟩
  · exact ⟨'6', by decide, by decide, by decide⟩
  · exact ⟨'7', by decide, by decide, by decide⟩

theorem digit_dealtype (d : Char) (h : d ∈ "1234567".toList) :
    to_string_DealType (DealType.ofInt ((d.toNat : Int) - 48)) = [d] := by
  have : "1234567".toList = ['1', '2', '3', '4', '5', '6', '7'] := rfl
  rw [this] at h
  simp only [List.mem_cons, List.mem_singleton, List.not_mem_nil, or_false] at h
  rcases h with rfl | rfl | rfl | rfl | rfl | rfl | rfl <;> decide

theorem from_string_DealType_single (c : Char) (t : DealType) :
    from_string_DealType [c] = ok t ↔ [c] = to_string_DealType t := by
  unfold from_string_DealType
  rw [stoi_single]
  by_cases hd : isdigit c = true
  · rw [if_pos hd]
    rcases isdigit_cases c hd with rfl | rfl | rfl | rfl | rfl | rfl | rfl | rfl | rfl | rfl <;>
      cases t <;> decide
  · rw [if_neg hd]
    simp only [catchInvalid, Outcome.bind, reduceCtorEq, false_iff]
    intro h
    apply hd
    obtain ⟨d, hd1, hd2, _⟩ := dealtype_digit t
    rw [hd2] at h
    have hcd : c = d := (List.cons.inj h).1
    subst hcd
    have hlist : "1234567".toList = ['1', '2', '3', '4', '5', '6', '7'] := rfl
    rw [hlist] at hd1
    simp only [List.mem_cons, List.mem_singleton, List.not_mem_nil, or_false] at hd1
    rcases hd1 with rfl | rfl | rfl | rfl | rfl | rfl | rfl <;> decide

theorem from_string_DealType_throw (c : Char) (e : Exn)
    (h : from_string_DealType [c] = Outcome.throw e) : e = Exn.invalid_argument := by
  unfold from_string_DealType at h
  rw [stoi_single] at h
  by_cases hd : isdigit c = true
  · rw [if_pos hd] at h
    simp only [catchInvalid, Outcome.bind] at h
    split at h
    · simp only [throw.injEq] at h; exact h.symm
    · simp at h
  · rw [if_neg hd] at h
    simp only [catchInvalid, Outcome.bind, throw.injEq] at h
    exact h.symm

/-- The steps of `DEALMessage::from_string` on a body long enough. -/
theorem DEAL_from_string_eq (c1 c2 : Char) (rest : Str) (h : 2 ≤ rest.length) :
    DEALMessage.from_string ("DEAL".toList ++ c1 :: c2 :: rest) =
      (from_string_DealType [c1]).bind fun deal_type =>
      (from_string_Position [c2]).bind fun starting_player =>
      (Card.parse_cards rest).bind fun cards =>
      DEALMessage deal_type starting_player cards := by
  have hlen : ¬ ("DEAL".toList ++ c1 :: c2 :: rest).length < 8 := by
    simp only [tag_DEAL, List.length_append, List.length_cons, List.length_nil]; omega
  have h4 : ¬ rest.length + 1 + 1 + 1 + 1 + 1 + 1 < 4 := by omega
  have h5 : ¬ rest.length + 1 + 1 + 1 + 1 + 1 + 1 < 5 := by omega
  have h6 : ¬ rest.length + 1 + 1 + 1 + 1 + 1 + 1 < 6 := by omega
  unfold DEALMessage.from_string
  rw [if_neg hlen]
  simp [substr, substrFrom, tag_DEAL, Outcome.bind, h4, h5, h6]

theorem two_and_rest (p : Str) (h : ¬ p.length < 4) :
    ∃ c1 c2 rest, p = c1 :: c2 :: rest ∧ 2 ≤ rest.length := by
  match p, h with
  | c1 :: c2 :: rest, h => exact ⟨c1, c2, rest, rfl, by simp at h; omega⟩
  | [_], h => simp at h
  | [], h => simp at h

theorem DEAL_from_string_short (p : Str) (h : p.length < 4) :
    DEALMessage.from_string ("DEAL".toList ++ p) = throw Exn.invalid_argument := by
  have hlen : ("DEAL".toList ++ p).length < 8 := by
    simp only [tag_DEAL, List.length_append, List.length_cons, List.length_nil]; omega
  unfold DEALMessage.from_string
  rw [if_pos hlen]

theorem cards_data_length_ge (cs : List Card) (h : ∀ c ∈ cs, c ∈ Card.pack) :
    2 * cs.length ≤ (cards_data cs).length := by
  have hts : ∀ t ∈ cs.map Card.to_string, t ∈ Card.strings := by
    intro t ht
    obtain ⟨c, hc, rfl⟩ := List.mem_map.1 ht
    exact (Card.pack_to_string c (h c hc)).2
  have := Card.flatten_length_ge _ hts
  rw [Card.cards_data_eq]
  simpa using this

theorem cards_data_length_le (cs : List Card) (h : ∀ c ∈ cs, c ∈ Card.pack) :
    (cards_data cs).length ≤ 3 * cs.length := by
  have hts : ∀ t ∈ cs.map Card.to_string, t ∈ Card.strings := by
    intro t ht
    obtain ⟨c, hc, rfl⟩ := List.mem_map.1 ht
    exact (Card.pack_to_string c (h c hc)).2
  have := Card.flatten_length_le _ hts
  rw [Card.cards_data_eq]
  simpa using this

/-- The method `DEALMessage::from_string` accepts exactly the bodies made of `DEAL`, a deal
type, a seat and thirteen distinct cards of the pack. -/
theorem DEAL_from_string_ok (p : Str) (m : Message) :
    DEALMessage.from_string ("DEAL".toList ++ p) = ok m ↔
      ∃ (t : DealType) (pos : Position) (cs : List Card),
        (∀ c ∈ cs, c ∈ Card.pack) ∧ cs.Nodup ∧ cs.length = 13 ∧
        p = to_string_DealType t ++ to_string_Position pos ++ cards_data cs ∧
        DEALMessage t pos cs = ok m := by
  constructor
  · intro h
    by_cases hp : p.length < 4
    · rw [DEAL_from_string_short p hp] at h; simp at h
    · obtain ⟨c1, c2, rest, rfl, hrest⟩ := two_and_rest p hp
      · rw [DEAL_from_string_eq c1 c2 rest hrest] at h
        cases h1 : from_string_DealType [c1] with
        | throw e => rw [h1] at h; simp [Outcome.bind] at h
        | ok t =>
          cases h2 : from_string_Position [c2] with
          | throw e => rw [h1, h2] at h; simp [Outcome.bind] at h
          | ok pos =>
            cases h3 : Card.parse_cards rest with
            | throw e => rw [h1, h2, h3] at h; simp [Outcome.bind] at h
            | ok cs =>
              rw [h1, h2, h3] at h
              simp only [Outcome.bind] at h
              obtain ⟨hc1, hc2, hc3⟩ := (Card.parse_cards_ok_iff rest cs).1 h3
              have h13 : cs.length = 13 := by
                by_contra hne
                simp [DEALMessage, hne] at h
              refine ⟨t, pos, cs, hc1, hc2, h13, ?_, h⟩
              have e1 := (from_string_DealType_single c1 t).1 h1
              have e2 := (from_string_Position_ok [c2] pos).1 h2
              rw [← e1, to_string_Position]
              simp only [List.cons.injEq, and_true] at e2
              rw [← e2, ← hc3]
              rfl
  · rintro ⟨t, pos, cs, hc1, hc2, h13, rfl, hm⟩
    have hlen := cards_data_length_ge cs hc1
    have ht : ∃ c1, to_string_DealType t = [c1] := by cases t <;> exact ⟨_, rfl⟩
    obtain ⟨c1, hc⟩ := ht
    have : "DEAL".toList ++ (to_string_DealType t ++ to_string_Position pos ++ cards_data cs) =
        "DEAL".toList ++ c1 :: pos.toChar :: cards_data cs := by
      rw [hc]; rfl
    rw [this, DEAL_from_string_eq c1 pos.toChar (cards_data cs) (by omega)]
    rw [(from_string_DealType_single c1 t).2 hc.symm, (from_string_Position_ok _ pos).2 rfl,
      (Card.parse_cards_ok_iff _ cs).2 ⟨hc1, hc2, rfl⟩]
    exact hm

/-- The method `DEALMessage::from_string` throws nothing but `std::invalid_argument`. -/
theorem DEAL_from_string_throw (p : Str) (e : Exn)
    (h : DEALMessage.from_string ("DEAL".toList ++ p) = Outcome.throw e) :
    e = Exn.invalid_argument := by
  by_cases hp : p.length < 4
  · rw [DEAL_from_string_short p hp] at h
    simp only [throw.injEq] at h; exact h.symm
  · obtain ⟨c1, c2, rest, rfl, hrest⟩ := two_and_rest p hp
    · rw [DEAL_from_string_eq c1 c2 rest hrest] at h
      cases h1 : from_string_DealType [c1] with
      | throw e1 =>
        rw [h1] at h
        simp only [Outcome.bind, throw.injEq] at h
        rw [← h]; exact from_string_DealType_throw _ _ h1
      | ok t =>
        cases h2 : from_string_Position [c2] with
        | throw e2 =>
          rw [h1, h2] at h
          simp only [Outcome.bind, throw.injEq] at h
          rw [← h]; exact from_string_Position_throw _ _ h2
        | ok pos =>
          cases h3 : Card.parse_cards rest with
          | throw e3 =>
            rw [h1, h2, h3] at h
            simp only [Outcome.bind, throw.injEq] at h
            rw [← h]; exact Card.parse_cards_throw _ _ h3
          | ok cs =>
            rw [h1, h2, h3] at h
            simp only [Outcome.bind, DEALMessage] at h
            split at h
            · simp only [throw.injEq] at h; exact h.symm
            · simp at h

/-! ## Trick numbers: `TRICK`, `WRONG`, `TAKEN` -/

theorem bind_eq_ok {α β : Type} (x : Outcome α) (f : α → Outcome β) (b : β)
    (h : x.bind f = ok b) : ∃ a, x = ok a ∧ f a = ok b := by
  cases x with
  | ok a => exact ⟨a, rfl, h⟩
  | throw e => simp [Outcome.bind] at h

theorem bind_eq_throw {α β : Type} (x : Outcome α) (f : α → Outcome β) (e : Exn)
    (h : x.bind f = Outcome.throw e) :
    x = Outcome.throw e ∨ ∃ a, x = ok a ∧ f a = Outcome.throw e := by
  cases x with
  | ok a => exact Or.inr ⟨a, rfl, h⟩
  | throw e' => left; simpa [Outcome.bind] using h

theorem drop_tag (tag p : Str) (k n : Nat) (hk : tag.length = k) :
    (tag ++ p).drop (k + n) = p.drop n := by
  subst hk
  exact List.drop_append n

theorem digitsVal_lt (ds : Str) (h : ∀ c ∈ ds, isdigit c = true) :
    digitsVal ds < 10 ^ ds.length := by
  induction ds using List.reverseRecOn with
  | nil => simp [digitsVal]
  | append_singleton ds c ih =>
    have h1 := ih (fun x hx => h x (by simp [hx]))
    have hc : isdigit c = true := h c (by simp)
    simp only [isdigit, Bool.and_eq_true, decide_eq_true_eq] at hc
    rw [digitsVal_append_single, List.length_append, List.length_singleton, pow_succ]
    omega

/-- On at most two characters `std::stoi` throws nothing but `std::invalid_argument`. -/
theorem stoi_short (s : Str) (hs : s.length ≤ 2) (e : Exn) (h : stoi s = Outcome.throw e) :
    e = Exn.invalid_argument := by
  unfold stoi at h
  dsimp only at h
  generalize hs2 : (if (List.dropWhile isspace s).head? = some '-' ∨
    (List.dropWhile isspace s).head? = some '+' then (List.dropWhile isspace s).tail
    else List.dropWhile isspace s) = s2 at h
  have hlen2 : s2.length ≤ 2 := by
    have h1 : (List.dropWhile isspace s).length ≤ s.length :=
      (List.dropWhile_sublist _).length_le
    rw [← hs2]
    split
    · simp only [List.length_tail]; omega
    · omega
  have hds : (List.takeWhile isdigit s2).length ≤ 2 :=
    le_trans (List.takeWhile_sublist _).length_le hlen2
  have hval := digitsVal_lt (List.takeWhile isdigit s2)
    (fun c hc => (List.mem_takeWhile_imp hc))
  have hpow : 10 ^ (List.takeWhile isdigit s2).length ≤ 100 := by
    calc 10 ^ (List.takeWhile isdigit s2).length ≤ 10 ^ 2 :=
          Nat.pow_le_pow_right (by decide) hds
      _ = 100 := by norm_num
  generalize digitsVal (List.takeWhile isdigit s2) = v at h hval
  generalize hz : (if decide ((List.dropWhile isspace s).head? = some '-') = true
    then -(v : Int) else (v : Int)) = z at h
  have hzb : -100 < z ∧ z < 100 := by
    rw [← hz]
    split <;> omega
  split at h
  · simp only [throw.injEq] at h; exact h.symm
  · exfalso
    split at h
    · rename_i hcond
      simp only [INT_MIN, INT_MAX] at hcond
      omega
    · simp at h

/-- The attempts of `TRICKMessage::from_string`, in terms of the payload. -/
theorem TRICK_split (p : Str) (w : Nat) (hw : w ≤ p.length) :
    TRICKMessage.from_string_split ("TRICK".toList ++ p) w =
      (stoi (p.take w)).bind fun r =>
      (Card.parse_cards (p.drop w)).bind fun cards => ok (r.1, cards) := by
  have hlen : ("TRICK".toList ++ p).length = 5 + p.length := by
    simp only [tag_TRICK, List.length_append, List.length_cons, List.length_nil]
  have h1 : ¬ 5 > ("TRICK".toList ++ p).length := by omega
  have h2 : ¬ 5 + w > ("TRICK".toList ++ p).length := by omega
  have hd1 : ("TRICK".toList ++ p).drop 5 = p := drop_tag _ p 5 0 rfl
  have hd2 : ("TRICK".toList ++ p).drop (5 + w) = p.drop w := drop_tag _ p 5 w rfl
  unfold TRICKMessage.from_string_split
  simp only [substr, substrFrom, if_neg h1, if_neg h2, Outcome.bind, hd1, hd2]

theorem TRICK_split_ok (p : Str) (w : Nat) (hw : w ≤ p.length) (n : Int) (cs : List Card)
    (h : TRICKMessage.from_string_split ("TRICK".toList ++ p) w = ok (n, cs)) :
    (∀ c ∈ cs, c ∈ Card.pack) ∧ cs.Nodup ∧ p.drop w = cards_data cs := by
  rw [TRICK_split p w hw] at h
  obtain ⟨r, _, h2⟩ := bind_eq_ok _ _ _ h
  obtain ⟨cs', h3, h4⟩ := bind_eq_ok _ _ _ h2
  simp only [ok.injEq, Prod.mk.injEq] at h4
  rw [h4.2] at h3
  exact (Card.parse_cards_ok_iff _ _).1 h3

theorem TRICK_split_throw (p : Str) (w : Nat) (hw : w ≤ p.length) (hw2 : w ≤ 2) (e : Exn)
    (h : TRICKMessage.from_string_split ("TRICK".toList ++ p) w = Outcome.throw e) :
    e = Exn.invalid_argument := by
  rw [TRICK_split p w hw] at h
  rcases bind_eq_throw _ _ _ h with h1 | ⟨r, _, h2⟩
  · exact stoi_short _ (by simp only [List.length_take]; omega) e h1
  · rcases bind_eq_throw _ _ _ h2 with h3 | ⟨cs, _, h4⟩
    · exact Card.parse_cards_throw _ _ h3
    · simp at h4

/-- The method `TRICKMessage::from_string` returns only what the constructor built. -/
theorem TRICK_from_string_ok (s : Str) (m : Message)
    (h : TRICKMessage.from_string s = ok m) :
    ∃ n cs, TRICKMessage n cs = ok m := by
  unfold TRICKMessage.from_string at h
  split at h
  · simp at h
  · obtain ⟨r, _, h2⟩ := bind_eq_ok _ _ _ h
    exact ⟨r.1, r.2, h2⟩

theorem TRICK_ctor_ok (n : Int) (cs : List Card) (m : Message)
    (h : TRICKMessage n cs = ok m) :
    1 ≤ n ∧ n ≤ 13 ∧ cs.length ≤ 3 ∧
      m = ⟨MessageType.TRICK, std_to_string n ++ cards_data cs, Payload.TRICK n cs⟩ := by
  unfold TRICKMessage at h
  split at h
  · simp at h
  · split at h
    · simp at h
    · simp only [ok.injEq] at h
      refine ⟨by omega, by omega, by omega, h.symm⟩

/-- A `TRICK` body too long for three cards is rejected with `std::invalid_argument`. -/
theorem TRICK_from_string_long (p : Str) (hp : 12 ≤ p.length) :
    TRICKMessage.from_string ("TRICK".toList ++ p) = Outcome.throw Exn.invalid_argument := by
  have hlen : ("TRICK".toList ++ p).length = 5 + p.length := by
    simp only [tag_TRICK, List.length_append, List.length_cons, List.length_nil]
  have hctor : ∀ (w : Nat) (n : Int) (cs : List Card), w ≤ 2 →
      TRICKMessage.from_string_split ("TRICK".toList ++ p) w = ok (n, cs) →
      TRICKMessage n cs = Outcome.throw Exn.invalid_argument := by
    intro w n cs hw h
    obtain ⟨h1, _, h3⟩ := TRICK_split_ok p w (by omega) n cs h
    have hl := cards_data_length_le cs h1
    rw [← h3, List.length_drop] at hl
    unfold TRICKMessage
    split
    · rfl
    · rw [if_pos (by omega)]
  unfold TRICKMessage.from_string
  rw [if_neg (by omega)]
  cases h1 : TRICKMessage.from_string_split ("TRICK".toList ++ p) 1 with
  | ok r => exact hctor 1 r.1 r.2 (by omega) h1
  | throw e1 =>
    have he1 := TRICK_split_throw p 1 (by omega) (by omega) e1 h1
    subst he1
    cases h2 : TRICKMessage.from_string_split ("TRICK".toList ++ p) 2 with
    | ok r => exact hctor 2 r.1 r.2 (by omega) h2
    | throw e2 =>
      have he2 := TRICK_split_throw p 2 (by omega) (by omega) e2 h2
      subst he2
      rfl

/-- A card list in print is empty or starts with `1` or a figure character. -/
theorem cards_data_head (cs : List Card) (h : ∀ c ∈ cs, c ∈ Card.pack) :
    cards_data cs = [] ∨ ∃ a rest, cards_data cs = a :: rest ∧
      (a = '1' ∨ Card.isFigureChar a = true) := by
  cases cs with
  | nil => left; rfl
  | cons c cs =>
    right
    have hs := (Card.pack_to_string c (h c (by simp))).2
    rw [Card.cards_data_eq]
    simp only [List.map_cons, List.flatten_cons]
    rcases (Card.mem_strings_iff _).1 hs with ⟨x, _, hx⟩ | ⟨a, x, ha, _, hx⟩
    · rw [hx]; exact ⟨'1', _, rfl, Or.inl rfl⟩
    · rw [hx]; exact ⟨a, _, rfl, Or.inr ha⟩

/-- One more character in front of a card list in print spoils it. -/
theorem parse_cards_digit_fail (d : Char)
    (cs : List Card) (h : ∀ c ∈ cs, c ∈ Card.pack) :
    Card.parse_cards (d :: cards_data cs) = Outcome.throw Exn.invalid_argument := by
  cases hp : Card.parse_cards (d :: cards_data cs) with
  | throw e => rw [Card.parse_cards_throw _ _ hp]
  | ok cs' =>
    exfalso
    obtain ⟨h1, _, h3⟩ := (Card.parse_cards_ok_iff _ _).1 hp
    cases cs' with
    | nil =>
      have h0 : cards_data ([] : List Card) = [] := rfl
      rw [h0] at h3
      exact List.cons_ne_nil _ _ h3
    | cons c' cs'' =>
      have hs := (Card.pack_to_string c' (h1 c' (by simp))).2
      rw [Card.cards_data_eq (c' :: cs'')] at h3
      simp only [List.map_cons, List.flatten_cons] at h3
      have hnext : ∀ x : Char, (cards_data cs).head? = some x →
          x ≠ '0' ∧ Card.isSuitChar x = false := by
        intro x hx
        rcases cards_data_head cs h with h0 | ⟨a, rest, ha, hfig⟩
        · rw [h0] at hx; simp at hx
        · rw [ha] at hx
          simp only [List.head?_cons, Option.some.injEq] at hx
          subst hx
          rcases hfig with rfl | hfig
          · decide
          · rcases (Card.isFigureChar_iff a).1 hfig with
              rfl | rfl | rfl | rfl | rfl | rfl | rfl | rfl | rfl | rfl | rfl | rfl <;> decide
      rcases (Card.mem_strings_iff _).1 hs with ⟨x, _, hx⟩ | ⟨a, x, ha, hsuit, hx⟩
      · rw [hx] at h3
        simp only [List.cons_append, List.cons.injEq] at h3
        have := hnext '0' (by rw [h3.2]; rfl)
        exact this.1 rfl
      · rw [hx] at h3
        simp only [List.cons_append, List.cons.injEq] at h3
        have := hnext x (by rw [h3.2]; rfl)
        rw [hsuit] at this
        simp at this

theorem TRICK_roundtrip_one (d : Char) (n : Int) (hd : stoi [d] = ok (n, 1))
    (cs : List Card) (h : ∀ c ∈ cs, c ∈ Card.pack) (hnd : cs.Nodup) :
    TRICKMessage.from_string ("TRICK".toList ++ (d :: cards_data cs)) = TRICKMessage n cs := by
  have hlen : ¬ ("TRICK".toList ++ (d :: cards_data cs)).length < 6 := by
    simp [tag_TRICK]
  unfold TRICKMessage.from_string
  rw [if_neg hlen, TRICK_split _ 1 (by simp)]
  simp only [List.take_succ_cons, List.take_zero, hd, List.drop_succ_cons, List.drop_zero,
    (Card.parse_cards_ok_iff _ cs).2 ⟨h, hnd, rfl⟩, Outcome.bind, catchInvalid]

theorem TRICK_roundtrip_two (d2 : Char) (k n : Int) (h1 : stoi ['1'] = ok (k, 1))
    (h2 : stoi ['1', d2] = ok (n, 2))
    (cs : List Card) (h : ∀ c ∈ cs, c ∈ Card.pack) (hnd : cs.Nodup) :
    TRICKMessage.from_string ("TRICK".toList ++ ('1' :: d2 :: cards_data cs)) =
      TRICKMessage n cs := by
  have hlen : ¬ ("TRICK".toList ++ ('1' :: d2 :: cards_data cs)).length < 6 := by
    simp [tag_TRICK]
  unfold TRICKMessage.from_string
  rw [if_neg hlen, TRICK_split _ 1 (by simp), TRICK_split _ 2 (by simp)]
  simp only [List.take_succ_cons, List.take_zero, h1, h2, List.drop_succ_cons, List.drop_zero,
    (Card.parse_cards_ok_iff _ cs).2 ⟨h, hnd, rfl⟩, parse_cards_digit_fail d2 cs h,
    Outcome.bind, catchInvalid]

/-- Decoding what a legal `TRICK` message encodes to. -/
theorem TRICK_roundtrip (n : Int) (cs : List Card) (m : Message)
    (h : ∀ c ∈ cs, c ∈ Card.pack) (hnd : cs.Nodup) (hm : TRICKMessage n cs = ok m) :
    Message.from_string m.to_string = ok m := by
  obtain ⟨h1, h2, _, rfl⟩ := TRICK_ctor_ok n cs m hm
  simp only [Message.to_string, to_string_MessageType]
  rw [from_string_TRICK, ← hm]
  interval_cases n
  · exact TRICK_roundtrip_one '1' 1 (by decide) cs h hnd
  · exact TRICK_roundtrip_one '2' 2 (by decide) cs h hnd
  · exact TRICK_roundtrip_one '3' 3 (by decide) cs h hnd
  · exact TRICK_roundtrip_one '4' 4 (by decide) cs h hnd
  · exact TRICK_roundtrip_one '5' 5 (by decide) cs h hnd
  · exact TRICK_roundtrip_one '6' 6 (by decide) cs h hnd
  · exact TRICK_roundtrip_one '7' 7 (by decide) cs h hnd
  · exact TRICK_roundtrip_one '8' 8 (by decide) cs h hnd
  · exact TRICK_roundtrip_one '9' 9 (by decide) cs h hnd
  · exact TRICK_roundtrip_two '0' 1 10 (by decide) (by decide) cs h hnd
  · exact TRICK_roundtrip_two '1' 1 11 (by decide) (by decide) cs h hnd
  · exact TRICK_roundtrip_two '2' 1 12 (by decide) (by decide) cs h hnd
  · exact TRICK_roundtrip_two '3' 1 13 (by decide) (by decide) cs h hnd

/-! ### `WRONG` -/

theorem WRONG_from_string_ok (s : Str) (m : Message)
    (h : WRONGMessage.from_string s = ok m) : ∃ n, WRONGMessage n = ok m := by
  unfold WRONGMessage.from_string at h
  split at h
  · simp at h
  · obtain ⟨r, _, h2⟩ := bind_eq_ok _ _ _ h
    exact ⟨r, h2⟩

theorem WRONG_ctor_ok (n : Int) (m : Message) (h : WRONGMessage n = ok m) :
    1 ≤ n ∧ n ≤ 13 ∧ m = ⟨MessageType.WRONG, std_to_string n, Payload.WRONG n⟩ := by
  unfold WRONGMessage at h
  split at h
  · simp at h
  · simp only [ok.injEq] at h
    exact ⟨by omega, by omega, h.symm⟩

theorem WRONG_from_string_long (p : Str) (hp : 3 ≤ p.length) :
    WRONGMessage.from_string ("WRONG".toList ++ p) = Outcome.throw Exn.invalid_argument := by
  have hlen : ("WRONG".toList ++ p).length = 5 + p.length := by
    simp only [tag_WRONG, List.length_append, List.length_cons, List.length_nil]
  unfold WRONGMessage.from_string
  rw [if_pos (by omega)]

/-- Decoding what a legal `WRONG` message encodes to. -/
theorem WRONG_roundtrip (n : Int) (m : Message) (hm : WRONGMessage n = ok m) :
    Message.from_string m.to_string = ok m := by
  obtain ⟨h1, h2, rfl⟩ := WRONG_ctor_ok n m hm
  interval_cases n <;> decide

/-! ### `IAM` -/

theorem IAM_from_string_long (p : Str) (hp : 2 ≤ p.length) :
    IAMMessage.from_string ("IAM".toList ++ p) = Outcome.throw Exn.invalid_argument := by
  have hlen : ("IAM".toList ++ p).length = 3 + p.length := by
    simp only [tag_IAM, List.length_append, List.length_cons, List.length_nil]
  unfold IAMMessage.from_string
  rw [if_pos (by omega)]

/-- Decoding what an `IAM` message encodes to. -/
theorem IAM_roundtrip (position : Position) :
    Message.from_string (IAMMessage position).to_string = ok (IAMMessage position) := by
  cases position <;> decide

/-! ### `TAKEN` -/

/-- The attempts of `TAKENMessage::from_string`, in terms of the payload. -/
theorem TAKEN_split (a mid : Str) (z : Char) :
    TAKENMessage.from_string_split ("TAKEN".toList ++ (a ++ mid ++ [z])) a.length =
      (stoi a).bind fun r =>
      (Card.parse_cards mid).bind fun cards =>
      (from_string_Position [z]).bind fun taken_by => ok (r.1, cards, taken_by) := by
  have hlen : ("TAKEN".toList ++ (a ++ mid ++ [z])).length = 5 + a.length + mid.length + 1 := by
    simp only [tag_TAKEN, List.length_append, List.length_cons, List.length_nil]; omega
  have h1 : ¬ 5 > ("TAKEN".toList ++ (a ++ mid ++ [z])).length := by omega
  have h2 : ¬ 5 + a.length > ("TAKEN".toList ++ (a ++ mid ++ [z])).length := by omega
  have h3 : ¬ ("TAKEN".toList ++ (a ++ mid ++ [z])).length - 1 >
      ("TAKEN".toList ++ (a ++ mid ++ [z])).length := by omega
  have hd1 : (("TAKEN".toList ++ (a ++ mid ++ [z])).drop 5).take a.length = a := by
    rw [drop_tag "TAKEN".toList _ 5 0 rfl, List.drop_zero, List.append_assoc, List.take_left]
  have hd2 : (("TAKEN".toList ++ (a ++ mid ++ [z])).drop (5 + a.length)).take
      (("TAKEN".toList ++ (a ++ mid ++ [z])).length - (6 + a.length)) = mid := by
    have : 5 + a.length + mid.length + 1 - (6 + a.length) = mid.length := by omega
    rw [hlen, this, drop_tag "TAKEN".toList _ 5 a.length rfl, List.append_assoc, List.drop_left,
      List.take_left]
  have hd3 : ("TAKEN".toList ++ (a ++ mid ++ [z])).drop
      (("TAKEN".toList ++ (a ++ mid ++ [z])).length - 1) = [z] := by
    have : ("TAKEN".toList ++ (a ++ mid ++ [z])).length - 1 =
        ("TAKEN".toList ++ (a ++ mid)).length := by
      rw [hlen]
      simp only [tag_TAKEN, List.length_append, List.length_cons, List.length_nil]; omega
    rw [this, ← List.append_assoc, ← List.append_assoc, List.append_assoc "TAKEN".toList,
      List.drop_left]
  unfold TAKENMessage.from_string_split
  simp only [substr, substrFrom, if_neg h1, if_neg h2, if_neg h3, Outcome.bind, hd1, hd2, hd3]

theorem TAKEN_from_string_ok (s : Str) (m : Message)
    (h : TAKENMessage.from_string s = ok m) :
    ∃ n cs p, TAKENMessage n cs p = ok m := by
  unfold TAKENMessage.from_string at h
  split at h
  · simp at h
  · obtain ⟨r, _, h2⟩ := bind_eq_ok _ _ _ h
    exact ⟨r.1, r.2.1, r.2.2, h2⟩

theorem TAKEN_ctor_ok (n : Int) (cs : List Card) (p : Position) (m : Message)
    (h : TAKENMessage n cs p = ok m) :
    1 ≤ n ∧ n ≤ 13 ∧ cs.length = 4 ∧
      m = ⟨MessageType.TAKEN, std_to_string n ++ cards_data cs ++ to_string_Position p,
        Payload.TAKEN n cs p⟩ := by
  unfold TAKENMessage at h
  split at h
  · simp at h
  · split at h
    · simp at h
    · simp only [ok.injEq] at h
      refine ⟨by omega, by omega, by omega, h.symm⟩

/-- A payload of at least `w + 1` characters, cut after `w` and before the last. -/
theorem cut_payload (p : Str) (w : Nat) (h : w + 1 ≤ p.length) :
    ∃ a mid z, p = a ++ mid ++ [z] ∧ a.length = w ∧ mid.length = p.length - (w + 1) := by
  have hne : p.drop w ≠ [] := by
    intro h0
    have := congrArg List.length h0
    simp only [List.length_drop, List.length_nil] at this
    omega
  refine ⟨p.take w, (p.drop w).dropLast, (p.drop w).getLast hne, ?_, ?_, ?_⟩
  · rw [List.append_assoc, List.dropLast_append_getLast, List.take_append_drop]
  · simp only [List.length_take]; omega
  · simp only [List.length_dropLast, List.length_drop]; omega

theorem TAKEN_split_ok (a mid : Str) (z : Char) (n : Int) (cs : List Card) (pos : Position)
    (h : TAKENMessage.from_string_split ("TAKEN".toList ++ (a ++ mid ++ [z])) a.length =
      ok (n, cs, pos)) :
    (∀ c ∈ cs, c ∈ Card.pack) ∧ mid = cards_data cs := by
  rw [TAKEN_split] at h
  obtain ⟨r, _, h2⟩ := bind_eq_ok _ _ _ h
  obtain ⟨cs', h3, h4⟩ := bind_eq_ok _ _ _ h2
  obtain ⟨pos', _, h6⟩ := bind_eq_ok _ _ _ h4
  simp only [ok.injEq, Prod.mk.injEq] at h6
  rw [h6.2.1] at h3
  have := (Card.parse_cards_ok_iff _ _).1 h3
  exact ⟨this.1, this.2.2⟩

theorem TAKEN_split_throw (a mid : Str) (z : Char) (ha : a.length ≤ 2) (e : Exn)
    (h : TAKENMessage.from_string_split ("TAKEN".toList ++ (a ++ mid ++ [z])) a.length =
      Outcome.throw e) :
    e = Exn.invalid_argument := by
  rw [TAKEN_split] at h
  rcases bind_eq_throw _ _ _ h with h1 | ⟨r, _, h2⟩
  · exact stoi_short _ ha e h1
  · rcases bind_eq_throw _ _ _ h2 with h3 | ⟨cs, _, h4⟩
    · exact Card.parse_cards_throw _ _ h3
    · rcases bind_eq_throw _ _ _ h4 with h5 | ⟨pos, _, h6⟩
      · exact from_string_Position_throw _ _ h5
      · simp at h6

/-- A `TAKEN` body too long for four cards is rejected with `std::invalid_argument`. -/
theorem TAKEN_from_string_long (p : Str) (hp : 16 ≤ p.length) :
    TAKENMessage.from_string ("TAKEN".toList ++ p) = Outcome.throw Exn.invalid_argument := by
  have hlen : ("TAKEN".toList ++ p).length = 5 + p.length := by
    simp only [tag_TAKEN, List.length_append, List.length_cons, List.length_nil]
  have hctor : ∀ (w : Nat) (n : Int) (cs : List Card) (pos : Position), w ≤ 2 →
      TAKENMessage.from_string_split ("TAKEN".toList ++ p) w = ok (n, cs, pos) →
      TAKENMessage n cs pos = Outcome.throw Exn.invalid_argument := by
    intro w n cs pos hw h
    obtain ⟨a, mid, z, rfl, ha, hmid⟩ := cut_payload p w (by omega)
    rw [← ha] at h
    obtain ⟨h1, h3⟩ := TAKEN_split_ok a mid z n cs pos h
    have hl := cards_data_length_le cs h1
    rw [← h3, hmid] at hl
    unfold TAKENMessage
    split
    · rfl
    · rw [if_pos (by omega)]
  have hthrow : ∀ (w : Nat) (e : Exn), w ≤ 2 →
      TAKENMessage.from_string_split ("TAKEN".toList ++ p) w = Outcome.throw e →
      e = Exn.invalid_argument := by
    intro w e hw h
    obtain ⟨a, mid, z, rfl, ha, _⟩ := cut_payload p w (by omega)
    rw [← ha] at h
    exact TAKEN_split_throw a mid z (by omega) e h
  unfold TAKENMessage.from_string
  rw [if_neg (by omega)]
  cases h1 : TAKENMessage.from_string_split ("TAKEN".toList ++ p) 1 with
  | ok r => exact hctor 1 r.1 r.2.1 r.2.2 (by omega) h1
  | throw e1 =>
    have he1 := hthrow 1 e1 (by omega) h1
    subst he1
    cases h2 : TAKENMessage.from_string_split ("TAKEN".toList ++ p) 2 with
    | ok r => exact hctor 2 r.1 r.2.1 r.2.2 (by omega) h2
    | throw e2 =>
      have he2 := hthrow 2 e2 (by omega) h2
      subst he2
      rfl

theorem TAKEN_roundtrip_one (d : Char) (n : Int) (hd : stoi [d] = ok (n, 1))
    (cs : List Card) (h : ∀ c ∈ cs, c ∈ Card.pack) (hnd : cs.Nodup) (h4 : cs.length = 4)
    (pos : Position) :
    TAKENMessage.from_string ("TAKEN".toList ++ ([d] ++ cards_data cs ++ [pos.toChar])) =
      TAKENMessage n cs pos := by
  have hl := cards_data_length_ge cs h
  have hlen : ¬ ("TAKEN".toList ++ ([d] ++ cards_data cs ++ [pos.toChar])).length < 9 := by
    simp only [tag_TAKEN, List.length_append, List.length_cons, List.length_nil]; omega
  have hs := TAKEN_split [d] (cards_data cs) pos.toChar
  simp only [List.length_singleton] at hs
  unfold TAKENMessage.from_string
  rw [if_neg hlen, hs]
  simp only [hd, (Card.parse_cards_ok_iff _ cs).2 ⟨h, hnd, rfl⟩,
    (from_string_Position_ok _ pos).2 rfl, Outcome.bind, catchInvalid]

theorem TAKEN_roundtrip_two (d2 : Char) (k n : Int) (h1 : stoi ['1'] = ok (k, 1))
    (h2 : stoi ['1', d2] = ok (n, 2))
    (cs : List Card) (h : ∀ c ∈ cs, c ∈ Card.pack) (hnd : cs.Nodup) (h4 : cs.length = 4)
    (pos : Position) :
    TAKENMessage.from_string ("TAKEN".toList ++ (['1', d2] ++ cards_data cs ++ [pos.toChar])) =
      TAKENMessage n cs pos := by
  have hl := cards_data_length_ge cs h
  have hlen : ¬ ("TAKEN".toList ++ (['1', d2] ++ cards_data cs ++ [pos.toChar])).length < 9 := by
    simp only [tag_TAKEN, List.length_append, List.length_cons, List.length_nil]; omega
  have hs1 := TAKEN_split ['1'] (d2 :: cards_data cs) pos.toChar
  have hs2 := TAKEN_split ['1', d2] (cards_data cs) pos.toChar
  simp only [List.length_singleton, List.length_cons, List.length_nil, Nat.zero_add,
    Nat.reduceAdd] at hs1 hs2
  have he : ['1'] ++ d2 :: cards_data cs ++ [pos.toChar] =
      ['1', d2] ++ cards_data cs ++ [pos.toChar] := by simp
  rw [he] at hs1
  unfold TAKENMessage.from_string
  rw [if_neg hlen, hs1, hs2]
  simp only [h1, h2, (Card.parse_cards_ok_iff _ cs).2 ⟨h, hnd, rfl⟩,
    parse_cards_digit_fail d2 cs h,
    (from_string_Position_ok _ pos).2 rfl, Outcome.bind, catchInvalid]

/-- Decoding what a legal `TAKEN` message encodes to. -/
theorem TAKEN_roundtrip (n : Int) (cs : List Card) (pos : Position) (m : Message)
    (h : ∀ c ∈ cs, c ∈ Card.pack) (hnd : cs.Nodup)
    (hm : TAKENMessage n cs pos = ok m) :
    Message.from_string m.to_string = ok m := by
  obtain ⟨h1, h2, h4, rfl⟩ := TAKEN_ctor_ok n cs pos m hm
  simp only [Message.to_string, to_string_MessageType]
  rw [from_string_TAKEN, ← hm]
  interval_cases n
  · exact TAKEN_roundtrip_one '1' 1 (by decide) cs h hnd h4 pos
  · exact TAKEN_roundtrip_one '2' 2 (by decide) cs h hnd h4 pos
  · exact TAKEN_roundtrip_one '3' 3 (by decide) cs h hnd h4 pos
  · exact TAKEN_roundtrip_one '4' 4 (by decide) cs h hnd h4 pos
  · exact TAKEN_roundtrip_one '5' 5 (by decide) cs h hnd h4 pos
  · exact TAKEN_roundtrip_one '6' 6 (by decide) cs h hnd h4 pos
  · exact TAKEN_roundtrip_one '7' 7 (by decide) cs h hnd h4 pos
  · exact TAKEN_roundtrip_one '8' 8 (by decide) cs h hnd h4 pos
  · exact TAKEN_roundtrip_one '9' 9 (by decide) cs h hnd h4 pos
  · exact TAKEN_roundtrip_two '0' 1 10 (by decide) (by decide) cs h hnd h4 pos
  · exact TAKEN_roundtrip_two '1' 1 11 (by decide) (by decide) cs h hnd h4 pos
  · exact TAKEN_roundtrip_two '2' 1 12 (by decide) (by decide) cs h hnd h4 pos
  · exact TAKEN_roundtrip_two '3' 1 13 (by decide) (by decide) cs h hnd h4 pos

/-- Decoding what a legal `DEAL` message encodes to. -/
theorem DEAL_roundtrip (t : DealType) (pos : Position) (cs : List Card) (m : Message)
    (h : ∀ c ∈ cs, c ∈ Card.pack) (hnd : cs.Nodup)
    (hm : DEALMessage t pos cs = ok m) :
    Message.from_string m.to_string = ok m := by
  have h13 : cs.length = 13 := by
    by_contra hne
    simp [DEALMessage, hne] at hm
  have hm' := hm
  simp only [DEALMessage, h13, ne_eq, not_true_eq_false, ↓reduceIte, ok.injEq] at hm'
  subst hm'
  simp only [Message.to_string, to_string_MessageType]
  rw [from_string_DEAL]
  exact (DEAL_from_string_ok _ _).2 ⟨t, pos, cs, h, hnd, h13, rfl, hm⟩

/-- Decoding what a `BUSY` message with distinct seats encodes to. -/
theorem BUSY_roundtrip (ps : List Position) (hnd : ps.Nodup) :
    Message.from_string (BUSYMessage ps).to_string = ok (BUSYMessage ps) := by
  have hd := busy_data ps
  have : (BUSYMessage ps).to_string = "BUSY".toList ++ ps.map Position.toChar ++ CRLF := by
    simp only [Message.to_string, hd]
    rfl
  rw [this, from_string_BUSY]
  exact (BUSY_from_string_ok _ _).2 ⟨ps, hnd, rfl, rfl⟩

/-! ## `SCORE` and `TOTAL` -/

theorem score_group_at_some (s : Str) (i : Nat) (g rest : Str)
    (h : score_group_at s = some (i, g, rest)) :
    ∃ (p : Position) (ds : Str), g = p.toChar :: ds ∧ ds ≠ [] ∧
      (∀ c ∈ ds, isdigit c = true) ∧ s = g ++ rest := by
  unfold score_group_at at h
  cases s with
  | nil => simp at h
  | cons c t =>
    simp only at h
    have hsplit : t = List.takeWhile isdigit t ++ List.dropWhile isdigit t :=
      (List.takeWhile_append_dropWhile _ _).symm
    have hdig : ∀ x ∈ List.takeWhile isdigit t, isdigit x = true :=
      fun x hx => List.mem_takeWhile_imp hx
    split at h
    · simp at h
    · rename_i hne
      split at h
      · rename_i hc
        simp only [Option.some.injEq, Prod.mk.injEq] at h
        obtain ⟨_, rfl, rfl⟩ := h
        exact ⟨Position.North, _, by rw [hc]; rfl, hne, hdig, by
          simp only [List.cons_append, List.cons.injEq, true_and]; exact hsplit⟩
      · split at h
        · rename_i hc
          simp only [Option.some.injEq, Prod.mk.injEq] at h
          obtain ⟨_, rfl, rfl⟩ := h
          exact ⟨Position.East, _, by rw [hc]; rfl, hne, hdig, by
            simp only [List.cons_append, List.cons.injEq, true_and]; exact hsplit⟩
        · split at h
          · rename_i hc
            simp only [Option.some.injEq, Prod.mk.injEq] at h
            obtain ⟨_, rfl, rfl⟩ := h
            exact ⟨Position.South, _, by rw [hc]; rfl, hne, hdig, by
              simp only [List.cons_append, List.cons.injEq, true_and]; exact hsplit⟩
          · split at h
            · rename_i hc
              simp only [Option.some.injEq, Prod.mk.injEq] at h
              obtain ⟨_, rfl, rfl⟩ := h
              exact ⟨Position.West, _, by rw [hc]; rfl, hne, hdig, by
                simp only [List.cons_append, List.cons.injEq, true_and]; exact hsplit⟩
            · simp at h

/-- Every accepted repetition is a seat letter with a non-empty run of digits,
and the sub-matches hold nothing but such groups. -/
theorem score_groups_match_some (k : Nat) : ∀ (s : Str) (caps caps' : List Str),
    score_groups_match k s caps = some caps' →
    ∃ gs : List (Position × Str), gs.length = k ∧
      (∀ g ∈ gs, g.2 ≠ [] ∧ ∀ c ∈ g.2, isdigit c = true) ∧
      s = gs.flatMap (fun g => g.1.toChar :: g.2) ∧
      (∀ x ∈ caps', x ∈ caps ∨ ∃ g ∈ gs, x = g.1.toChar :: g.2) := by
  induction k with
  | zero =>
    intro s caps caps' h
    simp only [score_groups_match] at h
    split at h
    · rename_i hs
      simp only [Option.some.injEq] at h
      subst h
      exact ⟨[], rfl, by simp, by simp [hs], fun x hx => Or.inl hx⟩
    · simp at h
  | succ k ih =>
    intro s caps caps' h
    simp only [score_groups_match] at h
    cases hg : score_group_at s with
    | none => rw [hg] at h; simp at h
    | some r =>
      obtain ⟨i, g, rest⟩ := r
      rw [hg] at h
      simp only at h
      obtain ⟨p, ds, hgp, hne, hdig, hs⟩ := score_group_at_some s i g rest hg
      obtain ⟨gs, hlen, hall, hrest, hcaps⟩ := ih rest _ caps' h
      refine ⟨(p, ds) :: gs, by simp [hlen], ?_, ?_, ?_⟩
      · intro x hx
        rcases List.mem_cons.1 hx with rfl | hx
        · exact ⟨hne, hdig⟩
        · exact hall x hx
      · rw [hs, hgp, hrest]; simp
      · intro x hx
        rcases hcaps x hx with h1 | ⟨y, hy, rfl⟩
        · rcases List.mem_or_eq_of_mem_set h1 with h2 | h2
          · rcases List.mem_or_eq_of_mem_set h2 with h3 | h3
            · exact Or.inl h3
            · exact Or.inr ⟨(p, ds), by simp, by rw [h3, hgp]⟩
          · exact Or.inr ⟨(p, ds), by simp, by rw [h2, hgp]⟩
        · exact Or.inr ⟨y, by simp [hy], rfl⟩

/-- The keys the loop of `parse_score_message` adds come from the first letters
of the sub-matches. -/
theorem parse_score_loop_keys : ∀ (caps : List Str) (values values' : PosMap),
    parse_score_loop caps values = ok values' →
    ∀ p : Position, (values'.find p).isSome = true →
      (values.find p).isSome = true ∨ ∃ g ∈ caps, g.head? = some p.toChar := by
  intro caps
  induction caps with
  | nil =>
    intro values values' h p hp
    simp only [parse_score_loop, ok.injEq] at h
    subst h
    exact Or.inl hp
  | cons g gs ih =>
    intro values values' h p hp
    simp only [parse_score_loop] at h
    split at h
    · rcases ih values values' h p hp with h1 | ⟨x, hx, hh⟩
      · exact Or.inl h1
      · exact Or.inr ⟨x, by simp [hx], hh⟩
    · rename_i hne
      obtain ⟨q, hq, h1⟩ := bind_eq_ok _ _ _ h
      obtain ⟨digits, _, h2⟩ := bind_eq_ok _ _ _ h1
      obtain ⟨r, _, h3⟩ := bind_eq_ok _ _ _ h2
      have hq' := (from_string_Position_ok _ _).1 hq
      rcases ih _ values' h3 p hp with h4 | ⟨x, hx, hh⟩
      · by_cases hpq : p = q
        · subst hpq
          right
          refine ⟨g, by simp, ?_⟩
          cases g with
          | nil => exact absurd rfl hne
          | cons c t =>
            simp only [List.headD_cons, List.cons.injEq, and_true] at hq'
            simp [hq']
        · left
          cases p <;> cases q <;> first | exact absurd rfl hpq | simpa [PosMap.set, PosMap.find] using h4
      · exact Or.inr ⟨x, by simp [hx], hh⟩

theorem seats_perm (l : List Position) (hlen : l.length = 4) (h : ∀ p : Position, p ∈ l) :
    l.Perm seat_order := by
  match l, hlen with
  | [a, b, c, d], _ =>
    have hN := h Position.North
    have hE := h Position.East
    have hS := h Position.South
    have hW := h Position.West
    cases a <;> cases b <;> cases c <;> cases d <;>
      first
      | (simp at hN; done)
      | (simp at hE; done)
      | (simp at hS; done)
      | (simp at hW; done)
      | decide

theorem score_group_at_group (p : Position) (ds rest : Str) (hne : ds ≠ [])
    (hd : ∀ c ∈ ds, isdigit c = true) (hrest : ∀ c, rest.head? = some c → isdigit c = false) :
    score_group_at (p.toChar :: ds ++ rest) =
      some ((match p with
        | Position.North => 2
        | Position.East => 3
        | Position.South => 4
        | Position.West => 5), p.toChar :: ds, rest) := by
  have htake : List.takeWhile isdigit (ds ++ rest) = ds := by
    rw [List.takeWhile_append_of_pos (fun x hx => hd x hx)]
    cases rest with
    | nil => simp
    | cons r rs => simp [List.takeWhile_cons, hrest r rfl]
  have hdrop : List.dropWhile isdigit (ds ++ rest) = rest := by
    rw [List.dropWhile_append_of_pos (fun x hx => hd x hx)]
    cases rest with
    | nil => simp
    | cons r rs => simp [List.dropWhile_cons, hrest r rfl]
  cases p <;> simp [score_group_at, htake, hdrop, hne, Position.toChar]

theorem seat_letter_not_digit (p : Position) : isdigit p.toChar = false := by
  cases p <;> decide

/-- The repetitions of the score pattern over groups laid side by side: each group
is matched whole, and overwrites sub-match 1 and the sub-match of its seat. -/
theorem score_groups_match_groups (digits : Position → Str)
    (hdig : ∀ p, digits p ≠ [] ∧ ∀ c ∈ digits p, isdigit c = true) :
    ∀ (order : List Position) (caps : List Str),
      score_groups_match order.length (order.flatMap fun p => p.toChar :: digits p) caps =
        some (order.foldl (fun caps p =>
          (caps.set 0 (p.toChar :: digits p)).set
            ((match p with
              | Position.North => 2
              | Position.East => 3
              | Position.South => 4
              | Position.West => 5) - 1) (p.toChar :: digits p)) caps) := by
  intro order
  induction order with
  | nil => intro caps; simp [score_groups_match]
  | cons p ps ih =>
    intro caps
    have hrest : ∀ c, (ps.flatMap fun p => p.toChar :: digits p).head? = some c →
        isdigit c = false := by
      intro c hc
      cases ps with
      | nil => simp at hc
      | cons q qs =>
        simp only [List.flatMap_cons, List.cons_append, List.head?_cons,
          Option.some.injEq] at hc
        rw [← hc]; exact seat_letter_not_digit q
    have hg := score_group_at_group p (digits p) _ (hdig p).1 (hdig p).2 hrest
    simp only [List.length_cons, List.flatMap_cons, score_groups_match, List.foldl_cons]
    rw [hg]
    exact ih _

theorem score_caps_perm (G : Position → Str) (a b c d : Position)
    (h : [a, b, c, d].Perm seat_order) :
    [a, b, c, d].foldl (fun caps p =>
      (caps.set 0 (G p)).set
        ((match p with
          | Position.North => 2
          | Position.East => 3
          | Position.South => 4
          | Position.West => 5) - 1) (G p)) [[], [], [], [], []] =
      [G d, G Position.North, G Position.East, G Position.South, G Position.West] := by
  have hN := h.mem_iff.2 (by simp [seat_order] : Position.North ∈ seat_order)
  have hE := h.mem_iff.2 (by simp [seat_order] : Position.East ∈ seat_order)
  have hS := h.mem_iff.2 (by simp [seat_order] : Position.South ∈ seat_order)
  have hW := h.mem_iff.2 (by simp [seat_order] : Position.West ∈ seat_order)
  cases a <;> cases b <;> cases c <;> cases d <;>
    first
    | (simp at hN; done)
    | (simp at hE; done)
    | (simp at hS; done)
    | (simp at hW; done)
    | rfl

theorem std_to_string_nonneg (v : Int) (h : 0 ≤ v) :
    std_to_string v = Nat.toDigits 10 v.natAbs := by
  unfold std_to_string
  rw [if_neg (by omega)]

theorem std_to_string_digits (v : Int) (h : 0 ≤ v) :
    std_to_string v ≠ [] ∧ ∀ c ∈ std_to_string v, isdigit c = true := by
  rw [std_to_string_nonneg v h]
  exact ⟨(toDigits_spec _).1, (toDigits_spec _).2.1⟩

theorem stoi_std_to_string (v : Int) (h : 0 ≤ v) (hmax : v ≤ INT_MAX) :
    ∃ pos, stoi (std_to_string v) = ok (v, pos) := by
  rw [std_to_string_nonneg v h]
  have hv : ((v.natAbs : Nat) : Int) = v := Int.natAbs_of_nonneg h
  have := stoi_toDigits v.natAbs (by rw [hv]; exact hmax)
  rw [hv] at this
  exact ⟨_, this⟩

/-- One turn of the loop of `parse_score_message` on the group of a seat. -/
theorem parse_score_loop_group (p : Position) (v : Int) (h : 0 ≤ v) (hmax : v ≤ INT_MAX)
    (gs : List Str) (values : PosMap) :
    parse_score_loop ((p.toChar :: std_to_string v) :: gs) values =
      parse_score_loop gs (values.set p v) := by
  obtain ⟨pos, hs⟩ := stoi_std_to_string v h hmax
  have hsub : substrFrom (p.toChar :: std_to_string v) 1 = ok (std_to_string v) := by
    simp [substrFrom]
  simp only [parse_score_loop, reduceCtorEq, ↓reduceIte, List.headD_cons,
    (from_string_Position_ok _ p).2 rfl, Outcome.bind, hsub, hs]

/-- The map read from a line that lists the four seats in any order. -/
theorem parse_score_message_groups (mk : PosMap → Outcome Message) (tag : Str)
    (v : Position → Int) (hv : ∀ p, 0 ≤ v p ∧ v p ≤ INT_MAX)
    (order : List Position) (hperm : order.Perm seat_order) :
    parse_score_message mk
        (tag ++ order.flatMap fun p => to_string_Position p ++ std_to_string (v p)) tag =
      mk ⟨some (v Position.North), some (v Position.East), some (v Position.South),
        some (v Position.West)⟩ := by
  have hlen : order.length = 4 := by rw [hperm.length_eq]; rfl
  have hmatch := score_groups_match_groups (fun p => std_to_string (v p))
    (fun p => std_to_string_digits (v p) (hv p).1) order [[], [], [], [], []]
  rw [hlen] at hmatch
  have hpre : tag.isPrefixOf
      (tag ++ order.flatMap fun p => to_string_Position p ++ std_to_string (v p)) = true := by
    rw [ List.isPrefixOf_iff_prefix]; exact List.prefix_append _ _
  have hpay : (order.flatMap fun p => to_string_Position p ++ std_to_string (v p)) =
      order.flatMap fun p => p.toChar :: std_to_string (v p) := rfl
  unfold parse_score_message score_regex_match
  rw [if_pos hpre, List.drop_left, hpay, hmatch]
  match order, hlen with
  | [a, b, c, d], _ =>
    rw [score_caps_perm (fun p => p.toChar :: std_to_string (v p)) a b c d hperm]
    simp only
    rw [parse_score_loop_group d _ (hv d).1 (hv d).2,
      parse_score_loop_group _ _ (hv _).1 (hv _).2,
      parse_score_loop_group _ _ (hv _).1 (hv _).2,
      parse_score_loop_group _ _ (hv _).1 (hv _).2,
      parse_score_loop_group _ _ (hv _).1 (hv _).2]
    cases d <;> rfl

/-- What the constructors of `SCOREMessage` and `TOTALMessage` put in `data`. -/
theorem score_data_full (a b c d : Int) :
    score_data ⟨some a, some b, some c, some d⟩ seat_order [] =
      ok (seat_order.flatMap fun p => to_string_Position p ++ std_to_string
        (seat_values a b c d p)) := by
  simp [score_data, seat_order, PosMap.find, seat_values]

theorem posmap_full (values : PosMap) (h : values.size = 4) :
    ∀ p : Position, (values.find p).isSome = true := by
  obtain ⟨n, e, s, w⟩ := values
  intro p
  cases n <;> cases e <;> cases s <;> cases w <;> simp [PosMap.size] at h
  cases p <;> rfl

/-- An accepted score line lists each seat exactly once, with a non-empty run of
digits after each. -/
theorem parse_score_message_ok (mk : PosMap → Outcome Message) (tag payload : Str)
    (hmk : ∀ values m, mk values = ok m → values.size = 4) (m : Message)
    (h : parse_score_message mk (tag ++ payload) tag = ok m) :
    ∃ gs : List (Position × Str), (gs.map Prod.fst).Perm seat_order ∧
      (∀ g ∈ gs, g.2 ≠ [] ∧ ∀ c ∈ g.2, isdigit c = true) ∧
      payload = gs.flatMap (fun g => to_string_Position g.1 ++ g.2) := by
  unfold parse_score_message score_regex_match at h
  have hpre : tag.isPrefixOf (tag ++ payload) = true := by
    rw [ List.isPrefixOf_iff_prefix]; exact List.prefix_append _ _
  rw [if_pos hpre, List.drop_left] at h
  cases hm : score_groups_match 4 payload [[], [], [], [], []] with
  | none => rw [hm] at h; simp at h
  | some caps =>
    rw [hm] at h
    simp only at h
    obtain ⟨values, hloop, hmk'⟩ := bind_eq_ok _ _ _ h
    obtain ⟨gs, hlen, hall, hpay, hcaps⟩ := score_groups_match_some 4 _ _ _ hm
    have hsize := hmk values m hmk'
    have hsome := posmap_full values hsize
    have hmem : ∀ p : Position, p ∈ gs.map Prod.fst := by
      intro p
      rcases parse_score_loop_keys caps PosMap.empty values hloop p (hsome p) with h0 | ⟨x, hx, hh⟩
      · cases p <;> simp [PosMap.empty, PosMap.find] at h0
      · rcases hcaps x hx with h1 | ⟨g, hg, rfl⟩
        · simp only [List.mem_cons, List.mem_singleton, List.not_mem_nil, or_false,
            or_self] at h1
          subst h1
          simp at hh
        · simp only [List.head?_cons, Option.some.injEq] at hh
          have := toChar_injective hh
          exact List.mem_map.2 ⟨g, hg, this⟩
    exact ⟨gs, seats_perm _ (by simp [hlen]) hmem, hall, hpay⟩

/-! ## Round trips of `SCORE` and `TOTAL` -/

theorem SCORE_ctor_full (a b c d : Int) :
    SCOREMessage ⟨some a, some b, some c, some d⟩ =
      ok ⟨MessageType.SCORE,
        seat_order.flatMap (fun p => to_string_Position p ++ std_to_string
          (seat_values a b c d p)),
        Payload.SCORE ⟨some a, some b, some c, some d⟩⟩ := by
  unfold SCOREMessage
  rw [score_data_full]
  simp [PosMap.size, Outcome.bind]

theorem TOTAL_ctor_full (a b c d : Int) :
    TOTALMessage ⟨some a, some b, some c, some d⟩ =
      ok ⟨MessageType.TOTAL,
        seat_order.flatMap (fun p => to_string_Position p ++ std_to_string
          (seat_values a b c d p)),
        Payload.TOTAL ⟨some a, some b, some c, some d⟩⟩ := by
  unfold TOTALMessage
  rw [score_data_full]
  simp [PosMap.size, Outcome.bind]

theorem SCORE_ctor_size (values : PosMap) (m : Message) (h : SCOREMessage values = ok m) :
    values.size = 4 := by
  unfold SCOREMessage at h
  split at h
  · simp at h
  · rename_i hs; exact not_not.1 hs

theorem TOTAL_ctor_size (values : PosMap) (m : Message) (h : TOTALMessage values = ok m) :
    values.size = 4 := by
  unfold TOTALMessage at h
  split at h
  · simp at h
  · rename_i hs; exact not_not.1 hs

/-- A `SCORE` line that lists the four seats in any order decodes to the map of
its values. -/
theorem SCORE_any_order (v : Position → Int) (hv : ∀ p, 0 ≤ v p ∧ v p ≤ INT_MAX)
    (order : List Position) (hperm : order.Perm seat_order) :
    Message.from_string ("SCORE".toList ++
        (order.flatMap fun p => to_string_Position p ++ std_to_string (v p)) ++ CRLF) =
      ok ⟨MessageType.SCORE,
        seat_order.flatMap (fun p => to_string_Position p ++ std_to_string (v p)),
        Payload.SCORE ⟨some (v Position.North), some (v Position.East),
          some (v Position.South), some (v Position.West)⟩⟩ := by
  rw [from_string_SCORE]
  unfold SCOREMessage.from_string
  rw [parse_score_message_groups SCOREMessage _ v hv order hperm, SCORE_ctor_full]
  rfl

/-- A `TOTAL` line that lists the four seats in any order decodes to the map of
its values. -/
theorem TOTAL_any_order (v : Position → Int) (hv : ∀ p, 0 ≤ v p ∧ v p ≤ INT_MAX)
    (order : List Position) (hperm : order.Perm seat_order) :
    Message.from_string ("TOTAL".toList ++
        (order.flatMap fun p => to_string_Position p ++ std_to_string (v p)) ++ CRLF) =
      ok ⟨MessageType.TOTAL,
        seat_order.flatMap (fun p => to_string_Position p ++ std_to_string (v p)),
        Payload.TOTAL ⟨some (v Position.North), some (v Position.East),
          some (v Position.South), some (v Position.West)⟩⟩ := by
  rw [from_string_TOTAL]
  unfold TOTALMessage.from_string
  rw [parse_score_message_groups TOTALMessage _ v hv order hperm, TOTAL_ctor_full]
  rfl

theorem SCORE_roundtrip (a b c d : Int) (ha : 0 ≤ a ∧ a ≤ INT_MAX) (hb : 0 ≤ b ∧ b ≤ INT_MAX)
    (hc : 0 ≤ c ∧ c ≤ INT_MAX) (hd : 0 ≤ d ∧ d ≤ INT_MAX) :
    ∃ m, SCOREMessage ⟨some a, some b, some c, some d⟩ = ok m ∧
      Message.from_string m.to_string = ok m := by
  refine ⟨_, SCORE_ctor_full a b c d, ?_⟩
  have := SCORE_any_order (seat_values a b c d) (by intro p; cases p <;> assumption) seat_order (List.Perm.refl _)
  simp only [Message.to_string, to_string_MessageType]
  exact this

theorem TOTAL_roundtrip (a b c d : Int) (ha : 0 ≤ a ∧ a ≤ INT_MAX) (hb : 0 ≤ b ∧ b ≤ INT_MAX)
    (hc : 0 ≤ c ∧ c ≤ INT_MAX) (hd : 0 ≤ d ∧ d ≤ INT_MAX) :
    ∃ m, TOTALMessage ⟨some a, some b, some c, some d⟩ = ok m ∧
      Message.from_string m.to_string = ok m := by
  refine ⟨_, TOTAL_ctor_full a b c d, ?_⟩
  have := TOTAL_any_order (seat_values a b c d) (by intro p; cases p <;> assumption) seat_order (List.Perm.refl _)
  simp only [Message.to_string, to_string_MessageType]
  exact this

theorem TRICK_ctor_legal (n : Int) (cs : List Card) (h1 : 1 ≤ n) (h2 : n ≤ 13)
    (h3 : cs.length ≤ 3) : ∃ m, TRICKMessage n cs = ok m := by
  unfold TRICKMessage
  rw [if_neg (by omega), if_neg (by omega)]
  exact ⟨_, rfl⟩

theorem TAKEN_ctor_legal (n : Int) (cs : List Card) (p : Position) (h1 : 1 ≤ n) (h2 : n ≤ 13)
    (h3 : cs.length = 4) : ∃ m, TAKENMessage n cs p = ok m := by
  unfold TAKENMessage
  rw [if_neg (by omega), if_neg (by omega)]
  exact ⟨_, rfl⟩

theorem WRONG_ctor_legal (n : Int) (h1 : 1 ≤ n) (h2 : n ≤ 13) :
    ∃ m, WRONGMessage n = ok m := by
  unfold WRONGMessage
  rw [if_neg (by omega)]
  exact ⟨_, rfl⟩

theorem DEAL_ctor_legal (t : DealType) (p : Position) (cs : List Card)
    (h3 : cs.length = 13) : ∃ m, DEALMessage t p cs = ok m := by
  unfold DEALMessage
  rw [if_neg (by omega)]
  exact ⟨_, rfl⟩

/-! ## The claims about the codec -/

/-- C1. Decoding inverts encoding on every legal message: for an `IAM` with a
seat, a `BUSY` with 1 to 4 distinct seats, a `DEAL` with a deal type, an opener
and 13 distinct cards of the pack, a `TRICK` with a number 1 to 13 and at most 3
distinct cards, a `WRONG` with a number 1 to 13, a `TAKEN` with a number 1 to
13, 4 distinct cards and a seat, and a `SCORE` or `TOTAL` with a non-negative
`int` for each seat, the constructor builds a message `m` and
`Message::from_string(m.to_string())` returns `m` itself (same variant, same
fields). -/
theorem decode_encode_legal :
    (∀ position : Position,
      Message.from_string (IAMMessage position).to_string = ok (IAMMessage position)) ∧
    (∀ positions : List Position, positions ≠ [] → positions.Nodup →
      Message.from_string (BUSYMessage positions).to_string = ok (BUSYMessage positions)) ∧
    (∀ (deal_type : DealType) (first_player : Position) (cards : List Card),
      (∀ c ∈ cards, c ∈ Card.pack) → cards.Nodup → cards.length = 13 →
      ∃ m, DEALMessage deal_type first_player cards = ok m ∧
        Message.from_string m.to_string = ok m) ∧
    (∀ (trick_number : Int) (cards : List Card), 1 ≤ trick_number → trick_number ≤ 13 →
      (∀ c ∈ cards, c ∈ Card.pack) → cards.Nodup → cards.length ≤ 3 →
      ∃ m, TRICKMessage trick_number cards = ok m ∧
        m.payload = Payload.TRICK trick_number cards ∧
        Message.from_string m.to_string = ok m) ∧
    (∀ trick_number : Int, 1 ≤ trick_number → trick_number ≤ 13 →
      ∃ m, WRONGMessage trick_number = ok m ∧ Message.from_string m.to_string = ok m) ∧
    (∀ (trick_number : Int) (cards : List Card) (taken_by : Position),
      1 ≤ trick_number → trick_number ≤ 13 →
      (∀ c ∈ cards, c ∈ Card.pack) → cards.Nodup → cards.length = 4 →
      ∃ m, TAKENMessage trick_number cards taken_by = ok m ∧
        Message.from_string m.to_string = ok m) ∧
    (∀ a b c d : Int, (0 ≤ a ∧ a ≤ INT_MAX) → (0 ≤ b ∧ b ≤ INT_MAX) →
      (0 ≤ c ∧ c ≤ INT_MAX) → (0 ≤ d ∧ d ≤ INT_MAX) →
      ∃ m, SCOREMessage ⟨some a, some b, some c, some d⟩ = ok m ∧
        Message.from_string m.to_string = ok m) ∧
    (∀ a b c d : Int, (0 ≤ a ∧ a ≤ INT_MAX) → (0 ≤ b ∧ b ≤ INT_MAX) →
      (0 ≤ c ∧ c ≤ INT_MAX) → (0 ≤ d ∧ d ≤ INT_MAX) →
      ∃ m, TOTALMessage ⟨some a, some b, some c, some d⟩ = ok m ∧
        Message.from_string m.to_string = ok m) := by
  refine ⟨IAM_roundtrip, fun ps _ hnd => BUSY_roundtrip ps hnd, ?_, ?_, ?_, ?_,
    SCORE_roundtrip, TOTAL_roundtrip⟩
  · intro t p cs hc hnd h13
    obtain ⟨m, hm⟩ := DEAL_ctor_legal t p cs h13
    exact ⟨m, hm, DEAL_roundtrip t p cs m hc hnd hm⟩
  · intro n cs h1 h2 hc hnd h3
    obtain ⟨m, hm⟩ := TRICK_ctor_legal n cs h1 h2 h3
    refine ⟨m, hm, ?_, TRICK_roundtrip n cs m hc hnd hm⟩
    rw [(TRICK_ctor_ok n cs m hm).2.2.2]
  · intro n h1 h2
    obtain ⟨m, hm⟩ := WRONG_ctor_legal n h1 h2
    exact ⟨m, hm, WRONG_roundtrip n m hm⟩
  · intro n cs p h1 h2 hc hnd h4
    obtain ⟨m, hm⟩ := TAKEN_ctor_legal n cs p h1 h2 h4
    exact ⟨m, hm, TAKEN_roundtrip n cs p m hc hnd hm⟩

/-- C1, at trick 10 with the card `AS` (the line `TRICK10AS`) and at trick 1 with
the card `10S` (the line `TRICK110S`): the decoder returns 10 for the first and 1
for the second. -/
theorem decode_encode_legal_witness :
    Message.from_string "TRICK10AS\r\n".toList =
      ok ⟨MessageType.TRICK, "10AS".toList, Payload.TRICK 10 [⟨['A'], Color.Spades, 14⟩]⟩ ∧
    Message.from_string "TRICK110S\r\n".toList =
      ok ⟨MessageType.TRICK, "110S".toList,
        Payload.TRICK 1 [⟨['1', '0'], Color.Spades, 10⟩]⟩ := by
  obtain ⟨m1, hm1, _, hr1⟩ := decode_encode_legal.2.2.2.1 10 [⟨['A'], Color.Spades, 14⟩]
    (by decide) (by decide) (by decide) (by decide) (by decide)
  obtain ⟨m2, hm2, _, hr2⟩ := decode_encode_legal.2.2.2.1 1 [⟨['1', '0'], Color.Spades, 10⟩]
    (by decide) (by decide) (by decide) (by decide) (by decide)
  have e1 : TRICKMessage 10 [⟨['A'], Color.Spades, 14⟩] =
      ok ⟨MessageType.TRICK, "10AS".toList,
        Payload.TRICK 10 [⟨['A'], Color.Spades, 14⟩]⟩ := by decide
  have e2 : TRICKMessage 1 [⟨['1', '0'], Color.Spades, 10⟩] =
      ok ⟨MessageType.TRICK, "110S".toList,
        Payload.TRICK 1 [⟨['1', '0'], Color.Spades, 10⟩]⟩ := by decide
  rw [hm1] at e1
  rw [hm2] at e2
  simp only [ok.injEq] at e1 e2
  subst e1 e2
  exact ⟨hr1, hr2⟩

theorem strings_to_cards (ts : List Str) (cs : List Card) (hts : ∀ t ∈ ts, t ∈ Card.strings)
    (h : List.Forall₂ (fun t c => Card.Card_str t = ok c) ts cs) :
    (∀ c ∈ cs, c ∈ Card.pack) ∧ cs.map Card.to_string = ts := by
  induction h with
  | nil => simp
  | @cons t c ts' cs' hhead _ ih =>
    obtain ⟨c', h1, h2, h3⟩ := Card.strings_card t (hts t (by simp))
    rw [hhead] at h1
    simp only [ok.injEq] at h1
    subst h1
    obtain ⟨ih1, ih2⟩ := ih (fun x hx => hts x (by simp [hx]))
    refine ⟨?_, by simp [h3, ih2]⟩
    intro x hx
    rcases List.mem_cons.1 hx with rfl | hx
    · exact h2
    · exact ih1 x hx

theorem cards_to_strings (cs : List Card) (h : ∀ c ∈ cs, c ∈ Card.pack) :
    List.Forall₂ (fun t c => Card.Card_str t = ok c) (cs.map Card.to_string) cs := by
  rw [List.forall₂_map_left_iff, List.forall₂_same]
  intro c hc
  exact (Card.pack_to_string c (h c hc)).1

theorem to_string_nodup (cs : List Card) (h : ∀ c ∈ cs, c ∈ Card.pack) :
    (cs.map Card.to_string).Nodup ↔ cs.Nodup := by
  constructor
  · exact List.Nodup.of_map _
  · intro hnd
    refine (List.nodup_map_iff_inj_on hnd).2 ?_
    intro a ha b hb hab
    have h1 := (Card.pack_to_string a (h a ha)).1
    have h2 := (Card.pack_to_string b (h b hb)).1
    rw [hab, h2] at h1
    simpa using h1.symm

/-- C5. `Card::parse_cards(s)` returns `cs` exactly when `s` is a run of valid card
representations (a figure `2` to `10`, `J`, `Q`, `K` or `A` and a suit letter)
side by side, none occurring twice, and `cs` are the cards of these
representations in the order of the input; concatenating the `to_string()` of the
cards returned gives `s` back; on every other input it throws
`std::invalid_argument`; the empty string yields the empty list. -/
theorem parse_cards_spec (s : Str) :
    (∀ cs : List Card, Card.parse_cards s = ok cs ↔
      ∃ ts : List Str, (∀ t ∈ ts, t ∈ Card.strings) ∧ ts.Nodup ∧ s = ts.flatten ∧
        List.Forall₂ (fun t c => Card.Card_str t = ok c) ts cs) ∧
    (∀ cs : List Card, Card.parse_cards s = ok cs → (cs.map Card.to_string).flatten = s) ∧
    ((¬ ∃ ts : List Str, (∀ t ∈ ts, t ∈ Card.strings) ∧ ts.Nodup ∧ s = ts.flatten) →
      Card.parse_cards s = Outcome.throw Exn.invalid_argument) ∧
    Card.parse_cards [] = ok [] := by
  have hfwd : ∀ cs : List Card, Card.parse_cards s = ok cs →
      ∃ ts : List Str, (∀ t ∈ ts, t ∈ Card.strings) ∧ ts.Nodup ∧ s = ts.flatten ∧
        List.Forall₂ (fun t c => Card.Card_str t = ok c) ts cs := by
    intro cs h
    obtain ⟨h1, h2, h3⟩ := (Card.parse_cards_ok_iff s cs).1 h
    refine ⟨cs.map Card.to_string, ?_, (to_string_nodup cs h1).2 h2, ?_, cards_to_strings cs h1⟩
    · intro t ht
      obtain ⟨c, hc, rfl⟩ := List.mem_map.1 ht
      exact (Card.pack_to_string c (h1 c hc)).2
    · rw [h3, Card.cards_data_eq]
  refine ⟨fun cs => ⟨hfwd cs, ?_⟩, ?_, ?_, by decide⟩
  · rintro ⟨ts, hts, hnd, rfl, hf⟩
    obtain ⟨h1, h2⟩ := strings_to_cards ts cs hts hf
    refine (Card.parse_cards_ok_iff _ cs).2 ⟨h1, ?_, ?_⟩
    · rw [← h2] at hnd
      exact (to_string_nodup cs h1).1 hnd
    · rw [Card.cards_data_eq, h2]
  · intro cs h
    obtain ⟨_, _, h3⟩ := (Card.parse_cards_ok_iff s cs).1 h
    rw [h3, Card.cards_data_eq]
  · intro hno
    cases hp : Card.parse_cards s with
    | ok cs =>
      obtain ⟨ts, h1, h2, h3, _⟩ := hfwd cs hp
      exact absurd ⟨ts, h1, h2, h3⟩ hno
    | throw e => rw [Card.parse_cards_throw s e hp]

/-- C5, at the input `ASKH10D` of the repository's test and at an input with a
leftover character. -/
theorem parse_cards_spec_witness :
    (Card.parse_cards "ASKH10D".toList = ok [⟨['A'], Color.Spades, 14⟩,
      ⟨['K'], Color.Hearts, 13⟩, ⟨['1', '0'], Color.Diamonds, 10⟩] ↔
      ∃ ts : List Str, (∀ t ∈ ts, t ∈ Card.strings) ∧ ts.Nodup ∧
        "ASKH10D".toList = ts.flatten ∧
        List.Forall₂ (fun t c => Card.Card_str t = ok c) ts [⟨['A'], Color.Spades, 14⟩,
          ⟨['K'], Color.Hearts, 13⟩, ⟨['1', '0'], Color.Diamonds, 10⟩]) ∧
    (Card.parse_cards "ASKH10D".toList = ok [⟨['A'], Color.Spades, 14⟩,
      ⟨['K'], Color.Hearts, 13⟩, ⟨['1', '0'], Color.Diamonds, 10⟩] →
      ([⟨['A'], Color.Spades, 14⟩, ⟨['K'], Color.Hearts, 13⟩,
        ⟨['1', '0'], Color.Diamonds, 10⟩].map Card.to_string).flatten = "ASKH10D".toList) :=
  ⟨(parse_cards_spec "ASKH10D".toList).1 _, (parse_cards_spec "ASKH10D".toList).2.1 _⟩

/-- C10. The constructor `Card::Card(str)` accepts strings that are not valid card
representations: `JJS` (only the first character of the figure is looked at for
`J`, `Q`, `K`, `A`), and ` 2S`, `+2S`, `02S` (`std::stoi` skips white space, a
sign and leading zeros); and on `99999999999S` it throws `std::out_of_range`,
not `std::invalid_argument`. It does reject `11S`. -/
theorem Card_str_accepts_invalid :
    Card.Card_str "JJS".toList = ok ⟨"JJ".toList, Color.Spades, 11⟩ ∧
    "JJS".toList ∉ Card.strings ∧
    Card.Card_str " 2S".toList = ok ⟨" 2".toList, Color.Spades, 2⟩ ∧
    " 2S".toList ∉ Card.strings ∧
    Card.Card_str "+2S".toList = ok ⟨"+2".toList, Color.Spades, 2⟩ ∧
    Card.Card_str "02S".toList = ok ⟨"02".toList, Color.Spades, 2⟩ ∧
    Card.Card_str "99999999999S".toList = Outcome.throw Exn.out_of_range ∧
    Card.Card_str "11S".toList = Outcome.throw Exn.invalid_argument := by
  decide

/-- C2. The decoder accepts lines that are not in canonical form: in `TRICK5XAS`
the character `X` belongs to no number, card or seat, yet the line decodes to
trick 5 with the card `AS`, which encodes to `TRICK5AS`; `TRICK05AS`, `TRICK 5AS`
and `TAKEN5XASKH10D7CN` are accepted likewise, and so are `WRONG05`, `WRONG 5`
and `WRONG+5`, which decode to `WRONG` 5. -/
theorem noncanonical_lines_accepted :
    Message.from_string "TRICK5XAS\r\n".toList =
      ok ⟨MessageType.TRICK, "5AS".toList, Payload.TRICK 5 [⟨['A'], Color.Spades, 14⟩]⟩ ∧
    (⟨MessageType.TRICK, "5AS".toList, Payload.TRICK 5 [⟨['A'], Color.Spades, 14⟩]⟩ :
      Message).to_string = "TRICK5AS\r\n".toList ∧
    (⟨MessageType.TRICK, "5AS".toList, Payload.TRICK 5 [⟨['A'], Color.Spades, 14⟩]⟩ :
      Message).to_string ≠ "TRICK5XAS\r\n".toList ∧
    Message.from_string "TRICK05AS\r\n".toList =
      ok ⟨MessageType.TRICK, "5AS".toList, Payload.TRICK 5 [⟨['A'], Color.Spades, 14⟩]⟩ ∧
    Message.from_string "TRICK 5AS\r\n".toList =
      ok ⟨MessageType.TRICK, "5AS".toList, Payload.TRICK 5 [⟨['A'], Color.Spades, 14⟩]⟩ ∧
    (Message.from_string "TAKEN5XASKH10D7CN\r\n".toList).isOk = true ∧
    Message.from_string "WRONG05\r\n".toList =
      ok ⟨MessageType.WRONG, "5".toList, Payload.WRONG 5⟩ ∧
    Message.from_string "WRONG 5\r\n".toList =
      ok ⟨MessageType.WRONG, "5".toList, Payload.WRONG 5⟩ ∧
    Message.from_string "WRONG+5\r\n".toList =
      ok ⟨MessageType.WRONG, "5".toList, Payload.WRONG 5⟩ := by
  decide

/-- C4. Decoding has a second failure kind: on the line `SCOREN99999999999E0S0W0`
(25 characters with its CRLF) `Message::from_string` throws `std::out_of_range`,
which the `catch (std::invalid_argument &)` of `handle_messages` does not
absorb; the same holds for `TOTAL`. -/
theorem score_overflow_out_of_range :
    Message.from_string "SCOREN99999999999E0S0W0\r\n".toList =
      Outcome.throw Exn.out_of_range ∧
    Message.from_string "TOTALN0E0S0W2147483648\r\n".toList =
      Outcome.throw Exn.out_of_range ∧
    "SCOREN99999999999E0S0W0\r\n".toList.length = 25 := by
  decide

theorem BUSY_from_string_long (p : Str) (hp : 5 ≤ p.length) :
    BUSYMessage.from_string ("BUSY".toList ++ p) = Outcome.throw Exn.invalid_argument := by
  have hlen : ("BUSY".toList ++ p).length = 4 + p.length := by
    simp only [tag_BUSY, List.length_append, List.length_cons, List.length_nil]
  unfold BUSYMessage.from_string
  rw [if_pos (by omega)]

theorem DEAL_from_string_long (p : Str) (hp : 42 ≤ p.length) :
    DEALMessage.from_string ("DEAL".toList ++ p) = Outcome.throw Exn.invalid_argument := by
  cases h : DEALMessage.from_string ("DEAL".toList ++ p) with
  | throw e => rw [DEAL_from_string_throw p e h]
  | ok m =>
    exfalso
    obtain ⟨t, pos, cs, h1, _, h13, hpay, _⟩ := (DEAL_from_string_ok p m).1 h
    have hl := cards_data_length_le cs h1
    have ht : (to_string_DealType t).length = 1 := by cases t <;> rfl
    rw [hpay] at hp
    simp only [List.length_append, ht, to_string_Position, List.length_singleton] at hp
    omega

theorem tagged_length (tag p : Str) (k : Nat) (hk : tag.length = k) :
    (tag ++ p ++ CRLF).length = k + p.length + 2 := by
  simp only [CRLF, List.length_append, hk, List.length_cons, List.length_nil]

/-- C3, as the code has it. `Message::from_string` throws `std::invalid_argument`
for every input that does not end with CRLF, and for every input longer than 50
characters (CRLF counted) that does not start with `SCORE` or `TOTAL`. It has
no length test of its own: the bound for the other tags follows from what they
can hold. -/
theorem from_string_rejects (str : Str) :
    ((¬ ∃ body, str = body ++ CRLF) →
      Message.from_string str = Outcome.throw Exn.invalid_argument) ∧
    (50 < str.length → (¬ ∃ rest, str = "SCORE".toList ++ rest) →
      (¬ ∃ rest, str = "TOTAL".toList ++ rest) →
      Message.from_string str = Outcome.throw Exn.invalid_argument) := by
  refine ⟨from_string_no_CRLF str, ?_⟩
  intro hlen hS hT
  rcases from_string_inversion str with h | ⟨p, rfl, h⟩ | ⟨p, rfl, h⟩ | ⟨p, rfl, h⟩ |
    ⟨p, rfl, h⟩ | ⟨p, rfl, h⟩ | ⟨p, rfl, h⟩ | ⟨p, rfl, _⟩ | ⟨p, rfl, _⟩
  · exact h
  · rw [tagged_length "IAM".toList p 3 rfl] at hlen
    rw [h]; exact IAM_from_string_long p (by omega)
  · rw [tagged_length "BUSY".toList p 4 rfl] at hlen
    rw [h]; exact BUSY_from_string_long p (by omega)
  · rw [tagged_length "DEAL".toList p 4 rfl] at hlen
    rw [h]; exact DEAL_from_string_long p (by omega)
  · rw [tagged_length "TRICK".toList p 5 rfl] at hlen
    rw [h]; exact TRICK_from_string_long p (by omega)
  · rw [tagged_length "WRONG".toList p 5 rfl] at hlen
    rw [h]; exact WRONG_from_string_long p (by omega)
  · rw [tagged_length "TAKEN".toList p 5 rfl] at hlen
    rw [h]; exact TAKEN_from_string_long p (by omega)
  · exact absurd ⟨p ++ CRLF, by simp⟩ hS
  · exact absurd ⟨p ++ CRLF, by simp⟩ hT

/-- C3 as amended, at `IAMN` without its CRLF and at a `TRICK` line of 51
characters. -/
theorem from_string_rejects_witness :
    Message.from_string "IAMN".toList = Outcome.throw Exn.invalid_argument ∧
    Message.from_string
        "TRICK1ASKSQSJS10S9S8S7S6S5S4S3S2SAHKHQHJH10H9H8H7\r\n".toList =
      Outcome.throw Exn.invalid_argument :=
  ⟨(from_string_rejects "IAMN".toList).1 (by
      rintro ⟨body, h⟩
      have h2 := congrArg List.reverse h
      simp only [List.reverse_append] at h2
      revert h2
      simp [CRLF]),
    (from_string_rejects
        "TRICK1ASKSQSJS10S9S8S7S6S5S4S3S2SAHKHQHJH10H9H8H7\r\n".toList).2 (by decide)
      (by rintro ⟨rest, h⟩; simp [tag_SCORE] at h)
      (by rintro ⟨rest, h⟩; simp [tag_TOTAL] at h)⟩

/-- C3 fails as stated: the `SCORE` line below is 51 characters long, CRLF counted,
and `Message::from_string` accepts it. -/
theorem from_string_accepts_51 :
    50 < "SCOREN1000000000E1000000000S1000000000W1000000000\r\n".toList.length ∧
    Message.from_string "SCOREN1000000000E1000000000S1000000000W1000000000\r\n".toList =
      ok ⟨MessageType.SCORE, "N1000000000E1000000000S1000000000W1000000000".toList,
        Payload.SCORE ⟨some 1000000000, some 1000000000, some 1000000000,
          some 1000000000⟩⟩ := by
  decide

/-- C6, as the code has it. `Message::from_string` accepts a `BUSY` line exactly
when the payload after `BUSY` is a run of seat letters none of which repeats,
the empty run included (so 0 to 4 letters), and returns the `BUSY` message of
these seats; every other `BUSY` line (an unknown letter, a repeated seat, more
than 4 letters) fails with `std::invalid_argument`. -/
theorem BUSY_accepts_iff (payload : Str) :
    (∀ m, Message.from_string ("BUSY".toList ++ payload ++ CRLF) = ok m ↔
      ∃ positions : List Position, positions.Nodup ∧
        payload = positions.map Position.toChar ∧ m = BUSYMessage positions) ∧
    ((¬ ∃ positions : List Position, positions.Nodup ∧
        payload = positions.map Position.toChar) →
      Message.from_string ("BUSY".toList ++ payload ++ CRLF) =
        Outcome.throw Exn.invalid_argument) ∧
    (∀ positions : List Position, positions.Nodup → positions.length ≤ 4) := by
  rw [from_string_BUSY]
  refine ⟨fun m => BUSY_from_string_ok payload m, ?_, position_nodup_length⟩
  intro hno
  cases h : BUSYMessage.from_string ("BUSY".toList ++ payload) with
  | ok m =>
    obtain ⟨ps, h1, h2, _⟩ := (BUSY_from_string_ok payload m).1 h
    exact absurd ⟨ps, h1, h2⟩ hno
  | throw e => rw [BUSY_from_string_throw payload e h]

/-- C6 as amended, at the payloads `NS` (accepted) and `NN` (rejected). -/
theorem BUSY_accepts_iff_witness :
    (Message.from_string ("BUSY".toList ++ "NS".toList ++ CRLF) =
        ok (BUSYMessage [Position.North, Position.South]) ↔
      ∃ positions : List Position, positions.Nodup ∧
        "NS".toList = positions.map Position.toChar ∧
        BUSYMessage [Position.North, Position.South] = BUSYMessage positions) ∧
    Message.from_string ("BUSY".toList ++ "NN".toList ++ CRLF) =
      Outcome.throw Exn.invalid_argument :=
  ⟨(BUSY_accepts_iff "NS".toList).1 _,
    (BUSY_accepts_iff "NN".toList).2.1 (by
      rintro ⟨ps, hnd, h⟩
      match ps, hnd, h with
      | [a, b], hnd, h =>
        cases a <;> cases b <;> first | (revert hnd; decide) | (revert h; decide)
      | [], _, h => simp at h
      | [_], _, h => simp at h
      | _ :: _ :: _ :: _, _, h => simp at h)⟩

/-- C6 fails as stated: a `BUSY` line with no seat at all is accepted. -/
theorem BUSY_accepts_no_seat :
    Message.from_string "BUSY\r\n".toList = ok (BUSYMessage []) := by
  decide

theorem DEAL_ctor_13 (t : DealType) (pos : Position) (cs : List Card) (h : cs.length = 13) :
    DEALMessage t pos cs = ok ⟨MessageType.DEAL,
      to_string_DealType t ++ to_string_Position pos ++ cards_data cs,
      Payload.DEAL t pos cs⟩ := by
  unfold DEALMessage
  rw [if_neg (by omega)]

/-- C7. `Message::from_string` accepts a `DEAL` line exactly when the payload after
`DEAL` is one digit `1` to `7`, one seat letter and the representations of
exactly 13 distinct cards of the pack, and then returns the `DEAL` of that deal
type, opener and cards; every other `DEAL` line (12 or 14 cards, a repeated card,
a deal type outside 1..7, an unknown opener letter) fails with
`std::invalid_argument`. -/
theorem DEAL_accepts_iff (payload : Str) :
    (∀ m, Message.from_string ("DEAL".toList ++ payload ++ CRLF) = ok m ↔
      ∃ (d : Char) (first_player : Position) (cards : List Card),
        d ∈ "1234567".toList ∧ (∀ c ∈ cards, c ∈ Card.pack) ∧ cards.Nodup ∧
        cards.length = 13 ∧
        payload = d :: first_player.toChar :: cards_data cards ∧
        m = ⟨MessageType.DEAL, payload,
          Payload.DEAL (DealType.ofInt ((d.toNat : Int) - 48)) first_player cards⟩) ∧
    ((¬ ∃ (d : Char) (first_player : Position) (cards : List Card),
        d ∈ "1234567".toList ∧ (∀ c ∈ cards, c ∈ Card.pack) ∧ cards.Nodup ∧
        cards.length = 13 ∧ payload = d :: first_player.toChar :: cards_data cards) →
      Message.from_string ("DEAL".toList ++ payload ++ CRLF) =
        Outcome.throw Exn.invalid_argument) := by
  rw [from_string_DEAL]
  have hfwd : ∀ m, DEALMessage.from_string ("DEAL".toList ++ payload) = ok m →
      ∃ (d : Char) (first_player : Position) (cards : List Card),
        d ∈ "1234567".toList ∧ (∀ c ∈ cards, c ∈ Card.pack) ∧ cards.Nodup ∧
        cards.length = 13 ∧
        payload = d :: first_player.toChar :: cards_data cards ∧
        m = ⟨MessageType.DEAL, payload,
          Payload.DEAL (DealType.ofInt ((d.toNat : Int) - 48)) first_player cards⟩ := by
    intro m h
    obtain ⟨t, pos, cs, h1, h2, h13, hpay, hm⟩ := (DEAL_from_string_ok payload m).1 h
    obtain ⟨d, hd1, hd2, hd3⟩ := dealtype_digit t
    rw [DEAL_ctor_13 t pos cs h13] at hm
    simp only [ok.injEq] at hm
    refine ⟨d, pos, cs, hd1, h1, h2, h13, ?_, ?_⟩
    · rw [hpay, hd2]; rfl
    · rw [← hm, hd3, hpay]
  refine ⟨fun m => ⟨hfwd m, ?_⟩, ?_⟩
  · rintro ⟨d, pos, cs, hd, h1, h2, h13, hpay, rfl⟩
    refine (DEAL_from_string_ok payload _).2
      ⟨DealType.ofInt ((d.toNat : Int) - 48), pos, cs, h1, h2, h13, ?_, ?_⟩
    · rw [hpay, digit_dealtype d hd]; rfl
    · rw [DEAL_ctor_13 _ pos cs h13, digit_dealtype d hd, hpay]; rfl
  · intro hno
    cases h : DEALMessage.from_string ("DEAL".toList ++ payload) with
    | ok m =>
      obtain ⟨d, pos, cs, h1, h2, h3, h4, h5, _⟩ := hfwd m h
      exact absurd ⟨d, pos, cs, h1, h2, h3, h4, h5⟩ hno
    | throw e => rw [DEAL_from_string_throw payload e h]

/-- C7, at the line of the repository's test (accepted) and at the same line with
its last card removed (12 cards, rejected). -/
theorem DEAL_accepts_iff_witness :
    (Message.from_string "DEAL1NAS2S3S4S5S6S7S8S9S10SJSQSKS\r\n".toList).isOk = true ∧
    Message.from_string ("DEAL".toList ++ "1NAS2S3S4S5S6S7S8S9S10SJSQS".toList ++ CRLF) =
      Outcome.throw Exn.invalid_argument :=
  ⟨by decide,
    (DEAL_accepts_iff "1NAS2S3S4S5S6S7S8S9S10SJSQS".toList).2 (by
      rintro ⟨d, pos, cs, _, h1, _, h13, hpay⟩
      have hl := cards_data_length_ge cs h1
      have := congrArg List.length hpay
      simp only [List.length_cons] at this
      have h27 : "1NAS2S3S4S5S6S7S8S9S10SJSQS".toList.length = 27 := by decide
      omega)⟩

theorem IAM_from_string_payload (s : Str) (m : Message)
    (h : IAMMessage.from_string s = ok m) : ∃ p, m.payload = Payload.IAM p := by
  unfold IAMMessage.from_string at h
  split at h
  · simp at h
  · obtain ⟨_, _, h1⟩ := bind_eq_ok _ _ _ h
    obtain ⟨p, _, h2⟩ := bind_eq_ok _ _ _ h1
    simp only [ok.injEq] at h2
    exact ⟨p, by rw [← h2]; rfl⟩

theorem parse_score_message_payload (mk : PosMap → Outcome Message) (s tag : Str)
    (m : Message) (h : parse_score_message mk s tag = ok m) : ∃ values, mk values = ok m := by
  unfold parse_score_message at h
  split at h
  · simp at h
  · obtain ⟨values, _, h1⟩ := bind_eq_ok _ _ _ h
    exact ⟨values, h1⟩

theorem SCORE_ctor_payload (values : PosMap) (m : Message)
    (h : SCOREMessage values = ok m) : m.payload = Payload.SCORE values := by
  unfold SCOREMessage at h
  split at h
  · simp at h
  · obtain ⟨data, _, h1⟩ := bind_eq_ok _ _ _ h
    simp only [ok.injEq] at h1
    rw [← h1]

theorem TOTAL_ctor_payload (values : PosMap) (m : Message)
    (h : TOTALMessage values = ok m) : m.payload = Payload.TOTAL values := by
  unfold TOTALMessage at h
  split at h
  · simp at h
  · obtain ⟨data, _, h1⟩ := bind_eq_ok _ _ _ h
    simp only [ok.injEq] at h1
    rw [← h1]

/-- C8. Whenever `Message::from_string` returns a `TRICK`, `WRONG` or `TAKEN`
message its trick number is in 1..13, a `TRICK` carries at most 3 cards and a
`TAKEN` exactly 4; and the constructors `TRICKMessage`, `WRONGMessage` and
`TAKENMessage` throw `std::invalid_argument` for every trick number outside
1..13, for a `TRICK` with more than 3 cards and for a `TAKEN` with a number of
cards other than 4. -/
theorem trick_number_bounds :
    (∀ (str : Str) (m : Message), Message.from_string str = ok m →
      (∀ n cards, m.payload = Payload.TRICK n cards →
        1 ≤ n ∧ n ≤ 13 ∧ cards.length ≤ 3) ∧
      (∀ n, m.payload = Payload.WRONG n → 1 ≤ n ∧ n ≤ 13) ∧
      (∀ n cards p, m.payload = Payload.TAKEN n cards p →
        1 ≤ n ∧ n ≤ 13 ∧ cards.length = 4)) ∧
    (∀ (n : Int) (cards : List Card), (n < 1 ∨ 13 < n ∨ 3 < cards.length) →
      TRICKMessage n cards = Outcome.throw Exn.invalid_argument) ∧
    (∀ n : Int, (n < 1 ∨ 13 < n) →
      WRONGMessage n = Outcome.throw Exn.invalid_argument) ∧
    (∀ (n : Int) (cards : List Card) (p : Position),
      (n < 1 ∨ 13 < n ∨ cards.length ≠ 4) →
      TAKENMessage n cards p = Outcome.throw Exn.invalid_argument) := by
  refine ⟨?_, ?_, ?_, ?_⟩
  · intro str m hm
    rcases from_string_inversion str with h | ⟨p, _, h⟩ | ⟨p, _, h⟩ | ⟨p, _, h⟩ |
      ⟨p, _, h⟩ | ⟨p, _, h⟩ | ⟨p, _, h⟩ | ⟨p, _, h⟩ | ⟨p, _, h⟩
    · rw [h] at hm; simp at hm
    · rw [h] at hm
      obtain ⟨q, hq⟩ := IAM_from_string_payload _ m hm
      simp [hq]
    · rw [h] at hm
      obtain ⟨ps, _, _, rfl⟩ := (BUSY_from_string_ok p m).1 hm
      simp [BUSYMessage]
    · rw [h] at hm
      obtain ⟨t, pos, cs, _, _, h13, _, hctor⟩ := (DEAL_from_string_ok p m).1 hm
      rw [DEAL_ctor_13 t pos cs h13] at hctor
      simp only [ok.injEq] at hctor
      simp [← hctor]
    · rw [h] at hm
      obtain ⟨n, cs, hctor⟩ := TRICK_from_string_ok _ m hm
      obtain ⟨h1, h2, h3, rfl⟩ := TRICK_ctor_ok n cs m hctor
      refine ⟨?_, by simp, by simp⟩
      intro n' cs' heq
      simp only [Payload.TRICK.injEq] at heq
      obtain ⟨rfl, rfl⟩ := heq
      exact ⟨h1, h2, h3⟩
    · rw [h] at hm
      obtain ⟨n, hctor⟩ := WRONG_from_string_ok _ m hm
      obtain ⟨h1, h2, rfl⟩ := WRONG_ctor_ok n m hctor
      refine ⟨by simp, ?_, by simp⟩
      intro n' heq
      simp only [Payload.WRONG.injEq] at heq
      subst heq
      exact ⟨h1, h2⟩
    · rw [h] at hm
      obtain ⟨n, cs, pos, hctor⟩ := TAKEN_from_string_ok _ m hm
      obtain ⟨h1, h2, h3, rfl⟩ := TAKEN_ctor_ok n cs pos m hctor
      refine ⟨by simp, by simp, ?_⟩
      intro n' cs' p' heq
      simp only [Payload.TAKEN.injEq] at heq
      obtain ⟨rfl, rfl, rfl⟩ := heq
      exact ⟨h1, h2, h3⟩
    · rw [h] at hm
      obtain ⟨values, hctor⟩ := parse_score_message_payload _ _ _ m hm
      simp [SCORE_ctor_payload values m hctor]
    · rw [h] at hm
      obtain ⟨values, hctor⟩ := parse_score_message_payload _ _ _ m hm
      simp [TOTAL_ctor_payload values m hctor]
  · intro n cs h
    unfold TRICKMessage
    by_cases h1 : n < 1 ∨ n > 13
    · rw [if_pos h1]
    · rw [if_neg h1, if_pos (by omega)]
  · intro n h
    unfold WRONGMessage
    rw [if_pos (by omega)]
  · intro n cs p h
    unfold TAKENMessage
    by_cases h1 : n < 1 ∨ n > 13
    · rw [if_pos h1]
    · rw [if_neg h1, if_pos (by omega)]

/-- C8, at the line `TRICK13ASKH10D` and at the constructor call
`TRICKMessage(14, {})`. -/
theorem trick_number_bounds_witness :
    ((1 : Int) ≤ 13 ∧ (13 : Int) ≤ 13 ∧
      [(⟨['A'], Color.Spades, 14⟩ : Card), ⟨['K'], Color.Hearts, 13⟩,
        ⟨['1', '0'], Color.Diamonds, 10⟩].length ≤ 3) ∧
    TRICKMessage 14 [] = Outcome.throw Exn.invalid_argument :=
  ⟨(trick_number_bounds.1 "TRICK13ASKH10D\r\n".toList
      ⟨MessageType.TRICK, "13ASKH10D".toList, Payload.TRICK 13 [⟨['A'], Color.Spades, 14⟩,
        ⟨['K'], Color.Hearts, 13⟩, ⟨['1', '0'], Color.Diamonds, 10⟩]⟩ (by decide)).1
      13 _ rfl,
    trick_number_bounds.2.1 14 [] (by decide)⟩

/-- C9. For every assignment of non-negative `int` values to the four seats and
every order of the four seats, the line made of `SCORE` (or `TOTAL`), the four
groups seat letter and value in that order, and CRLF decodes to the message
whose map gives each seat its value, and the `to_string()` of that message lists
the groups in the order N, E, S, W; and a `SCORE` or `TOTAL` line is accepted
only if its payload is four groups, a seat letter and a non-empty run of digits
each, whose seats are the four seats each exactly once (a line where a seat is
missing or appears twice fails). -/
theorem score_total_any_order :
    (∀ (v : Position → Int), (∀ p, 0 ≤ v p ∧ v p ≤ INT_MAX) →
      ∀ order : List Position, order.Perm seat_order →
      (Message.from_string ("SCORE".toList ++
          (order.flatMap fun p => to_string_Position p ++ std_to_string (v p)) ++ CRLF) =
        ok ⟨MessageType.SCORE,
          seat_order.flatMap (fun p => to_string_Position p ++ std_to_string (v p)),
          Payload.SCORE ⟨some (v Position.North), some (v Position.East),
            some (v Position.South), some (v Position.West)⟩⟩ ∧
        (⟨MessageType.SCORE,
          seat_order.flatMap (fun p => to_string_Position p ++ std_to_string (v p)),
          Payload.SCORE ⟨some (v Position.North), some (v Position.East),
            some (v Position.South), some (v Position.West)⟩⟩ : Message).to_string =
          "SCORE".toList ++
            (seat_order.flatMap fun p => to_string_Position p ++ std_to_string (v p)) ++
            CRLF) ∧
      (Message.from_string ("TOTAL".toList ++
          (order.flatMap fun p => to_string_Position p ++ std_to_string (v p)) ++ CRLF) =
        ok ⟨MessageType.TOTAL,
          seat_order.flatMap (fun p => to_string_Position p ++ std_to_string (v p)),
          Payload.TOTAL ⟨some (v Position.North), some (v Position.East),
            some (v Position.South), some (v Position.West)⟩⟩ ∧
        (⟨MessageType.TOTAL,
          seat_order.flatMap (fun p => to_string_Position p ++ std_to_string (v p)),
          Payload.TOTAL ⟨some (v Position.North), some (v Position.East),
            some (v Position.South), some (v Position.West)⟩⟩ : Message).to_string =
          "TOTAL".toList ++
            (seat_order.flatMap fun p => to_string_Position p ++ std_to_string (v p)) ++
            CRLF)) ∧
    (∀ (payload : Str) (m : Message),
      (Message.from_string ("SCORE".toList ++ payload ++ CRLF) = ok m ∨
        Message.from_string ("TOTAL".toList ++ payload ++ CRLF) = ok m) →
      ∃ gs : List (Position × Str), (gs.map Prod.fst).Perm seat_order ∧
        (∀ g ∈ gs, g.2 ≠ [] ∧ ∀ c ∈ g.2, isdigit c = true) ∧
        payload = gs.flatMap (fun g => to_string_Position g.1 ++ g.2)) := by
  refine ⟨fun v hv order hperm =>
    ⟨⟨SCORE_any_order v hv order hperm, rfl⟩, ⟨TOTAL_any_order v hv order hperm, rfl⟩⟩, ?_⟩
  rintro payload m (h | h)
  · rw [from_string_SCORE] at h
    exact parse_score_message_ok SCOREMessage _ payload SCORE_ctor_size m h
  · rw [from_string_TOTAL] at h
    exact parse_score_message_ok TOTALMessage _ payload TOTAL_ctor_size m h

/-- C9, at the lines `SCOREW40E20N10S30` and `SCOREN10E20S30W40` of the
repository's test: both decode to the same message, which encodes to the
second. -/
theorem score_total_any_order_witness :
    Message.from_string "SCOREW40E20N10S30\r\n".toList =
      ok ⟨MessageType.SCORE, "N10E20S30W40".toList,
        Payload.SCORE ⟨some 10, some 20, some 30, some 40⟩⟩ ∧
    (⟨MessageType.SCORE, "N10E20S30W40".toList,
        Payload.SCORE ⟨some 10, some 20, some 30, some 40⟩⟩ : Message).to_string =
      "SCOREN10E20S30W40\r\n".toList :=
  (score_total_any_order.1 (seat_values 10 20 30 40) (by intro p; cases p <;> decide)
    [Position.West, Position.East, Position.North, Position.South] (by decide)).1

/-! ## The trick-taking comparison -/

set_option maxRecDepth 100000 in
theorem Card.pack_value (c : Card) (h : c ∈ Card.pack) :
    c.value = spec_value c.figure ∧ 2 ≤ c.value ∧ c.value ≤ 14 := by
  revert c
  decide

set_option maxRecDepth 100000 in
theorem Card.pack_eq_of_eq (a b : Card) (ha : a ∈ Card.pack) (hb : b ∈ Card.pack)
    (h : a.eq b = true) : a = b := by
  have hva := (Card.pack_value a ha).1
  have hvb := (Card.pack_value b hb).1
  simp only [Card.eq, Bool.and_eq_true, decide_eq_true_eq] at h
  cases a
  cases b
  simp only [Card.mk.injEq]
  simp only at h hva hvb
  refine ⟨h.1, h.2, ?_⟩
  rw [hva, hvb, h.1]

theorem Card.eq_self (a : Card) : a.eq a = true := by
  simp [Card.eq]

theorem Card.compare_eq_spec_beats (a b : Card) (L : Color)
    (ha : a.value = spec_value a.figure) (hb : b.value = spec_value b.figure) :
    a.compare b L = spec_beats b a L := by
  unfold Card.compare spec_beats
  by_cases h : a.color = b.color
  · rw [if_pos h, if_pos h.symm, ha, hb]
  · have h' : ¬ b.color = a.color := fun e => h e.symm
    rw [if_neg h, if_neg h']
    by_cases h1 : a.color = L
    · have : ¬ b.color = L := fun e => h (h1.trans e.symm)
      rw [if_pos h1, if_neg this]
    · rw [if_neg h1]

/-- C11. For all cards `a`, `b` of the pack and every suit `L`, `a.compare(b, L)`
is the comparison `beats(b, a, L)` of the specification; it is true exactly when
`a` and `b` have the same suit and the value of `a` is below that of `b`, or they
have different suits, `b` is of suit `L` and `a` is not; the values compared are
2 to 10 for the numbers, 11 for `J`, 12 for `Q`, 13 for `K`, 14 for `A`. -/
theorem compare_iff_beats (a b : Card) (L : Color) (ha : a ∈ Card.pack) (hb : b ∈ Card.pack) :
    a.compare b L = spec_beats b a L ∧
    (a.compare b L = true ↔
      (a.color = b.color ∧ spec_value a.figure < spec_value b.figure) ∨
      (a.color ≠ b.color ∧ b.color = L ∧ a.color ≠ L)) ∧
    a.value = spec_value a.figure ∧ b.value = spec_value b.figure ∧
    (a = b → a.compare b L = false) ∧
    (a.color ≠ b.color → a.color = L → a.compare b L = false) ∧
    (a.color ≠ b.color → b.color ≠ L → a.compare b L = false) := by
  have hva := (Card.pack_value a ha).1
  have hvb := (Card.pack_value b hb).1
  refine ⟨Card.compare_eq_spec_beats a b L hva hvb, ?_, hva, hvb, ?_, ?_, ?_⟩
  · unfold Card.compare
    by_cases h : a.color = b.color
    · rw [if_pos h, hva, hvb]
      simp [h]
    · rw [if_neg h]
      by_cases h1 : a.color = L
      · rw [if_pos h1]
        have h3 : ¬ L = b.color := fun e => h (h1.trans e)
        simp [h, h1, h3]
      · rw [if_neg h1]
        by_cases h2 : b.color = L
        · simp [h, h1, h2]
        · simp [h, h1, h2]
  · intro e
    subst e
    simp [Card.compare]
  · intro h h1
    rw [Card.compare, if_neg h, if_pos h1]
  · intro h h2
    simp [Card.compare, h, h2]

set_option maxRecDepth 100000 in
/-- The queen of spades against the king of spades, hearts led. -/
theorem compare_iff_beats_witness :
    (⟨"Q".toList, Color.Spades, 12⟩ : Card) ∈ Card.pack ∧
    (⟨"K".toList, Color.Spades, 13⟩ : Card) ∈ Card.pack ∧
    Card.compare ⟨"Q".toList, Color.Spades, 12⟩ ⟨"K".toList, Color.Spades, 13⟩ Color.Hearts
      = spec_beats ⟨"K".toList, Color.Spades, 13⟩ ⟨"Q".toList, Color.Spades, 12⟩ Color.Hearts :=
  ⟨by decide, by decide,
    (compare_iff_beats ⟨"Q".toList, Color.Spades, 12⟩ ⟨"K".toList, Color.Spades, 13⟩
      Color.Hearts (by decide) (by decide)).1⟩

namespace ServerGameState

/-! ## The method `handle_trick_message` -/

theorem WRONGMessage_ok (t : Int) (h1 : 1 ≤ t) (h2 : t ≤ 13) :
    WRONGMessage t = ok ⟨MessageType.WRONG, std_to_string t, Payload.WRONG t⟩ := by
  unfold WRONGMessage
  rw [if_neg (by omega)]

theorem WRONGMessage_throw (t : Int) (h : t < 1 ∨ 13 < t) :
    WRONGMessage t = Outcome.throw Exn.invalid_argument := by
  unfold WRONGMessage
  rw [if_pos (by omega)]

/-- Outside the tricks 1 to 13 the method throws whatever it is given. -/
theorem handle_trick_message_throws (s : ServerGameState) (socket : Nat) (t : Int)
    (cards : List Card) (h : s.current_trick < 1 ∨ 13 < s.current_trick) :
    handle_trick_message s socket t cards = (s, Outcome.throw Exn.invalid_argument) := by
  unfold handle_trick_message
  simp only [WRONGMessage_throw _ h]

/-- The method accepts exactly when the trick number of the state is one of 1 to
13, the socket holds the awaited seat, the trick number of the message is that
of the state, and the last card of the message is a valid move. -/
theorem handle_trick_message_accepts_iff (s : ServerGameState) (socket : Nat) (t : Int)
    (cards : List Card) :
    (handle_trick_message s socket t cards).2 = ok none ↔
      (1 ≤ s.current_trick ∧ s.current_trick ≤ 13) ∧
      ∃ p c, find_position s socket = some p ∧ s.awaited_player = some p ∧
        t = s.current_trick ∧ cards.getLast? = some c ∧ is_valid_move s c p = true := by
  unfold handle_trick_message
  by_cases hct : s.current_trick < 1 ∨ 13 < s.current_trick
  · simp only [WRONGMessage_throw _ hct]
    constructor
    · intro h
      simp at h
    · rintro ⟨h, -⟩
      omega
  · have h1 : 1 ≤ s.current_trick := by omega
    have h2 : s.current_trick ≤ 13 := by omega
    simp only [WRONGMessage_ok _ h1 h2]
    cases hp : find_position s socket with
    | none => simp
    | some p =>
      simp only
      by_cases ha : some p = s.awaited_player
      · rw [if_neg (not_not.mpr ha)]
        by_cases ht : t = s.current_trick
        · rw [if_neg (not_not.mpr ht)]
          cases hc : cards.getLast? with
          | none => simp
          | some c =>
            simp only
            by_cases hv : is_valid_move s c p = true
            · simp [hv, ha.symm, ht, h1, h2]
            · simp [hv, ha.symm, ht, h1, h2]
        · rw [if_pos ht]
          simp [ht]
      · rw [if_pos ha]
        have : ¬ s.awaited_player = some p := fun e => ha e.symm
        simp [this]

/-- What the method leaves and returns when it accepts. -/
theorem handle_trick_message_accepted (s : ServerGameState) (socket : Nat) (t : Int)
    (cards : List Card) (p : Position) (c : Card)
    (h1 : 1 ≤ s.current_trick) (h2 : s.current_trick ≤ 13)
    (hp : find_position s socket = some p) (ha : s.awaited_player = some p)
    (ht : t = s.current_trick) (hc : cards.getLast? = some c)
    (hv : is_valid_move s c p = true) :
    handle_trick_message s socket t cards = (accept_move s socket p c, ok none) := by
  unfold handle_trick_message
  simp only [WRONGMessage_ok _ h1 h2, hp]
  rw [if_neg (not_not.mpr ha.symm), if_neg (not_not.mpr ht)]
  simp only [hc]
  simp [hv]

/-- What the method leaves and returns when it does not accept, the trick number
of the state being one of 1 to 13. -/
theorem handle_trick_message_rejected (s : ServerGameState) (socket : Nat) (t : Int)
    (cards : List Card) (h1 : 1 ≤ s.current_trick) (h2 : s.current_trick ≤ 13)
    (h : (handle_trick_message s socket t cards).2 ≠ ok none) :
    handle_trick_message s socket t cards =
      (s, ok (some ⟨MessageType.WRONG, std_to_string s.current_trick,
        Payload.WRONG s.current_trick⟩)) := by
  revert h
  unfold handle_trick_message
  simp only [WRONGMessage_ok _ h1 h2]
  intro h
  split
  · rfl
  · split
    · rfl
    · split
      · rfl
      · split
        · rfl
        · split
          · rfl
          · exfalso
            apply h
            split
            · rename_i h3 _ _ _ h4
              simp_all
            · split
              · simp_all
              · split
                · simp_all
                · split
                  · simp_all
                  · rfl

theorem handle_trick_message_state (s : ServerGameState) (socket : Nat) (t : Int)
    (cards : List Card) (h : (handle_trick_message s socket t cards).2 ≠ ok none) :
    (handle_trick_message s socket t cards).1 = s := by
  by_cases hct : s.current_trick < 1 ∨ 13 < s.current_trick
  · rw [handle_trick_message_throws s socket t cards hct]
  · rw [handle_trick_message_rejected s socket t cards (by omega) (by omega) h]

end ServerGameState

namespace ServerGameState

/-- A valid move is a card of the hand, as `Card::operator==` sees it. -/
theorem is_valid_move_held (s : ServerGameState) (c : Card) (p : Position)
    (h : is_valid_move s c p = true) : ∃ x ∈ hand_of s p, x.eq c = true := by
  unfold is_valid_move at h
  simp only at h
  split at h
  · rename_i hempty
    simpa using h
  · rw [List.any_eq_true] at h
    obtain ⟨x, hx, hxe⟩ := h
    refine ⟨x, ?_, hxe⟩
    split at hx
    · simp at hx
    · exact (List.mem_filter.mp hx).1

/-- A valid move follows the suit of the first card on the table when the hand
has a card of that suit. -/
theorem is_valid_move_follows (s : ServerGameState) (c : Card) (p : Position)
    (h : is_valid_move s c p = true) (lead : Card) (hlead : s.trick_cards.head? = some lead)
    (hsuit : ∃ x ∈ hand_of s p, x.color = lead.color) : c.color = lead.color := by
  unfold is_valid_move at h
  simp only at h
  cases htc : s.trick_cards with
  | nil => simp [htc] at hlead
  | cons l rest =>
    rw [htc] at hlead h
    simp only [List.head?_cons, Option.some.injEq] at hlead
    subst hlead
    simp only at h
    obtain ⟨x, hx, hxc⟩ := hsuit
    have hne : ((hand_of s p).filter fun player_card =>
        decide (player_card.color = l.color)).isEmpty = false := by
      rw [List.isEmpty_eq_false]
      intro he
      have : x ∈ (hand_of s p).filter fun player_card => decide (player_card.color = l.color) :=
        List.mem_filter.mpr ⟨hx, by simpa using hxc⟩
      rw [he] at this
      simp at this
    rw [hne] at h
    simp only [Bool.false_eq_true, if_false] at h
    rw [List.any_eq_true] at h
    obtain ⟨y, hy, hye⟩ := h
    have hyc := (List.mem_filter.mp hy).2
    simp only [decide_eq_true_eq] at hyc
    simp only [Card.eq, Bool.and_eq_true, decide_eq_true_eq] at hye
    rw [← hye.2, hyc]

/-- C12. Every card that `handle_trick_message` appends to `trick_cards` is the
last card of the message and was, before the call, in `current_hands` of the seat
the sending socket holds: the hand has a card of its figure and suit, the card
itself when hand and card are of the pack. If `trick_cards` was not empty and
that hand had a card of the suit of `trick_cards[0]`, the appended card is of
that suit. A call that does not accept appends nothing. -/
theorem accepted_card_held_and_follows (s : ServerGameState) (socket : Nat) (t : Int)
    (cards : List Card) :
    ((handle_trick_message s socket t cards).2 ≠ ok none →
      (handle_trick_message s socket t cards).1.trick_cards = s.trick_cards) ∧
    ((handle_trick_message s socket t cards).2 = ok none →
      ∃ p c, find_position s socket = some p ∧ cards.getLast? = some c ∧
        (handle_trick_message s socket t cards).1.trick_cards = s.trick_cards ++ [c] ∧
        (∃ x ∈ hand_of s p, x.figure = c.figure ∧ x.color = c.color) ∧
        ((∀ x ∈ hand_of s p, x ∈ Card.pack) → c ∈ Card.pack → c ∈ hand_of s p) ∧
        ∀ lead, s.trick_cards.head? = some lead →
          (∃ x ∈ hand_of s p, x.color = lead.color) → c.color = lead.color) := by
  constructor
  · intro h
    rw [handle_trick_message_state s socket t cards h]
  · intro h
    obtain ⟨⟨h1, h2⟩, p, c, hp, ha, ht, hc, hv⟩ :=
      (handle_trick_message_accepts_iff s socket t cards).mp h
    refine ⟨p, c, hp, hc, ?_, ?_, ?_, ?_⟩
    · rw [handle_trick_message_accepted s socket t cards p c h1 h2 hp ha ht hc hv]
      rfl
    · obtain ⟨x, hx, hxe⟩ := is_valid_move_held s c p hv
      simp only [Card.eq, Bool.and_eq_true, decide_eq_true_eq] at hxe
      exact ⟨x, hx, hxe⟩
    · intro hpack hcp
      obtain ⟨x, hx, hxe⟩ := is_valid_move_held s c p hv
      have := Card.pack_eq_of_eq x c (hpack x hx) hcp hxe
      rw [← this]
      exact hx
    · intro lead hlead hsuit
      exact is_valid_move_follows s c p hv lead hlead hsuit

set_option maxRecDepth 100000 in
/-- North, awaited for the first card of the first trick, plays the ace of
spades. -/
theorem accepted_card_held_and_follows_witness :
    (handle_trick_message demo_dealt 0 1 [⟨"A".toList, Color.Spades, 14⟩]).2 = ok none ∧
    ∃ p c, find_position demo_dealt 0 = some p ∧
      [(⟨"A".toList, Color.Spades, 14⟩ : Card)].getLast? = some c ∧
      (handle_trick_message demo_dealt 0 1 [⟨"A".toList, Color.Spades, 14⟩]).1.trick_cards
        = demo_dealt.trick_cards ++ [c] ∧
      (∃ x ∈ hand_of demo_dealt p, x.figure = c.figure ∧ x.color = c.color) ∧
      ((∀ x ∈ hand_of demo_dealt p, x ∈ Card.pack) → c ∈ Card.pack → c ∈ hand_of demo_dealt p) ∧
      ∀ lead, demo_dealt.trick_cards.head? = some lead →
        (∃ x ∈ hand_of demo_dealt p, x.color = lead.color) → c.color = lead.color :=
  ⟨by decide,
    (accepted_card_held_and_follows demo_dealt 0 1 [⟨"A".toList, Color.Spades, 14⟩]).2
      (by decide)⟩

/-- C14. A `TRICK` message that `handle_trick_message` does not accept changes
nothing: the state after the call, the sockets with their awaited message and
deadline included, is the state before it. -/
theorem rejected_trick_changes_nothing (s : ServerGameState) (socket : Nat) (t : Int)
    (cards : List Card) (h : (handle_trick_message s socket t cards).2 ≠ ok none) :
    (handle_trick_message s socket t cards).1 = s :=
  handle_trick_message_state s socket t cards h

set_option maxRecDepth 100000 in
/-- East plays while North is awaited. -/
theorem rejected_trick_changes_nothing_witness :
    (handle_trick_message demo_dealt 1 1 [⟨"K".toList, Color.Spades, 13⟩]).2 ≠ ok none ∧
    (handle_trick_message demo_dealt 1 1 [⟨"K".toList, Color.Spades, 13⟩]).1 = demo_dealt :=
  ⟨by decide,
    rejected_trick_changes_nothing demo_dealt 1 1 [⟨"K".toList, Color.Spades, 13⟩]
      (by decide)⟩

/-! ## The demonstration match is one the server can be in -/

set_option maxRecDepth 100000 in
theorem demo_parse : ∀ d ∈ demo_schedule, ∀ hand ∈ d.hands,
    ∃ line, Card.parse_cards line = ok hand := by
  intro d hd hand hh
  simp only [demo_schedule, List.mem_singleton] at hd
  subst hd
  simp only [Deal.hands, List.mem_cons, List.mem_singleton, List.not_mem_nil, or_false] at hh
  rcases hh with h | h | h | h
  · exact ⟨"ASKCQDJH10S9C8D7H6S5C4D3H2S".toList, by rw [h]; decide⟩
  · exact ⟨"AHKSQCJD10H9S8C7D6H5S4C3D2H".toList, by rw [h]; decide⟩
  · exact ⟨"ADKHQSJC10D9H8S7C6D5H4S3C2D".toList, by rw [h]; decide⟩
  · exact ⟨"ACKDQHJS10C9D8H7S6C5D4H3S2C".toList, by rw [h]; decide⟩

theorem demo_start_reachable : Reachable [] demo_start :=
  Reachable.init demo_schedule 5 _ demo_sockets demo_parse

theorem demo_alone_reachable : Reachable [] demo_alone :=
  Reachable.new_player demo_start_reachable Position.North 0 0

theorem demo_seated_reachable : Reachable [] demo_seated :=
  Reachable.new_player (Reachable.new_player (Reachable.new_player demo_alone_reachable
    Position.East 1 0) Position.South 2 0) Position.West 3 0

/-- A call of `continue_game` leads from a state the server can be in to such a
state. -/
theorem reachable_tick {done : List PosMap} {s : ServerGameState} (h : Reachable done s)
    (now : Int) : ∃ done1, Reachable done1 (tick s now) := by
  unfold tick
  cases hs : continue_game s now with
  | throw e => exact ⟨done, h⟩
  | ok s1 => exact ⟨_, Reachable.continue_game h now hs⟩

theorem reachable_play {done : List PosMap} {s : ServerGameState} (h : Reachable done s)
    (socket : Nat) (t : Int) (c : Card) (hc : c ∈ Card.pack) :
    Reachable done (play s socket t c) := by
  unfold play
  apply Reachable.handle_trick_message h
  intro x hx
  simp only [List.mem_singleton] at hx
  rw [hx]
  exact hc

end ServerGameState

namespace ServerGameState

/-! ## What the sending methods change -/

theorem c_rem_nonneg (a : Int) (h : 0 ≤ a) : c_rem a 4 = a % 4 := by
  unfold c_rem
  exact Int.tmod_eq_emod h (by decide)

theorem c_rem_range (a : Int) (h : 0 ≤ a) : 0 ≤ c_rem a 4 ∧ c_rem a 4 ≤ 3 := by
  rw [c_rem_nonneg a h]
  omega

theorem inv_with_heap {done : List PosMap} {s : ServerGameState} (h : Inv done s)
    (heap : List Socket) : Inv done { s with heap := heap } :=
  ⟨h.1, h.2, h.3, h.4, h.5, h.6, h.7, h.8, h.9, h.10, h.11, h.12, h.13⟩

theorem inv_with_sockets {done : List PosMap} {s : ServerGameState} (h : Inv done s)
    (m : SocketMap) : Inv done { s with player_sockets := m } :=
  ⟨h.1, h.2, h.3, h.4, h.5, h.6, h.7, h.8, h.9, h.10, h.11, h.12, h.13⟩

theorem on_socket_eq (s : ServerGameState) (p : Position) (f : Socket → Socket) :
    ∃ heap, on_socket s p f = { s with heap := heap } := ⟨_, rfl⟩

theorem send_to_all_eq (messages : List Str) (l : List Position) (s : ServerGameState) :
    ∃ heap, send_to_all messages l s = { s with heap := heap } := by
  induction l generalizing s with
  | nil => exact ⟨s.heap, rfl⟩
  | cons p rest ih =>
    obtain ⟨heap, h⟩ := ih (on_socket s p fun sock => messages.foldl (fun k m => k.send m) sock)
    exact ⟨heap, by rw [send_to_all, h]; rfl⟩

theorem send_trick_message_ok (s s1 : ServerGameState) (p : Position) (now : Int)
    (h : send_trick_message s p now = ok s1) :
    (1 ≤ s.current_trick ∧ s.current_trick ≤ 13 ∧ s.trick_cards.length ≤ 3) ∧
    ∃ heap, s1 = { s with heap := heap } := by
  unfold send_trick_message at h
  obtain ⟨m, hm, h2⟩ := bind_eq_ok _ _ _ h
  obtain ⟨h3, h4, h5, -⟩ := TRICK_ctor_ok _ _ _ hm
  simp only [ok.injEq] at h2
  exact ⟨⟨h3, h4, h5⟩, _, h2.symm⟩

theorem send_deal_message_ok (s s1 : ServerGameState) (p : Position)
    (h : send_deal_message s p = ok s1) :
    (s.starting_hands.getD (position_order p).toNat []).length = 13 ∧
    ∃ heap, s1 = { s with heap := heap } := by
  unfold send_deal_message at h
  obtain ⟨m, hm, h2⟩ := bind_eq_ok _ _ _ h
  simp only [ok.injEq] at h2
  refine ⟨?_, _, h2.symm⟩
  unfold DEALMessage at hm
  split at hm
  · simp at hm
  · omega

theorem send_score_messages_ok (s s1 : ServerGameState) (h : send_score_messages s = ok s1) :
    ∃ heap, s1 = { s with heap := heap } := by
  unfold send_score_messages at h
  obtain ⟨m, -, h2⟩ := bind_eq_ok _ _ _ h
  obtain ⟨m2, -, h3⟩ := bind_eq_ok _ _ _ h2
  simp only [ok.injEq] at h3
  obtain ⟨heap, e⟩ := send_to_all_eq [m.to_string, m2.to_string] seat_order s
  exact ⟨heap, by rw [← h3, e]⟩

theorem send_taken_messages_ok (s s1 : ServerGameState) (h : send_taken_messages s = ok s1) :
    (1 ≤ s.current_trick ∧ s.current_trick ≤ 13 ∧ s.trick_cards.length = 4) ∧
    ∃ heap, s1 = { s with
      taken_messages := s.taken_messages ++ [⟨MessageType.TAKEN,
        std_to_string s.current_trick ++ cards_data s.trick_cards ++
          to_string_Position (order_at s.first_move),
        Payload.TAKEN s.current_trick s.trick_cards (order_at s.first_move)⟩]
      heap := heap } := by
  unfold send_taken_messages at h
  obtain ⟨m, hm, h2⟩ := bind_eq_ok _ _ _ h
  obtain ⟨h3, h4, h5, h6⟩ := TAKEN_ctor_ok _ _ _ _ hm
  simp only [ok.injEq] at h2
  refine ⟨⟨h3, h4, h5⟩, ?_⟩
  obtain ⟨heap, e⟩ := send_to_all_eq [m.to_string] seat_order
    { s with taken_messages := s.taken_messages ++ [m] }
  exact ⟨heap, by rw [← h2, e, h6]⟩

theorem rejoin_client_eq (s : ServerGameState) (p : Position) (now : Int) :
    ∃ heap, (rejoin_client s p now).1 = { s with heap := heap } := by
  unfold rejoin_client
  cases h1 : send_deal_message s p with
  | throw e => exact ⟨s.heap, rfl⟩
  | ok s1 =>
    obtain ⟨-, heap1, e1⟩ := send_deal_message_ok s s1 p h1
    simp only
    have key : ∀ (l : List Message) (k : ServerGameState),
        ∃ heap, l.foldl (fun k taken_message =>
          on_socket k p fun sock => sock.send taken_message.to_string) k
            = { k with heap := heap } := by
      intro l
      induction l with
      | nil => intro k; exact ⟨k.heap, rfl⟩
      | cons m rest ih =>
        intro k
        obtain ⟨heap, e⟩ := ih (on_socket k p fun sock => sock.send m.to_string)
        exact ⟨heap, by rw [List.foldl_cons, e]; rfl⟩
    obtain ⟨heap2, e2⟩ := key s1.taken_messages s1
    rw [e2]
    split
    · cases h3 : send_trick_message { s1 with heap := heap2 } p now with
      | throw e => exact ⟨heap2, by simp only [e1]⟩
      | ok s3 =>
        obtain ⟨-, heap3, e3⟩ := send_trick_message_ok _ _ _ _ h3
        exact ⟨heap3, by simp only [e3, e1]⟩
    · exact ⟨heap2, by simp only [e1]⟩

theorem new_player_eq (s : ServerGameState) (p : Position) (socket : Nat) (now : Int) :
    ∃ m heap, (new_player s p socket now).1 = { s with player_sockets := m, heap := heap } := by
  unfold new_player
  split
  · exact ⟨s.player_sockets, s.heap, rfl⟩
  · simp only
    split
    · obtain ⟨heap, e⟩ := rejoin_client_eq
        { s with player_sockets := s.player_sockets.set p (some socket),
                 heap := List.modify (fun sock =>
                    if sock.awaited_message = some MessageType.IAM then
                      { sock with awaited_message := none }
                    else sock) socket s.heap } p now
      refine ⟨s.player_sockets.set p (some socket), heap, ?_⟩
      rw [← e]
      split <;> rename_i h <;> rw [h]
    · exact ⟨_, _, rfl⟩

theorem disconnect_client_eq (s : ServerGameState) (socket : Nat) :
    ∃ m, disconnect_client s socket = { s with player_sockets := m } := by
  unfold disconnect_client
  have key : ∀ (l : List Position) (k : ServerGameState),
      ∃ m, l.foldl (fun k pos =>
        if k.player_sockets.get pos = some socket then
          { k with player_sockets := k.player_sockets.set pos none }
        else k) k = { k with player_sockets := m } := by
    intro l
    induction l with
    | nil => intro k; exact ⟨k.player_sockets, rfl⟩
    | cons p rest ih =>
      intro k
      rw [List.foldl_cons]
      split
      · obtain ⟨m, e⟩ := ih { k with player_sockets := k.player_sockets.set p none }
        exact ⟨m, by rw [e]⟩
      · exact ih k
  exact key map_order s

theorem end_game_eq (s : ServerGameState) :
    ∃ heap, end_game s = { s with game_ended := true, heap := heap } := by
  unfold end_game
  have key : ∀ (l : List Position) (k : ServerGameState),
      ∃ heap, l.foldl (fun k pos => on_socket k pos fun sock =>
        { sock with closed := true, all_messages_received := true }) k
          = { k with heap := heap } := by
    intro l
    induction l with
    | nil => intro k; exact ⟨k.heap, rfl⟩
    | cons p rest ih =>
      intro k
      obtain ⟨heap, e⟩ := ih (on_socket k p fun sock =>
        { sock with closed := true, all_messages_received := true })
      exact ⟨heap, by rw [List.foldl_cons, e]; rfl⟩
  obtain ⟨heap, e⟩ := key map_order { s with game_ended := true }
  exact ⟨heap, e⟩

end ServerGameState

namespace ServerGameState

/-! ## The invariant: the constructor and an accepted card -/

theorem mem_modify {α : Type} (f : α → α) (n : Nat) (l : List α) (x : α)
    (h : x ∈ List.modify f n l) : x ∈ l ∨ ∃ y ∈ l, x = f y := by
  induction l generalizing n with
  | nil => simp [List.modify_nil] at h
  | cons a rest ih =>
    cases n with
    | zero =>
      simp only [List.modify_zero_cons, List.mem_cons] at h
      rcases h with h | h
      · exact Or.inr ⟨a, List.mem_cons_self _ _, h⟩
      · exact Or.inl (List.mem_cons_of_mem _ h)
    | succ n =>
      simp only [List.modify_succ_cons, List.mem_cons] at h
      rcases h with h | h
      · exact Or.inl (h ▸ List.mem_cons_self _ _)
      · rcases ih n h with h1 | ⟨y, hy, e⟩
        · exact Or.inl (List.mem_cons_of_mem _ h1)
        · exact Or.inr ⟨y, List.mem_cons_of_mem _ hy, e⟩

theorem flatten_modify_perm {α : Type} (f : List α → List α) (n : Nat) (l : List (List α))
    (x : α) (hn : n < l.length) (hf : List.Perm (l.getD n []) (x :: f (l.getD n []))) :
    List.Perm l.flatten (x :: (List.modify f n l).flatten) := by
  induction l generalizing n with
  | nil => simp at hn
  | cons a rest ih =>
    cases n with
    | zero =>
      simp only [List.getD_cons_zero] at hf
      simp only [List.modify_zero_cons, List.flatten_cons]
      exact (hf.append_right _)
    | succ n =>
      simp only [List.getD_cons_succ] at hf
      simp only [List.length_cons, Nat.succ_lt_succ_iff] at hn
      simp only [List.modify_succ_cons, List.flatten_cons]
      have := ih n hn hf
      exact (this.append_left a).trans List.perm_middle

theorem getD_mem_or {α : Type} (l : List (List α)) (n : Nat) :
    l.getD n [] ∈ l ∨ l.getD n [] = [] := by
  rw [List.getD_eq_getElem?_getD]
  cases h : l[n]? with
  | none => right; rfl
  | some x => left; exact List.getElem?_mem h

theorem position_order_range (p : Position) :
    0 ≤ position_order p ∧ position_order p ≤ 3 := by
  cases p <;> simp [position_order]

theorem inv_init (schedule : List Deal) (timeout : Int) (u : Uninitialised)
    (heap : List Socket)
    (hparse : ∀ d ∈ schedule, ∀ hand ∈ d.hands, ∃ line, Card.parse_cards line = ok hand) :
    Inv [] (init schedule timeout u heap) := by
  refine ⟨rfl, ?_, ?_, ?_, ?_, ?_, ?_, ?_, ?_, ?_, ?_, ?_, ?_⟩
  · intro p h
    simp [init] at h
  · intro h
    simp [init] at h
  · intro p
    cases p <;> rfl
  · intro p
    cases p <;> rfl
  · intro p
    cases p <;> rfl
  · intro p
    cases p <;> rfl
  · intro l hl h hh
    have key : ∃ d ∈ schedule, h ∈ d.hands := by
      simp only [init, List.mem_cons, List.mem_singleton, List.not_mem_nil, or_false] at hl
      rcases hl with e | e | e | e <;> rw [e] at hh <;>
        obtain ⟨d, hd, e⟩ := List.mem_map.mp hh <;>
        exact ⟨d, hd, by simp [Deal.hands, ← e]⟩
    obtain ⟨d, hd, hm⟩ := key
    obtain ⟨line, hline⟩ := hparse d hd h hm
    have := (Card.parse_cards_ok_iff line h).mp hline
    exact ⟨this.1, this.2.1⟩
  · intro h hh
    simp [init] at hh
  · intro c hc
    simp [init] at hc
  · intro h
    simp [init] at h
  · intro h
    simp [init] at h
  · intro m hm
    simp [init] at hm

theorem inv_accept_move {done : List PosMap} {s : ServerGameState} (h : Inv done s)
    (socket : Nat) (p : Position) (c : Card) (ha : s.awaited_player = some p)
    (hc : c ∈ Card.pack) (hv : is_valid_move s c p = true) :
    Inv done (accept_move s socket p c) := by
  obtain ⟨hds, hts, hmv, -⟩ := h.awaited p ha
  obtain ⟨hf1, hf2, hlen, hA, -⟩ := h.phase hds
  obtain ⟨hct1, hct2, htk, -⟩ := hA hts
  obtain ⟨x, hx, hxe⟩ := is_valid_move_held s c p hv
  have hidx : (position_order p).toNat < s.current_hands.length := by
    have := position_order_range p
    omega
  have hhand : hand_of s p ∈ s.current_hands := by
    rcases getD_mem_or s.current_hands (position_order p).toNat with h1 | h1
    · exact h1
    · unfold hand_of at hx
      rw [h1] at hx
      simp at hx
  refine ⟨?_, ?_, ?_, h.deal_keys, h.total_keys, h.deal_sum, h.total_sum, h.sched_pack,
    ?_, ?_, h.start_sched, ?_, h.taken_four⟩
  · show s.current_move + 1 = ((s.trick_cards ++ [c]).length : Int)
    rw [List.length_append, h.move_len]
    simp
  · intro q hq
    simp [accept_move] at hq
  · intro _
    refine ⟨hf1, hf2, ?_, ?_, ?_⟩
    · show (List.modify _ _ s.current_hands).length = 4
      rw [List.length_modify]
      exact hlen
    · intro _
      refine ⟨hct1, hct2, htk, ?_⟩
      show s.current_move + 1 ≤ 4
      omega
    · intro hf
      have : s.trick_started = false := hf
      rw [hts] at this
      simp at this
  · intro hand hh
    rcases mem_modify _ _ _ _ hh with h1 | ⟨y, hy, e⟩
    · exact h.hands_pack hand h1
    · obtain ⟨hp1, hp2⟩ := h.hands_pack y hy
      subst e
      exact ⟨fun c' hc' => hp1 c' ((List.eraseP_sublist y).subset hc'),
        hp2.sublist (List.eraseP_sublist y)⟩
  · intro c' hc'
    have : c' ∈ s.trick_cards ++ [c] := hc'
    rw [List.mem_append, List.mem_singleton] at this
    rcases this with h1 | h1
    · exact h.trick_pack c' h1
    · rw [h1]
      exact hc
  · intro _
    have hcons := h.conserve hds
    obtain ⟨a, l1, l2, -, hpa, hl, he⟩ :=
      List.exists_of_eraseP (p := fun c' => c'.eq c) hx hxe
    have hac : a = c := by
      apply Card.pack_eq_of_eq a c _ hc hpa
      apply (h.hands_pack _ hhand).1
      rw [hl]
      simp
    subst hac
    have hperm : List.Perm s.current_hands.flatten
        (a :: (List.modify (fun hand => hand.eraseP fun c' => c'.eq a)
          (position_order p).toNat s.current_hands).flatten) := by
      apply flatten_modify_perm _ _ _ _ hidx
      unfold hand_of at hl he
      rw [he, hl]
      exact List.perm_middle
    show List.Perm ((List.modify (fun hand => hand.eraseP fun c' => c'.eq a)
          (position_order p).toNat s.current_hands).flatten ++
        (if s.trick_started then s.trick_cards ++ [a] else []) ++ completed_cards s)
      s.starting_hands.flatten
    rw [hts]
    simp only [if_true]
    unfold in_progress at hcons
    rw [hts] at hcons
    simp only [if_true] at hcons
    refine List.Perm.trans ?_ hcons
    have h1 : List.Perm
        ((List.modify (fun hand => hand.eraseP fun c' => c'.eq a)
          (position_order p).toNat s.current_hands).flatten ++ (s.trick_cards ++ [a]))
        (s.current_hands.flatten ++ s.trick_cards) := by
      refine List.Perm.trans ?_ (hperm.symm.append_right s.trick_cards)
      rw [← List.append_assoc]
      refine List.Perm.trans (List.perm_append_singleton _ _) ?_
      simp
    exact h1.append_right _

end ServerGameState

namespace ServerGameState

/-! ## The invariant: `start_deal` -/

theorem start_deal_ok (s s1 : ServerGameState) (h : start_deal s = ok s1) :
    (∀ i, i < 4 → (schedule_hand { s with current_deal := s.current_deal + 1 } i).length = 13) ∧
    ∃ heap, s1 = { s with
      current_deal := s.current_deal + 1
      deal_started := true
      deal_type := s.deal_types.getD (s.current_deal + 1 - 1).toNat DealType.TRICK
      starting_player := s.starting_players.getD (s.current_deal + 1 - 1).toNat Position.North
      starting_hands := [schedule_hand { s with current_deal := s.current_deal + 1 } 0,
        schedule_hand { s with current_deal := s.current_deal + 1 } 1,
        schedule_hand { s with current_deal := s.current_deal + 1 } 2,
        schedule_hand { s with current_deal := s.current_deal + 1 } 3]
      deal_scores := ⟨some 0, some 0, some 0, some 0⟩
      current_hands := [schedule_hand { s with current_deal := s.current_deal + 1 } 0,
        schedule_hand { s with current_deal := s.current_deal + 1 } 1,
        schedule_hand { s with current_deal := s.current_deal + 1 } 2,
        schedule_hand { s with current_deal := s.current_deal + 1 } 3]
      current_trick := 0
      trick_started := false
      current_move := 0
      trick_cards := []
      taken_messages := []
      first_move := position_order
        (s.starting_players.getD (s.current_deal + 1 - 1).toNat Position.North)
      heap := heap } := by
  unfold start_deal at h
  obtain ⟨s3, h3, e⟩ := bind_eq_ok _ _ _ h
  simp only [ok.injEq] at e
  simp only [start_deal_loop] at h3
  obtain ⟨a0, ha0, h3⟩ := bind_eq_ok _ _ _ h3
  obtain ⟨l0, heap0, e0⟩ := send_deal_message_ok _ _ _ ha0
  clear ha0
  dsimp only at e0 l0
  subst e0
  dsimp only at h3
  obtain ⟨a1, ha1, h3⟩ := bind_eq_ok _ _ _ h3
  obtain ⟨l1, heap1, e1⟩ := send_deal_message_ok _ _ _ ha1
  clear ha1
  dsimp only at e1 l1
  subst e1
  dsimp only at h3
  obtain ⟨a2, ha2, h3⟩ := bind_eq_ok _ _ _ h3
  obtain ⟨l2, heap2, e2⟩ := send_deal_message_ok _ _ _ ha2
  clear ha2
  dsimp only at e2 l2
  subst e2
  dsimp only at h3
  obtain ⟨a3, ha3, h3⟩ := bind_eq_ok _ _ _ h3
  obtain ⟨l3, heap3, e3⟩ := send_deal_message_ok _ _ _ ha3
  clear ha3
  dsimp only at e3 l3
  subst e3
  dsimp only at h3
  simp only [start_deal_loop, ok.injEq] at h3
  subst h3
  dsimp only at e
  subst e
  constructor
  · intro i hi
    have h0 : i = 0 ∨ i = 1 ∨ i = 2 ∨ i = 3 := by omega
    rcases h0 with e | e | e | e <;> subst e
    · simpa [order_at, seat_order, position_order, schedule_hand] using l0
    · simpa [order_at, seat_order, position_order, schedule_hand] using l1
    · simpa [order_at, seat_order, position_order, schedule_hand] using l2
    · simpa [order_at, seat_order, position_order, schedule_hand] using l3
  · refine ⟨heap3, ?_⟩
    simp [order_at, seat_order, PosMap.set, schedule_hand]

theorem schedule_hand_pack {done : List PosMap} {s : ServerGameState} (h : Inv done s)
    (s1 : ServerGameState) (hh : s1.hands = s.hands) (i : Nat) :
    (∀ c ∈ schedule_hand s1 i, c ∈ Card.pack) ∧ (schedule_hand s1 i).Nodup := by
  unfold schedule_hand
  rw [hh]
  rcases getD_mem_or (s.hands.getD i []) (s1.current_deal - 1).toNat with h1 | h1
  · rcases (List.getD_eq_getElem?_getD s.hands i []).symm ▸
      (show s.hands[i]?.getD [] ∈ s.hands ∨ s.hands[i]?.getD [] = [] from by
        cases h2 : s.hands[i]? with
        | none => right; rfl
        | some x => left; exact List.getElem?_mem h2) with h3 | h3
    · exact h.sched_pack _ h3 _ h1
    · rw [h3] at h1
      simp at h1
  · rw [h1]
    simp

theorem inv_start_deal {done : List PosMap} {s s1 : ServerGameState} (h : Inv done s)
    (hds : s.deal_started = false) (hs : start_deal s = ok s1) :
    Inv done s1 ∧ s1.deal_started = true ∧ s1.trick_started = false ∧ s1.current_trick = 0 ∧
      s1.player_sockets = s.player_sockets := by
  obtain ⟨-, heap, e⟩ := start_deal_ok s s1 hs
  clear hs
  subst e
  have haw : s.awaited_player = none := by
    cases ha : s.awaited_player with
    | none => rfl
    | some p =>
      have := (h.awaited p ha).1
      rw [hds] at this
      simp at this
  refine ⟨⟨rfl, ?_, ?_, ?_, h.total_keys, ?_, h.total_sum, h.sched_pack, ?_, ?_, ?_, ?_, ?_⟩,
    rfl, rfl, rfl, rfl⟩
  · intro p hp
    have : s.awaited_player = some p := hp
    rw [haw] at this
    simp at this
  · intro _
    have := position_order_range
      (s.starting_players.getD (s.current_deal + 1 - 1).toNat Position.North)
    refine ⟨this.1, this.2, rfl, ?_, ?_⟩
    · intro hf
      simp at hf
    · intro _
      exact ⟨Or.inl ⟨le_refl (0 : Int), (by decide : (0 : Int) ≤ 12), rfl⟩, haw⟩
  · intro p
    cases p <;> rfl
  · intro p
    cases p <;> rfl
  · intro hand hh
    simp only [List.mem_cons, List.mem_singleton, List.not_mem_nil, or_false] at hh
    rcases hh with e | e | e | e <;> rw [e] <;>
      exact schedule_hand_pack h { s with current_deal := s.current_deal + 1 } rfl _
  · intro c hc
    simp at hc
  · intro _
    rfl
  · intro _
    simp [in_progress, completed_cards]
  · intro m hm
    simp at hm

/-! ## The invariant: `continue_trick` -/

theorem inv_open_trick {done : List PosMap} {s : ServerGameState} (h : Inv done s)
    (hds : s.deal_started = true) (hts : s.trick_started = false) (hct : s.current_trick ≤ 13) :
    Inv done { s with current_trick := s.current_trick + 1, trick_started := true,
                       current_move := 0, trick_cards := [], awaited_player := none } := by
  obtain ⟨hf1, hf2, hlen, -, hB⟩ := h.phase hds
  obtain ⟨hB1, hB2⟩ := hB hts
  refine ⟨rfl, ?_, ?_, h.deal_keys, h.total_keys, h.deal_sum, h.total_sum, h.sched_pack,
    h.hands_pack, ?_, h.start_sched, ?_, h.taken_four⟩
  · intro p hp
    simp at hp
  · intro _
    refine ⟨hf1, hf2, hlen, ?_, ?_⟩
    · intro _
      show 1 ≤ s.current_trick + 1 ∧ s.current_trick + 1 ≤ 13 ∧
        (s.taken_messages.length : Int) + 1 = s.current_trick + 1 ∧ (0 : Int) ≤ 4
      omega
    · intro hf
      simp at hf
  · intro c hc
    simp at hc
  · intro _
    have := h.conserve hds
    unfold in_progress at this
    rw [hts] at this
    simpa [in_progress] using this

theorem inv_prompt {done : List PosMap} {s : ServerGameState} (h : Inv done s)
    (hds : s.deal_started = true) (hts : s.trick_started = true)
    (hlen : s.trick_cards.length ≤ 3) :
    Inv done { s with
      awaited_player := some (order_at (c_rem (s.current_move + s.first_move) 4)) } := by
  obtain ⟨hf1, hf2, hl, hA, -⟩ := h.phase hds
  refine ⟨h.move_len, ?_, ?_, h.deal_keys, h.total_keys, h.deal_sum, h.total_sum, h.sched_pack,
    h.hands_pack, h.trick_pack, h.start_sched, h.conserve, h.taken_four⟩
  · intro p hp
    simp only [Option.some.injEq] at hp
    refine ⟨hds, hts, ?_, hp.symm⟩
    show s.current_move ≤ 3
    rw [h.move_len]
    omega
  · intro _
    refine ⟨hf1, hf2, hl, hA, ?_⟩
    intro hf
    have : s.trick_started = false := hf
    rw [hts] at this
    simp at this

theorem winner_loop_range (tc : List Card) (col : Color) (fm : Int) (hfm : 0 ≤ fm)
    (l : List Nat) (lead : Card) (w : Int) (hw : 0 ≤ w ∧ w ≤ 3) :
    0 ≤ winner_loop tc col fm l lead w ∧ winner_loop tc col fm l lead w ≤ 3 := by
  induction l generalizing lead w with
  | nil => exact hw
  | cons i rest ih =>
    unfold winner_loop
    split
    · exact ih lead w hw
    · split
      · exact ih _ _ (c_rem_range _ (by omega))
      · exact ih lead w hw

theorem posmap_set_find (m : PosMap) (p q : Position) (v : Int) :
    (m.set p v).find q = if q = p then some v else m.find q := by
  cases p <;> cases q <;> simp [PosMap.set, PosMap.find]

theorem posmap_set_at (m : PosMap) (p q : Position) (v : Int) :
    (m.set p v).at q = if q = p then v else m.at q := by
  unfold PosMap.at
  rw [posmap_set_find]
  split <;> rfl

theorem calculate_points_eq (s : ServerGameState) (c : Card) (rest : List Card)
    (h : s.trick_cards = c :: rest) :
    calculate_points s = { s with
      first_move := winner_loop s.trick_cards c.color s.first_move [1, 2, 3] c s.first_move
      deal_scores := s.deal_scores.set
        (order_at (winner_loop s.trick_cards c.color s.first_move [1, 2, 3] c s.first_move))
        (s.deal_scores.at
          (order_at (winner_loop s.trick_cards c.color s.first_move [1, 2, 3] c s.first_move)) +
          trick_score s.deal_type s.trick_cards s.current_trick) } := by
  unfold calculate_points
  split
  · rename_i h0
    rw [h0] at h
    simp at h
  · rename_i c0 rest0 h0
    rw [h0] at h
    simp only [List.cons.injEq] at h
    rw [h.1]

end ServerGameState

namespace ServerGameState

/-! ## The invariant: the end of a trick and the end of a deal -/

theorem inv_closed {done : List PosMap} {s : ServerGameState} (h : Inv done s)
    (hds : s.deal_started = true) (hts : s.trick_started = true) (hmv : s.current_move = 4)
    (W : Int) (hW : 0 ≤ W ∧ W ≤ 3) (heap : List Socket) (ct : Int)
    (hct : ct = if s.current_trick = 13 then 14 else s.current_trick) :
    Inv done { s with
      current_trick := ct
      trick_started := false
      first_move := W
      deal_scores := s.deal_scores.set (order_at W)
        (s.deal_scores.at (order_at W) + trick_score s.deal_type s.trick_cards s.current_trick)
      taken_messages := s.taken_messages ++ [⟨MessageType.TAKEN,
        std_to_string s.current_trick ++ cards_data s.trick_cards ++
          to_string_Position (order_at W),
        Payload.TAKEN s.current_trick s.trick_cards (order_at W)⟩]
      heap := heap } := by
  obtain ⟨-, -, hlen, hA, -⟩ := h.phase hds
  obtain ⟨hct1, hct2, htk, -⟩ := hA hts
  have haw : s.awaited_player = none := by
    cases ha : s.awaited_player with
    | none => rfl
    | some p =>
      have := (h.awaited p ha).2.2.1
      omega
  have hfour : s.trick_cards.length = 4 := by
    have := h.move_len
    omega
  refine ⟨h.move_len, ?_, ?_, ?_, h.total_keys, ?_, h.total_sum, h.sched_pack,
    h.hands_pack, h.trick_pack, h.start_sched, ?_, ?_⟩
  · intro p hp
    have : s.awaited_player = some p := hp
    rw [haw] at this
    simp at this
  · intro _
    refine ⟨hW.1, hW.2, hlen, ?_, ?_⟩
    · intro hf
      simp at hf
    · intro _
      refine ⟨?_, haw⟩
      show (0 ≤ ct ∧ ct ≤ 12 ∧ ((s.taken_messages ++ [_]).length : Int) = ct) ∨
        (ct = 14 ∧ (s.taken_messages ++ [_]).length = 13)
      rw [List.length_append, List.length_singleton]
      by_cases h13 : s.current_trick = 13
      · rw [if_pos h13] at hct
        right
        omega
      · rw [if_neg h13] at hct
        left
        omega
  · intro p
    show ((s.deal_scores.set _ _).find p).isSome = true
    rw [posmap_set_find]
    split
    · rfl
    · exact h.deal_keys p
  · intro p
    show (s.deal_scores.set _ _).at p = ((s.taken_messages ++ [_]).map _).sum
    rw [posmap_set_at, List.map_append, List.sum_append, ← h.deal_sum p]
    simp only [List.map_cons, List.map_nil, List.sum_cons, List.sum_nil, won_amount]
    by_cases hp : p = order_at W
    · rw [if_pos hp, if_pos hp.symm, hp]
      simp
    · rw [if_neg hp, if_neg (fun e => hp e.symm)]
      simp
  · intro _
    have := h.conserve hds
    unfold in_progress at this
    rw [hts] at this
    simp only [if_true] at this
    show List.Perm (s.current_hands.flatten ++ [] ++
      (s.taken_messages ++ [_]).flatMap taken_cards) s.starting_hands.flatten
    refine List.Perm.trans ?_ this
    rw [List.flatMap_append]
    simp only [List.append_nil, List.flatMap_cons, List.flatMap_nil, taken_cards,
      List.append_assoc, completed_cards]
    exact List.Perm.append_left _ List.perm_append_comm
  · intro m hm
    have : m ∈ s.taken_messages ++ [_] := hm
    rw [List.mem_append, List.mem_singleton] at this
    rcases this with h1 | h1
    · exact h.taken_four m h1
    · rw [h1]
      exact hfour

theorem close_totals_eq (s : ServerGameState) :
    seat_order.foldl (fun k pos =>
      { k with total_scores :=
        k.total_scores.set pos (k.total_scores.at pos + k.deal_scores.at pos) }) s =
    { s with total_scores :=
      ⟨some (s.total_scores.at Position.North + s.deal_scores.at Position.North),
        some (s.total_scores.at Position.East + s.deal_scores.at Position.East),
        some (s.total_scores.at Position.South + s.deal_scores.at Position.South),
        some (s.total_scores.at Position.West + s.deal_scores.at Position.West)⟩ } := by
  simp [seat_order, PosMap.set, PosMap.at, PosMap.find]

theorem inv_deal_closed {done : List PosMap} {s : ServerGameState} (h : Inv done s)
    (hds : s.deal_started = true) (hct : 13 < s.current_trick) (heap : List Socket) :
    Inv (done ++ [s.deal_scores]) { s with
      total_scores :=
        ⟨some (s.total_scores.at Position.North + s.deal_scores.at Position.North),
          some (s.total_scores.at Position.East + s.deal_scores.at Position.East),
          some (s.total_scores.at Position.South + s.deal_scores.at Position.South),
          some (s.total_scores.at Position.West + s.deal_scores.at Position.West)⟩
      deal_started := false
      heap := heap } := by
  obtain ⟨-, -, -, hA, hB⟩ := h.phase hds
  have hts : s.trick_started = false := by
    cases ht : s.trick_started with
    | false => rfl
    | true =>
      have := hA ht
      omega
  have haw := (hB hts).2
  refine ⟨h.move_len, ?_, ?_, h.deal_keys, ?_, h.deal_sum, ?_, h.sched_pack,
    h.hands_pack, h.trick_pack, ?_, ?_, h.taken_four⟩
  · intro p hp
    have : s.awaited_player = some p := hp
    rw [haw] at this
    simp at this
  · intro hf
    simp at hf
  · intro p
    cases p <;> rfl
  · intro p
    rw [List.map_append, List.sum_append, ← h.total_sum p]
    cases p <;> simp [PosMap.at, PosMap.find]
  · intro hf
    simp at hf
  · intro hf
    simp at hf

end ServerGameState

namespace ServerGameState

/-! ## What `continue_game` does, case by case -/

theorem send_to_all_heap_congr (messages : List Str) (l : List Position)
    (s t : ServerGameState) (h1 : s.player_sockets = t.player_sockets) (h2 : s.heap = t.heap) :
    (send_to_all messages l s).heap = (send_to_all messages l t).heap := by
  induction l generalizing s t with
  | nil => exact h2
  | cons p rest ih =>
    unfold send_to_all
    apply ih
    · exact h1
    · show (match s.player_sockets.get p with
        | none => s.heap
        | some i => List.modify _ i s.heap) = (match t.player_sockets.get p with
        | none => t.heap
        | some i => List.modify _ i t.heap)
      rw [h1, h2]

theorem send_to_all_eq_heap (messages : List Str) (l : List Position) (s : ServerGameState) :
    send_to_all messages l s = { s with heap := (send_to_all messages l s).heap } := by
  obtain ⟨heap, e⟩ := send_to_all_eq messages l s
  rw [e]

/-- The `TAKEN` message of the trick on the table, were the seat of index `W` to
take it. -/
theorem send_taken_messages_eq (s s1 : ServerGameState) (h : send_taken_messages s = ok s1) :
    s1 = { s with
      taken_messages := s.taken_messages ++ [⟨MessageType.TAKEN,
        std_to_string s.current_trick ++ cards_data s.trick_cards ++
          to_string_Position (order_at s.first_move),
        Payload.TAKEN s.current_trick s.trick_cards (order_at s.first_move)⟩]
      heap := (send_to_all [Message.to_string ⟨MessageType.TAKEN,
        std_to_string s.current_trick ++ cards_data s.trick_cards ++
          to_string_Position (order_at s.first_move),
        Payload.TAKEN s.current_trick s.trick_cards (order_at s.first_move)⟩] seat_order s).heap }
    := by
  unfold send_taken_messages at h
  obtain ⟨m, hm, h2⟩ := bind_eq_ok _ _ _ h
  obtain ⟨-, -, -, h6⟩ := TAKEN_ctor_ok _ _ _ _ hm
  simp only [ok.injEq] at h2
  rw [← h2, send_to_all_eq_heap, h6]
  congr 1

theorem continue_trick_close (s s1 : ServerGameState) (now : Int)
    (hts : s.trick_started = true) (hmv : s.current_move = 4)
    (h : continue_trick s now = ok s1) :
    (1 ≤ s.current_trick ∧ s.current_trick ≤ 13 ∧ s.trick_cards.length = 4) ∧
    ∃ c rest W, s.trick_cards = c :: rest ∧
      W = winner_loop s.trick_cards c.color s.first_move [1, 2, 3] c s.first_move ∧
      s1 = { s with
        current_trick := if s.current_trick = 13 then 14 else s.current_trick
        trick_started := false
        first_move := W
        deal_scores := s.deal_scores.set (order_at W)
          (s.deal_scores.at (order_at W) + trick_score s.deal_type s.trick_cards s.current_trick)
        taken_messages := s.taken_messages ++ [⟨MessageType.TAKEN,
          std_to_string s.current_trick ++ cards_data s.trick_cards ++
            to_string_Position (order_at W),
          Payload.TAKEN s.current_trick s.trick_cards (order_at W)⟩]
        heap := (send_to_all [Message.to_string ⟨MessageType.TAKEN,
          std_to_string s.current_trick ++ cards_data s.trick_cards ++
            to_string_Position (order_at W),
          Payload.TAKEN s.current_trick s.trick_cards (order_at W)⟩] seat_order s).heap } := by
  have hnt : (!s.trick_started) = false := by rw [hts]; rfl
  unfold continue_trick at h
  simp only [hnt, Bool.false_eq_true, if_false] at h
  rw [if_pos hmv] at h
  obtain ⟨s2, h2, e⟩ := bind_eq_ok _ _ _ h
  obtain ⟨⟨h3, h4, h5⟩, -⟩ := send_taken_messages_ok _ _ h2
  have hs2 := send_taken_messages_eq _ _ h2
  clear h2 h
  have hcp : ∀ t : ServerGameState, (calculate_points t).trick_cards = t.trick_cards := by
    intro t
    unfold calculate_points
    split <;> rfl
  rw [hcp] at h5
  have h5' : s.trick_cards.length = 4 := h5
  obtain ⟨c, rest, htc⟩ : ∃ c rest, s.trick_cards = c :: rest := by
    cases hl : s.trick_cards with
    | nil => rw [hl] at h5'; simp at h5'
    | cons c rest => exact ⟨c, rest, rfl⟩
  rw [calculate_points_eq { s with trick_started := false } c rest htc] at hs2 h3 h4
  dsimp only at hs2 h3 h4
  refine ⟨⟨h3, h4, h5'⟩, c, rest,
    winner_loop s.trick_cards c.color s.first_move [1, 2, 3] c s.first_move, htc, rfl, ?_⟩
  simp only [ok.injEq] at e
  rw [← e, hs2]
  dsimp only
  split
  · rename_i h13
    simp only [h13]
    congr 1
  · congr 1

theorem continue_trick_waiting (s : ServerGameState) (now : Int)
    (hts : s.trick_started = true) (hmv : s.current_move ≠ 4)
    (haw : s.awaited_player.isSome = true) : continue_trick s now = ok s := by
  have hnt : (!s.trick_started) = false := by rw [hts]; rfl
  unfold continue_trick
  simp only [hnt, Bool.false_eq_true, if_false]
  rw [if_neg hmv]
  cases ha : s.awaited_player with
  | none => rw [ha] at haw; simp at haw
  | some p => simp

theorem continue_trick_prompt (s s1 : ServerGameState) (now : Int)
    (hts : s.trick_started = true) (hmv : s.current_move ≠ 4)
    (haw : s.awaited_player = none) (h : continue_trick s now = ok s1) :
    (1 ≤ s.current_trick ∧ s.current_trick ≤ 13 ∧ s.trick_cards.length ≤ 3) ∧
    s1 = { s with
      awaited_player := some (order_at (c_rem (s.current_move + s.first_move) 4))
      heap := (on_socket s (order_at (c_rem (s.current_move + s.first_move) 4)) fun sock =>
        (sock.send (Message.to_string ⟨MessageType.TRICK,
          std_to_string s.current_trick ++ cards_data s.trick_cards,
          Payload.TRICK s.current_trick s.trick_cards⟩)).await_message MessageType.TRICK
            s.timeout now).heap } := by
  have hnt : (!s.trick_started) = false := by rw [hts]; rfl
  unfold continue_trick at h
  simp only [hnt, Bool.false_eq_true, if_false] at h
  rw [if_neg hmv] at h
  have hno : s.awaited_player.isNone = true := by rw [haw]; rfl
  simp only [hno, if_true] at h
  unfold send_trick_message at h
  obtain ⟨m, hm, h2⟩ := bind_eq_ok _ _ _ h
  obtain ⟨h3, h4, h5, h6⟩ := TRICK_ctor_ok _ _ _ hm
  simp only [ok.injEq] at h2
  refine ⟨⟨h3, h4, h5⟩, ?_⟩
  rw [← h2, h6]
  rfl

theorem continue_trick_open (s s1 : ServerGameState) (now : Int)
    (hts : s.trick_started = false) (h : continue_trick s now = ok s1) :
    (1 ≤ s.current_trick + 1 ∧ s.current_trick + 1 ≤ 13) ∧
    s1 = { s with
      current_trick := s.current_trick + 1
      trick_started := true
      current_move := 0
      trick_cards := []
      awaited_player := some (order_at (c_rem (0 + s.first_move) 4))
      heap := (on_socket s (order_at (c_rem (0 + s.first_move) 4)) fun sock =>
        (sock.send (Message.to_string ⟨MessageType.TRICK,
          std_to_string (s.current_trick + 1) ++ cards_data [],
          Payload.TRICK (s.current_trick + 1) []⟩)).await_message MessageType.TRICK
            s.timeout now).heap } := by
  have hnt : (!s.trick_started) = true := by rw [hts]; rfl
  unfold continue_trick at h
  simp only [hnt, if_true] at h
  rw [if_neg (by decide)] at h
  simp only [Option.isNone_none, if_true] at h
  unfold send_trick_message at h
  obtain ⟨m, hm, h2⟩ := bind_eq_ok _ _ _ h
  obtain ⟨h3, h4, h5, h6⟩ := TRICK_ctor_ok _ _ _ hm
  simp only [ok.injEq] at h2
  refine ⟨⟨h3, h4⟩, ?_⟩
  rw [← h2, h6]
  rfl

theorem continue_deal_close (s s1 : ServerGameState) (now : Int)
    (hct : 13 < s.current_trick) (h : continue_deal s now = ok s1) :
    ∃ score total,
      SCOREMessage s.deal_scores = ok score ∧
      TOTALMessage ⟨some (s.total_scores.at Position.North + s.deal_scores.at Position.North),
          some (s.total_scores.at Position.East + s.deal_scores.at Position.East),
          some (s.total_scores.at Position.South + s.deal_scores.at Position.South),
          some (s.total_scores.at Position.West + s.deal_scores.at Position.West)⟩ = ok total ∧
      s1 = { s with
        total_scores :=
          ⟨some (s.total_scores.at Position.North + s.deal_scores.at Position.North),
            some (s.total_scores.at Position.East + s.deal_scores.at Position.East),
            some (s.total_scores.at Position.South + s.deal_scores.at Position.South),
            some (s.total_scores.at Position.West + s.deal_scores.at Position.West)⟩
        deal_started := false
        heap := (send_to_all [score.to_string, total.to_string] seat_order s).heap } := by
  unfold continue_deal at h
  rw [if_neg (by omega)] at h
  simp only at h
  rw [close_totals_eq] at h
  obtain ⟨s2, h2, e⟩ := bind_eq_ok _ _ _ h
  unfold send_score_messages at h2
  obtain ⟨score, hscore, h3⟩ := bind_eq_ok _ _ _ h2
  obtain ⟨total, htotal, h4⟩ := bind_eq_ok _ _ _ h3
  simp only [ok.injEq] at h4 e
  refine ⟨score, total, hscore, htotal, ?_⟩
  rw [← e, ← h4, send_to_all_eq_heap]
  congr 1

end ServerGameState

namespace ServerGameState

/-! ## The invariant holds in every state the server can be in -/

theorem inv_continue_trick {done : List PosMap} {s s1 : ServerGameState} (h : Inv done s)
    (hds : s.deal_started = true) (now : Int) (hs : continue_trick s now = ok s1) :
    Inv done s1 := by
  cases hts : s.trick_started with
  | false =>
    obtain ⟨⟨h1, h2⟩, e⟩ := continue_trick_open s s1 now hts hs
    rw [e]
    have h3 := inv_open_trick h hds hts (by omega)
    have h4 := inv_prompt h3 hds rfl (by simp)
    exact inv_with_heap h4 _
  | true =>
    by_cases hmv : s.current_move = 4
    · obtain ⟨-, c, rest, W, htc, hW, e⟩ := continue_trick_close s s1 now hts hmv hs
      rw [e]
      obtain ⟨hf1, hf2, -⟩ := h.phase hds
      have hWr : 0 ≤ W ∧ W ≤ 3 := by
        rw [hW]
        exact winner_loop_range _ _ _ hf1 _ _ _ ⟨hf1, hf2⟩
      exact inv_closed h hds hts hmv W hWr _ _ rfl
    · cases haw : s.awaited_player with
      | none =>
        obtain ⟨⟨-, -, h3⟩, e⟩ := continue_trick_prompt s s1 now hts hmv haw hs
        rw [e]
        exact inv_with_heap (inv_prompt h hds hts h3) _
      | some p =>
        rw [continue_trick_waiting s now hts hmv (by rw [haw]; rfl)] at hs
        simp only [ok.injEq] at hs
        rw [← hs]
        exact h

theorem inv_continue_deal {done : List PosMap} {s s1 : ServerGameState} (h : Inv done s)
    (hds : s.deal_started = true) (now : Int) (hs : continue_deal s now = ok s1) :
    Inv (if 13 < s.current_trick then done ++ [s.deal_scores] else done) s1 := by
  by_cases hct : 13 < s.current_trick
  · rw [if_pos hct]
    obtain ⟨score, total, -, -, e⟩ := continue_deal_close s s1 now hct hs
    rw [e]
    exact inv_deal_closed h hds hct _
  · rw [if_neg hct]
    unfold continue_deal at hs
    rw [if_pos (by omega)] at hs
    exact inv_continue_trick h hds now hs

theorem are_players_ready_congr (s t : ServerGameState)
    (h : s.player_sockets = t.player_sockets) : are_players_ready s = are_players_ready t := by
  unfold are_players_ready
  rw [h]

theorem inv_continue_game {done : List PosMap} {s s1 : ServerGameState} (h : Inv done s)
    (now : Int) (hs : continue_game s now = ok s1) :
    Inv (if broadcasts_scores s then done ++ [s.deal_scores] else done) s1 := by
  unfold continue_game at hs
  unfold broadcasts_scores
  cases hr : are_players_ready s with
  | false =>
    simp only [hr, Bool.not_false, if_true, ok.injEq] at hs
    rw [← hs]
    simpa using h
  | true =>
    simp only [hr, Bool.not_true, Bool.false_eq_true, if_false] at hs
    cases hds : s.deal_started with
    | false =>
      have hnd : (!s.deal_started) = true := by rw [hds]; rfl
      simp only [hnd, if_true] at hs
      simp only [Bool.true_and, Bool.false_and, Bool.false_eq_true, if_false]
      split at hs
      · simp only [ok.injEq] at hs
        obtain ⟨heap, e⟩ := end_game_eq s
        rw [← hs, e]
        exact ⟨h.1, h.2, h.3, h.4, h.5, h.6, h.7, h.8, h.9, h.10, h.11, h.12, h.13⟩
      · obtain ⟨s2, h2, h3⟩ := bind_eq_ok _ _ _ hs
        obtain ⟨hinv, hds2, -, hct2, -⟩ := inv_start_deal h hds h2
        have := inv_continue_deal hinv hds2 now h3
        rw [hct2] at this
        simpa using this
    | true =>
      have hnd : (!s.deal_started) = false := by rw [hds]; rfl
      simp only [hnd, Bool.false_eq_true, if_false] at hs
      have := inv_continue_deal h hds now hs
      simpa using this

/-- The invariant holds in every state the server can be in. -/
theorem reachable_inv {done : List PosMap} {s : ServerGameState} (h : Reachable done s) :
    Inv done s := by
  induction h with
  | init schedule timeout u heap hparse => exact inv_init schedule timeout u heap hparse
  | @new_player done s _ position socket now ih =>
    obtain ⟨m, heap, e⟩ := new_player_eq s position socket now
    rw [e]
    exact inv_with_heap (inv_with_sockets ih m) heap
  | @disconnect_client done s _ socket ih =>
    obtain ⟨m, e⟩ := disconnect_client_eq s socket
    rw [e]
    exact inv_with_sockets ih m
  | @handle_trick_message done s _ socket t cards hcards ih =>
    by_cases hacc : (handle_trick_message s socket t cards).2 = ok none
    · obtain ⟨⟨h1, h2⟩, p, c, hp, ha, ht, hc, hv⟩ :=
        (handle_trick_message_accepts_iff s socket t cards).mp hacc
      rw [handle_trick_message_accepted s socket t cards p c h1 h2 hp ha ht hc hv]
      exact inv_accept_move ih socket p c ha (hcards c (List.mem_of_mem_getLast? hc)) hv
    · rw [handle_trick_message_state s socket t cards hacc]
      exact ih
  | @continue_game done s s1 _ now hs ih => exact inv_continue_game ih now hs
  | @sockets done s _ heap ih => exact inv_with_heap ih heap

end ServerGameState

namespace ServerGameState

/-! ## The demonstration match, continued -/

theorem reachable_tick_quiet {done : List PosMap} {s s1 : ServerGameState}
    (h : Reachable done s) (now : Int) (hq : broadcasts_scores s = false)
    (hs : continue_game s now = ok s1) : Reachable done s1 := by
  have := Reachable.continue_game h now hs
  rw [hq] at this
  simpa using this

theorem reachable_run {done : List PosMap} {s : ServerGameState} (h : Reachable done s)
    (events : List Event)
    (hp : events.all (fun e =>
      match e with
      | Event.trick _ _ c => decide (c ∈ Card.pack)
      | Event.tick _ => true) = true) :
    ∃ done1, Reachable done1 (run s events) := by
  induction events generalizing done s with
  | nil => exact ⟨done, h⟩
  | cons e rest ih =>
    simp only [List.all_cons, Bool.and_eq_true] at hp
    cases e with
    | trick socket t c =>
      have hc : c ∈ Card.pack := by simpa using hp.1
      exact ih (reachable_play h socket t c hc) hp.2
    | tick now =>
      obtain ⟨done1, h1⟩ := reachable_tick h now
      exact ih h1 hp.2

set_option maxRecDepth 100000 in
theorem demo_dealt_reachable : Reachable [] demo_dealt :=
  reachable_tick_quiet demo_seated_reachable 0 (by decide) (by decide)

set_option maxRecDepth 100000 in
theorem demo_four_reachable : Reachable [] demo_four := by
  have h1 : Reachable [] demo_one :=
    reachable_play demo_dealt_reachable 0 1 _ (by decide)
  have h2 : Reachable [] demo_east_prompted :=
    reachable_tick_quiet h1 0 (by decide) (by decide)
  have h3 := reachable_play h2 1 1 ⟨"K".toList, Color.Spades, 13⟩ (by decide)
  have h4 := reachable_tick_quiet h3 0 (by decide)
    (show _ = ok (tick (play demo_east_prompted 1 1 ⟨"K".toList, Color.Spades, 13⟩) 0) from
      by decide)
  have h5 := reachable_play h4 2 1 ⟨"Q".toList, Color.Spades, 12⟩ (by decide)
  have h6 := reachable_tick_quiet h5 0 (by decide)
    (show _ = ok (tick (play (tick (play demo_east_prompted 1 1
      ⟨"K".toList, Color.Spades, 13⟩) 0) 2 1 ⟨"Q".toList, Color.Spades, 12⟩) 0) from by decide)
  exact reachable_play h6 3 1 ⟨"J".toList, Color.Spades, 11⟩ (by decide)

set_option maxRecDepth 100000 in
theorem demo_taken_reachable : Reachable [] demo_taken :=
  reachable_tick_quiet demo_four_reachable 0 (by decide) (by decide)

set_option maxRecDepth 1000000 in
theorem demo_deal_played_reachable : ∃ done, Reachable done demo_deal_played :=
  reachable_run demo_dealt_reachable demo_play (by decide)

/-! ## Rejected and accepted `TRICK` messages -/

set_option maxRecDepth 1000000 in
/-- C13. Before the first deal and after the thirteenth trick of a deal the method
`handle_trick_message` returns no `WRONG` message: it builds `WRONG(current_trick)`
before its checks, the constructor rejects the trick numbers 0 and 14, and the
call ends with `std::invalid_argument`. So it goes for the socket seated North
that plays before anybody else is seated (it is not the awaited seat, nobody is),
and for the same socket playing after the last trick of the demonstration deal. -/
theorem wrong_not_returned_outside_tricks :
    Reachable [] demo_alone ∧ demo_alone.current_trick = 0 ∧
    find_position demo_alone 0 = some Position.North ∧ demo_alone.awaited_player = none ∧
    handle_trick_message demo_alone 0 1 [⟨"A".toList, Color.Spades, 14⟩] =
      (demo_alone, Outcome.throw Exn.invalid_argument) ∧
    (∃ done, Reachable done demo_deal_played) ∧ demo_deal_played.current_trick = 14 ∧
    find_position demo_deal_played 0 = some Position.North ∧
    demo_deal_played.awaited_player = none ∧
    handle_trick_message demo_deal_played 0 13 [⟨"A".toList, Color.Spades, 14⟩] =
      (demo_deal_played, Outcome.throw Exn.invalid_argument) :=
  ⟨demo_alone_reachable, by decide, by decide, by decide,
    handle_trick_message_throws _ _ _ _ (Or.inl (by decide)),
    demo_deal_played_reachable, by decide, by decide, by decide,
    handle_trick_message_throws _ _ _ _ (Or.inr (by decide))⟩

theorem position_order_inj (p q : Position)
    (h : (position_order p).toNat = (position_order q).toNat) : p = q := by
  cases p <;> cases q <;> simp [position_order] at h <;> rfl

theorem getD_modify {α : Type} (f : α → α) (n m : Nat) (l : List α) (d : α) :
    (List.modify f n l).getD m d =
      if n = m ∧ m < l.length then f (l.getD m d) else l.getD m d := by
  rw [List.getD_eq_getElem?_getD, List.getD_eq_getElem?_getD, List.getElem?_modify]
  by_cases hm : m < l.length
  · rw [List.getElem?_eq_getElem hm]
    by_cases hn : n = m
    · simp [hn, hm]
    · simp [hn]
  · rw [List.getElem?_eq_none (by omega)]
    simp [hm]

/-- C15. When the awaited seat `p` sends a `TRICK` message with the current
trick number whose last card `c` is a valid move, `handle_trick_message` accepts
it: it returns nothing; `trick_cards` is the old list with `c` appended; the hand
of `p` is the old hand without its one card equal to `c`, the other cards in
their order; `current_move` is one more; nobody is awaited; the `awaited_message`
of the sending socket is cleared and nothing else of the sockets changes; the
hands of the other seats, the scores, the trick number and the seats are as
before. -/
theorem accepted_trick_effects (done : List PosMap) (s : ServerGameState)
    (hr : Reachable done s) (socket : Nat) (t : Int) (cards : List Card) (p : Position)
    (c : Card) (hp : find_position s socket = some p) (ha : s.awaited_player = some p)
    (ht : t = s.current_trick) (hc : cards.getLast? = some c)
    (hv : is_valid_move s c p = true) :
    (handle_trick_message s socket t cards).2 = ok none ∧
    (handle_trick_message s socket t cards).1.trick_cards = s.trick_cards ++ [c] ∧
    (∃ l1 x l2, hand_of s p = l1 ++ x :: l2 ∧ x.figure = c.figure ∧ x.color = c.color ∧
      (∀ y ∈ l1 ++ l2, ¬ (y.figure = c.figure ∧ y.color = c.color)) ∧
      hand_of (handle_trick_message s socket t cards).1 p = l1 ++ l2) ∧
    (handle_trick_message s socket t cards).1.current_move = s.current_move + 1 ∧
    (handle_trick_message s socket t cards).1.awaited_player = none ∧
    (∀ sock, s.heap[socket]? = some sock →
      (handle_trick_message s socket t cards).1.heap[socket]? =
        some { sock with awaited_message := none }) ∧
    (∀ i, i ≠ socket → (handle_trick_message s socket t cards).1.heap[i]? = s.heap[i]?) ∧
    (∀ q, q ≠ p → hand_of (handle_trick_message s socket t cards).1 q = hand_of s q) ∧
    (handle_trick_message s socket t cards).1.deal_scores = s.deal_scores ∧
    (handle_trick_message s socket t cards).1.total_scores = s.total_scores ∧
    (handle_trick_message s socket t cards).1.current_trick = s.current_trick ∧
    (handle_trick_message s socket t cards).1.player_sockets = s.player_sockets := by
  have h := reachable_inv hr
  obtain ⟨hds, hts, -, -⟩ := h.awaited p ha
  obtain ⟨-, -, hlen, hA, -⟩ := h.phase hds
  obtain ⟨h1, h2, -, -⟩ := hA hts
  rw [handle_trick_message_accepted s socket t cards p c h1 h2 hp ha ht hc hv]
  have hidx : (position_order p).toNat < s.current_hands.length := by
    have := position_order_range p
    omega
  refine ⟨rfl, rfl, ?_, rfl, rfl, ?_, ?_, ?_, rfl, rfl, rfl, rfl⟩
  · obtain ⟨x, hx, hxe⟩ := is_valid_move_held s c p hv
    obtain ⟨a, l1, l2, hl1, hpa, hl, he⟩ :=
      List.exists_of_eraseP (p := fun c' => c'.eq c) hx hxe
    have hhand : hand_of s p ∈ s.current_hands := by
      rcases getD_mem_or s.current_hands (position_order p).toNat with h3 | h3
      · exact h3
      · unfold hand_of at hx
        rw [h3] at hx
        simp at hx
    obtain ⟨hpk, hnd⟩ := h.hands_pack _ hhand
    have hae := hpa
    simp only [Card.eq, Bool.and_eq_true, decide_eq_true_eq] at hae
    refine ⟨l1, a, l2, hl, hae.1, hae.2, ?_, ?_⟩
    · intro y hy hye
      have hy' : y ∈ hand_of s p := by
        rw [hl]
        rw [List.mem_append] at hy ⊢
        rcases hy with h3 | h3
        · exact Or.inl h3
        · exact Or.inr (List.mem_cons_of_mem _ h3)
      have ha' : a ∈ hand_of s p := by
        rw [hl]
        simp
      have hya : y = a := by
        apply Card.pack_eq_of_eq y a (hpk y hy') (hpk a ha')
        simp only [Card.eq, Bool.and_eq_true, decide_eq_true_eq]
        exact ⟨hye.1.trans hae.1.symm, hye.2.trans hae.2.symm⟩
      rw [hl] at hnd
      have hnd' := List.nodup_middle.mp hnd
      rw [hya] at hy
      exact (List.nodup_cons.mp hnd').1 hy
    · show (List.modify _ _ s.current_hands).getD (position_order p).toNat [] = l1 ++ l2
      rw [getD_modify, if_pos ⟨rfl, hidx⟩]
      exact he
  · intro sock hsock
    show (List.modify _ socket s.heap)[socket]? = _
    rw [List.getElem?_modify, hsock]
    simp
  · intro i hi
    show (List.modify _ socket s.heap)[i]? = _
    rw [List.getElem?_modify]
    have : ¬ socket = i := fun e => hi e.symm
    simp [this]
  · intro q hq
    show (List.modify _ _ s.current_hands).getD (position_order q).toNat [] = _
    rw [getD_modify, if_neg]
    · rfl
    · rintro ⟨e, -⟩
      exact hq (position_order_inj _ _ e).symm

set_option maxRecDepth 100000 in
/-- North, awaited for the first card of the first trick, plays the ace of
spades. -/
theorem accepted_trick_effects_witness :
    Reachable [] demo_dealt ∧ find_position demo_dealt 0 = some Position.North ∧
    demo_dealt.awaited_player = some Position.North ∧ (1 : Int) = demo_dealt.current_trick ∧
    [(⟨"A".toList, Color.Spades, 14⟩ : Card)].getLast? = some ⟨"A".toList, Color.Spades, 14⟩ ∧
    is_valid_move demo_dealt ⟨"A".toList, Color.Spades, 14⟩ Position.North = true ∧
    (handle_trick_message demo_dealt 0 1 [⟨"A".toList, Color.Spades, 14⟩]).1.trick_cards =
      demo_dealt.trick_cards ++ [⟨"A".toList, Color.Spades, 14⟩] :=
  ⟨demo_dealt_reachable, by decide, by decide, by decide, by decide, by decide,
    (accepted_trick_effects [] demo_dealt demo_dealt_reachable 0 1
      [⟨"A".toList, Color.Spades, 14⟩] Position.North ⟨"A".toList, Color.Spades, 14⟩
      (by decide) (by decide) (by decide) (by decide) (by decide)).2.1⟩

end ServerGameState

namespace ServerGameState

/-! ## The end of a trick -/

theorem compare_lead_iff (lead c : Card) (L : Color) (h : lead.color = L) :
    lead.compare c L = true ↔ c.color = L ∧ lead.value < c.value := by
  unfold Card.compare
  by_cases hc : lead.color = c.color
  · rw [if_pos hc]
    simp only [decide_eq_true_eq]
    constructor
    · intro hv
      exact ⟨hc.symm.trans h, hv⟩
    · intro hv
      exact hv.2
  · rw [if_neg hc, if_pos h]
    constructor
    · intro hf
      simp at hf
    · intro hv
      exact absurd (h.trans hv.1.symm) hc

/-- The loop of `calculate_points` ends with the index of a card of the suit led
that no card of that suit among those it visited exceeds. -/
theorem winner_loop_spec (tc : List Card) (L : Color) (fm : Int) (l : List Nat)
    (lead : Card) (k : Nat) (hk : tc.get? k = some lead) (hL : lead.color = L) :
    ∃ (k1 : Nat) (lead1 : Card), winner_loop tc L fm l lead (c_rem (fm + (k : Int)) 4) =
        c_rem (fm + (k1 : Int)) 4 ∧
      tc.get? k1 = some lead1 ∧ lead1.color = L ∧ lead.value ≤ lead1.value ∧
      (k1 = k ∨ k1 ∈ l) ∧
      ∀ j ∈ l, ∀ c, tc.get? j = some c → c.color = L → c.value ≤ lead1.value := by
  induction l generalizing lead k with
  | nil =>
    refine ⟨k, lead, rfl, hk, hL, le_refl _, Or.inl rfl, ?_⟩
    intro j hj
    simp at hj
  | cons i rest ih =>
    unfold winner_loop
    cases hi : tc.get? i with
    | none =>
      simp only
      obtain ⟨k1, lead1, h1, h2, h3, h4, h5, h6⟩ := ih lead k hk hL
      refine ⟨k1, lead1, h1, h2, h3, h4, ?_, ?_⟩
      · rcases h5 with h5 | h5
        · exact Or.inl h5
        · exact Or.inr (List.mem_cons_of_mem _ h5)
      · intro j hj c hc hcl
        rw [List.mem_cons] at hj
        rcases hj with hj | hj
        · rw [hj, hi] at hc
          simp at hc
        · exact h6 j hj c hc hcl
    | some c =>
      simp only
      by_cases hcmp : lead.compare c L = true
      · rw [if_pos hcmp]
        obtain ⟨hc1, hc2⟩ := (compare_lead_iff lead c L hL).mp hcmp
        obtain ⟨k1, lead1, h1, h2, h3, h4, h5, h6⟩ := ih c i hi hc1
        refine ⟨k1, lead1, h1, h2, h3, by omega, ?_, ?_⟩
        · rcases h5 with h5 | h5
          · exact Or.inr (h5 ▸ List.mem_cons_self _ _)
          · exact Or.inr (List.mem_cons_of_mem _ h5)
        · intro j hj c' hc' hcl
          rw [List.mem_cons] at hj
          rcases hj with hj | hj
          · rw [hj, hi] at hc'
            simp only [Option.some.injEq] at hc'
            rw [← hc']
            exact h4
          · exact h6 j hj c' hc' hcl
      · rw [if_neg hcmp]
        obtain ⟨k1, lead1, h1, h2, h3, h4, h5, h6⟩ := ih lead k hk hL
        refine ⟨k1, lead1, h1, h2, h3, h4, ?_, ?_⟩
        · rcases h5 with h5 | h5
          · exact Or.inl h5
          · exact Or.inr (List.mem_cons_of_mem _ h5)
        · intro j hj c' hc' hcl
          rw [List.mem_cons] at hj
          rcases hj with hj | hj
          · rw [hj, hi] at hc'
            simp only [Option.some.injEq] at hc'
            rw [← hc'] at hcl ⊢
            have : ¬ (c.color = L ∧ lead.value < c.value) :=
              fun hh => hcmp ((compare_lead_iff lead c L hL).mpr hh)
            have : ¬ lead.value < c.value := fun hh => this ⟨hcl, hh⟩
            omega
          · exact h6 j hj c' hc' hcl

theorem foldl_send (messages : List Str) (sock : Socket) :
    messages.foldl (fun k m => k.send m) sock = sock.sent 1 messages.flatten := by
  induction messages generalizing sock with
  | nil => simp [Socket.sent]
  | cons m rest ih =>
    rw [List.foldl_cons, ih]
    simp [Socket.sent, Socket.send]

theorem sent_sent (sock : Socket) (a b : Nat) (text : Str) :
    (sock.sent a text).sent b text = sock.sent (a + b) text := by
  unfold Socket.sent
  simp only [List.replicate_add, List.flatten_append, List.append_assoc]

theorem sent_zero (sock : Socket) (text : Str) : sock.sent 0 text = sock := by
  simp [Socket.sent]

/-- A loop that sends the same messages to every seat of a list appends them to
the write queue of each socket once for every seat of the list it holds. -/
theorem send_to_all_getElem? (messages : List Str) (l : List Position) (s : ServerGameState)
    (i : Nat) :
    (send_to_all messages l s).heap[i]? =
      (s.heap[i]?).map fun sock =>
        sock.sent (l.countP fun p => decide (s.player_sockets.get p = some i))
          messages.flatten := by
  induction l generalizing s with
  | nil =>
    simp only [send_to_all, List.countP_nil]
    cases s.heap[i]? with
    | none => rfl
    | some sock => simp [sent_zero]
  | cons p rest ih =>
    unfold send_to_all
    rw [ih]
    have hps : ∀ f, (on_socket s p f).player_sockets = s.player_sockets := fun _ => rfl
    have hheap : ∀ f, (on_socket s p f).heap =
        match s.player_sockets.get p with
        | none => s.heap
        | some j => List.modify f j s.heap := fun _ => rfl
    simp only [hps, hheap, List.countP_cons]
    cases hp : s.player_sockets.get p with
    | none => simp
    | some j =>
      simp only [List.getElem?_modify]
      cases hs : s.heap[i]? with
      | none => simp
      | some sock =>
        by_cases hji : j = i
        · simp [hji, foldl_send, sent_sent, Nat.add_comm]
        · simp [hji]

end ServerGameState

namespace ServerGameState

theorem continue_game_started (s : ServerGameState) (now : Int)
    (hr : are_players_ready s = true) (hds : s.deal_started = true) :
    continue_game s now = continue_deal s now := by
  unfold continue_game
  simp [hr, hds]

theorem continue_deal_trick (s : ServerGameState) (now : Int) (hct : s.current_trick ≤ 13) :
    continue_deal s now = continue_trick s now := by
  unfold continue_deal
  rw [if_pos hct]

theorem calculate_points_trick (s : ServerGameState) :
    (calculate_points s).current_trick = s.current_trick ∧
    (calculate_points s).trick_cards = s.trick_cards := by
  unfold calculate_points
  split <;> exact ⟨rfl, rfl⟩

theorem continue_trick_close_ok (s : ServerGameState) (now : Int)
    (hts : s.trick_started = true) (hmv : s.current_move = 4)
    (h1 : 1 ≤ s.current_trick) (h2 : s.current_trick ≤ 13) (h4 : s.trick_cards.length = 4) :
    ∃ s1, continue_trick s now = ok s1 := by
  have hnt : (!s.trick_started) = false := by rw [hts]; rfl
  unfold continue_trick
  simp only [hnt, Bool.false_eq_true, if_false]
  rw [if_pos hmv]
  unfold send_taken_messages
  rw [(calculate_points_trick _).1, (calculate_points_trick _).2]
  unfold TAKENMessage
  rw [if_neg (by show ¬ (s.current_trick < 1 ∨ s.current_trick > 13); omega),
    if_neg (by show ¬ s.trick_cards.length ≠ 4; omega)]
  exact ⟨_, rfl⟩

/-- C16. When four cards have been played in a trick, the next `continue_game`
(all four seats taken) returns, and: the trick has four cards, the first of them
fixing the suit led; the winner is the seat `k` places after the opener, the
`k`-th card being of the suit led and no card of that suit in the trick having a
higher value (the `k`-th card is the one the seat `k` places after the opener
played: `continue_trick` prompts `order[(current_move + first_move) % 4]`); a
`TAKEN` with the current trick number, the four cards in the order played and
that winner is appended to `taken_messages`, and its line is appended to the
write queue of every socket, once for each seat the socket holds; the winner is
`first_move`, the opener of the next trick; the trick is no longer open. -/
theorem trick_closed_and_announced (done : List PosMap) (s : ServerGameState)
    (hr : Reachable done s) (now : Int) (hready : are_players_ready s = true)
    (hds : s.deal_started = true) (hts : s.trick_started = true)
    (hmv : s.current_move = 4) :
    ∃ (c0 : Card) (rest : List Card) (k : Nat) (w : Card) (s1 : ServerGameState),
      s.trick_cards = c0 :: rest ∧ s.trick_cards.length = 4 ∧
      k < 4 ∧ s.trick_cards.get? k = some w ∧ w.color = c0.color ∧
      (∀ c ∈ s.trick_cards, c.color = c0.color → c.value ≤ w.value) ∧
      continue_game s now = ok s1 ∧
      s1.first_move = (s.first_move + (k : Int)) % 4 ∧
      s1.taken_messages = s.taken_messages ++ [⟨MessageType.TAKEN,
        std_to_string s.current_trick ++ cards_data s.trick_cards ++
          to_string_Position (order_at ((s.first_move + (k : Int)) % 4)),
        Payload.TAKEN s.current_trick s.trick_cards
          (order_at ((s.first_move + (k : Int)) % 4))⟩] ∧
      (∀ i, s1.heap[i]? = (s.heap[i]?).map fun (sock : Socket) =>
        sock.sent (seats_held s i) (to_string_MessageType MessageType.TAKEN ++
          (std_to_string s.current_trick ++ cards_data s.trick_cards ++
            to_string_Position (order_at ((s.first_move + (k : Int)) % 4))) ++ CRLF)) ∧
      s1.trick_started = false ∧ 1 ≤ s.current_trick ∧ s.current_trick ≤ 13 := by
  have h := reachable_inv hr
  obtain ⟨hf1, hf2, -, hA, -⟩ := h.phase hds
  obtain ⟨h1, h2, -, -⟩ := hA hts
  have h4 : s.trick_cards.length = 4 := by
    have := h.move_len
    omega
  obtain ⟨s1, hs1⟩ := continue_trick_close_ok s now hts hmv h1 h2 h4
  obtain ⟨-, c0, rest, W, htc, hW, e⟩ := continue_trick_close s s1 now hts hmv hs1
  have hget0 : s.trick_cards.get? 0 = some c0 := by rw [htc]; rfl
  obtain ⟨k, w, hk1, hk2, hk3, hk4, hk5, hk6⟩ :=
    winner_loop_spec s.trick_cards c0.color s.first_move [1, 2, 3] c0 0 hget0 rfl
  have hfm0 : c_rem (s.first_move + ((0 : Nat) : Int)) 4 = s.first_move := by
    rw [c_rem_nonneg _ (by omega)]
    omega
  rw [hfm0] at hk1
  have hWk : W = (s.first_move + (k : Int)) % 4 := by
    rw [hW, hk1, c_rem_nonneg _ (by omega)]
  have hk4' : k < 4 := by
    rcases hk5 with h5 | h5
    · omega
    · simp only [List.mem_cons, List.mem_singleton, List.not_mem_nil, or_false] at h5
      omega
  refine ⟨c0, rest, k, w, s1, htc, h4, hk4', hk2, hk3, ?_, ?_, ?_, ?_, ?_, ?_, h1, h2⟩
  · intro c hc hcl
    obtain ⟨j, hj⟩ := List.get?_of_mem hc
    have hjlt : j < 4 := by
      have := List.get?_eq_some.mp hj
      obtain ⟨hlt, -⟩ := this
      omega
    have hj4 : j = 0 ∨ j = 1 ∨ j = 2 ∨ j = 3 := by omega
    rcases hj4 with e0 | e1 | e2 | e3
    · rw [e0, hget0] at hj
      simp only [Option.some.injEq] at hj
      rw [← hj]
      exact hk4
    · exact hk6 j (by rw [e1]; simp) c hj hcl
    · exact hk6 j (by rw [e2]; simp) c hj hcl
    · exact hk6 j (by rw [e3]; simp) c hj hcl
  · rw [continue_game_started s now hready hds, continue_deal_trick s now h2]
    exact hs1
  · rw [e, ← hWk]
  · rw [e, ← hWk]
  · intro i
    rw [e, ← hWk]
    show (send_to_all _ seat_order s).heap[i]? = _
    rw [send_to_all_getElem?]
    simp [Message.to_string, seats_held]
  · rw [e]

set_option maxRecDepth 100000 in
/-- The cards `AS`, `KS`, `QS`, `JS` played in the first trick opened by North:
the next `continue_game` announces `TAKEN1ASKSQSJSN` and North has one point. -/
theorem trick_closed_and_announced_witness :
    Reachable [] demo_four ∧ are_players_ready demo_four = true ∧
    demo_four.deal_started = true ∧ demo_four.trick_started = true ∧
    demo_four.current_move = 4 ∧
    (∃ (c0 : Card) (rest : List Card) (k : Nat) (w : Card) (s1 : ServerGameState),
      demo_four.trick_cards = c0 :: rest ∧ demo_four.trick_cards.length = 4 ∧
      k < 4 ∧ demo_four.trick_cards.get? k = some w ∧ w.color = c0.color ∧
      (∀ c ∈ demo_four.trick_cards, c.color = c0.color → c.value ≤ w.value) ∧
      continue_game demo_four 0 = ok s1 ∧
      s1.first_move = (demo_four.first_move + (k : Int)) % 4 ∧
      s1.taken_messages = demo_four.taken_messages ++ [⟨MessageType.TAKEN,
        std_to_string demo_four.current_trick ++ cards_data demo_four.trick_cards ++
          to_string_Position (order_at ((demo_four.first_move + (k : Int)) % 4)),
        Payload.TAKEN demo_four.current_trick demo_four.trick_cards
          (order_at ((demo_four.first_move + (k : Int)) % 4))⟩] ∧
      (∀ i, s1.heap[i]? = (demo_four.heap[i]?).map fun (sock : Socket) =>
        sock.sent (seats_held demo_four i) (to_string_MessageType MessageType.TAKEN ++
          (std_to_string demo_four.current_trick ++ cards_data demo_four.trick_cards ++
            to_string_Position (order_at ((demo_four.first_move + (k : Int)) % 4))) ++ CRLF)) ∧
      s1.trick_started = false ∧ 1 ≤ demo_four.current_trick ∧
      demo_four.current_trick ≤ 13) ∧
    demo_taken.taken_messages.map Message.to_string = ["TAKEN1ASKSQSJSN\r\n".toList] ∧
    demo_taken.deal_scores = ⟨some 1, some 0, some 0, some 0⟩ :=
  ⟨demo_four_reachable, by decide, by decide, by decide, by decide,
    trick_closed_and_announced [] demo_four demo_four_reachable 0 (by decide) (by decide)
      (by decide) (by decide),
    by decide, by decide⟩

end ServerGameState

namespace ServerGameState

/-! ## The points of a trick -/

theorem foldl_score (P : Card → Prop) [DecidablePred P] (n : Int) (cards : List Card)
    (init : Int) :
    cards.foldl (fun score card => if P card then score + n else score) init =
      init + n * (cards.countP fun c => decide (P c)) := by
  induction cards generalizing init with
  | nil => simp
  | cons c rest ih =>
    rw [List.foldl_cons, ih, List.countP_cons]
    by_cases hc : P c
    · simp only [hc, if_true, decide_True]
      push_cast
      ring
    · simp only [hc, if_false, decide_False]
      simp

/-- The amount `calculate_points` computes: for the deal type 5 it adds 18 for
every card that is the king of hearts. -/
theorem trick_score_eq (deal_type : DealType) (cards : List Card) (t : Int) :
    trick_score deal_type cards t =
      (if deal_type = DealType.TRICK ∨ deal_type = DealType.BANDIT then 1 else 0) +
      (if deal_type = DealType.HEART ∨ deal_type = DealType.BANDIT then
        ((cards.countP fun c => decide (c.color = Color.Hearts) : Nat) : Int) else 0) +
      (if deal_type = DealType.QUEEN ∨ deal_type = DealType.BANDIT then
        5 * ((cards.countP fun c => decide (c.figure = "Q".toList) : Nat) : Int) else 0) +
      (if deal_type = DealType.LORD ∨ deal_type = DealType.BANDIT then
        2 * ((cards.countP fun c =>
          decide (c.figure = "J".toList ∨ c.figure = "K".toList) : Nat) : Int) else 0) +
      (if deal_type = DealType.KING_HEART ∨ deal_type = DealType.BANDIT then
        18 * ((cards.countP fun c =>
          decide (c.figure = "K".toList ∧ c.color = Color.Hearts) : Nat) : Int) else 0) +
      (if deal_type = DealType.SEVENTH_LAST ∨ deal_type = DealType.BANDIT then
        (if t = 7 ∨ t = 13 then 10 else 0) else 0) := by
  unfold trick_score
  simp only [foldl_score]
  cases deal_type <;> simp
  split <;> omega

theorem king_of_hearts_once (cards : List Card) (hpack : ∀ c ∈ cards, c ∈ Card.pack)
    (hnd : cards.Nodup) :
    (18 : Int) * ((cards.countP fun c =>
        decide (c.figure = "K".toList ∧ c.color = Color.Hearts) : Nat) : Int) =
      if (cards.any fun c =>
        decide (c.figure = "K".toList) && decide (c.color = Color.Hearts)) = true
      then 18 else 0 := by
  have hcount : (cards.countP fun c =>
      decide (c.figure = "K".toList ∧ c.color = Color.Hearts)) =
      cards.count ⟨"K".toList, Color.Hearts, 13⟩ := by
    rw [List.count, List.countP_eq_length_filter, List.countP_eq_length_filter]
    congr 1
    apply List.filter_congr
    intro c hc
    have hv := (Card.pack_value c (hpack c hc)).1
    by_cases h : c.figure = "K".toList ∧ c.color = Color.Hearts
    · have : c = ⟨"K".toList, Color.Hearts, 13⟩ := by
        cases c
        simp only at h hv
        simp only [Card.mk.injEq]
        refine ⟨h.1, h.2, ?_⟩
        rw [hv, h.1]
        decide
      rw [decide_eq_true h, this]
      exact (beq_self_eq_true _).symm
    · have : ¬ c = ⟨"K".toList, Color.Hearts, 13⟩ := by
        intro e
        apply h
        rw [e]
        exact ⟨rfl, rfl⟩
      rw [decide_eq_false h]
      exact (beq_eq_false_iff_ne.mpr this).symm
  rw [hcount]
  by_cases hm : (⟨"K".toList, Color.Hearts, 13⟩ : Card) ∈ cards
  · rw [List.count_eq_one_of_mem hnd hm]
    have : (cards.any fun c =>
        decide (c.figure = "K".toList) && decide (c.color = Color.Hearts)) = true := by
      rw [List.any_eq_true]
      exact ⟨_, hm, by decide⟩
    rw [if_pos this]
    rfl
  · rw [List.count_eq_zero_of_not_mem hm]
    have : ¬ (cards.any fun c =>
        decide (c.figure = "K".toList) && decide (c.color = Color.Hearts)) = true := by
      rw [List.any_eq_true]
      rintro ⟨c, hc, hk⟩
      simp only [Bool.and_eq_true, decide_eq_true_eq] at hk
      have hv := (Card.pack_value c (hpack c hc)).1
      apply hm
      have : c = ⟨"K".toList, Color.Hearts, 13⟩ := by
        cases c
        simp only at hk hv
        simp only [Card.mk.injEq]
        refine ⟨hk.1, hk.2, ?_⟩
        rw [hv, hk.1]
        decide
      rw [← this]
      exact hc
    rw [if_neg this]
    rfl

theorem trick_score_spec (deal_type : DealType) (cards : List Card) (t : Int)
    (hpack : ∀ c ∈ cards, c ∈ Card.pack) (hnd : cards.Nodup) :
    trick_score deal_type cards t = spec_trick_points deal_type cards t := by
  rw [trick_score_eq, king_of_hearts_once cards hpack hnd]
  unfold spec_trick_points
  have hjk : (cards.countP fun c =>
      decide (c.figure = "J".toList ∨ c.figure = "K".toList)) =
      cards.countP fun c => decide (c.figure = "J".toList) || decide (c.figure = "K".toList) := by
    congr 1
    funext c
    simp
  rw [hjk]
  cases deal_type <;> simp

set_option maxRecDepth 1000000 in
/-- Two cards of the pack of one suit and one value are one card. -/
theorem Card.pack_value_inj : ∀ a ∈ Card.pack, ∀ b ∈ Card.pack,
    a.color = b.color → a.value = b.value → a = b := by
  decide

/-- C17. For a trick of four different cards of the pack, opened by one of the
four seats, `calculate_points` finds the winner: the seat `k` places after the
opener, the `k`-th card played being of the suit led (the suit of the first card)
and every other card of that suit in the trick having a lower value; it leaves that
seat in `first_move`, adds to the deal score of that seat, and to no other score, what the
specification gives for the deal type: 1; the number of hearts; 5 for each queen;
2 for each jack or king; 18 if the king of hearts is among the cards; 10 if the
trick is the 7th or the 13th; for the Bandit the sum of these six; the total scores
stay as they are. -/
theorem trick_points_by_deal_type (s : ServerGameState)
    (hpack : ∀ c ∈ s.trick_cards, c ∈ Card.pack) (hnd : s.trick_cards.Nodup)
    (h4 : s.trick_cards.length = 4) (hfm : 0 ≤ s.first_move ∧ s.first_move ≤ 3) :
    ∃ (c0 : Card) (rest : List Card) (k : Nat) (w : Card),
      s.trick_cards = c0 :: rest ∧
      k < 4 ∧ s.trick_cards.get? k = some w ∧ w.color = c0.color ∧
      (∀ c ∈ s.trick_cards, c.color = c0.color → c.value ≤ w.value) ∧
      (∀ c ∈ s.trick_cards, c.color = c0.color → c ≠ w → c.value < w.value) ∧
      (calculate_points s).first_move = (s.first_move + (k : Int)) % 4 ∧
      (calculate_points s).deal_scores.at (order_at ((s.first_move + (k : Int)) % 4)) =
        s.deal_scores.at (order_at ((s.first_move + (k : Int)) % 4)) +
          spec_trick_points s.deal_type s.trick_cards s.current_trick ∧
      (∀ q, q ≠ order_at ((s.first_move + (k : Int)) % 4) →
        (calculate_points s).deal_scores.at q = s.deal_scores.at q) ∧
      (calculate_points s).total_scores = s.total_scores := by
  obtain ⟨c0, rest, htc⟩ : ∃ c rest, s.trick_cards = c :: rest := by
    cases hl : s.trick_cards with
    | nil => rw [hl] at h4; simp at h4
    | cons c rest => exact ⟨c, rest, rfl⟩
  have hget0 : s.trick_cards.get? 0 = some c0 := by rw [htc]; rfl
  obtain ⟨k, w, hk1, hk2, hk3, hk4, hk5, hk6⟩ :=
    winner_loop_spec s.trick_cards c0.color s.first_move [1, 2, 3] c0 0 hget0 rfl
  have hfm0 : c_rem (s.first_move + ((0 : Nat) : Int)) 4 = s.first_move := by
    rw [c_rem_nonneg _ (by omega)]
    omega
  rw [hfm0] at hk1
  rw [c_rem_nonneg _ (by omega)] at hk1
  have hk4' : k < 4 := by
    rcases hk5 with h5 | h5
    · omega
    · simp only [List.mem_cons, List.mem_singleton, List.not_mem_nil, or_false] at h5
      omega
  have hle : ∀ c ∈ s.trick_cards, c.color = c0.color → c.value ≤ w.value := by
    intro c hc hcl
    obtain ⟨j, hj⟩ := List.get?_of_mem hc
    have hjlt : j < 4 := by
      have := List.get?_eq_some.mp hj
      obtain ⟨hlt, -⟩ := this
      omega
    have hj4 : j = 0 ∨ j = 1 ∨ j = 2 ∨ j = 3 := by omega
    rcases hj4 with e0 | e1 | e2 | e3
    · rw [e0, hget0] at hj
      simp only [Option.some.injEq] at hj
      rw [← hj]
      exact hk4
    · exact hk6 j (by rw [e1]; simp) c hj hcl
    · exact hk6 j (by rw [e2]; simp) c hj hcl
    · exact hk6 j (by rw [e3]; simp) c hj hcl
  have hw : w ∈ s.trick_cards := List.get?_mem hk2
  rw [calculate_points_eq s c0 rest htc, hk1]
  dsimp only
  refine ⟨c0, rest, k, w, htc, hk4', hk2, hk3, hle, ?_, rfl, ?_, ?_, rfl⟩
  · intro c hc hcl hne
    have h1 := hle c hc hcl
    have h2 : c.value ≠ w.value := fun hv =>
      hne (Card.pack_value_inj c (hpack c hc) w (hpack w hw) (hcl.trans hk3.symm) hv)
    omega
  · rw [posmap_set_at, if_pos rfl, trick_score_spec _ _ _ hpack hnd]
  · intro q hq
    rw [posmap_set_at, if_neg hq]

set_option maxRecDepth 100000 in
/-- The seventh trick of a Bandit deal, opened by North with the queen of hearts,
East playing the king of hearts, South the jack of spades and West the two of
clubs: East, who played the highest heart, takes 1 + 2 + 5 + 4 + 18 + 10 points
and opens the next trick. -/
theorem trick_points_by_deal_type_witness :
    (∀ c ∈ [(⟨"Q".toList, Color.Hearts, 12⟩ : Card), ⟨"K".toList, Color.Hearts, 13⟩,
      ⟨"J".toList, Color.Spades, 11⟩, ⟨"2".toList, Color.Clubs, 2⟩], c ∈ Card.pack) ∧
    [(⟨"Q".toList, Color.Hearts, 12⟩ : Card), ⟨"K".toList, Color.Hearts, 13⟩,
      ⟨"J".toList, Color.Spades, 11⟩, ⟨"2".toList, Color.Clubs, 2⟩].Nodup ∧
    demo_four.first_move = 0 ∧
    demo_four.deal_scores = ⟨some 0, some 0, some 0, some 0⟩ ∧
    (∃ (c0 : Card) (rest : List Card) (k : Nat) (w : Card),
      [(⟨"Q".toList, Color.Hearts, 12⟩ : Card), ⟨"K".toList, Color.Hearts, 13⟩,
        ⟨"J".toList, Color.Spades, 11⟩, ⟨"2".toList, Color.Clubs, 2⟩] = c0 :: rest ∧
      k < 4 ∧
      [(⟨"Q".toList, Color.Hearts, 12⟩ : Card), ⟨"K".toList, Color.Hearts, 13⟩,
        ⟨"J".toList, Color.Spades, 11⟩, ⟨"2".toList, Color.Clubs, 2⟩].get? k = some w ∧
      w.color = c0.color ∧
      (∀ c ∈ [(⟨"Q".toList, Color.Hearts, 12⟩ : Card), ⟨"K".toList, Color.Hearts, 13⟩,
        ⟨"J".toList, Color.Spades, 11⟩, ⟨"2".toList, Color.Clubs, 2⟩],
        c.color = c0.color → c.value ≤ w.value) ∧
      (∀ c ∈ [(⟨"Q".toList, Color.Hearts, 12⟩ : Card), ⟨"K".toList, Color.Hearts, 13⟩,
        ⟨"J".toList, Color.Spades, 11⟩, ⟨"2".toList, Color.Clubs, 2⟩],
        c.color = c0.color → c ≠ w → c.value < w.value) ∧
      (calculate_points { demo_four with
        deal_type := DealType.BANDIT, current_trick := 7,
        trick_cards := [⟨"Q".toList, Color.Hearts, 12⟩, ⟨"K".toList, Color.Hearts, 13⟩,
          ⟨"J".toList, Color.Spades, 11⟩, ⟨"2".toList, Color.Clubs, 2⟩] }).first_move =
        (demo_four.first_move + (k : Int)) % 4 ∧
      (calculate_points { demo_four with
        deal_type := DealType.BANDIT, current_trick := 7,
        trick_cards := [⟨"Q".toList, Color.Hearts, 12⟩, ⟨"K".toList, Color.Hearts, 13⟩,
          ⟨"J".toList, Color.Spades, 11⟩, ⟨"2".toList, Color.Clubs, 2⟩] }).deal_scores.at
          (order_at ((demo_four.first_move + (k : Int)) % 4)) =
        demo_four.deal_scores.at (order_at ((demo_four.first_move + (k : Int)) % 4)) +
          spec_trick_points DealType.BANDIT [⟨"Q".toList, Color.Hearts, 12⟩,
            ⟨"K".toList, Color.Hearts, 13⟩, ⟨"J".toList, Color.Spades, 11⟩,
            ⟨"2".toList, Color.Clubs, 2⟩] 7 ∧
      (∀ q, q ≠ order_at ((demo_four.first_move + (k : Int)) % 4) →
        (calculate_points { demo_four with
          deal_type := DealType.BANDIT, current_trick := 7,
          trick_cards := [⟨"Q".toList, Color.Hearts, 12⟩, ⟨"K".toList, Color.Hearts, 13⟩,
            ⟨"J".toList, Color.Spades, 11⟩, ⟨"2".toList, Color.Clubs, 2⟩] }).deal_scores.at q =
          demo_four.deal_scores.at q) ∧
      (calculate_points { demo_four with
        deal_type := DealType.BANDIT, current_trick := 7,
        trick_cards := [⟨"Q".toList, Color.Hearts, 12⟩, ⟨"K".toList, Color.Hearts, 13⟩,
          ⟨"J".toList, Color.Spades, 11⟩, ⟨"2".toList, Color.Clubs, 2⟩] }).total_scores =
        demo_four.total_scores) ∧
    spec_trick_points DealType.BANDIT [⟨"Q".toList, Color.Hearts, 12⟩,
      ⟨"K".toList, Color.Hearts, 13⟩, ⟨"J".toList, Color.Spades, 11⟩,
      ⟨"2".toList, Color.Clubs, 2⟩] 7 = 40 ∧
    (calculate_points { demo_four with
      deal_type := DealType.BANDIT, current_trick := 7,
      trick_cards := [⟨"Q".toList, Color.Hearts, 12⟩, ⟨"K".toList, Color.Hearts, 13⟩,
        ⟨"J".toList, Color.Spades, 11⟩, ⟨"2".toList, Color.Clubs, 2⟩] }).first_move = 1 ∧
    (calculate_points { demo_four with
      deal_type := DealType.BANDIT, current_trick := 7,
      trick_cards := [⟨"Q".toList, Color.Hearts, 12⟩, ⟨"K".toList, Color.Hearts, 13⟩,
        ⟨"J".toList, Color.Spades, 11⟩, ⟨"2".toList, Color.Clubs, 2⟩] }).deal_scores =
      ⟨some 0, some 40, some 0, some 0⟩ :=
  ⟨by decide, by decide, by decide, by decide,
    trick_points_by_deal_type { demo_four with
        deal_type := DealType.BANDIT, current_trick := 7,
        trick_cards := [⟨"Q".toList, Color.Hearts, 12⟩, ⟨"K".toList, Color.Hearts, 13⟩,
          ⟨"J".toList, Color.Spades, 11⟩, ⟨"2".toList, Color.Clubs, 2⟩] }
      (by decide) (by decide) (by decide) (by decide),
    by decide, by decide, by decide⟩

end ServerGameState

namespace ServerGameState

/-! ## The scores of a deal -/

theorem posmap_somes (m : PosMap) (h : ∀ p, (m.find p).isSome = true) :
    ∃ a b c d, m = ⟨some a, some b, some c, some d⟩ := by
  obtain ⟨n, e, s, w⟩ := m
  have hn := h Position.North
  have he := h Position.East
  have hs := h Position.South
  have hw := h Position.West
  simp only [PosMap.find] at hn he hs hw
  obtain ⟨a, rfl⟩ := Option.isSome_iff_exists.mp hn
  obtain ⟨b, rfl⟩ := Option.isSome_iff_exists.mp he
  obtain ⟨c, rfl⟩ := Option.isSome_iff_exists.mp hs
  obtain ⟨d, rfl⟩ := Option.isSome_iff_exists.mp hw
  exact ⟨a, b, c, d, rfl⟩

theorem continue_deal_close_ok (s : ServerGameState) (now : Int)
    (hk : ∀ p, (s.deal_scores.find p).isSome = true) (hct : 13 < s.current_trick) :
    ∃ s1, continue_deal s now = ok s1 := by
  obtain ⟨a, b, c, d, e⟩ := posmap_somes s.deal_scores hk
  unfold continue_deal
  rw [if_neg (by omega)]
  simp only
  rw [close_totals_eq]
  unfold send_score_messages
  simp only [e, SCORE_ctor_full, TOTAL_ctor_full, Outcome.bind]
  exact ⟨_, rfl⟩

/-- The cards of a recorded trick are of the pack and, when the hands dealt have
no card twice, different from each other. -/
theorem taken_cards_distinct {done : List PosMap} {s : ServerGameState} (h : Inv done s)
    (hds : s.deal_started = true) (hnd : s.starting_hands.flatten.Nodup)
    (m : Message) (hm : m ∈ s.taken_messages) :
    (∀ c ∈ taken_cards m, c ∈ Card.pack) ∧ (taken_cards m).Nodup := by
  have hperm := h.conserve hds
  have hall : (s.current_hands.flatten ++ in_progress s ++ completed_cards s).Nodup :=
    hperm.nodup_iff.mpr hnd
  have hcomp : (completed_cards s).Nodup := List.Nodup.of_append_right hall
  have hsub : (taken_cards m).Sublist (completed_cards s) := by
    unfold completed_cards
    rw [List.flatMap_def]
    exact List.sublist_flatten_of_mem (List.mem_map.mpr ⟨m, hm, rfl⟩)
  refine ⟨?_, hcomp.sublist hsub⟩
  intro c hc
  have h1 : c ∈ s.current_hands.flatten ++ in_progress s ++ completed_cards s :=
    List.mem_append_right _ (hsub.subset hc)
  have h2 : c ∈ s.starting_hands.flatten := hperm.subset h1
  rw [h.start_sched hds] at h2
  simp only [List.flatten_cons, List.flatten_nil, List.append_nil, List.mem_append] at h2
  rcases h2 with h2 | h2 | h2 | h2
  · exact (schedule_hand_pack h s rfl 0).1 c h2
  · exact (schedule_hand_pack h s rfl 1).1 c h2
  · exact (schedule_hand_pack h s rfl 2).1 c h2
  · exact (schedule_hand_pack h s rfl 3).1 c h2

theorem won_amount_spec (deal_type : DealType) (p : Position) (m : Message)
    (hpack : ∀ c ∈ taken_cards m, c ∈ Card.pack) (hnd : (taken_cards m).Nodup) :
    won_amount deal_type p m = spec_won_amount deal_type p m := by
  unfold won_amount spec_won_amount
  unfold taken_cards at hpack hnd
  cases hpl : m.payload <;> simp only
  rename_i t cards taken_by
  rw [hpl] at hpack hnd
  simp only at hpack hnd
  rw [trick_score_spec deal_type cards t hpack hnd]

/-- C18. When `continue_game` finds the thirteenth trick of a deal closed (all
four seats taken), it returns and broadcasts the scores, and at that moment: the
deal score of each seat is the sum, over the thirteen recorded tricks of the
deal, of the amounts of the tricks the seat took (the amount `calculate_points`
computes, which is that of the rule of the deal type when the hands dealt have no
card twice); the deal scores were all 0 with no trick recorded when `start_deal`
returned; the total score of each seat becomes the sum of its deal scores over
the deals completed, this one included; and the line of `SCORE` followed by the
line of `TOTAL` is appended to the write queue of every socket, once for each
seat the socket holds. -/
theorem scores_accumulate (done : List PosMap) (s : ServerGameState)
    (hr : Reachable done s) (now : Int) (hready : are_players_ready s = true)
    (hds : s.deal_started = true) (hct : 13 < s.current_trick) :
    ∃ (score total : Message) (s1 : ServerGameState),
      continue_game s now = ok s1 ∧
      SCOREMessage s.deal_scores = ok score ∧ TOTALMessage s1.total_scores = ok total ∧
      s.taken_messages.length = 13 ∧
      (∀ p, s.deal_scores.at p = (s.taken_messages.map (won_amount s.deal_type p)).sum) ∧
      (s.starting_hands.flatten.Nodup →
        ∀ p, s.deal_scores.at p = (s.taken_messages.map (spec_won_amount s.deal_type p)).sum) ∧
      (∀ t t1, start_deal t = ok t1 →
        t1.deal_scores = ⟨some 0, some 0, some 0, some 0⟩ ∧ t1.taken_messages = []) ∧
      (∀ p, s1.total_scores.at p = ((done ++ [s.deal_scores]).map fun d => d.at p).sum) ∧
      (∀ i, s1.heap[i]? = (s.heap[i]?).map fun (sock : Socket) =>
        sock.sent (seats_held s i) (score.to_string ++ total.to_string)) ∧
      s1.deal_scores = s.deal_scores ∧ s1.deal_started = false ∧
      Reachable (done ++ [s.deal_scores]) s1 := by
  have h := reachable_inv hr
  obtain ⟨-, -, -, hA, hB⟩ := h.phase hds
  have hts : s.trick_started = false := by
    cases ht : s.trick_started with
    | false => rfl
    | true =>
      have := hA ht
      omega
  have hlen : s.taken_messages.length = 13 := by
    rcases (hB hts).1 with h1 | h1
    · omega
    · exact h1.2
  obtain ⟨s1, hs1⟩ := continue_deal_close_ok s now h.deal_keys hct
  have hcg : continue_game s now = ok s1 := by
    rw [continue_game_started s now hready hds]
    exact hs1
  obtain ⟨score, total, hscore, htotal, e⟩ := continue_deal_close s s1 now hct hs1
  have hreach := Reachable.continue_game hr now hcg
  have hb : broadcasts_scores s = true := by
    unfold broadcasts_scores
    simp [hready, hds, hct]
  rw [hb] at hreach
  simp only [if_true] at hreach
  have h1 := reachable_inv hreach
  refine ⟨score, total, s1, hcg, hscore, ?_, hlen, h.deal_sum, ?_, ?_, h1.total_sum, ?_, ?_, ?_,
    hreach⟩
  · rw [e]
    exact htotal
  · intro hnd p
    rw [h.deal_sum p]
    congr 1
    apply List.map_congr_left
    intro m hm
    obtain ⟨hp1, hp2⟩ := taken_cards_distinct h hds hnd m hm
    exact won_amount_spec _ _ _ hp1 hp2
  · intro t t1 ht
    obtain ⟨-, heap, e1⟩ := start_deal_ok t t1 ht
    rw [e1]
    exact ⟨rfl, rfl⟩
  · intro i
    rw [e]
    show (send_to_all _ seat_order s).heap[i]? = _
    rw [send_to_all_getElem?]
    simp [seats_held]
  · rw [e]
  · rw [e]

set_option maxRecDepth 1000000 in
/-- The demonstration deal with its thirteenth trick closed: North, East and
South took three tricks each, West four. -/
theorem scores_accumulate_witness :
    ∃ done, Reachable done demo_deal_played ∧ are_players_ready demo_deal_played = true ∧
      demo_deal_played.deal_started = true ∧ 13 < demo_deal_played.current_trick ∧
      demo_deal_played.deal_scores = ⟨some 3, some 3, some 3, some 4⟩ ∧
      ∃ (score total : Message) (s1 : ServerGameState),
        continue_game demo_deal_played 0 = ok s1 ∧
        SCOREMessage demo_deal_played.deal_scores = ok score ∧
        TOTALMessage s1.total_scores = ok total ∧
        demo_deal_played.taken_messages.length = 13 ∧
        (∀ p, demo_deal_played.deal_scores.at p =
          (demo_deal_played.taken_messages.map
            (won_amount demo_deal_played.deal_type p)).sum) ∧
        (demo_deal_played.starting_hands.flatten.Nodup →
          ∀ p, demo_deal_played.deal_scores.at p =
            (demo_deal_played.taken_messages.map
              (spec_won_amount demo_deal_played.deal_type p)).sum) ∧
        (∀ t t1, start_deal t = ok t1 →
          t1.deal_scores = ⟨some 0, some 0, some 0, some 0⟩ ∧ t1.taken_messages = []) ∧
        (∀ p, s1.total_scores.at p =
          ((done ++ [demo_deal_played.deal_scores]).map fun d => d.at p).sum) ∧
        (∀ i, s1.heap[i]? = (demo_deal_played.heap[i]?).map fun (sock : Socket) =>
          sock.sent (seats_held demo_deal_played i) (score.to_string ++ total.to_string)) ∧
        s1.deal_scores = demo_deal_played.deal_scores ∧ s1.deal_started = false ∧
        Reachable (done ++ [demo_deal_played.deal_scores]) s1 := by
  obtain ⟨done, hd⟩ := demo_deal_played_reachable
  exact ⟨done, hd, by decide, by decide, by decide, by decide,
    scores_accumulate done demo_deal_played hd 0 (by decide) (by decide) (by decide)⟩

end ServerGameState

namespace ServerGameState

/-! ## The cards of a deal -/

theorem completed_cards_length {done : List PosMap} {s : ServerGameState} (h : Inv done s) :
    (completed_cards s).length = 4 * s.taken_messages.length := by
  unfold completed_cards
  have key : ∀ l : List Message, (∀ m ∈ l, (taken_cards m).length = 4) →
      (l.flatMap taken_cards).length = 4 * l.length := by
    intro l
    induction l with
    | nil => intro _; rfl
    | cons m rest ih =>
      intro hl
      rw [List.flatMap_cons, List.length_append, List.length_cons,
        ih (fun m' hm' => hl m' (List.mem_cons_of_mem _ hm')), hl m (List.mem_cons_self _ _)]
      omega
  exact key _ h.taken_four

/-- C19. In every state the server can be in within a deal whose four hands in
the schedule have 13 cards each and no card twice among them (a pack of 52), the
cards in the four `current_hands`, the cards played in the trick in progress and
the cards of the completed tricks (4 for each recorded `TAKEN`) are together a
rearrangement of the four hands dealt: they number 52 and no card occurs twice
among them. -/
theorem cards_conserved (done : List PosMap) (s : ServerGameState) (hr : Reachable done s)
    (hds : s.deal_started = true)
    (h13 : ∀ i, i < 4 → (schedule_hand s i).length = 13)
    (hnd : (schedule_hand s 0 ++ schedule_hand s 1 ++ schedule_hand s 2 ++
      schedule_hand s 3).Nodup) :
    s.current_hands.flatten.length + (in_progress s).length + 4 * s.taken_messages.length = 52 ∧
    (completed_cards s).length = 4 * s.taken_messages.length ∧
    (s.current_hands.flatten ++ in_progress s ++ completed_cards s).Nodup ∧
    List.Perm (s.current_hands.flatten ++ in_progress s ++ completed_cards s)
      (schedule_hand s 0 ++ schedule_hand s 1 ++ schedule_hand s 2 ++ schedule_hand s 3) ∧
    s.starting_hands =
      [schedule_hand s 0, schedule_hand s 1, schedule_hand s 2, schedule_hand s 3] ∧
    ∀ c ∈ s.current_hands.flatten ++ in_progress s ++ completed_cards s, c ∈ Card.pack := by
  have h := reachable_inv hr
  have hperm := h.conserve hds
  have hst := h.start_sched hds
  rw [hst] at hperm
  simp only [List.flatten_cons, List.flatten_nil, List.append_nil] at hperm
  have hperm' : List.Perm (s.current_hands.flatten ++ in_progress s ++ completed_cards s)
      (schedule_hand s 0 ++ schedule_hand s 1 ++ schedule_hand s 2 ++ schedule_hand s 3) := by
    simpa [List.append_assoc] using hperm
  have hlen := hperm'.length_eq
  simp only [List.length_append] at hlen
  rw [h13 0 (by decide), h13 1 (by decide), h13 2 (by decide), h13 3 (by decide),
    completed_cards_length h] at hlen
  refine ⟨by omega, completed_cards_length h, hperm'.nodup_iff.mpr hnd, hperm', hst, ?_⟩
  intro c hc
  have h2 := hperm'.subset hc
  simp only [List.mem_append] at h2
  rcases h2 with ((h2 | h2) | h2) | h2
  · exact (schedule_hand_pack h s rfl 0).1 c h2
  · exact (schedule_hand_pack h s rfl 1).1 c h2
  · exact (schedule_hand_pack h s rfl 2).1 c h2
  · exact (schedule_hand_pack h s rfl 3).1 c h2

theorem demo_one_reachable : Reachable [] demo_one :=
  reachable_play demo_dealt_reachable 0 1 _ (by decide)

set_option maxRecDepth 1000000 in
/-- North has played the ace of spades in the first trick of the demonstration
deal: 51 cards in the hands, one on the table, none taken. -/
theorem cards_conserved_witness :
    Reachable [] demo_one ∧ demo_one.deal_started = true ∧
    (∀ i, i < 4 → (schedule_hand demo_one i).length = 13) ∧
    (schedule_hand demo_one 0 ++ schedule_hand demo_one 1 ++ schedule_hand demo_one 2 ++
      schedule_hand demo_one 3).Nodup ∧
    demo_one.current_hands.flatten.length = 51 ∧ (in_progress demo_one).length = 1 ∧
    demo_one.current_hands.flatten.length + (in_progress demo_one).length +
      4 * demo_one.taken_messages.length = 52 ∧
    (demo_one.current_hands.flatten ++ in_progress demo_one ++ completed_cards demo_one).Nodup :=
  ⟨demo_one_reachable, by decide, by decide, by decide, by decide, by decide,
    (cards_conserved [] demo_one demo_one_reachable (by decide) (by decide) (by decide)).1,
    (cards_conserved [] demo_one demo_one_reachable (by decide) (by decide) (by decide)).2.2.1⟩

end ServerGameState

namespace ServerGameState

/-! ## Two calls of `continue_game` in a row -/

theorem foldl_close_heap (l : List Position) (k : ServerGameState) (i : Nat) :
    (l.foldl (fun k pos => on_socket k pos fun sock =>
        { sock with closed := true, all_messages_received := true }) k).heap[i]? =
      (k.heap[i]?).map fun (sock : Socket) =>
        if (l.any fun p => decide (k.player_sockets.get p = some i)) = true then
          { sock with closed := true, all_messages_received := true }
        else sock := by
  induction l generalizing k with
  | nil =>
    simp only [List.foldl_nil, List.any_nil, Bool.false_eq_true, if_false]
    cases k.heap[i]? <;> rfl
  | cons p rest ih =>
    rw [List.foldl_cons, ih]
    have hps : ∀ f, (on_socket k p f).player_sockets = k.player_sockets := fun _ => rfl
    have hheap : ∀ f, (on_socket k p f).heap =
        match k.player_sockets.get p with
        | none => k.heap
        | some j => List.modify f j k.heap := fun _ => rfl
    simp only [hps, hheap, List.any_cons]
    rcases Option.eq_none_or_eq_some (k.player_sockets.get p) with hp | ⟨j, hp⟩
    · simp [hp]
    · simp only [hp, List.getElem?_modify]
      cases hs : k.heap[i]? with
      | none => simp
      | some sock =>
        by_cases hji : j = i
        · simp [hji]
        · simp [hji]

theorem end_game_idem (s : ServerGameState) : end_game (end_game s) = end_game s := by
  obtain ⟨heap1, e1⟩ := end_game_eq s
  obtain ⟨heap2, e2⟩ := end_game_eq (end_game s)
  have h1 : ∀ i, (end_game s).heap[i]? = _ :=
    fun i => foldl_close_heap map_order { s with game_ended := true } i
  have h2 : ∀ i, (end_game (end_game s)).heap[i]? = _ :=
    fun i => foldl_close_heap map_order { end_game s with game_ended := true } i
  have hps : (end_game s).player_sockets = s.player_sockets := by rw [e1]
  have hheap : (end_game (end_game s)).heap = (end_game s).heap := by
    apply List.ext_getElem?
    intro i
    rw [h2 i]
    simp only [hps]
    rw [h1 i]
    cases s.heap[i]? with
    | none => rfl
    | some sock =>
      simp only [Option.map_some', Option.some.injEq]
      split <;> rfl
  rw [e2]
  rw [e2] at hheap
  simp only at hheap
  rw [hheap, e1]

/-- C20. A second call of `continue_game` right after a call that returned
changes nothing (no field of the match, no socket), unless the first call closed
a trick (it found a deal in progress with the four cards of an open trick on the
table) or closed a deal (it found a deal in progress with its thirteenth trick
closed). -/
theorem second_call_changes_nothing (s s1 : ServerGameState) (now1 now2 : Int)
    (hs : continue_game s now1 = ok s1)
    (htrick : ¬ (s.deal_started = true ∧ s.current_trick ≤ 13 ∧ s.trick_started = true ∧
      s.current_move = 4))
    (hdeal : ¬ (s.deal_started = true ∧ 13 < s.current_trick)) :
    continue_game s1 now2 = ok s1 := by
  cases hr : are_players_ready s with
  | false =>
    have e : s1 = s := by
      unfold continue_game at hs
      simp only [hr, Bool.not_false, if_true, ok.injEq] at hs
      exact hs.symm
    rw [e]
    unfold continue_game
    simp [hr]
  | true =>
    have waiting : ∀ t : ServerGameState, t.player_sockets = s.player_sockets →
        t.deal_started = true → t.current_trick ≤ 13 → t.trick_started = true →
        t.current_move ≠ 4 → t.awaited_player.isSome = true →
        continue_game t now2 = ok t := by
      intro t h1 h2 h3 h4 h5 h6
      have hrt : are_players_ready t = true := by
        rw [are_players_ready_congr t s h1]
        exact hr
      rw [continue_game_started t now2 hrt h2, continue_deal_trick t now2 h3]
      exact continue_trick_waiting t now2 h4 h5 h6
    have step : ∀ t : ServerGameState, t.player_sockets = s.player_sockets →
        t.deal_started = true → t.current_trick ≤ 13 →
        ¬ (t.trick_started = true ∧ t.current_move = 4) →
        continue_trick t now1 = ok s1 → continue_game s1 now2 = ok s1 := by
      intro t h1 h2 h3 h4 h5
      cases hts : t.trick_started with
      | false =>
        obtain ⟨⟨-, h7⟩, e⟩ := continue_trick_open t s1 now1 hts h5
        apply waiting s1
        · rw [e]; exact h1
        · rw [e]; exact h2
        · rw [e]; exact h7
        · rw [e]
        · rw [e]; exact (by decide : (0 : Int) ≠ 4)
        · rw [e]; rfl
      | true =>
        have hmv : t.current_move ≠ 4 := fun hm => h4 ⟨hts, hm⟩
        cases haw : t.awaited_player with
        | none =>
          obtain ⟨-, e⟩ := continue_trick_prompt t s1 now1 hts hmv haw h5
          apply waiting s1
          · rw [e]; exact h1
          · rw [e]; exact h2
          · rw [e]; exact h3
          · rw [e]; exact hts
          · rw [e]; exact hmv
          · rw [e]; rfl
        | some p =>
          rw [continue_trick_waiting t now1 hts hmv (by rw [haw]; rfl)] at h5
          simp only [ok.injEq] at h5
          rw [← h5]
          exact waiting t h1 h2 h3 hts hmv (by rw [haw]; rfl)
    cases hds : s.deal_started with
    | true =>
      have hct : s.current_trick ≤ 13 := by
        by_contra hc
        exact hdeal ⟨hds, by omega⟩
      rw [continue_game_started s now1 hr hds, continue_deal_trick s now1 hct] at hs
      exact step s rfl hds hct (fun h => htrick ⟨hds, hct, h.1, h.2⟩) hs
    | false =>
      unfold continue_game at hs
      have hnd : (!s.deal_started) = true := by rw [hds]; rfl
      simp only [hr, Bool.not_true, Bool.false_eq_true, if_false, hnd, if_true] at hs
      split at hs
      · rename_i hend
        simp only [ok.injEq] at hs
        obtain ⟨heap, e⟩ := end_game_eq s
        have hr1 : are_players_ready s1 = true := by
          rw [are_players_ready_congr s1 s (by rw [← hs, e])]
          exact hr
        have hds1 : s1.deal_started = false := by rw [← hs, e]; exact hds
        have hend1 : s1.current_deal = (s1.deal_types.length : Int) := by
          rw [← hs, e]; exact hend
        unfold continue_game
        have hnd1 : (!s1.deal_started) = true := by rw [hds1]; rfl
        simp only [hr1, Bool.not_true, Bool.false_eq_true, if_false, hnd1, if_true]
        rw [if_pos hend1, ← hs, end_game_idem]
      · obtain ⟨s2, h2, h3⟩ := bind_eq_ok _ _ _ hs
        obtain ⟨-, heap, e⟩ := start_deal_ok s s2 h2
        have hct2 : s2.current_trick ≤ 13 := by rw [e]; exact (by decide : (0 : Int) ≤ 13)
        rw [continue_deal_trick s2 now1 hct2] at h3
        apply step s2 _ _ hct2 _ h3
        · rw [e]
        · rw [e]
        · rw [e]
          rintro ⟨hf, -⟩
          simp at hf

set_option maxRecDepth 100000 in
/-- The four seats are taken: the first call deals and prompts North, the second
changes nothing. -/
theorem second_call_changes_nothing_witness :
    continue_game demo_seated 0 = ok demo_dealt ∧
    ¬ (demo_seated.deal_started = true ∧ demo_seated.current_trick ≤ 13 ∧
      demo_seated.trick_started = true ∧ demo_seated.current_move = 4) ∧
    ¬ (demo_seated.deal_started = true ∧ 13 < demo_seated.current_trick) ∧
    continue_game demo_dealt 7 = ok demo_dealt :=
  ⟨by decide, by decide, by decide,
    second_call_changes_nothing demo_seated demo_dealt 0 7 (by decide) (by decide)
      (by decide)⟩

set_option maxRecDepth 100000 in
/-- After the fourth card of the first trick of the demonstration deal, the
first call of `continue_game` closes the trick and announces it, and a second
call right after it opens the second trick and sends `TRICK2` to North: the trick
number, the cards on the table, the awaited seat and the write queue of the
socket of North all change. -/
theorem second_call_opens_next_trick :
    Reachable [] demo_four ∧ continue_game demo_four 0 = ok demo_taken ∧
    continue_game demo_taken 0 = ok (tick demo_taken 0) ∧
    tick demo_taken 0 ≠ demo_taken ∧
    demo_taken.current_trick = 1 ∧ (tick demo_taken 0).current_trick = 2 ∧
    demo_taken.awaited_player = none ∧
    (tick demo_taken 0).awaited_player = some Position.North ∧
    (demo_taken.heap.map Socket.write_queue).head? =
      some "DEAL1NASKCQDJH10S9C8D7H6S5C4D3H2S\r\nTRICK1\r\nTAKEN1ASKSQSJSN\r\n".toList ∧
    ((tick demo_taken 0).heap.map Socket.write_queue).head? =
      some ("DEAL1NASKCQDJH10S9C8D7H6S5C4D3H2S\r\nTRICK1\r\nTAKEN1ASKSQSJSN\r\n".toList ++
        "TRICK2\r\n".toList) :=
  ⟨demo_four_reachable, by decide, by decide, by decide, by decide, by decide, by decide,
    by decide, by decide, by decide⟩

end ServerGameState

namespace ServerGameState

/-! ## Seats: a pause, a taken seat, a connection gone -/

theorem are_players_ready_false_iff (s : ServerGameState) :
    are_players_ready s = false ↔ ∃ p, s.player_sockets.get p = none := by
  unfold are_players_ready map_order
  constructor
  · intro h
    by_contra hne
    have hall : ∀ p, (s.player_sockets.get p).isSome = true := by
      intro p
      cases hp : s.player_sockets.get p with
      | none => exact absurd ⟨p, hp⟩ hne
      | some i => rfl
    simp [hall] at h
  · rintro ⟨p, hp⟩
    cases p <;> simp [hp]

/-- C21. While at least one of the four seats has no connection, `continue_game`
returns at once: the state after the call is the state before it, so no field of
the match changes and no socket gets a message. -/
theorem paused_while_seat_empty (s : ServerGameState) (now : Int)
    (h : ∃ p, s.player_sockets.get p = none) : continue_game s now = ok s := by
  have hr := (are_players_ready_false_iff s).mpr h
  unfold continue_game
  simp [hr]

set_option maxRecDepth 100000 in
/-- Only North is seated. -/
theorem paused_while_seat_empty_witness :
    (∃ p, demo_alone.player_sockets.get p = none) ∧ continue_game demo_alone 3 = ok demo_alone :=
  ⟨⟨Position.East, by decide⟩, paused_while_seat_empty demo_alone 3 ⟨Position.East, by decide⟩⟩

/-- C24. The method `disconnect_client` empties the seats the socket holds and
no other, and changes nothing else of the state. -/
theorem disconnect_empties_own_seats (s : ServerGameState) (socket : Nat) :
    (∀ p, (disconnect_client s socket).player_sockets.get p =
      if s.player_sockets.get p = some socket then none else s.player_sockets.get p) ∧
    disconnect_client s socket =
      { s with player_sockets := (disconnect_client s socket).player_sockets } := by
  constructor
  · intro p
    unfold disconnect_client map_order
    simp only [List.foldl_cons, List.foldl_nil]
    cases p <;> simp only [SocketMap.get, SocketMap.set] <;>
      (repeat' split) <;> simp_all [SocketMap.get, SocketMap.set]
  · obtain ⟨m, e⟩ := disconnect_client_eq s socket
    rw [e]

/-! ## What a deal in progress has from the schedule -/

theorem dealinv_of_eq {s s1 : ServerGameState} (h : DealInv s)
    (h1 : s1.deal_started = true → s.deal_started = true)
    (h2 : s1.starting_hands = s.starting_hands) (h3 : s1.deal_type = s.deal_type)
    (h4 : s1.deal_types = s.deal_types) (h5 : s1.current_deal = s.current_deal)
    (h6 : s1.starting_player = s.starting_player)
    (h7 : s1.starting_players = s.starting_players) : DealInv s1 := by
  refine ⟨?_, ?_, ?_⟩
  · intro hd
    rw [h2]
    exact h.hands13 (h1 hd)
  · intro hd
    rw [h3, h4, h5]
    exact h.type_sched (h1 hd)
  · intro hd
    rw [h6, h7, h5]
    exact h.opener_sched (h1 hd)

theorem dealinv_start_deal {s s1 : ServerGameState} (hs : start_deal s = ok s1) :
    DealInv s1 := by
  obtain ⟨hlen, heap, e⟩ := start_deal_ok s s1 hs
  clear hs
  subst e
  refine ⟨?_, fun _ => rfl, fun _ => rfl⟩
  intro _ i hi
  have h0 : i = 0 ∨ i = 1 ∨ i = 2 ∨ i = 3 := by omega
  rcases h0 with e | e | e | e <;> subst e
  · exact hlen 0 (by decide)
  · exact hlen 1 (by decide)
  · exact hlen 2 (by decide)
  · exact hlen 3 (by decide)

theorem dealinv_continue_trick {s s1 : ServerGameState} (h : DealInv s) (now : Int)
    (hs : continue_trick s now = ok s1) : DealInv s1 := by
  cases hts : s.trick_started with
  | false =>
    obtain ⟨-, e⟩ := continue_trick_open s s1 now hts hs
    rw [e]
    exact dealinv_of_eq h id rfl rfl rfl rfl rfl rfl
  | true =>
    by_cases hmv : s.current_move = 4
    · obtain ⟨-, c, rest, W, -, -, e⟩ := continue_trick_close s s1 now hts hmv hs
      rw [e]
      exact dealinv_of_eq h id rfl rfl rfl rfl rfl rfl
    · cases haw : s.awaited_player with
      | none =>
        obtain ⟨-, e⟩ := continue_trick_prompt s s1 now hts hmv haw hs
        rw [e]
        exact dealinv_of_eq h id rfl rfl rfl rfl rfl rfl
      | some p =>
        rw [continue_trick_waiting s now hts hmv (by rw [haw]; rfl)] at hs
        simp only [ok.injEq] at hs
        rw [← hs]
        exact h

theorem dealinv_continue_deal {s s1 : ServerGameState} (h : DealInv s) (now : Int)
    (hs : continue_deal s now = ok s1) : DealInv s1 := by
  by_cases hct : 13 < s.current_trick
  · obtain ⟨score, total, -, -, e⟩ := continue_deal_close s s1 now hct hs
    rw [e]
    refine ⟨?_, ?_, ?_⟩ <;> intro hf <;> simp at hf
  · unfold continue_deal at hs
    rw [if_pos (by omega)] at hs
    exact dealinv_continue_trick h now hs

theorem dealinv_continue_game {s s1 : ServerGameState} (h : DealInv s) (now : Int)
    (hs : continue_game s now = ok s1) : DealInv s1 := by
  unfold continue_game at hs
  cases hr : are_players_ready s with
  | false =>
    simp only [hr, Bool.not_false, if_true, ok.injEq] at hs
    rw [← hs]
    exact h
  | true =>
    simp only [hr, Bool.not_true, Bool.false_eq_true, if_false] at hs
    cases hds : s.deal_started with
    | false =>
      have hnd : (!s.deal_started) = true := by rw [hds]; rfl
      simp only [hnd, if_true] at hs
      split at hs
      · simp only [ok.injEq] at hs
        obtain ⟨heap, e⟩ := end_game_eq s
        rw [← hs, e]
        exact dealinv_of_eq h id rfl rfl rfl rfl rfl rfl
      · obtain ⟨s2, h2, h3⟩ := bind_eq_ok _ _ _ hs
        exact dealinv_continue_deal (dealinv_start_deal h2) now h3
    | true =>
      have hnd : (!s.deal_started) = false := by rw [hds]; rfl
      simp only [hnd, Bool.false_eq_true, if_false] at hs
      exact dealinv_continue_deal h now hs

/-- In every state the server can be in, the deal in progress has four hands of
13 cards and the deal type and opener of its entry of the schedule. -/
theorem reachable_dealinv {done : List PosMap} {s : ServerGameState} (h : Reachable done s) :
    DealInv s := by
  induction h with
  | init schedule timeout u heap hparse =>
    refine ⟨?_, ?_, ?_⟩ <;> intro hf <;> simp [init] at hf
  | @new_player done s _ position socket now ih =>
    obtain ⟨m, heap, e⟩ := new_player_eq s position socket now
    rw [e]
    exact dealinv_of_eq ih id rfl rfl rfl rfl rfl rfl
  | @disconnect_client done s _ socket ih =>
    obtain ⟨m, e⟩ := disconnect_client_eq s socket
    rw [e]
    exact dealinv_of_eq ih id rfl rfl rfl rfl rfl rfl
  | @handle_trick_message done s _ socket t cards hcards ih =>
    by_cases hacc : (handle_trick_message s socket t cards).2 = ok none
    · obtain ⟨⟨h1, h2⟩, p, c, hp, ha, ht, hc, hv⟩ :=
        (handle_trick_message_accepts_iff s socket t cards).mp hacc
      rw [handle_trick_message_accepted s socket t cards p c h1 h2 hp ha ht hc hv]
      exact dealinv_of_eq ih id rfl rfl rfl rfl rfl rfl
    · rw [handle_trick_message_state s socket t cards hacc]
      exact ih
  | @continue_game done s s1 _ now hs ih => exact dealinv_continue_game ih now hs
  | @sockets done s _ heap ih => exact dealinv_of_eq ih id rfl rfl rfl rfl rfl rfl

end ServerGameState

namespace ServerGameState

/-! ## The method `new_player` -/

theorem socketmap_set_get (m : SocketMap) (p q : Position) (v : Option Nat) :
    (m.set p v).get q = if q = p then v else m.get q := by
  cases p <;> cases q <;> simp [SocketMap.set, SocketMap.get]

theorem modify_modify {α : Type} (f g : α → α) (j : Nat) (l : List α) :
    List.modify g j (List.modify f j l) = List.modify (fun a => g (f a)) j l := by
  apply List.ext_getElem?
  intro i
  simp only [List.getElem?_modify]
  cases l[i]? with
  | none => rfl
  | some a =>
    by_cases hji : j = i
    · simp [hji]
    · simp [hji]

theorem on_socket_heap (s : ServerGameState) (p : Position) (f : Socket → Socket) (j : Nat)
    (h : s.player_sockets.get p = some j) :
    on_socket s p f = { s with heap := List.modify f j s.heap } := by
  unfold on_socket
  rw [h]

theorem send_deal_message_eq (s : ServerGameState) (p : Position)
    (h13 : (s.starting_hands.getD (position_order p).toNat []).length = 13) :
    send_deal_message s p = ok (on_socket s p fun sock =>
      sock.send (Message.to_string ⟨MessageType.DEAL,
        to_string_DealType s.deal_type ++ to_string_Position s.starting_player ++
          cards_data (s.starting_hands.getD (position_order p).toNat []),
        Payload.DEAL s.deal_type s.starting_player
          (s.starting_hands.getD (position_order p).toNat [])⟩)) := by
  unfold send_deal_message
  simp only
  rw [DEAL_ctor_13 _ _ _ h13]
  rfl

theorem send_trick_message_eq (s : ServerGameState) (p : Position) (now : Int)
    (h1 : 1 ≤ s.current_trick) (h2 : s.current_trick ≤ 13) (h3 : s.trick_cards.length ≤ 3) :
    send_trick_message s p now = ok (on_socket s p fun sock =>
      (sock.send (Message.to_string ⟨MessageType.TRICK,
        std_to_string s.current_trick ++ cards_data s.trick_cards,
        Payload.TRICK s.current_trick s.trick_cards⟩)).await_message MessageType.TRICK
          s.timeout now) := by
  unfold send_trick_message TRICKMessage
  rw [if_neg (by omega), if_neg (by omega)]
  rfl

theorem foldl_taken_heap (l : List Message) (k : ServerGameState) (p : Position) (j : Nat)
    (h : k.player_sockets.get p = some j) :
    l.foldl (fun k taken_message =>
        on_socket k p fun sock => sock.send taken_message.to_string) k =
      { k with heap := List.modify (fun sock =>
        { sock with write_queue := sock.write_queue ++ l.flatMap Message.to_string }) j k.heap }
    := by
  induction l generalizing k with
  | nil =>
    simp only [List.foldl_nil, List.flatMap_nil, List.append_nil]
    have : (fun sock : Socket => { sock with write_queue := sock.write_queue }) = id := rfl
    rw [this, List.modify_id]
  | cons m rest ih =>
    rw [List.foldl_cons, ih _ (by rw [on_socket_heap k p _ j h]; exact h),
      on_socket_heap k p _ j h]
    simp only [modify_modify, Socket.send, List.flatMap_cons, List.append_assoc]

/-- What `rejoin_client` leaves when the seat holds the socket `socket`, its hand
dealt has 13 cards and, if the seat is awaited in an open trick, the prompt can
be built. -/
theorem rejoin_client_ok (t : ServerGameState) (p : Position) (socket : Nat) (now : Int)
    (hget : t.player_sockets.get p = some socket)
    (h13 : (t.starting_hands.getD (position_order p).toNat []).length = 13)
    (hprompt : t.trick_started = true ∧ t.awaited_player = some p →
      1 ≤ t.current_trick ∧ t.current_trick ≤ 13 ∧ t.trick_cards.length ≤ 3) :
    rejoin_client t p now =
      ({ t with heap := List.modify (fun sock =>
          { write_queue := sock.write_queue ++
              Message.to_string ⟨MessageType.DEAL,
                to_string_DealType t.deal_type ++ to_string_Position t.starting_player ++
                  cards_data (t.starting_hands.getD (position_order p).toNat []),
                Payload.DEAL t.deal_type t.starting_player
                  (t.starting_hands.getD (position_order p).toNat [])⟩ ++
              t.taken_messages.flatMap Message.to_string ++
              (if t.trick_started = true ∧ t.awaited_player = some p then
                Message.to_string ⟨MessageType.TRICK,
                  std_to_string t.current_trick ++ cards_data t.trick_cards,
                  Payload.TRICK t.current_trick t.trick_cards⟩
              else [])
            awaited_message :=
              if t.trick_started = true ∧ t.awaited_player = some p then
                some MessageType.TRICK
              else sock.awaited_message
            timestamp :=
              if t.trick_started = true ∧ t.awaited_player = some p then
                long_long_value (now + int_value (t.timeout * 1000))
              else sock.timestamp
            closed := sock.closed
            all_messages_received := sock.all_messages_received }) socket t.heap },
        none) := by
  unfold rejoin_client
  rw [send_deal_message_eq t p h13]
  simp only
  rw [on_socket_heap t p _ socket hget]
  dsimp only
  rw [foldl_taken_heap t.taken_messages { t with heap := List.modify _ socket t.heap } p socket
    hget]
  dsimp only
  by_cases hp : t.trick_started = true ∧ t.awaited_player = some p
  · obtain ⟨h1, h2, h3⟩ := hprompt hp
    rw [if_pos hp]
    rw [send_trick_message_eq
      { t with heap := List.modify _ socket (List.modify _ socket t.heap) } p now h1 h2 h3]
    simp only
    rw [on_socket_heap
      { t with heap := List.modify _ socket (List.modify _ socket t.heap) } p _ socket hget]
    simp only [modify_modify, Socket.send, Socket.await_message, List.append_assoc, if_pos hp]
  · rw [if_neg hp]
    simp only [modify_modify, Socket.send, List.append_assoc, if_neg hp, List.append_nil]

/-- What `new_player` leaves when it gives a free seat to a socket while a deal
is in progress, in a state the server can be in. -/
theorem new_player_rejoin_eq {done : List PosMap} {s : ServerGameState} (hr : Reachable done s)
    (p : Position) (socket : Nat) (now : Int) (hfree : s.player_sockets.get p = none)
    (hds : s.deal_started = true) :
    new_player s p socket now =
      ({ s with
          player_sockets := s.player_sockets.set p (some socket)
          heap := List.modify (fun sock =>
            { write_queue := sock.write_queue ++
                Message.to_string ⟨MessageType.DEAL,
                  to_string_DealType s.deal_type ++ to_string_Position s.starting_player ++
                    cards_data (s.starting_hands.getD (position_order p).toNat []),
                  Payload.DEAL s.deal_type s.starting_player
                    (s.starting_hands.getD (position_order p).toNat [])⟩ ++
                s.taken_messages.flatMap Message.to_string ++
                (if s.trick_started = true ∧ s.awaited_player = some p then
                  Message.to_string ⟨MessageType.TRICK,
                    std_to_string s.current_trick ++ cards_data s.trick_cards,
                    Payload.TRICK s.current_trick s.trick_cards⟩
                else [])
              awaited_message :=
                if s.trick_started = true ∧ s.awaited_player = some p then
                  some MessageType.TRICK
                else if sock.awaited_message = some MessageType.IAM then none
                else sock.awaited_message
              timestamp :=
                if s.trick_started = true ∧ s.awaited_player = some p then
                  long_long_value (now + int_value (s.timeout * 1000))
                else sock.timestamp
              closed := sock.closed
              all_messages_received := sock.all_messages_received }) socket s.heap },
        ok none) := by
  have hinv := reachable_inv hr
  have hdi := reachable_dealinv hr
  have h13 : (s.starting_hands.getD (position_order p).toNat []).length = 13 := by
    apply hdi.hands13 hds
    have := position_order_range p
    omega
  have hprompt : s.trick_started = true ∧ s.awaited_player = some p →
      1 ≤ s.current_trick ∧ s.current_trick ≤ 13 ∧ s.trick_cards.length ≤ 3 := by
    rintro ⟨hts, haw⟩
    obtain ⟨-, -, hmv, -⟩ := hinv.awaited p haw
    obtain ⟨-, -, -, hA, -⟩ := hinv.phase hds
    obtain ⟨h1, h2, -, -⟩ := hA hts
    have := hinv.move_len
    exact ⟨h1, h2, by omega⟩
  have hget : (s.player_sockets.set p (some socket)).get p = some socket := by
    rw [socketmap_set_get, if_pos rfl]
  unfold new_player
  rw [if_neg (by rw [hfree]; simp)]
  dsimp only
  rw [if_pos hds]
  rw [rejoin_client_ok
    { s with player_sockets := s.player_sockets.set p (some socket),
             heap := List.modify _ socket s.heap } p socket now hget h13 hprompt]
  dsimp only
  rw [modify_modify]
  congr 3
  funext sock
  by_cases hiam : sock.awaited_message = some MessageType.IAM
  · simp only [hiam, if_true]
  · simp only [hiam, if_false]

end ServerGameState

namespace ServerGameState

/-! ## What `start_deal` sends -/

theorem send_deal_message_ok_eq (s s1 : ServerGameState) (p : Position)
    (h : send_deal_message s p = ok s1) :
    s1 = on_socket s p fun sock => sock.send (deal_line s p) := by
  have h13 := (send_deal_message_ok s s1 p h).1
  rw [send_deal_message_eq s p h13] at h
  simp only [ok.injEq] at h
  exact h.symm

theorem position_order_order_at (i : Nat) (h : i < 4) :
    (position_order (order_at (i : Int))).toNat = i := by
  interval_cases i <;> rfl

theorem on_socket_getElem? (s : ServerGameState) (p : Position) (f : Socket → Socket) (j : Nat) :
    (on_socket s p f).heap[j]? =
      if s.player_sockets.get p = some j then (s.heap[j]?).map f else s.heap[j]? := by
  unfold on_socket
  rcases Option.eq_none_or_eq_some (s.player_sockets.get p) with hp | ⟨k, hp⟩
  · simp [hp]
  · simp only [hp, List.getElem?_modify, Option.some.injEq]
    by_cases hk : k = j
    · simp [hk]
    · simp [hk]

/-- What the loop of `start_deal` sends: to the socket `j`, the `DEAL` of each
seat it visits that the socket holds, in the order of the visits. -/
theorem start_deal_loop_heap (j : Nat) (ps : SocketMap) (line : Nat → Str) :
    ∀ (l : List Nat) (t r : ServerGameState),
    (∀ i ∈ l, i < 4) → t.starting_hands.length = 4 → t.player_sockets = ps →
    (∀ i : Nat, Message.to_string ⟨MessageType.DEAL,
        to_string_DealType t.deal_type ++ to_string_Position t.starting_player ++
          cards_data (schedule_hand t i),
        Payload.DEAL t.deal_type t.starting_player (schedule_hand t i)⟩ = line i) →
    start_deal_loop l t = ok r →
    r.heap[j]? = (t.heap[j]?).map fun (sock : Socket) =>
      { sock with write_queue := (sock.write_queue ++
        List.flatMap
          (l.filter fun (i : Nat) => decide (ps.get (order_at (i : Int)) = some j)) line) } := by
  intro l
  induction l with
  | nil =>
    intro t r _ _ _ _ h
    simp only [start_deal_loop, ok.injEq] at h
    subst h
    cases t.heap[j]? <;> simp
  | cons i rest ih =>
    intro t r hl hlen hps hline h
    simp only [start_deal_loop] at h
    obtain ⟨a0, ha0, h3⟩ := bind_eq_ok _ _ _ h
    have e0 := send_deal_message_ok_eq _ _ _ ha0
    have hi : i < 4 := hl i (List.mem_cons_self _ _)
    have hrest : ∀ k ∈ rest, k < 4 := fun k hk => hl k (List.mem_cons_of_mem _ hk)
    have hdl : deal_line { t with starting_hands := t.starting_hands.set i (schedule_hand t i) }
        (order_at (i : Int)) = line i := by
      rw [← hline i]
      unfold deal_line
      dsimp only
      rw [position_order_order_at i hi, List.getD_eq_getElem?_getD, List.getElem?_set_self]
      · rfl
      · omega
    rw [hdl] at e0
    have hheap : a0.heap[j]? =
        if ps.get (order_at (i : Int)) = some j then
          (t.heap[j]?).map fun sock => sock.send (line i)
        else t.heap[j]? := by
      rw [e0, on_socket_getElem?, ← hps]
    have h1 : a0.starting_hands.length = 4 := by
      rw [e0]
      simp [on_socket, hlen]
    have h2 : a0.player_sockets = ps := by
      rw [e0]
      exact hps
    have h4 : ∀ k : Nat, Message.to_string ⟨MessageType.DEAL,
        to_string_DealType a0.deal_type ++ to_string_Position a0.starting_player ++
          cards_data (schedule_hand a0 k),
        Payload.DEAL a0.deal_type a0.starting_player (schedule_hand a0 k)⟩ = line k := by
      intro k
      rw [e0]
      exact hline k
    have := ih { a0 with deal_scores := a0.deal_scores.set (order_at (i : Int)) 0 } r hrest h1 h2 h4 h3
    rw [this]
    clear this h3 ha0 h ih
    change Option.map _ (a0.heap[j]?) = _
    rw [hheap]
    by_cases hc : ps.get (order_at (i : Int)) = some j
    · rw [if_pos hc, List.filter_cons_of_pos (by simpa using hc)]
      cases t.heap[j]? with
      | none => rfl
      | some sock => simp [Socket.send, List.append_assoc]
    · rw [if_neg hc, List.filter_cons_of_neg (by simpa using hc)]

/-- What `start_deal` sends: the write queue of each socket grows by the `DEAL`
lines of the seats the socket holds (seats in the order North, East, South,
West), each built from the deal type, the opener and the starting hand the
state has for the seat once the deal has started; nothing else is queued. -/
theorem start_deal_heap (s s1 : ServerGameState) (hs : start_deal s = ok s1) (j : Nat) :
    s1.heap[j]? = (s.heap[j]?).map fun (sock : Socket) =>
      { sock with write_queue := (sock.write_queue ++
        List.flatMap (seat_order.filter fun p => decide (s.player_sockets.get p = some j))
          (deal_line s1)) } := by
  obtain ⟨-, heap, e1⟩ := start_deal_ok s s1 hs
  unfold start_deal at hs
  obtain ⟨s3, h3, e⟩ := bind_eq_ok _ _ _ hs
  clear hs
  simp only [ok.injEq] at e
  have hh : s1.heap = s3.heap := by rw [← e]
  have hl := start_deal_loop_heap j s.player_sockets
    (fun i => Message.to_string ⟨MessageType.DEAL,
        to_string_DealType (s.deal_types.getD (s.current_deal + 1 - 1).toNat DealType.TRICK) ++
          to_string_Position
            (s.starting_players.getD (s.current_deal + 1 - 1).toNat Position.North) ++
          cards_data (schedule_hand { s with current_deal := s.current_deal + 1 } i),
        Payload.DEAL (s.deal_types.getD (s.current_deal + 1 - 1).toNat DealType.TRICK)
          (s.starting_players.getD (s.current_deal + 1 - 1).toNat Position.North)
          (schedule_hand { s with current_deal := s.current_deal + 1 } i)⟩)
    [0, 1, 2, 3] _ s3 (by decide) (by rfl) (by rfl) (fun _ => by rfl) h3
  rw [hh, hl]
  clear hl hh e h3
  change Option.map _ (s.heap[j]?) = _
  have o0 : order_at ((0 : Nat) : Int) = Position.North := rfl
  have o1 : order_at ((1 : Nat) : Int) = Position.East := rfl
  have o2 : order_at ((2 : Nat) : Int) = Position.South := rfl
  have o3 : order_at ((3 : Nat) : Int) = Position.West := rfl
  have d0 : deal_line s1 Position.North = Message.to_string ⟨MessageType.DEAL,
        to_string_DealType (s.deal_types.getD (s.current_deal + 1 - 1).toNat DealType.TRICK) ++
          to_string_Position
            (s.starting_players.getD (s.current_deal + 1 - 1).toNat Position.North) ++
          cards_data (schedule_hand { s with current_deal := s.current_deal + 1 } 0),
        Payload.DEAL (s.deal_types.getD (s.current_deal + 1 - 1).toNat DealType.TRICK)
          (s.starting_players.getD (s.current_deal + 1 - 1).toNat Position.North)
          (schedule_hand { s with current_deal := s.current_deal + 1 } 0)⟩ := by
    rw [e1]
    rfl
  have d1 : deal_line s1 Position.East = Message.to_string ⟨MessageType.DEAL,
        to_string_DealType (s.deal_types.getD (s.current_deal + 1 - 1).toNat DealType.TRICK) ++
          to_string_Position
            (s.starting_players.getD (s.current_deal + 1 - 1).toNat Position.North) ++
          cards_data (schedule_hand { s with current_deal := s.current_deal + 1 } 1),
        Payload.DEAL (s.deal_types.getD (s.current_deal + 1 - 1).toNat DealType.TRICK)
          (s.starting_players.getD (s.current_deal + 1 - 1).toNat Position.North)
          (schedule_hand { s with current_deal := s.current_deal + 1 } 1)⟩ := by
    rw [e1]
    rfl
  have d2 : deal_line s1 Position.South = Message.to_string ⟨MessageType.DEAL,
        to_string_DealType (s.deal_types.getD (s.current_deal + 1 - 1).toNat DealType.TRICK) ++
          to_string_Position
            (s.starting_players.getD (s.current_deal + 1 - 1).toNat Position.North) ++
          cards_data (schedule_hand { s with current_deal := s.current_deal + 1 } 2),
        Payload.DEAL (s.deal_types.getD (s.current_deal + 1 - 1).toNat DealType.TRICK)
          (s.starting_players.getD (s.current_deal + 1 - 1).toNat Position.North)
          (schedule_hand { s with current_deal := s.current_deal + 1 } 2)⟩ := by
    rw [e1]
    rfl
  have d3 : deal_line s1 Position.West = Message.to_string ⟨MessageType.DEAL,
        to_string_DealType (s.deal_types.getD (s.current_deal + 1 - 1).toNat DealType.TRICK) ++
          to_string_Position
            (s.starting_players.getD (s.current_deal + 1 - 1).toNat Position.North) ++
          cards_data (schedule_hand { s with current_deal := s.current_deal + 1 } 3),
        Payload.DEAL (s.deal_types.getD (s.current_deal + 1 - 1).toNat DealType.TRICK)
          (s.starting_players.getD (s.current_deal + 1 - 1).toNat Position.North)
          (schedule_hand { s with current_deal := s.current_deal + 1 } 3)⟩ := by
    rw [e1]
    rfl
  clear e1
  congr 1
  funext sock
  congr 2
  simp only [List.filter_cons, List.filter_nil, seat_order, o0, o1, o2, o3]
  split_ifs <;> simp only [List.flatMap_cons, List.flatMap_nil, d0, d1, d2, d3]

end ServerGameState

namespace ServerGameState

/-! ## `IAM`: a seat is refused or given -/

theorem busy_filter_eq (s : ServerGameState) (socket : Nat) :
    (seat_order.filter fun pos =>
      (s.player_sockets.get pos).isSome || decide (s.player_sockets.get pos = some socket)) =
    seat_order.filter fun pos => (s.player_sockets.get pos).isSome := by
  apply List.filter_congr
  intro q _
  cases s.player_sockets.get q <;> simp

theorem new_player_busy_eq (s : ServerGameState) (p : Position) (socket : Nat) (now : Int)
    (h : s.player_sockets.get p ≠ none) :
    new_player s p socket now = (s, ok (some (BUSYMessage
      (seat_order.filter fun q => (s.player_sockets.get q).isSome)))) := by
  unfold new_player
  rw [if_pos (by simpa [Option.isSome_iff_ne_none] using h), busy_filter_eq]

theorem new_player_seated {done : List PosMap} {s : ServerGameState} (hr : Reachable done s)
    (p : Position) (socket : Nat) (now : Int) (hfree : s.player_sockets.get p = none) :
    (new_player s p socket now).2 = ok none ∧
    (new_player s p socket now).1.player_sockets = s.player_sockets.set p (some socket) := by
  by_cases hds : s.deal_started = true
  · rw [new_player_rejoin_eq hr p socket now hfree hds]
    exact ⟨rfl, rfl⟩
  · unfold new_player
    rw [if_neg (by rw [hfree]; simp)]
    dsimp only
    rw [if_neg hds]
    exact ⟨rfl, rfl⟩

/-- C22. A call of `new_player` for a seat, in a state the server can be in. If
the seat is filled, the state stays as it is (seats, match and sockets) and the
call returns the `BUSY` of the seats that are filled: the list holds exactly the
filled seats, each once, in the order North, East, South, West, the seat asked
for among them, so between one and four seats. If the seat is empty, the call
returns no message and the seat holds the connection, the other seats held as
before. -/
theorem new_player_busy_or_seated {done : List PosMap} {s : ServerGameState}
    (hr : Reachable done s) (p : Position) (socket : Nat) (now : Int) :
    (s.player_sockets.get p ≠ none →
      new_player s p socket now = (s, ok (some (BUSYMessage
        (seat_order.filter fun q => (s.player_sockets.get q).isSome)))) ∧
      (∀ q, q ∈ (seat_order.filter fun q => (s.player_sockets.get q).isSome) ↔
        s.player_sockets.get q ≠ none) ∧
      (seat_order.filter fun q => (s.player_sockets.get q).isSome).Nodup ∧
      List.Sublist (seat_order.filter fun q => (s.player_sockets.get q).isSome)
        [Position.North, Position.East, Position.South, Position.West] ∧
      p ∈ (seat_order.filter fun q => (s.player_sockets.get q).isSome) ∧
      1 ≤ (seat_order.filter fun q => (s.player_sockets.get q).isSome).length ∧
      (seat_order.filter fun q => (s.player_sockets.get q).isSome).length ≤ 4) ∧
    (s.player_sockets.get p = none →
      (new_player s p socket now).2 = ok none ∧
      (new_player s p socket now).1.player_sockets = s.player_sockets.set p (some socket) ∧
      ∀ q, (new_player s p socket now).1.player_sockets.get q =
        if q = p then some socket else s.player_sockets.get q) := by
  have hall : ∀ q : Position, q ∈ seat_order := by
    intro q
    cases q <;> simp [seat_order]
  have hmem : ∀ q, q ∈ (seat_order.filter fun q => (s.player_sockets.get q).isSome) ↔
      s.player_sockets.get q ≠ none := by
    intro q
    simp [List.mem_filter, hall q, Option.isSome_iff_ne_none]
  constructor
  · intro h
    have hp := (hmem p).2 h
    refine ⟨new_player_busy_eq s p socket now h, hmem, ?_, List.filter_sublist _, hp,
      List.length_pos_of_mem hp, ?_⟩
    · exact List.Nodup.filter _ (by decide)
    · exact le_trans (List.length_filter_le _ _) (by decide)
  · intro h
    obtain ⟨h1, h2⟩ := new_player_seated hr p socket now h
    refine ⟨h1, h2, ?_⟩
    intro q
    rw [h2, socketmap_set_get]

set_option maxRecDepth 100000 in
theorem new_player_busy_or_seated_witness :
    new_player demo_seated Position.East 4 0 =
        (demo_seated, ok (some (BUSYMessage
          [Position.North, Position.East, Position.South, Position.West]))) ∧
      (BUSYMessage [Position.North, Position.East, Position.South, Position.West]).to_string =
        "BUSYNESW\r\n".toList ∧
      (new_player demo_alone Position.East 1 0).2 = ok none ∧
      (new_player demo_alone Position.East 1 0).1.player_sockets =
        ⟨some 0, some 1, none, none⟩ :=
  ⟨((new_player_busy_or_seated demo_seated_reachable Position.East 4 0).1 (by decide)).1,
    by decide,
    ((new_player_busy_or_seated demo_alone_reachable Position.East 1 0).2 (by decide)).1,
    ((new_player_busy_or_seated demo_alone_reachable Position.East 1 0).2 (by decide)).2.1⟩

end ServerGameState

namespace ServerGameState

/-! ## The replay for a seat that is taken again -/

theorem start_deal_sched (s s1 : ServerGameState) (hs : start_deal s = ok s1) :
    s1.deal_started = true ∧
    s1.starting_hands =
      [schedule_hand s1 0, schedule_hand s1 1, schedule_hand s1 2, schedule_hand s1 3] := by
  obtain ⟨-, heap, e⟩ := start_deal_ok s s1 hs
  rw [e]
  exact ⟨rfl, rfl⟩

theorem deal_line_eq_of_sched (a b : ServerGameState) (p : Position)
    (ha : DealInv a) (hb : DealInv b) (hsa : a.deal_started = true) (hsb : b.deal_started = true)
    (hha : a.starting_hands =
      [schedule_hand a 0, schedule_hand a 1, schedule_hand a 2, schedule_hand a 3])
    (hhb : b.starting_hands =
      [schedule_hand b 0, schedule_hand b 1, schedule_hand b 2, schedule_hand b 3])
    (hd : a.current_deal = b.current_deal) (hh : a.hands = b.hands)
    (ht : a.deal_types = b.deal_types) (hp : a.starting_players = b.starting_players) :
    deal_line a p = deal_line b p := by
  unfold deal_line
  rw [ha.type_sched hsa, hb.type_sched hsb, ha.opener_sched hsa, hb.opener_sched hsb, hha, hhb]
  simp only [schedule_hand, hd, hh, ht, hp]

theorem demo_east_gone_reachable : ∃ done, Reachable done demo_east_gone := by
  obtain ⟨done, h⟩ := reachable_run demo_taken_reachable
    [ServerGameState.Event.tick 0,
      ServerGameState.Event.trick 0 2 ⟨"K".toList, Color.Clubs, 13⟩,
      ServerGameState.Event.tick 0] (by decide)
  exact ⟨done, Reachable.sockets (Reachable.disconnect_client h 1) _⟩

/-- C23. The replay for a seat that is taken again. In a state the server can
be in, with a deal in progress and the seat `p` empty, `new_player` for `p` and
the connection `socket` returns no message and appends to the write queue of
that connection, in this order and nothing else: the `DEAL` line of the seat,
then the recorded `TAKEN` messages of the deal in their order, then the `TRICK`
line of the trick number and of the cards on the table exactly if a trick is in
progress and `p` is the awaited seat; the queues of the other connections stay
as they are. The `DEAL` line carries the deal type and the opener of the
schedule entry of the deal and the thirteen cards the schedule has for the seat.
It is the line sent when the deal started: a call of `start_deal` for the same
schedule that starts the deal of this number appends to the queue of each
socket the `DEAL` lines of the seats it holds and nothing else, and its line for
`p` is this `DEAL` line. -/
theorem rejoin_replays_deal {done : List PosMap} {s : ServerGameState} (hr : Reachable done s)
    (p : Position) (socket : Nat) (now : Int) (hfree : s.player_sockets.get p = none)
    (hds : s.deal_started = true) :
    (new_player s p socket now).2 = ok none ∧
    (((new_player s p socket now).1.heap[socket]?).map Socket.write_queue =
      (s.heap[socket]?).map fun (sock : Socket) =>
        sock.write_queue ++ deal_line s p ++ s.taken_messages.flatMap Message.to_string ++
          (if s.trick_started = true ∧ s.awaited_player = some p then trick_line s else [])) ∧
    (∀ j, j ≠ socket → (new_player s p socket now).1.heap[j]? = s.heap[j]?) ∧
    (deal_line s p = Message.to_string ⟨MessageType.DEAL,
        to_string_DealType (s.deal_types.getD (s.current_deal - 1).toNat DealType.TRICK) ++
          to_string_Position
            (s.starting_players.getD (s.current_deal - 1).toNat Position.North) ++
          cards_data (schedule_hand s (position_order p).toNat),
        Payload.DEAL (s.deal_types.getD (s.current_deal - 1).toNat DealType.TRICK)
          (s.starting_players.getD (s.current_deal - 1).toNat Position.North)
          (schedule_hand s (position_order p).toNat)⟩ ∧
      (schedule_hand s (position_order p).toNat).length = 13) ∧
    (∀ s0 s1 : ServerGameState, start_deal s0 = ok s1 →
      s1.current_deal = s.current_deal → s1.hands = s.hands →
      s1.deal_types = s.deal_types → s1.starting_players = s.starting_players →
      deal_line s1 p = deal_line s p ∧
      ∀ j, s1.heap[j]? = (s0.heap[j]?).map fun (sock : Socket) =>
        { sock with write_queue := (sock.write_queue ++
          List.flatMap (seat_order.filter fun q => decide (s0.player_sockets.get q = some j))
            (deal_line s1)) }) := by
  have hinv := reachable_inv hr
  have hdi := reachable_dealinv hr
  have hsched := hinv.start_sched hds
  have hrange := position_order_range p
  have hhand : s.starting_hands.getD (position_order p).toNat [] =
      schedule_hand s (position_order p).toNat := by
    rw [hsched]
    cases p <;> rfl
  refine ⟨?_, ?_, ?_, ⟨?_, ?_⟩, ?_⟩
  · rw [new_player_rejoin_eq hr p socket now hfree hds]
  · rw [new_player_rejoin_eq hr p socket now hfree hds]
    dsimp only
    rw [List.getElem?_modify]
    cases s.heap[socket]? with
    | none => rfl
    | some sock => simp [deal_line, trick_line]
  · intro j hj
    rw [new_player_rejoin_eq hr p socket now hfree hds]
    dsimp only
    rw [List.getElem?_modify]
    cases s.heap[j]? with
    | none => rfl
    | some sock => simp [Ne.symm hj]
  · unfold deal_line
    rw [hhand, hdi.type_sched hds, hdi.opener_sched hds]
  · rw [← hhand]
    apply hdi.hands13 hds
    omega
  · intro s0 s1 hs hd hh ht hp
    obtain ⟨hs1, hh1⟩ := start_deal_sched s0 s1 hs
    exact ⟨deal_line_eq_of_sched s1 s p (dealinv_start_deal hs) hdi hs1 hds hh1 hsched hd hh ht hp,
      start_deal_heap s0 s1 hs⟩

set_option maxRecDepth 1000000 in
theorem rejoin_replays_deal_witness :
    ((new_player demo_east_gone Position.East 4 9).1.heap[4]?).map Socket.write_queue =
      some "DEAL1NAHKSQCJD10H9S8C7D6H5S4C3D2H\r\nTAKEN1ASKSQSJSN\r\nTRICK2KC\r\n".toList := by
  obtain ⟨done, hr⟩ := demo_east_gone_reachable
  have h := (rejoin_replays_deal hr Position.East 4 9 (by decide) (by decide)).2.1
  rw [h]
  decide

end ServerGameState

namespace ClientGameState

/-! ## The client: the moves it may make -/

theorem get_valid_moves_lead (s : ClientGameState) (hd : s.deal_ended = false)
    (ht : s.trick_ended = false) (h : s.trick_cards = []) : get_valid_moves s = ok s.hand := by
  unfold get_valid_moves
  rw [hd, ht, h]
  rfl

theorem get_valid_moves_follow (s : ClientGameState) (hd : s.deal_ended = false)
    (ht : s.trick_ended = false) (lead : Card) (rest : List Card)
    (h : s.trick_cards = lead :: rest) :
    get_valid_moves s = ok
      (if (s.hand.filter fun (card : Card) => decide (card.color = lead.color)).isEmpty then s.hand
        else s.hand.filter fun (card : Card) => decide (card.color = lead.color)) := by
  unfold get_valid_moves
  rw [hd, ht, h]
  simp only [Bool.false_eq_true, if_false]
  by_cases he : (s.hand.filter fun (card : Card) => decide (card.color = lead.color)).isEmpty = true
  · rw [if_pos he, if_pos he]
  · rw [if_neg he, if_neg he]

/-- C26. The method `get_valid_moves` of the client. With a deal and a trick in
progress it returns the whole hand if no card is on the table; with a card on
the table, the cards of the hand of the suit of the first card on the table, in
the order of the hand (a sublist of the hand that holds exactly the cards of the
hand of that suit), if the hand has one; the whole hand otherwise. It throws
`std::invalid_argument` if the deal has ended or no trick is in progress. -/
theorem get_valid_moves_spec (s : ClientGameState) :
    (s.deal_ended = false → s.trick_ended = false →
      (s.trick_cards = [] → get_valid_moves s = ok s.hand) ∧
      (∀ lead rest, s.trick_cards = lead :: rest →
        ((∃ c ∈ s.hand, c.color = lead.color) →
          get_valid_moves s = ok (s.hand.filter fun c => decide (c.color = lead.color)) ∧
          List.Sublist (s.hand.filter fun c => decide (c.color = lead.color)) s.hand ∧
          ∀ c, c ∈ (s.hand.filter fun c => decide (c.color = lead.color)) ↔
            c ∈ s.hand ∧ c.color = lead.color) ∧
        ((∀ c ∈ s.hand, c.color ≠ lead.color) → get_valid_moves s = ok s.hand))) ∧
    (s.deal_ended = true ∨ s.trick_ended = true →
      get_valid_moves s = throw Exn.invalid_argument) := by
  refine ⟨?_, ?_⟩
  · intro hd ht
    refine ⟨get_valid_moves_lead s hd ht, ?_⟩
    intro lead rest h
    rw [get_valid_moves_follow s hd ht lead rest h]
    refine ⟨?_, ?_⟩
    · rintro ⟨c, hc, hcol⟩
      refine ⟨?_, List.filter_sublist _, ?_⟩
      · rw [if_neg]
        intro hemp
        have hmem : c ∈ s.hand.filter fun (card : Card) => decide (card.color = lead.color) := by
          simp [List.mem_filter, hc, hcol]
        rw [List.isEmpty_iff] at hemp
        rw [hemp] at hmem
        exact absurd hmem (List.not_mem_nil _)
      · intro x
        simp [List.mem_filter]
    · intro hnone
      have hemp : (s.hand.filter fun (card : Card) => decide (card.color = lead.color)) = [] := by
        rw [List.filter_eq_nil_iff]
        intro a ha
        simpa using hnone a ha
      rw [hemp]
      rfl
  · intro h
    unfold get_valid_moves
    rcases h with h | h
    · rw [h]
      rfl
    · rw [h]
      cases s.deal_ended <;> rfl

set_option maxRecDepth 100000 in
theorem get_valid_moves_spec_witness :
    get_valid_moves demo_client_east_prompted =
      ok [⟨"K".toList, Color.Spades, 13⟩, ⟨"9".toList, Color.Spades, 9⟩,
        ⟨"5".toList, Color.Spades, 5⟩] :=
  ((((get_valid_moves_spec demo_client_east_prompted).1 (by decide) (by decide)).2
    ⟨"A".toList, Color.Spades, 14⟩ [] (by decide)).1
      ⟨⟨"K".toList, Color.Spades, 13⟩, by decide, by decide⟩).1

/-- C25. The server and the client apply the same rule. For a hand, the cards on
the table and a card: with the hand as the seat's hand and the table as the
cards of the trick on the server, and the same hand and table on a client with a
deal and a trick in progress, the server's `is_valid_move` is true exactly if
the card is (by `operator==`) an element of the list the client's
`get_valid_moves` returns, which is what the client's `is_valid_move` returns;
for cards of the pack, exactly if the card is a member of that list. -/
theorem same_follow_rule (hand table : List Card) (c : Card) (s : ServerGameState)
    (p : Position) (cs : ClientGameState)
    (hh : ServerGameState.hand_of s p = hand) (ht : s.trick_cards = table)
    (hch : cs.hand = hand) (hct : cs.trick_cards = table)
    (hd : cs.deal_ended = false) (hte : cs.trick_ended = false) :
    ∃ v, get_valid_moves cs = ok v ∧
      (ServerGameState.is_valid_move s c p = true ↔ ∃ x ∈ v, x.eq c = true) ∧
      is_valid_move cs c = ok (ServerGameState.is_valid_move s c p) ∧
      ((∀ x ∈ hand, x ∈ Card.pack) → c ∈ Card.pack →
        (ServerGameState.is_valid_move s c p = true ↔ c ∈ v)) := by
  subst hch
  have key : ∀ v : List Card, get_valid_moves cs = ok v → (∀ x ∈ v, x ∈ cs.hand) →
      ServerGameState.is_valid_move s c p = v.any (fun x => x.eq c) →
      ∃ v, get_valid_moves cs = ok v ∧
      (ServerGameState.is_valid_move s c p = true ↔ ∃ x ∈ v, x.eq c = true) ∧
      is_valid_move cs c = ok (ServerGameState.is_valid_move s c p) ∧
      ((∀ x ∈ cs.hand, x ∈ Card.pack) → c ∈ Card.pack →
        (ServerGameState.is_valid_move s c p = true ↔ c ∈ v)) := by
    intro v hv hsub hsrv
    refine ⟨v, hv, ?_, ?_, ?_⟩
    · rw [hsrv, List.any_eq_true]
    · unfold is_valid_move
      rw [hv, hsrv]
      rfl
    · intro hpack hc
      rw [hsrv, List.any_eq_true]
      constructor
      · rintro ⟨x, hx, hxe⟩
        have := Card.pack_eq_of_eq x c (hpack x (hsub x hx)) hc hxe
        rw [← this]
        exact hx
      · intro hc2
        exact ⟨c, hc2, Card.eq_self c⟩
  cases table with
  | nil =>
    apply key _ (get_valid_moves_lead cs hd hte hct) (fun x hx => hx)
    unfold ServerGameState.is_valid_move
    rw [hh, ht]
    rfl
  | cons lead rest =>
    apply key _ (get_valid_moves_follow cs hd hte lead rest hct)
    · intro x hx
      split at hx
      · exact hx
      · exact List.mem_of_mem_filter hx
    · unfold ServerGameState.is_valid_move
      rw [hh, ht]

set_option maxRecDepth 100000 in
theorem same_follow_rule_witness :
    ServerGameState.is_valid_move demo_one ⟨"9".toList, Color.Spades, 9⟩ Position.East = true ∧
    is_valid_move demo_client_east_prompted ⟨"9".toList, Color.Spades, 9⟩ = ok true := by
  obtain ⟨v, -, -, h, -⟩ := same_follow_rule demo_east [⟨"A".toList, Color.Spades, 14⟩]
    ⟨"9".toList, Color.Spades, 9⟩ demo_one Position.East demo_client_east_prompted
    (by decide) (by decide) (by decide) (by decide) (by decide) (by decide)
  refine ⟨by decide, ?_⟩
  rw [h]
  decide

end ClientGameState

/-! ## The order `Card::operator<` -/

theorem strLt_irrefl : ∀ a : Str, strLt a a = false
  | [] => rfl
  | x :: xs => by
    simp only [strLt, lt_self_iff_false, if_false]
    exact strLt_irrefl xs

theorem strLt_trans : ∀ a b c : Str, strLt a b = true → strLt b c = true → strLt a c = true
  | [], [], _, h, _ => by simp [strLt] at h
  | [], _ :: _, [], _, h => by simp [strLt] at h
  | [], _ :: _, _ :: _, _, _ => by simp [strLt]
  | _ :: _, [], _, h, _ => by simp [strLt] at h
  | _ :: _, _ :: _, [], _, h => by simp [strLt] at h
  | x :: xs, y :: ys, z :: zs, h1, h2 => by
    simp only [strLt] at h1 h2 ⊢
    have ih := strLt_trans xs ys zs
    split_ifs at h1 h2 ⊢ <;> first | rfl | omega | exact ih h1 h2

theorem Card.colorLt_irrefl (a : Color) : Card.colorLt a a = false := by
  cases a <;> rfl

theorem Card.colorLt_trans (a b c : Color) (h1 : Card.colorLt a b = true) (h2 : Card.colorLt b c = true) :
    Card.colorLt a c = true := by
  cases a <;> cases b <;> cases c <;> first | rfl | exact h1 | exact h2

theorem Card.colorLt_ne (a b : Color) (h : Card.colorLt a b = true) : a ≠ b := by
  intro e
  rw [e, Card.colorLt_irrefl] at h
  exact Bool.false_ne_true h

theorem Card.lt_irrefl (a : Card) : a.lt a = false := by
  unfold Card.lt
  rw [if_neg (by simp)]
  exact strLt_irrefl _

theorem Card.lt_trans (a b c : Card) (h1 : a.lt b = true) (h2 : b.lt c = true) :
    a.lt c = true := by
  unfold Card.lt at h1 h2 ⊢
  by_cases hab : a.color = b.color
  · rw [if_neg (by simpa using hab)] at h1
    by_cases hbc : b.color = c.color
    · rw [if_neg (by simpa using hbc)] at h2
      rw [if_neg (by simpa using hab.trans hbc)]
      exact strLt_trans _ _ _ h1 h2
    · rw [if_pos hbc] at h2
      rw [if_pos (by rw [hab]; exact hbc), hab]
      exact h2
  · rw [if_pos hab] at h1
    by_cases hbc : b.color = c.color
    · rw [if_pos (by rw [← hbc]; exact hab), ← hbc]
      exact h1
    · rw [if_pos hbc] at h2
      have := Card.colorLt_trans _ _ _ h1 h2
      rw [if_pos (Card.colorLt_ne _ _ this)]
      exact this

namespace ClientGameState

/-! ## The client: the card it leads -/

theorem min_fold_spec : ∀ (rest : List Card) (c : Card),
    rest.foldl (fun smallest x => if x.lt smallest then x else smallest) c ∈ c :: rest ∧
    (rest.foldl (fun smallest x => if x.lt smallest then x else smallest) c = c ∨
      (rest.foldl (fun smallest x => if x.lt smallest then x else smallest) c).lt c = true) ∧
    ∀ x ∈ rest,
      x.lt (rest.foldl (fun smallest x => if x.lt smallest then x else smallest) c) = false
  | [], c => ⟨List.mem_singleton_self c, Or.inl rfl, fun _ h => absurd h (List.not_mem_nil _)⟩
  | x :: r, c => by
    rw [List.foldl_cons]
    by_cases hx : x.lt c = true
    · rw [if_pos hx]
      obtain ⟨h1, h2, h3⟩ := min_fold_spec r x
      refine ⟨List.mem_cons_of_mem _ h1, Or.inr ?_, ?_⟩
      · rcases h2 with h2 | h2
        · rw [h2]
          exact hx
        · exact Card.lt_trans _ _ _ h2 hx
      · intro y hy
        rcases List.mem_cons.1 hy with rfl | hy
        · rcases h2 with h2 | h2
          · rw [h2]
            exact Card.lt_irrefl _
          · cases hyy : y.lt (r.foldl (fun smallest x => if x.lt smallest then x else smallest) y)
            · rfl
            · have := Card.lt_trans _ _ _ hyy h2
              rw [Card.lt_irrefl] at this
              exact absurd this Bool.false_ne_true
        · exact h3 y hy
    · rw [if_neg hx]
      obtain ⟨h1, h2, h3⟩ := min_fold_spec r c
      refine ⟨?_, h2, ?_⟩
      · rcases List.mem_cons.1 h1 with h1 | h1
        · rw [h1]
          exact List.mem_cons_self _ _
        · exact List.mem_cons_of_mem _ (List.mem_cons_of_mem _ h1)
      · intro y hy
        rcases List.mem_cons.1 hy with rfl | hy
        · rcases h2 with h2 | h2
          · rw [h2]
            simpa using hx
          · cases hyy : y.lt (r.foldl (fun smallest x => if x.lt smallest then x else smallest) c)
            · rfl
            · exact absurd (Card.lt_trans _ _ _ hyy h2) hx
        · exact h3 y hy

theorem min_element_spec (hand : List Card) (hne : hand ≠ []) :
    ∃ m, min_element hand = some m ∧ m ∈ hand ∧ ∀ x ∈ hand, x.lt m = false := by
  cases hand with
  | nil => exact absurd rfl hne
  | cons c rest =>
    obtain ⟨h1, h2, h3⟩ := min_fold_spec rest c
    refine ⟨_, rfl, h1, ?_⟩
    intro x hx
    rcases List.mem_cons.1 hx with rfl | hx
    · rcases h2 with h2 | h2
      · rw [h2]
        exact Card.lt_irrefl _
      · cases hyy : x.lt (rest.foldl (fun smallest x => if x.lt smallest then x else smallest) x)
        · rfl
        · have := Card.lt_trans _ _ _ hyy h2
          rw [Card.lt_irrefl] at this
          exact absurd this Bool.false_ne_true
    · exact h3 x hx

theorem demo_client_north_leads_reachable : Reachable demo_client_north_leads :=
  @Reachable.new_trick demo_client_north_dealt demo_client_north_leads
    (@Reachable.new_deal demo_client_north demo_client_north_dealt
      (Reachable.init Position.North false DealType.TRICK Position.North)
      DealType.TRICK Position.North demo_north (by decide) (by decide) (by decide) (by decide))
    1 [] (by decide) (by decide) (by decide) (by decide)

/-- The card the client leads. With a deal and a trick in progress, no
card on the table and a hand that is not empty, `get_best_move` returns a card
of the hand that is least under `Card::operator<`: no card of the hand is less
than it, that is, no card of the hand is of a suit whose letter comes before
that of its suit (`C`, `D`, `H`, `S` in this order), and no card of the hand of
its suit has a figure that, compared as a string, comes before its figure. -/
theorem best_move_leading (s : ClientGameState) (hd : s.deal_ended = false)
    (ht : s.trick_ended = false) (htc : s.trick_cards = []) (hne : s.hand ≠ []) :
    ∃ m, get_best_move s = ok (some m) ∧ m ∈ s.hand ∧
      (∀ x ∈ s.hand, x.lt m = false) ∧
      (∀ x ∈ s.hand, Card.colorLt x.color m.color = false ∧
        (x.color = m.color → strLt x.figure m.figure = false)) := by
  obtain ⟨m, hm, hmem, hmin⟩ := min_element_spec s.hand hne
  refine ⟨m, ?_, hmem, hmin, ?_⟩
  · unfold get_best_move
    rw [hd, ht, htc, hm]
    rfl
  · intro x hx
    have h := hmin x hx
    unfold Card.lt at h
    by_cases hc : x.color = m.color
    · rw [if_neg (by simpa using hc)] at h
      refine ⟨?_, fun _ => h⟩
      rw [hc]
      exact Card.colorLt_irrefl _
    · rw [if_pos hc] at h
      exact ⟨h, fun e => absurd e hc⟩

set_option maxRecDepth 100000 in
/-- The client of North opening the first trick of the demonstration deal. -/
theorem best_move_leading_witness :
    ∃ m, get_best_move demo_client_north_leads = ok (some m) ∧ m ∈ demo_north ∧
      (∀ x ∈ demo_north, x.lt m = false) ∧
      (∀ x ∈ demo_north, Card.colorLt x.color m.color = false ∧
        (x.color = m.color → strLt x.figure m.figure = false)) :=
  best_move_leading demo_client_north_leads (by decide) (by decide) (by decide) (by decide)

set_option maxRecDepth 100000 in
/-- C27. The client of North, prompted to open the first trick of the
demonstration deal with the hand `ASKCQDJH10S9C8D7H6S5C4D3H2S`, leads the five of
clubs, though it holds the two of spades, a card of a smaller rank; and a client
that holds the thirteen hearts leads the ten, not the two. `get_best_move` takes
the least card of the hand under `Card::operator<`, which `common.h` documents as
"this card is considered weaker than the other card", but which compares the
letter of the suit and then the figure as a string, never the value: clubs come
before the other suits and the figure `10` comes before `2`. -/
theorem best_move_leading_not_lowest_rank :
    Reachable demo_client_north_leads ∧
    demo_client_north_leads.deal_ended = false ∧
    demo_client_north_leads.trick_ended = false ∧
    demo_client_north_leads.trick_cards = [] ∧
    demo_client_north_leads.hand = demo_north ∧
    get_best_move demo_client_north_leads = ok (some ⟨"5".toList, Color.Clubs, 5⟩) ∧
    (⟨"2".toList, Color.Spades, 2⟩ : Card) ∈ demo_client_north_leads.hand ∧
    (⟨"2".toList, Color.Spades, 2⟩ : Card).value < (⟨"5".toList, Color.Clubs, 5⟩ : Card).value ∧
    get_best_move { demo_client_hearts with trick_cards := [] } =
      ok (some ⟨"10".toList, Color.Hearts, 10⟩) ∧
    (⟨"2".toList, Color.Hearts, 2⟩ : Card) ∈ demo_client_hearts.hand :=
  ⟨demo_client_north_leads_reachable, by decide, by decide, by decide, by decide, by decide,
    by decide, by decide, by decide, by decide⟩

end ClientGameState

namespace ClientGameState

/-! ## The client: the card it plays to a trick that was opened -/

theorem best_loop_cons_suit (L b c : Card) (t : List Card) (hb : b.color = L.color)
    (hc : c.color = L.color) :
    best_loop L (c :: t) b =
      best_loop L t (if b.value ≤ c.value ∧ c.value < L.value then c else b) := by
  unfold best_loop
  rw [List.foldl_cons]
  congr 1
  simp only [Card.compare, hb, hc, if_true, Bool.and_eq_true, Bool.not_eq_true',
    decide_eq_false_iff_not, decide_eq_true_eq, not_lt]

theorem best_loop_cons_void (L b c : Card) (t : List Card) (hb : b.color ≠ L.color)
    (hc : c.color ≠ L.color) :
    best_loop L (c :: t) b =
      best_loop L t (if c.color = b.color ∧ c.value < b.value then b else c) := by
  unfold best_loop
  rw [List.foldl_cons]
  congr 1
  simp only [Card.compare, hb, hc, if_true, if_false]
  by_cases h : c.color = b.color
  · simp only [h, if_true, true_and]
    by_cases h2 : c.value < b.value
    · simp [h2]
    · simp [h2]
  · simp [h]

theorem best_loop_suit_high (L : Card) : ∀ (t : List Card) (b : Card),
    (∀ x ∈ b :: t, x.color = L.color) → ¬ b.value < L.value → best_loop L t b = b
  | [], _, _, _ => rfl
  | c :: t, b, hcol, hb => by
    rw [best_loop_cons_suit L b c t (hcol b (List.mem_cons_self _ _))
      (hcol c (List.mem_cons_of_mem _ (List.mem_cons_self _ _))), if_neg (by omega)]
    apply best_loop_suit_high L t b _ hb
    intro x hx
    rcases List.mem_cons.1 hx with rfl | hx
    · exact hcol _ (List.mem_cons_self _ _)
    · exact hcol x (List.mem_cons_of_mem _ (List.mem_cons_of_mem _ hx))

theorem best_loop_suit_low (L : Card) : ∀ (t : List Card) (b : Card),
    (∀ x ∈ b :: t, x.color = L.color) → b.value < L.value →
    best_loop L t b ∈ b :: t ∧ (best_loop L t b).value < L.value ∧
    ∀ x ∈ b :: t, x.value < L.value → x.value ≤ (best_loop L t b).value
  | [], b, _, hb => by
    refine ⟨List.mem_singleton_self b, hb, ?_⟩
    intro x hx _
    rw [List.mem_singleton.1 hx]
    exact le_refl _
  | c :: t, b, hcol, hb => by
    have hcb := hcol b (List.mem_cons_self _ _)
    have hcc := hcol c (List.mem_cons_of_mem _ (List.mem_cons_self _ _))
    have hct : ∀ x ∈ t, x.color = L.color := fun x hx =>
      hcol x (List.mem_cons_of_mem _ (List.mem_cons_of_mem _ hx))
    rw [best_loop_cons_suit L b c t hcb hcc]
    by_cases h : b.value ≤ c.value ∧ c.value < L.value
    · rw [if_pos h]
      obtain ⟨h1, h2, h3⟩ := best_loop_suit_low L t c (by
        intro x hx
        rcases List.mem_cons.1 hx with rfl | hx
        · exact hcc
        · exact hct x hx) h.2
      refine ⟨List.mem_cons_of_mem _ h1, h2, ?_⟩
      intro x hx hxl
      rcases List.mem_cons.1 hx with rfl | hx
      · exact le_trans h.1 (h3 c (List.mem_cons_self _ _) h.2)
      · exact h3 x hx hxl
    · rw [if_neg h]
      obtain ⟨h1, h2, h3⟩ := best_loop_suit_low L t b (by
        intro x hx
        rcases List.mem_cons.1 hx with rfl | hx
        · exact hcb
        · exact hct x hx) hb
      refine ⟨?_, h2, ?_⟩
      · rcases List.mem_cons.1 h1 with h1 | h1
        · rw [h1]
          exact List.mem_cons_self _ _
        · exact List.mem_cons_of_mem _ (List.mem_cons_of_mem _ h1)
      · intro x hx hxl
        rcases List.mem_cons.1 hx with rfl | hx
        · exact h3 _ (List.mem_cons_self _ _) hxl
        · rcases List.mem_cons.1 hx with rfl | hx
          · have := h3 b (List.mem_cons_self _ _) hb
            omega
          · exact h3 x (List.mem_cons_of_mem _ hx) hxl

theorem best_loop_void (L : Card) : ∀ (t : List Card) (f : Card),
    (∀ x ∈ f :: t, x.color ≠ L.color) →
    ∃ pre post, f :: t = pre ++ best_loop L t f :: post ∧
      (∀ x ∈ post, x.color = (best_loop L t f).color ∧ x.value < (best_loop L t f).value) ∧
      ∀ (pre1 : List Card) (y : Card) (post1 : List Card), f :: t = pre1 ++ y :: post1 →
        (∀ x ∈ post1, x.color = y.color ∧ x.value < y.value) → pre.length ≤ pre1.length
  | [], f, _ => ⟨[], [], rfl, fun _ h => absurd h (List.not_mem_nil _),
      fun _ _ _ _ _ => Nat.zero_le _⟩
  | c :: t, f, hcol => by
    have hcf := hcol f (List.mem_cons_self _ _)
    have hcc := hcol c (List.mem_cons_of_mem _ (List.mem_cons_self _ _))
    have hct : ∀ x ∈ t, x.color ≠ L.color := fun x hx =>
      hcol x (List.mem_cons_of_mem _ (List.mem_cons_of_mem _ hx))
    rw [best_loop_cons_void L f c t hcf hcc]
    by_cases h : c.color = f.color ∧ c.value < f.value
    · rw [if_pos h]
      obtain ⟨pre, post, h1, h2, h3⟩ := best_loop_void L t f (by
        intro x hx
        rcases List.mem_cons.1 hx with rfl | hx
        · exact hcf
        · exact hct x hx)
      cases pre with
      | nil =>
        simp only [List.nil_append, List.cons.injEq] at h1
        refine ⟨[], c :: t, ?_, ?_, fun _ _ _ _ _ => Nat.zero_le _⟩
        · rw [← h1.1]
          rfl
        · intro x hx
          rcases List.mem_cons.1 hx with rfl | hx
          · rw [← h1.1]
            exact h
          · apply h2
            rw [← h1.2]
            exact hx
      | cons p pre =>
        simp only [List.cons_append, List.cons.injEq] at h1
        obtain ⟨rfl, h1⟩ := h1
        refine ⟨f :: c :: pre, post, ?_, h2, ?_⟩
        · simp only [List.cons_append, List.cons.injEq, true_and]
          exact h1
        · intro pre1 y post1 he hP
          have hfirst : ¬ ∀ x ∈ t, x.color = f.color ∧ x.value < f.value := by
            intro hall
            have := h3 [] f t rfl hall
            simp at this
          cases pre1 with
          | nil =>
            simp only [List.nil_append, List.cons.injEq] at he
            obtain ⟨rfl, rfl⟩ := he
            exact absurd (fun x hx => hP x (List.mem_cons_of_mem _ hx)) hfirst
          | cons q pre1 =>
            simp only [List.cons_append, List.cons.injEq] at he
            obtain ⟨rfl, he⟩ := he
            cases pre1 with
            | nil =>
              simp only [List.nil_append, List.cons.injEq] at he
              obtain ⟨rfl, rfl⟩ := he
              refine absurd (fun x hx => ?_) hfirst
              have := hP x hx
              exact ⟨this.1.trans h.1, lt_trans this.2 h.2⟩
            | cons q2 pre1 =>
              simp only [List.cons_append, List.cons.injEq] at he
              obtain ⟨rfl, he⟩ := he
              have := h3 (f :: pre1) y post1 (by rw [he]; rfl) hP
              simp only [List.length_cons] at this ⊢
              omega
    · rw [if_neg h]
      obtain ⟨pre, post, h1, h2, h3⟩ := best_loop_void L t c (by
        intro x hx
        rcases List.mem_cons.1 hx with rfl | hx
        · exact hcc
        · exact hct x hx)
      refine ⟨f :: pre, post, ?_, h2, ?_⟩
      · rw [List.cons_append, ← h1]
      · intro pre1 y post1 he hP
        cases pre1 with
        | nil =>
          simp only [List.nil_append, List.cons.injEq] at he
          obtain ⟨rfl, rfl⟩ := he
          exact absurd (hP c (List.mem_cons_self _ _)) h
        | cons q pre1 =>
          simp only [List.cons_append, List.cons.injEq] at he
          obtain ⟨rfl, he⟩ := he
          have := h3 pre1 y post1 he hP
          simp only [List.length_cons]
          omega

theorem get_best_move_follow (s : ClientGameState) (L : Card) (rest : List Card)
    (hd : s.deal_ended = false) (ht : s.trick_ended = false) (htc : s.trick_cards = L :: rest)
    (f : Card) (t : List Card)
    (hv : (if (s.hand.filter fun (card : Card) => decide (card.color = L.color)).isEmpty then s.hand
        else s.hand.filter fun (card : Card) => decide (card.color = L.color)) = f :: t) :
    get_best_move s = ok (some (best_loop L (f :: t) f)) := by
  have hg := get_valid_moves_follow s hd ht L rest htc
  unfold get_best_move
  rw [hd, ht, htc, hg, hv]
  rfl

theorem demo_client_east_ten_reachable : Reachable demo_client_east_ten :=
  @Reachable.new_trick demo_client_east_dealt demo_client_east_ten
    (@Reachable.new_deal (init Position.East false DealType.TRICK Position.North)
      demo_client_east_dealt
      (Reachable.init Position.East false DealType.TRICK Position.North)
      DealType.TRICK Position.North demo_east (by decide) (by decide) (by decide) (by decide))
    1 [⟨"10".toList, Color.Spades, 10⟩] (by decide) (by decide) (by decide) (by decide)

theorem demo_client_hearts_reachable : Reachable demo_client_hearts :=
  @Reachable.new_trick
    (demo_client_north.after
      (demo_client_north.new_deal DealType.TRICK Position.North demo_hearts))
    demo_client_hearts
    (@Reachable.new_deal demo_client_north
      (demo_client_north.after
        (demo_client_north.new_deal DealType.TRICK Position.North demo_hearts))
      (Reachable.init Position.North false DealType.TRICK Position.North)
      DealType.TRICK Position.North demo_hearts (by decide) (by decide) (by decide) (by decide))
    1 [⟨"10".toList, Color.Spades, 10⟩] (by decide) (by decide) (by decide) (by decide)

/-- The card the client plays to a trick that was opened. With a deal and a
trick in progress and the card `L` first on the table: if the hand has cards of
the suit of `L` and the first of them in the order of the hand has a value below
that of `L`, `get_best_move` returns a card of the hand of that suit with the
highest value below that of `L`; if the first of them has no value below that of
`L`, it returns that first card, whatever other cards of the suit the hand has;
if the hand has no card of the suit and is not empty, it returns the first card
of the hand after which the hand has only cards of the suit of that card with a
lower value. -/
theorem best_move_following (s : ClientGameState) (L : Card) (rest : List Card)
    (hd : s.deal_ended = false) (ht : s.trick_ended = false)
    (htc : s.trick_cards = L :: rest) :
    (∀ f t, (s.hand.filter fun (c : Card) => decide (c.color = L.color)) = f :: t →
      f.value < L.value →
      ∃ m, get_best_move s = ok (some m) ∧ m ∈ s.hand ∧ m.color = L.color ∧
        m.value < L.value ∧
        ∀ x ∈ s.hand, x.color = L.color → x.value < L.value → x.value ≤ m.value) ∧
    (∀ f t, (s.hand.filter fun (c : Card) => decide (c.color = L.color)) = f :: t →
      ¬ f.value < L.value → get_best_move s = ok (some f)) ∧
    ((s.hand.filter fun (c : Card) => decide (c.color = L.color)) = [] → s.hand ≠ [] →
      ∃ m pre post, get_best_move s = ok (some m) ∧ s.hand = pre ++ m :: post ∧
        (∀ x ∈ post, x.color = m.color ∧ x.value < m.value) ∧
        ∀ (pre1 : List Card) (y : Card) (post1 : List Card), s.hand = pre1 ++ y :: post1 →
          (∀ x ∈ post1, x.color = y.color ∧ x.value < y.value) → pre.length ≤ pre1.length) := by
  have hsuit : ∀ f t, (s.hand.filter fun (c : Card) => decide (c.color = L.color)) = f :: t →
      get_best_move s = ok (some (best_loop L t f)) ∧ ∀ x ∈ f :: t, x.color = L.color := by
    intro f t hf
    have hcol : ∀ x ∈ f :: t, x.color = L.color := by
      intro x hx
      rw [← hf] at hx
      simpa using (List.mem_filter.1 hx).2
    refine ⟨?_, hcol⟩
    rw [get_best_move_follow s L rest hd ht htc f t (by rw [hf]; rfl),
      best_loop_cons_suit L f f t (hcol f (List.mem_cons_self _ _))
        (hcol f (List.mem_cons_self _ _)), ite_self]
  refine ⟨?_, ?_, ?_⟩
  · intro f t hf hlow
    obtain ⟨hg, hcol⟩ := hsuit f t hf
    obtain ⟨h1, h2, h3⟩ := best_loop_suit_low L t f hcol hlow
    refine ⟨_, hg, ?_, hcol _ h1, h2, ?_⟩
    · rw [← hf] at h1
      exact List.mem_of_mem_filter h1
    · intro x hx hxc hxl
      apply h3 x _ hxl
      rw [← hf]
      exact List.mem_filter.2 ⟨hx, by simpa using hxc⟩
  · intro f t hf hhigh
    obtain ⟨hg, hcol⟩ := hsuit f t hf
    rw [hg, best_loop_suit_high L t f hcol hhigh]
  · intro hvoid hne
    cases hh : s.hand with
    | nil => exact absurd hh hne
    | cons f t =>
      have hcol : ∀ x ∈ f :: t, x.color ≠ L.color := by
        intro x hx
        rw [← hh] at hx
        have := List.filter_eq_nil_iff.1 hvoid x hx
        simpa using this
      obtain ⟨pre, post, h1, h2, h3⟩ := best_loop_void L t f hcol
      refine ⟨_, pre, post, ?_, h1, h2, h3⟩
      rw [get_best_move_follow s L rest hd ht htc f t (by rw [hvoid, hh]; rfl),
        best_loop_cons_void L f f t (hcol f (List.mem_cons_self _ _))
          (hcol f (List.mem_cons_self _ _))]
      simp only [lt_self_iff_false, and_false, if_false]

set_option maxRecDepth 100000 in
/-- The client of East, the king of spades first among its spades, prompted with
the ten of spades on the table. -/
theorem best_move_following_witness :
    get_best_move demo_client_east_ten = ok (some ⟨"K".toList, Color.Spades, 13⟩) :=
  (best_move_following demo_client_east_ten ⟨"10".toList, Color.Spades, 10⟩ []
    (by decide) (by decide) (by decide)).2.1 ⟨"K".toList, Color.Spades, 13⟩
    [⟨"9".toList, Color.Spades, 9⟩, ⟨"5".toList, Color.Spades, 5⟩] (by decide) (by decide)

set_option maxRecDepth 100000 in
/-- C28. The client of East holds `AHKSQCJD10H9S8C7D6H5S4C3D2H` and is prompted
with the ten of spades on the table: it holds the nine and the five of spades,
both below the ten, and `get_best_move` returns the king of spades, the first
spade of the hand, not the nine: the loop starts from `valid_moves[0]` and
replaces its choice only by a card that is not below the choice, so the king, not
below the ten, is never replaced. A client that holds the thirteen hearts, from
the two up, is prompted with the ten of spades on the table: every card of the
hand is a valid move, the first of them the two of hearts, and `get_best_move`
returns the ace of hearts, the last card of the hand. -/
theorem best_move_following_not_as_claimed :
    Reachable demo_client_east_ten ∧
    demo_client_east_ten.deal_ended = false ∧ demo_client_east_ten.trick_ended = false ∧
    demo_client_east_ten.trick_cards = [⟨"10".toList, Color.Spades, 10⟩] ∧
    demo_client_east_ten.hand = demo_east ∧
    (⟨"9".toList, Color.Spades, 9⟩ : Card) ∈ demo_client_east_ten.hand ∧
    (⟨"9".toList, Color.Spades, 9⟩ : Card).value < (⟨"10".toList, Color.Spades, 10⟩ : Card).value ∧
    get_best_move demo_client_east_ten = ok (some ⟨"K".toList, Color.Spades, 13⟩) ∧
    Reachable demo_client_hearts ∧
    demo_client_hearts.deal_ended = false ∧ demo_client_hearts.trick_ended = false ∧
    demo_client_hearts.trick_cards = [⟨"10".toList, Color.Spades, 10⟩] ∧
    demo_client_hearts.hand = demo_hearts ∧
    get_valid_moves demo_client_hearts = ok demo_hearts ∧
    demo_hearts.head? = some ⟨"2".toList, Color.Hearts, 2⟩ ∧
    get_best_move demo_client_hearts = ok (some ⟨"A".toList, Color.Hearts, 14⟩) :=
  ⟨demo_client_east_ten_reachable, by decide, by decide, by decide, by decide, by decide,
    by decide, by decide, demo_client_hearts_reachable, by decide, by decide, by decide,
    by decide, by decide, by decide, by decide⟩

end ClientGameState

namespace ClientGameState

/-! ## The client: a trick is taken -/

theorem eraseP_eq_filter {α : Type} (p : α → Bool) : ∀ l : List α,
    l.Pairwise (fun a b => ¬ (p a = true ∧ p b = true)) →
    l.eraseP p = l.filter fun c => !p c
  | [], _ => rfl
  | a :: l, h => by
    rw [List.pairwise_cons] at h
    by_cases ha : p a = true
    · rw [List.eraseP_cons_of_pos ha, List.filter_cons_of_neg (by simp [ha])]
      symm
      rw [List.filter_eq_self]
      intro b hb
      have := h.1 b hb
      simp only [ha, true_and] at this
      simpa using this
    · rw [List.eraseP_cons_of_neg ha, List.filter_cons_of_pos (by simpa using ha),
        eraseP_eq_filter p l h.2]

theorem eq_of_eq_same (a b t : Card) (h1 : a.eq t = true) (h2 : b.eq t = true) :
    a.eq b = true := by
  simp only [Card.eq, Bool.and_eq_true, decide_eq_true_eq] at h1 h2 ⊢
  exact ⟨h1.1.trans h2.1.symm, h1.2.trans h2.2.symm⟩

theorem erase_taken_eq_filter : ∀ (cards hand : List Card),
    hand.Pairwise (fun a b => ¬ a.eq b = true) →
    erase_taken hand cards = hand.filter fun c => !(cards.any fun t => c.eq t)
  | [], hand, _ => by
    simp [erase_taken]
  | t :: cards, hand, h => by
    have hstep : hand.eraseP (fun c => c.eq t) = hand.filter fun c => !c.eq t := by
      apply eraseP_eq_filter
      exact h.imp fun hab hb => hab (eq_of_eq_same _ _ t hb.1 hb.2)
    have ih := erase_taken_eq_filter cards (hand.filter fun c => !c.eq t)
      (List.Pairwise.sublist (List.filter_sublist _) h)
    unfold erase_taken at ih ⊢
    rw [List.foldl_cons, hstep, ih, List.filter_filter]
    apply List.filter_congr
    intro x _
    simp only [List.any_cons, Bool.not_or]
    rw [Bool.and_comm]

theorem erase_taken_sublist : ∀ (cards hand : List Card),
    List.Sublist (erase_taken hand cards) hand
  | [], _ => List.Sublist.refl _
  | t :: cards, hand => by
    unfold erase_taken
    rw [List.foldl_cons]
    exact List.Sublist.trans (erase_taken_sublist cards _) (List.eraseP_sublist _)

/-- In every state the client can be in, the hand holds cards of the pack, none
twice. -/
theorem reachable_hand {s : ClientGameState} (h : Reachable s) :
    (∀ c ∈ s.hand, c ∈ Card.pack) ∧ s.hand.Nodup := by
  induction h with
  | init position verbose deal_type starting_player =>
    exact ⟨fun _ hc => absurd hc (List.not_mem_nil _), List.nodup_nil⟩
  | @new_deal s s1 _ type first_player cards hpack hnd hlen hs _ =>
    unfold new_deal at hs
    split at hs
    · exact absurd hs (by simp)
    · simp only [ok.injEq] at hs
      rw [← hs]
      exact ⟨hpack, hnd⟩
  | @new_trick s s1 _ trick_number cards hpack hnd hlen hs ih =>
    unfold new_trick at hs
    split at hs
    · exact absurd hs (by simp)
    · split at hs
      · exact absurd hs (by simp)
      · split at hs
        · exact absurd hs (by simp)
        · simp only [ok.injEq] at hs
          rw [← hs]
          exact ih
  | @end_trick s s1 _ trick_number cards taken_by hpack hnd hlen hs ih =>
    unfold end_trick at hs
    split at hs
    · exact absurd hs (by simp)
    · split at hs
      · exact absurd hs (by simp)
      · simp only [ok.injEq] at hs
        rw [← hs]
        have hsub := erase_taken_sublist cards s.hand
        exact ⟨fun c hc => ih.1 c (hsub.subset hc), ih.2.sublist hsub⟩
  | @get_score s s1 _ scores hs ih =>
    unfold get_score at hs
    split at hs
    · exact absurd hs (by simp)
    · split at hs
      · exact absurd hs (by simp)
      · simp only [ok.injEq] at hs
        rw [← hs]
        exact ih
  | @get_total s s1 _ totals hs ih =>
    unfold get_total at hs
    split at hs
    · exact absurd hs (by simp)
    · split at hs
      · exact absurd hs (by simp)
      · simp only [ok.injEq] at hs
        rw [← hs]
        exact ih
  | played _ ih => exact ih

theorem reachable_hand_distinct {s : ClientGameState} (h : Reachable s) :
    s.hand.Pairwise (fun a b => ¬ a.eq b = true) := by
  obtain ⟨hpack, hnd⟩ := reachable_hand h
  exact List.Pairwise.imp_of_mem (fun ha hb hne he =>
    hne (Card.pack_eq_of_eq _ _ (hpack _ ha) (hpack _ hb) he)) hnd

/-- C29. The method `end_trick` of the client, in a state the client can be in,
for a `TAKEN` with this trick number, these cards and this taker. If the deal is
in progress and the trick number is the trick counter of the client, the call
returns and changes five members and no other: the hand keeps, in their order,
exactly its cards that are (by `operator==`) none of the cards of the message,
so for cards of the pack it loses the cards of the message it holds and no
other; the cards of the message are appended as one pile to `taken_tricks`
exactly if the taker is the seat of the client; `trick_ended` is true,
`waiting_for_move` is false and the trick counter is the trick number plus one.
If the deal has ended or the number is another, the call throws
`std::invalid_argument` and the state is the one before. -/
theorem end_trick_spec {s : ClientGameState} (hr : Reachable s) (trick_number : Int)
    (cards : List Card) (taken_by : Position) :
    (s.deal_ended = false → trick_number = s.trick →
      end_trick s trick_number cards taken_by = ok { s with
        hand := s.hand.filter fun c => !(cards.any fun t => c.eq t)
        taken_tricks :=
          if taken_by = s.position then s.taken_tricks ++ [cards] else s.taken_tricks
        trick_ended := true
        waiting_for_move := false
        trick := trick_number + 1 } ∧
      List.Sublist (s.hand.filter fun c => !(cards.any fun t => c.eq t)) s.hand ∧
      ((∀ t ∈ cards, t ∈ Card.pack) →
        ∀ c, c ∈ (s.hand.filter fun c => !(cards.any fun t => c.eq t)) ↔
          c ∈ s.hand ∧ c ∉ cards)) ∧
    (s.deal_ended = true ∨ trick_number ≠ s.trick →
      end_trick s trick_number cards taken_by = throw Exn.invalid_argument ∧
      after s (end_trick s trick_number cards taken_by) = s) := by
  constructor
  · intro hd ht
    refine ⟨?_, List.filter_sublist _, ?_⟩
    · unfold end_trick
      rw [hd, if_neg (by simp), if_neg (by simpa using ht),
        erase_taken_eq_filter cards s.hand (reachable_hand_distinct hr)]
    · intro hpack c
      rw [List.mem_filter]
      constructor
      · rintro ⟨hc, hno⟩
        refine ⟨hc, ?_⟩
        intro hmem
        have : (cards.any fun t => c.eq t) = true :=
          List.any_eq_true.2 ⟨c, hmem, Card.eq_self c⟩
        rw [this] at hno
        exact absurd hno (by simp)
      · rintro ⟨hc, hno⟩
        refine ⟨hc, ?_⟩
        cases hany : (cards.any fun t => c.eq t) with
        | false => rfl
        | true =>
          obtain ⟨t, ht1, ht2⟩ := List.any_eq_true.1 hany
          have := Card.pack_eq_of_eq c t ((reachable_hand hr).1 c hc) (hpack t ht1) ht2
          rw [this] at hno
          exact absurd ht1 hno
  · intro h
    have hthrow : end_trick s trick_number cards taken_by = throw Exn.invalid_argument := by
      unfold end_trick
      rcases h with h | h
      · rw [h, if_pos rfl]
      · rw [if_pos h]
        split <;> rfl
    refine ⟨hthrow, ?_⟩
    rw [hthrow]
    rfl

set_option maxRecDepth 100000 in
theorem end_trick_spec_witness :
    ∃ s1, end_trick demo_client_north_leads 1 demo_first_trick Position.North = ok s1 ∧
      s1.hand.length = 12 ∧ s1.taken_tricks = [demo_first_trick] ∧ s1.trick = 2 ∧
      s1.trick_ended = true := by
  have h := ((end_trick_spec demo_client_north_leads_reachable 1 demo_first_trick
    Position.North).1 (by decide) (by decide)).1
  exact ⟨_, h, by decide, by decide, by decide, by decide⟩

end ClientGameState

namespace ClientGameState

/-! ## The client: the end of a deal -/

theorem new_deal_ok_iff (s : ClientGameState) (type : DealType) (first_player : Position)
    (cards : List Card) :
    (∃ s1, new_deal s type first_player cards = ok s1) ↔ s.deal_ended = true := by
  unfold new_deal
  cases s.deal_ended <;> simp

theorem get_score_cases (s : ClientGameState) (scores : PosMap) :
    (s.deal_ended = false ∧ s.got_score = false ∧
      get_score s scores = ok { s with
        got_score := true
        deal_ended := true && s.got_total
        waiting_for_move := false
        points := scores.at s.position
        total_points := int_value (s.total_points + scores.at s.position) }) ∨
    ((s.deal_ended = true ∨ s.got_score = true) ∧
      get_score s scores = throw Exn.invalid_argument) := by
  unfold get_score
  cases s.deal_ended <;> cases s.got_score <;> simp

theorem get_total_cases (s : ClientGameState) (totals : PosMap) :
    (s.deal_ended = false ∧ s.got_total = false ∧
      get_total s totals = ok { s with
        got_total := true
        deal_ended := s.got_score && true
        waiting_for_move := false
        total_points := totals.at s.position }) ∨
    ((s.deal_ended = true ∨ s.got_total = true) ∧
      get_total s totals = throw Exn.invalid_argument) := by
  unfold get_total
  cases s.deal_ended <;> cases s.got_total <;> simp

/-- Within a deal the two flags record the score messages accepted since the
`DEAL`, and `deal_ended` is their conjunction. -/
theorem since_deal_flags {log : List Tally} {s : ClientGameState} (h : SinceDeal log s) :
    (s.got_score = true ↔ ∃ scores, Tally.score scores ∈ log) ∧
    (s.got_total = true ↔ ∃ totals, Tally.total totals ∈ log) ∧
    s.deal_ended = (s.got_score && s.got_total) := by
  induction h with
  | @dealt s s1 type first_player cards hs =>
    unfold new_deal at hs
    split at hs
    · exact absurd hs (by simp)
    · simp only [ok.injEq] at hs
      rw [← hs]
      simp
  | @new_trick log s s1 _ trick_number cards hs ih =>
    unfold new_trick at hs
    split at hs
    · exact absurd hs (by simp)
    · split at hs
      · exact absurd hs (by simp)
      · split at hs
        · exact absurd hs (by simp)
        · simp only [ok.injEq] at hs
          rw [← hs]
          exact ih
  | @end_trick log s s1 _ trick_number cards taken_by hs ih =>
    unfold end_trick at hs
    split at hs
    · exact absurd hs (by simp)
    · split at hs
      · exact absurd hs (by simp)
      · simp only [ok.injEq] at hs
        rw [← hs]
        exact ih
  | @get_score log s s1 _ scores hs ih =>
    rcases get_score_cases s scores with ⟨_, _, e⟩ | ⟨_, e⟩
    · rw [e] at hs
      simp only [ok.injEq] at hs
      rw [← hs]
      obtain ⟨_, h2, _⟩ := ih
      refine ⟨?_, ?_, ?_⟩
      · simp
      · rw [h2]
        simp
      · simp
    · rw [e] at hs
      exact absurd hs (by simp)
  | @get_total log s s1 _ totals hs ih =>
    rcases get_total_cases s totals with ⟨_, _, e⟩ | ⟨_, e⟩
    · rw [e] at hs
      simp only [ok.injEq] at hs
      rw [← hs]
      obtain ⟨h1, _, _⟩ := ih
      refine ⟨?_, ?_, ?_⟩
      · rw [h1]
        simp
      · simp
      · simp
    · rw [e] at hs
      exact absurd hs (by simp)
  | played _ ih => exact ih

/-- C30. The end of a deal on the client. In a state the client is in within a
deal, with the `SCORE` and `TOTAL` messages accepted since the `DEAL`:
`deal_ended` is true exactly if a `SCORE` and a `TOTAL` are among them; a `SCORE`
is accepted, by a call that returns, exactly if none was accepted since the
`DEAL`, and a `TOTAL` likewise, in either order; a further `SCORE` or `TOTAL`
ends in `std::invalid_argument` and the state is the one before; and, in any
state, a `DEAL` is accepted exactly if `deal_ended` is true. -/
theorem deal_ends_on_score_and_total {log : List Tally} {s : ClientGameState}
    (h : SinceDeal log s) :
    (s.deal_ended = true ↔
      (∃ scores, Tally.score scores ∈ log) ∧ (∃ totals, Tally.total totals ∈ log)) ∧
    (∀ scores, (∃ s1, get_score s scores = ok s1) ↔ ¬ ∃ before, Tally.score before ∈ log) ∧
    (∀ totals, (∃ s1, get_total s totals = ok s1) ↔ ¬ ∃ before, Tally.total before ∈ log) ∧
    (∀ scores, (∃ before, Tally.score before ∈ log) →
      get_score s scores = throw Exn.invalid_argument ∧ after s (get_score s scores) = s) ∧
    (∀ totals, (∃ before, Tally.total before ∈ log) →
      get_total s totals = throw Exn.invalid_argument ∧ after s (get_total s totals) = s) ∧
    (∀ (t : ClientGameState) (type : DealType) (first_player : Position) (cards : List Card),
      (∃ s1, new_deal t type first_player cards = ok s1) ↔ t.deal_ended = true) := by
  obtain ⟨h1, h2, h3⟩ := since_deal_flags h
  have hsc : ∀ scores, (∃ before, Tally.score before ∈ log) →
      get_score s scores = throw Exn.invalid_argument := by
    intro scores hb
    rcases get_score_cases s scores with ⟨_, hg, _⟩ | ⟨_, e⟩
    · rw [h1.2 hb] at hg
      exact absurd hg (by simp)
    · exact e
  have hto : ∀ totals, (∃ before, Tally.total before ∈ log) →
      get_total s totals = throw Exn.invalid_argument := by
    intro totals hb
    rcases get_total_cases s totals with ⟨_, hg, _⟩ | ⟨_, e⟩
    · rw [h2.2 hb] at hg
      exact absurd hg (by simp)
    · exact e
  refine ⟨?_, ?_, ?_, ?_, ?_, new_deal_ok_iff⟩
  · rw [h3, Bool.and_eq_true, h1, h2]
  · intro scores
    constructor
    · rintro ⟨s1, hs1⟩ hb
      rw [hsc scores hb] at hs1
      exact absurd hs1 (by simp)
    · intro hb
      rcases get_score_cases s scores with ⟨_, _, e⟩ | ⟨hor, _⟩
      · exact ⟨_, e⟩
      · exfalso
        apply hb
        rcases hor with hde | hgs
        · rw [h3, Bool.and_eq_true] at hde
          exact h1.1 hde.1
        · exact h1.1 hgs
  · intro totals
    constructor
    · rintro ⟨s1, hs1⟩ hb
      rw [hto totals hb] at hs1
      exact absurd hs1 (by simp)
    · intro hb
      rcases get_total_cases s totals with ⟨_, _, e⟩ | ⟨hor, _⟩
      · exact ⟨_, e⟩
      · exfalso
        apply hb
        rcases hor with hde | hgs
        · rw [h3, Bool.and_eq_true] at hde
          exact h2.1 hde.2
        · exact h2.1 hgs
  · intro scores hb
    refine ⟨hsc scores hb, ?_⟩
    rw [hsc scores hb]
    rfl
  · intro totals hb
    refine ⟨hto totals hb, ?_⟩
    rw [hto totals hb]
    rfl

theorem demo_client_settled_since :
    SinceDeal [Tally.total demo_tally, Tally.score demo_tally] demo_client_settled :=
  @SinceDeal.get_score [Tally.total demo_tally] demo_client_totalled demo_client_settled
    (@SinceDeal.get_total [] demo_client_north_dealt demo_client_totalled
      (@SinceDeal.dealt demo_client_north demo_client_north_dealt DealType.TRICK Position.North
        demo_north (by decide))
      demo_tally (by decide))
    demo_tally (by decide)

set_option maxRecDepth 100000 in
theorem deal_ends_on_score_and_total_witness :
    demo_client_totalled.deal_ended = false ∧
    demo_client_settled.deal_ended = true ∧
    get_score demo_client_settled demo_tally = throw Exn.invalid_argument ∧
    get_total demo_client_settled demo_tally = throw Exn.invalid_argument :=
  ⟨by decide,
    (deal_ends_on_score_and_total demo_client_settled_since).1.2
      ⟨⟨demo_tally, by simp⟩, ⟨demo_tally, by simp⟩⟩,
    ((deal_ends_on_score_and_total demo_client_settled_since).2.2.2.1 demo_tally
      ⟨demo_tally, by simp⟩).1,
    ((deal_ends_on_score_and_total demo_client_settled_since).2.2.2.2.1 demo_tally
      ⟨demo_tally, by simp⟩).1⟩

end ClientGameState

namespace Socket

/-! ## The method `Socket::extract_message` -/

theorem extract_loop_line : ∀ (pre rest : Str) (it : Nat) (message : Str),
    '\n' ∉ pre → message.length + pre.length < MAX_MESSAGE_SIZE →
    extract_loop (pre ++ '\n' :: rest) it message = (it + pre.length, message ++ pre ++ ['\n'])
  | [], rest, it, message, _, hlen => by
    simp only [List.length_nil, Nat.add_zero] at hlen
    simp [extract_loop, hlen]
  | c :: pre, rest, it, message, hnl, hlen => by
    have hc : c ≠ '\n' := fun e => hnl (by rw [e]; exact List.mem_cons_self _ _)
    have hpre : '\n' ∉ pre := fun h => hnl (List.mem_cons_of_mem _ h)
    simp only [List.length_cons] at hlen
    rw [List.cons_append, extract_loop, if_pos (by omega), if_neg hc,
      extract_loop_line pre rest (it + 1) (message ++ [c]) hpre
        (by simp only [List.length_append, List.length_singleton]; omega)]
    simp only [List.length_cons, List.append_assoc, List.singleton_append, Prod.mk.injEq,
      and_true]
    omega

theorem extract_loop_all : ∀ (queue : Str) (it : Nat) (message : Str),
    '\n' ∉ queue → message.length + queue.length ≤ MAX_MESSAGE_SIZE →
    extract_loop queue it message = (it + queue.length, message ++ queue)
  | [], it, message, _, _ => by
    simp [extract_loop]
  | c :: queue, it, message, hnl, hlen => by
    have hc : c ≠ '\n' := fun e => hnl (by rw [e]; exact List.mem_cons_self _ _)
    have hq : '\n' ∉ queue := fun h => hnl (List.mem_cons_of_mem _ h)
    simp only [List.length_cons] at hlen
    rw [extract_loop, if_pos (by omega), if_neg hc,
      extract_loop_all queue (it + 1) (message ++ [c]) hq
        (by simp only [List.length_append, List.length_singleton]; omega)]
    simp only [List.length_cons, List.append_assoc, List.singleton_append, Prod.mk.injEq,
      and_true]
    omega

theorem extract_loop_full : ∀ (pre rest : Str) (it : Nat) (message : Str),
    '\n' ∉ pre → message.length + pre.length = MAX_MESSAGE_SIZE →
    extract_loop (pre ++ rest) it message = (it + pre.length, message ++ pre)
  | [], rest, it, message, _, hlen => by
    simp only [List.length_nil, Nat.add_zero] at hlen
    cases rest with
    | nil => simp [extract_loop]
    | cons c rest =>
      simp only [List.nil_append, extract_loop, List.length_nil, Nat.add_zero, List.append_nil]
      rw [if_neg (by omega)]
  | c :: pre, rest, it, message, hnl, hlen => by
    have hc : c ≠ '\n' := fun e => hnl (by rw [e]; exact List.mem_cons_self _ _)
    have hpre : '\n' ∉ pre := fun h => hnl (List.mem_cons_of_mem _ h)
    simp only [List.length_cons] at hlen
    rw [List.cons_append, extract_loop, if_pos (by omega), if_neg hc,
      extract_loop_full pre rest (it + 1) (message ++ [c]) hpre
        (by simp only [List.length_append, List.length_singleton]; omega)]
    simp only [List.length_cons, List.append_assoc, List.singleton_append, Prod.mk.injEq,
      and_true]
    omega

/-- A read queue that starts with a line of at most `MAX_MESSAGE_SIZE` octets:
the line is returned and what follows it is left. -/
theorem extract_message_line (s : Socket) (pre rest : Str) (hnl : '\n' ∉ pre)
    (hlen : pre.length < MAX_MESSAGE_SIZE) :
    extract_message s (pre ++ '\n' :: rest) = some (pre ++ ['\n'], rest, s) := by
  unfold extract_message
  rw [extract_loop_line pre rest 0 [] hnl (by simpa using hlen)]
  simp only [List.nil_append, Nat.zero_add]
  have h1 : (pre ++ ['\n']).isEmpty = false := by
    cases pre <;> rfl
  have h2 : (pre ++ ['\n']).getLast? = some '\n' := by simp
  simp only [h1, h2, Bool.not_false, decide_True, Bool.or_true, Bool.and_self, if_true]
  rw [if_pos (by simp)]
  have h3 : List.drop (pre.length + 1) (pre ++ '\n' :: rest) = rest := by
    have : pre ++ '\n' :: rest = (pre ++ ['\n']) ++ rest := by simp
    rw [this, List.drop_left' (by simp)]
  rw [h3]

/-- A read queue shorter than `MAX_MESSAGE_SIZE` with no line end: nothing is
returned and the queue stays. -/
theorem extract_message_pending (s : Socket) (queue : Str) (hnl : '\n' ∉ queue)
    (hlen : queue.length < MAX_MESSAGE_SIZE) :
    extract_message s queue =
      some ([], queue, if s.closed then { s with all_messages_received := true } else s) := by
  unfold extract_message
  rw [extract_loop_all queue 0 [] hnl (by simp only [List.length_nil]; omega)]
  simp only [List.nil_append]
  have h2 : queue.getLast? ≠ some '\n' := by
    intro h
    exact hnl (List.mem_of_mem_getLast? h)
  have h3 : queue.length ≠ MAX_MESSAGE_SIZE := by omega
  simp [h2, h3]

/-- A read queue whose first `MAX_MESSAGE_SIZE` octets hold no line end: these
octets are returned and one octet more is erased. -/
theorem extract_message_long (s : Socket) (pre rest : Str) (hnl : '\n' ∉ pre)
    (hlen : pre.length = MAX_MESSAGE_SIZE) :
    extract_message s (pre ++ rest) =
      if rest = [] then none else some (pre, rest.drop 1, s) := by
  unfold extract_message
  rw [extract_loop_full pre rest 0 [] hnl (by simpa using hlen)]
  simp only [List.nil_append, Nat.zero_add]
  have h1 : pre.isEmpty = false := by
    cases pre with
    | nil => simp [MAX_MESSAGE_SIZE] at hlen
    | cons _ _ => rfl
  simp only [h1, Bool.not_false, hlen, decide_True, Bool.true_or, Bool.and_self, if_true,
    List.length_append]
  cases rest with
  | nil => simp
  | cons c rest =>
    rw [if_pos (by simp), if_neg (by simp)]
    have : List.drop (MAX_MESSAGE_SIZE + 1) (pre ++ c :: rest) = rest := by
      have e : pre ++ c :: rest = (pre ++ [c]) ++ rest := by simp
      rw [e, List.drop_left' (by simp [hlen])]
    rw [this]
    rfl

end Socket

namespace Socket

theorem split_at_index {α : Type} : ∀ (l : List α) (i : Nat) (a : α), l[i]? = some a →
    l = l.take i ++ a :: l.drop (i + 1)
  | [], _, _, h => by simp at h
  | x :: l, 0, a, h => by
    simp only [List.getElem?_cons_zero, Option.some.injEq] at h
    simp [h]
  | x :: l, i + 1, a, h => by
    simp only [List.getElem?_cons_succ] at h
    have := split_at_index l i a h
    simp only [List.take_succ_cons, List.drop_succ_cons, List.cons_append, List.cons.injEq,
      true_and]
    exact this

theorem first_occurrence {α : Type} [DecidableEq α] (a : α) : ∀ l : List α, a ∈ l →
    ∃ pre rest, l = pre ++ a :: rest ∧ a ∉ pre
  | [], h => absurd h (List.not_mem_nil _)
  | x :: l, h => by
    by_cases hx : x = a
    · exact ⟨[], l, by rw [hx]; rfl, List.not_mem_nil _⟩
    · have hl : a ∈ l := by
        rcases List.mem_cons.1 h with e | e
        · exact absurd e.symm hx
        · exact e
      obtain ⟨pre, rest, e, hn⟩ := first_occurrence a l hl
      refine ⟨x :: pre, rest, by rw [e]; rfl, ?_⟩
      intro hm
      rcases List.mem_cons.1 hm with e1 | e1
      · exact hx e1.symm
      · exact hn e1

/-- C32. The method `extract_message` returns the next complete line. If the
read queue has its first line feed at an index `i` below `MAX_MESSAGE_SIZE`, the
call returns the octets 0 to `i` of the queue, the line feed included, and leaves
the octets after the index `i`. If the queue holds fewer than
`MAX_MESSAGE_SIZE` octets and no line feed, the call returns the empty string
and leaves the queue as it is (of the socket it sets `all_messages_received` if
the socket is closed). In both cases what is returned, followed by the queue
that is left, is the queue before the call, and what is returned is empty or
ends in a line feed. -/
theorem extract_message_next_line (s : Socket) (read_queue : Str) :
    (∀ i : Nat, i < MAX_MESSAGE_SIZE → read_queue[i]? = some '\n' →
      (∀ j : Nat, j < i → read_queue[j]? ≠ some '\n') →
      extract_message s read_queue =
        some (read_queue.take (i + 1), read_queue.drop (i + 1), s)) ∧
    (read_queue.length < MAX_MESSAGE_SIZE → '\n' ∉ read_queue →
      extract_message s read_queue =
        some ([], read_queue,
          if s.closed then { s with all_messages_received := true } else s)) ∧
    (read_queue.length < MAX_MESSAGE_SIZE ∨ '\n' ∈ read_queue.take MAX_MESSAGE_SIZE →
      ∃ message rest s1, extract_message s read_queue = some (message, rest, s1) ∧
        message ++ rest = read_queue ∧ (message = [] ∨ message.getLast? = some '\n')) := by
  have hindex : ∀ i : Nat, i < MAX_MESSAGE_SIZE → read_queue[i]? = some '\n' →
      (∀ j : Nat, j < i → read_queue[j]? ≠ some '\n') →
      extract_message s read_queue =
        some (read_queue.take (i + 1), read_queue.drop (i + 1), s) := by
    intro i hi hq hfirst
    have hsplit := split_at_index read_queue i '\n' hq
    have hil : i < read_queue.length := (List.getElem?_eq_some_iff.1 hq).1
    have hlen : (read_queue.take i).length = i := by
      rw [List.length_take]
      omega
    have hnl : '\n' ∉ read_queue.take i := by
      intro hm
      obtain ⟨j, hj⟩ := List.mem_iff_getElem?.1 hm
      rw [List.getElem?_take] at hj
      split at hj
      · rename_i hji
        exact hfirst j hji hj
      · exact absurd hj (by simp)
    have h := extract_message_line s (read_queue.take i) (read_queue.drop (i + 1)) hnl
      (by rw [hlen]; exact hi)
    rw [← hsplit] at h
    rw [h]
    have htake : read_queue.take (i + 1) = read_queue.take i ++ ['\n'] := by
      conv_lhs => rw [hsplit]
      have e : read_queue.take i ++ '\n' :: read_queue.drop (i + 1) =
          (read_queue.take i ++ ['\n']) ++ read_queue.drop (i + 1) := by simp
      rw [e, List.take_left' (by simp [hlen])]
    rw [htake]
  refine ⟨hindex, extract_message_pending s read_queue |> fun h h1 h2 => h h2 h1, ?_⟩
  intro h
  by_cases hm : '\n' ∈ read_queue.take MAX_MESSAGE_SIZE
  · obtain ⟨pre, rest, e, hn⟩ := first_occurrence '\n' _ hm
    have hpl : pre.length < MAX_MESSAGE_SIZE := by
      have h1 : (read_queue.take MAX_MESSAGE_SIZE).length ≤ MAX_MESSAGE_SIZE :=
        List.length_take_le _ _
      rw [e] at h1
      simp only [List.length_append, List.length_cons] at h1
      omega
    have e2 : read_queue = pre ++ '\n' :: (rest ++ read_queue.drop MAX_MESSAGE_SIZE) := by
      conv_lhs => rw [← List.take_append_drop MAX_MESSAGE_SIZE read_queue, e]
      simp
    refine ⟨pre ++ ['\n'], rest ++ read_queue.drop MAX_MESSAGE_SIZE, s, ?_, ?_, Or.inr (by simp)⟩
    · conv_lhs => rw [e2]
      exact extract_message_line s pre _ hn hpl
    · conv_rhs => rw [e2]
      simp
  · have hlt : read_queue.length < MAX_MESSAGE_SIZE := by
      rcases h with h | h
      · exact h
      · exact absurd h hm
    have hnl : '\n' ∉ read_queue := by
      rw [List.take_of_length_le (by omega)] at hm
      exact hm
    exact ⟨[], read_queue, _, extract_message_pending s read_queue hnl hlt, rfl, Or.inl rfl⟩

theorem extract_message_next_line_witness :
    extract_message demo_socket "IAMN\r\nTRICK1\r\n".toList =
      some ("IAMN\r\n".toList, "TRICK1\r\n".toList, demo_socket) :=
  (extract_message_next_line demo_socket "IAMN\r\nTRICK1\r\n".toList).1 5 (by decide)
    (by decide) (by decide)

/-- C33. A read queue of fifty octets with no line feed followed by the line
`IAMN`: `extract_message` returns the fifty octets and erases fifty-one, so the
queue it leaves starts with the second octet of the line, `AMN`, and the `I` is
lost. With a read queue of exactly fifty octets and no line feed the call erases
past the end of the queue, which is undefined. -/
theorem extract_message_erases_one_more :
    demo_long_queue.length = 56 ∧ '\n' ∉ demo_long_queue.take MAX_MESSAGE_SIZE ∧
    demo_long_queue.drop MAX_MESSAGE_SIZE = "IAMN\r\n".toList ∧
    extract_message demo_socket demo_long_queue =
      some (List.replicate 50 'x', "AMN\r\n".toList, demo_socket) ∧
    (List.replicate 50 'x').length = MAX_MESSAGE_SIZE ∧
    extract_message demo_socket (List.replicate 50 'x') = none := by
  refine ⟨by decide, by decide, by decide, ?_, by decide, ?_⟩
  · exact extract_message_long demo_socket (List.replicate 50 'x') "IAMN\r\n".toList
      (by decide) (by decide)
  · have := extract_message_long demo_socket (List.replicate 50 'x') [] (by decide) (by decide)
    rw [List.append_nil] at this
    exact this

end Socket

namespace Socket

/-! ## The lines of the protocol come out of the read queue whole -/

theorem delivered_of_body (body : Str) (hnl : '\n' ∉ body)
    (hlen : body.length + 2 ≤ MAX_MESSAGE_SIZE) : delivered (body ++ CRLF) := by
  refine ⟨?_, ?_, ?_⟩
  · simp only [CRLF, List.length_append, List.length_cons, List.length_nil]
    omega
  · intro i hi
    simp only [CRLF, List.length_append, List.length_cons, List.length_nil]
    by_cases h1 : i < body.length
    · rw [List.getElem?_append_left h1] at hi
      exact absurd (List.mem_iff_getElem?.2 ⟨i, hi⟩) hnl
    · rw [List.getElem?_append_right (by omega)] at hi
      have h2 : i - body.length = 0 ∨ i - body.length = 1 ∨ 2 ≤ i - body.length := by omega
      rcases h2 with h2 | h2 | h2
      · rw [h2] at hi
        simp [CRLF] at hi
      · omega
      · have : (CRLF)[i - body.length]? = none := by
          rw [List.getElem?_eq_none_iff]
          simp only [CRLF, List.length_cons, List.length_nil]
          omega
        rw [this] at hi
        exact absurd hi (by simp)
  · intro s tail
    have e : body ++ CRLF ++ tail = (body ++ ['\r']) ++ '\n' :: tail := by
      simp [CRLF]
    have e2 : body ++ CRLF = (body ++ ['\r']) ++ ['\n'] := by
      simp [CRLF]
    rw [e, e2]
    apply extract_message_line
    · intro hm
      rcases List.mem_append.1 hm with h | h
      · exact hnl h
      · simp at h
    · simp only [List.length_append, List.length_singleton]
      omega

theorem delivered_message (m : Message)
    (hnl : '\n' ∉ to_string_MessageType m.type ++ m.data)
    (hlen : (to_string_MessageType m.type ++ m.data).length + 2 ≤ MAX_MESSAGE_SIZE) :
    delivered m.to_string := by
  unfold Message.to_string
  exact delivered_of_body _ hnl hlen

theorem tag_facts (t : MessageType) :
    '\n' ∉ to_string_MessageType t ∧ (to_string_MessageType t).length ≤ 5 := by
  cases t <;> exact ⟨by decide, by decide⟩

theorem position_char (p : Position) : p.toChar ≠ '\n' := by
  cases p <;> decide

theorem number_facts (n : Int) (h1 : 1 ≤ n) (h2 : n ≤ 13) :
    '\n' ∉ std_to_string n ∧ (std_to_string n).length ≤ 2 := by
  have h : n = 1 ∨ n = 2 ∨ n = 3 ∨ n = 4 ∨ n = 5 ∨ n = 6 ∨ n = 7 ∨ n = 8 ∨ n = 9 ∨ n = 10 ∨
      n = 11 ∨ n = 12 ∨ n = 13 := by omega
  rcases h with h | h | h | h | h | h | h | h | h | h | h | h | h <;> subst h <;>
    exact ⟨by decide, by decide⟩

theorem deal_type_facts (t : DealType) :
    '\n' ∉ to_string_DealType t ∧ (to_string_DealType t).length = 1 := by
  cases t <;> exact ⟨by decide, by decide⟩

set_option maxRecDepth 100000 in
theorem card_text_facts (c : Card) (h : c ∈ Card.pack) :
    '\n' ∉ c.to_string ∧
    c.to_string.length = 2 + if c.figure = "10".toList then 1 else 0 := by
  revert c
  decide

theorem cards_data_facts : ∀ (cs : List Card), (∀ c ∈ cs, c ∈ Card.pack) →
    '\n' ∉ cards_data cs ∧
    (cards_data cs).length =
      2 * cs.length + cs.countP fun c => decide (c.figure = "10".toList)
  | [], _ => by
    simp [cards_data]
  | c :: cs, h => by
    obtain ⟨h1, h2⟩ := card_text_facts c (h c (List.mem_cons_self _ _))
    obtain ⟨h3, h4⟩ := cards_data_facts cs fun x hx => h x (List.mem_cons_of_mem _ hx)
    rw [Card.cards_data_eq] at h3 h4 ⊢
    simp only [List.map_cons, List.flatten_cons, List.mem_append, List.length_append,
      List.length_cons, List.countP_cons]
    refine ⟨fun hm => hm.elim h1 h3, ?_⟩
    rw [h2, h4]
    by_cases hf : c.figure = "10".toList
    · simp only [hf, if_true, decide_True]
      omega
    · simp only [hf, if_false, decide_False]
      simp
      omega

set_option maxRecDepth 100000 in
theorem tens_in_pack :
    Card.pack.countP (fun c => decide (c.figure = "10".toList)) = 4 := by decide

theorem tens_le (cs : List Card) (h : ∀ c ∈ cs, c ∈ Card.pack) (hnd : cs.Nodup) :
    cs.countP (fun c => decide (c.figure = "10".toList)) ≤ 4 := by
  have hsub : cs.Subperm Card.pack := List.subperm_of_subset hnd h
  have := hsub.countP_le fun c => decide (c.figure = "10".toList)
  rw [tens_in_pack] at this
  exact this

/-- C39. The lines of the legal messages come out of the read queue whole. For
an `IAM` with a seat, a `BUSY` with 1 to 4 distinct seats, a `DEAL` with 13
distinct cards of the pack, a `TRICK` with a number 1 to 13 and at most 3
distinct cards of the pack, a `WRONG` with a number 1 to 13 and a `TAKEN` with a
number 1 to 13 and 4 distinct cards of the pack: the text `to_string()` has at
most 50 octets, the line end included (at most 38 for the `DEAL`), holds a line
feed only as its last octet and, for every socket and every sequel of the read
queue, `extract_message` on the text followed by the sequel returns the text and
leaves the sequel. -/
theorem protocol_lines_delivered :
    (∀ position : Position, delivered (IAMMessage position).to_string) ∧
    (∀ positions : List Position, positions ≠ [] → positions.Nodup →
      delivered (BUSYMessage positions).to_string) ∧
    (∀ (deal_type : DealType) (first_player : Position) (cards : List Card),
      (∀ c ∈ cards, c ∈ Card.pack) → cards.Nodup → cards.length = 13 →
      ∃ m, DEALMessage deal_type first_player cards = ok m ∧ m.to_string.length ≤ 38 ∧
        delivered m.to_string) ∧
    (∀ (trick_number : Int) (cards : List Card), 1 ≤ trick_number → trick_number ≤ 13 →
      (∀ c ∈ cards, c ∈ Card.pack) → cards.Nodup → cards.length ≤ 3 →
      ∃ m, TRICKMessage trick_number cards = ok m ∧ delivered m.to_string) ∧
    (∀ trick_number : Int, 1 ≤ trick_number → trick_number ≤ 13 →
      ∃ m, WRONGMessage trick_number = ok m ∧ delivered m.to_string) ∧
    (∀ (trick_number : Int) (cards : List Card) (taken_by : Position),
      1 ≤ trick_number → trick_number ≤ 13 →
      (∀ c ∈ cards, c ∈ Card.pack) → cards.Nodup → cards.length = 4 →
      ∃ m, TAKENMessage trick_number cards taken_by = ok m ∧ delivered m.to_string) := by
  refine ⟨?_, ?_, ?_, ?_, ?_, ?_⟩
  · intro position
    apply delivered_message
    · cases position <;> decide
    · cases position <;> decide
  · intro positions _ hnd
    have hlen := position_nodup_length positions hnd
    apply delivered_message
    · rw [busy_data]
      intro hm
      rcases List.mem_append.1 hm with h | h
      · exact (tag_facts MessageType.BUSY).1 h
      · obtain ⟨p, -, hp⟩ := List.mem_map.1 h
        exact position_char p hp
    · rw [busy_data]
      have htag : (to_string_MessageType (BUSYMessage positions).type).length = 4 := rfl
      simp only [List.length_append, List.length_map, MAX_MESSAGE_SIZE, htag]
      omega
  · intro deal_type first_player cards hpack hnd hlen
    obtain ⟨h1, h2⟩ := cards_data_facts cards hpack
    have h3 := tens_le cards hpack hnd
    obtain ⟨h4, h5⟩ := deal_type_facts deal_type
    have htag : (to_string_MessageType MessageType.DEAL).length = 4 := rfl
    refine ⟨⟨MessageType.DEAL,
      to_string_DealType deal_type ++ to_string_Position first_player ++ cards_data cards,
      Payload.DEAL deal_type first_player cards⟩, ?_, ?_, ?_⟩
    · unfold DEALMessage
      rw [if_neg (by omega)]
    · simp only [Message.to_string, CRLF, to_string_Position, List.length_append,
        List.length_cons, List.length_nil, htag, h5, h2, hlen]
      omega
    · apply delivered_message
      · intro hm
        simp only [List.mem_append, to_string_Position, List.mem_singleton] at hm
        rcases hm with h | (h | h) | h
        · exact (tag_facts MessageType.DEAL).1 h
        · exact h4 h
        · exact position_char first_player h.symm
        · exact h1 h
      · simp only [to_string_Position, List.length_append, List.length_cons, List.length_nil,
          htag, h5, h2, hlen, MAX_MESSAGE_SIZE]
        omega
  · intro trick_number cards hn1 hn2 hpack hnd hlen
    obtain ⟨h1, h2⟩ := cards_data_facts cards hpack
    have h3 : cards.countP (fun c => decide (c.figure = "10".toList)) ≤ cards.length :=
      List.countP_le_length _
    obtain ⟨h4, h5⟩ := number_facts trick_number hn1 hn2
    have htag : (to_string_MessageType MessageType.TRICK).length = 5 := rfl
    refine ⟨⟨MessageType.TRICK, std_to_string trick_number ++ cards_data cards,
      Payload.TRICK trick_number cards⟩, ?_, ?_⟩
    · unfold TRICKMessage
      rw [if_neg (by omega), if_neg (by omega)]
    · apply delivered_message
      · intro hm
        simp only [List.mem_append] at hm
        rcases hm with h | h | h
        · exact (tag_facts MessageType.TRICK).1 h
        · exact h4 h
        · exact h1 h
      · simp only [List.length_append, htag, h2, MAX_MESSAGE_SIZE]
        omega
  · intro trick_number hn1 hn2
    obtain ⟨h4, h5⟩ := number_facts trick_number hn1 hn2
    have htag : (to_string_MessageType MessageType.WRONG).length = 5 := rfl
    refine ⟨⟨MessageType.WRONG, std_to_string trick_number, Payload.WRONG trick_number⟩,
      ?_, ?_⟩
    · unfold WRONGMessage
      rw [if_neg (by omega)]
    · apply delivered_message
      · intro hm
        simp only [List.mem_append] at hm
        rcases hm with h | h
        · exact (tag_facts MessageType.WRONG).1 h
        · exact h4 h
      · simp only [List.length_append, htag, MAX_MESSAGE_SIZE]
        omega
  · intro trick_number cards taken_by hn1 hn2 hpack hnd hlen
    obtain ⟨h1, h2⟩ := cards_data_facts cards hpack
    have h3 : cards.countP (fun c => decide (c.figure = "10".toList)) ≤ cards.length :=
      List.countP_le_length _
    obtain ⟨h4, h5⟩ := number_facts trick_number hn1 hn2
    have htag : (to_string_MessageType MessageType.TAKEN).length = 5 := rfl
    refine ⟨⟨MessageType.TAKEN,
      std_to_string trick_number ++ cards_data cards ++ to_string_Position taken_by,
      Payload.TAKEN trick_number cards taken_by⟩, ?_, ?_⟩
    · unfold TAKENMessage
      rw [if_neg (by omega), if_neg (by omega)]
    · apply delivered_message
      · intro hm
        simp only [List.mem_append, to_string_Position, List.mem_singleton] at hm
        rcases hm with h | (h | h) | h
        · exact (tag_facts MessageType.TAKEN).1 h
        · exact h4 h
        · exact h1 h
        · exact position_char taken_by h.symm
      · simp only [to_string_Position, List.length_append, List.length_cons, List.length_nil,
          htag, h2, MAX_MESSAGE_SIZE]
        omega

set_option maxRecDepth 100000 in
theorem protocol_lines_delivered_witness :
    (∃ m, DEALMessage DealType.TRICK Position.North demo_north = ok m ∧
      m.to_string.length ≤ 38 ∧ delivered m.to_string) ∧
    extract_message demo_socket ("IAMN\r\n".toList ++ "TRICK1\r\n".toList) =
      some ("IAMN\r\n".toList, "TRICK1\r\n".toList, demo_socket) :=
  ⟨protocol_lines_delivered.2.2.1 DealType.TRICK Position.North demo_north (by decide)
    (by decide) (by decide),
    (protocol_lines_delivered.1 Position.North).2.2 demo_socket "TRICK1\r\n".toList⟩

end Socket

namespace ClientGameState

/-! ## The client: the points of a deal -/

/-- The `SCORE` first, the `TOTAL` second: `total_points` ends as the value of
the `TOTAL`. -/
theorem score_then_total (s : ClientGameState) (scores totals : PosMap)
    (hd : s.deal_ended = false) (hgs : s.got_score = false) (hgt : s.got_total = false) :
    ∃ s1 s2, get_score s scores = ok s1 ∧ get_total s1 totals = ok s2 ∧
      s2.deal_ended = true ∧ s2.points = scores.at s.position ∧
      s2.total_points = totals.at s.position := by
  obtain ⟨s1, hs1, h1, h2, h3, h4, h5⟩ : ∃ s1, get_score s scores = ok s1 ∧
      s1.deal_ended = false ∧ s1.got_total = false ∧ s1.got_score = true ∧
      s1.points = scores.at s.position ∧ s1.position = s.position := by
    rcases get_score_cases s scores with ⟨-, -, e⟩ | ⟨h, -⟩
    · exact ⟨_, e, by simp [hgt], hgt, rfl, rfl, rfl⟩
    · rw [hd, hgs] at h
      simp at h
  rcases get_total_cases s1 totals with ⟨-, -, e⟩ | ⟨h, -⟩
  · refine ⟨s1, _, hs1, e, ?_, h4, ?_⟩
    · simp [h3]
    · simp [h5]
  · rw [h1, h2] at h
    simp at h

/-- The `TOTAL` first, the `SCORE` second: `total_points` ends as the value of
the `TOTAL` plus the value of the `SCORE`, as an `int`. -/
theorem total_then_score (s : ClientGameState) (scores totals : PosMap)
    (hd : s.deal_ended = false) (hgs : s.got_score = false) (hgt : s.got_total = false) :
    ∃ s1 s2, get_total s totals = ok s1 ∧ get_score s1 scores = ok s2 ∧
      s2.deal_ended = true ∧ s2.points = scores.at s.position ∧
      s2.total_points = int_value (totals.at s.position + scores.at s.position) := by
  obtain ⟨s1, hs1, h1, h2, h3, h4, h5⟩ : ∃ s1, get_total s totals = ok s1 ∧
      s1.deal_ended = false ∧ s1.got_score = false ∧ s1.got_total = true ∧
      s1.total_points = totals.at s.position ∧ s1.position = s.position := by
    rcases get_total_cases s totals with ⟨-, -, e⟩ | ⟨h, -⟩
    · exact ⟨_, e, by simp [hgs], hgs, rfl, rfl, rfl⟩
    · rw [hd, hgt] at h
      simp at h
  rcases get_score_cases s1 scores with ⟨-, -, e⟩ | ⟨h, -⟩
  · refine ⟨s1, _, hs1, e, ?_, ?_, ?_⟩
    · simp [h3]
    · simp [h5]
    · simp [h4, h5]
  · rw [h1, h2] at h
    simp at h

theorem demo_client_north_dealt_reachable : Reachable demo_client_north_dealt :=
  @Reachable.new_deal demo_client_north demo_client_north_dealt
    (Reachable.init Position.North false DealType.TRICK Position.North)
    DealType.TRICK Position.North demo_north (by decide) (by decide) (by decide) (by decide)

set_option maxRecDepth 100000 in
/-- C31. The client of North, with its hand of the demonstration deal, accepts
`TOTAL` with 20 for North and then `SCORE` with 13 for North: both are accepted,
the deal has ended, `points` is 13 and `total_points` is 33, not the 20 of the
`TOTAL`. In the other order, `SCORE` and then `TOTAL`, `total_points` is 20. -/
theorem total_points_after_total_then_score :
    Reachable demo_client_total_score ∧
    SinceDeal [Tally.total demo_totals, Tally.score demo_tally] demo_client_total_score ∧
    demo_client_total_score.position = Position.North ∧
    demo_totals.at Position.North = 20 ∧ demo_tally.at Position.North = 13 ∧
    demo_client_total_score.deal_ended = true ∧
    demo_client_total_score.points = 13 ∧
    demo_client_total_score.total_points = 33 ∧
    SinceDeal [Tally.score demo_tally, Tally.total demo_totals] demo_client_score_total ∧
    demo_client_score_total.deal_ended = true ∧
    demo_client_score_total.points = 13 ∧
    demo_client_score_total.total_points = 20 :=
  ⟨@Reachable.get_score
      (demo_client_north_dealt.after (demo_client_north_dealt.get_total demo_totals))
      demo_client_total_score
      (@Reachable.get_total demo_client_north_dealt
        (demo_client_north_dealt.after (demo_client_north_dealt.get_total demo_totals))
        demo_client_north_dealt_reachable demo_totals (by decide))
      demo_tally (by decide),
    @SinceDeal.get_score [Tally.total demo_totals]
      (demo_client_north_dealt.after (demo_client_north_dealt.get_total demo_totals))
      demo_client_total_score
      (@SinceDeal.get_total [] demo_client_north_dealt
        (demo_client_north_dealt.after (demo_client_north_dealt.get_total demo_totals))
        (@SinceDeal.dealt demo_client_north demo_client_north_dealt DealType.TRICK
          Position.North demo_north (by decide))
        demo_totals (by decide))
      demo_tally (by decide),
    by decide, by decide, by decide, by decide, by decide, by decide,
    @SinceDeal.get_total [Tally.score demo_tally]
      (demo_client_north_dealt.after (demo_client_north_dealt.get_score demo_tally))
      demo_client_score_total
      (@SinceDeal.get_score [] demo_client_north_dealt
        (demo_client_north_dealt.after (demo_client_north_dealt.get_score demo_tally))
        (@SinceDeal.dealt demo_client_north demo_client_north_dealt DealType.TRICK
          Position.North demo_north (by decide))
        demo_tally (by decide))
      demo_totals (by decide),
    by decide, by decide, by decide⟩

/-! ## The client: the card it plays is a valid one -/

theorem best_loop_mem (L : Card) : ∀ (l : List Card) (b : Card), best_loop L l b ∈ b :: l
  | [], b => List.mem_singleton_self b
  | c :: l, b => by
    unfold best_loop
    rw [List.foldl_cons]
    split
    · exact List.mem_cons_of_mem _ (best_loop_mem L l c)
    · rcases List.mem_cons.1 (best_loop_mem L l b) with h | h
      · unfold best_loop at h
        rw [h]
        exact List.mem_cons_self _ _
      · exact List.mem_cons_of_mem _ (List.mem_cons_of_mem _ h)

/-- C36. The card the client chooses is a valid move. In every state of the
client with a deal and a trick in progress and a hand that is not empty,
`get_best_move` returns a card and `get_valid_moves` a list, the card is a
member of the list, and it is a card of the hand: with no card on the table and
with cards on the table. -/
theorem best_move_is_valid (s : ClientGameState) (hd : s.deal_ended = false)
    (ht : s.trick_ended = false) (hne : s.hand ≠ []) :
    ∃ m v, get_best_move s = ok (some m) ∧ get_valid_moves s = ok v ∧ m ∈ v ∧ m ∈ s.hand := by
  cases htc : s.trick_cards with
  | nil =>
    obtain ⟨m, hm, hmem, -⟩ := min_element_spec s.hand hne
    refine ⟨m, s.hand, ?_, get_valid_moves_lead s hd ht htc, hmem, hmem⟩
    unfold get_best_move
    rw [hd, ht, htc, hm]
    rfl
  | cons L rest =>
    have hv := get_valid_moves_follow s hd ht L rest htc
    have hsub : ∀ x ∈ (if (s.hand.filter fun (card : Card) =>
          decide (card.color = L.color)).isEmpty then s.hand
        else s.hand.filter fun (card : Card) => decide (card.color = L.color)), x ∈ s.hand := by
      intro x hx
      split at hx
      · exact hx
      · exact List.mem_of_mem_filter hx
    cases hvl : (if (s.hand.filter fun (card : Card) =>
          decide (card.color = L.color)).isEmpty then s.hand
        else s.hand.filter fun (card : Card) => decide (card.color = L.color)) with
    | nil =>
      exfalso
      split at hvl
      · exact hne hvl
      · rename_i hemp
        rw [hvl] at hemp
        exact hemp rfl
    | cons f t =>
      rw [hvl] at hv hsub
      have hmem : best_loop L (f :: t) f ∈ f :: t := by
        rcases List.mem_cons.1 (best_loop_mem L (f :: t) f) with h | h
        · rw [h]
          exact List.mem_cons_self _ _
        · exact h
      exact ⟨_, _, get_best_move_follow s L rest hd ht htc f t hvl, hv, hmem, hsub _ hmem⟩

set_option maxRecDepth 100000 in
theorem best_move_is_valid_witness :
    ∃ m v, get_best_move demo_client_east_ten = ok (some m) ∧
      get_valid_moves demo_client_east_ten = ok v ∧ m ∈ v ∧ m ∈ demo_client_east_ten.hand :=
  best_move_is_valid demo_client_east_ten (by decide) (by decide) (by decide)

end ClientGameState

namespace ServerGameState

/-! ## `Card::compare` is a strict order -/

theorem compare_irrefl (a : Card) (L : Color) : a.compare a L = false := by
  simp [Card.compare]

theorem compare_asymm (a b : Card) (L : Color) (h : a.compare b L = true) :
    b.compare a L = false := by
  unfold Card.compare at h ⊢
  by_cases hc : a.color = b.color
  · rw [if_pos hc] at h
    rw [if_pos hc.symm]
    simp only [decide_eq_true_eq] at h
    simp only [decide_eq_false_iff_not, not_lt]
    omega
  · rw [if_neg hc] at h
    rw [if_neg (fun e => hc e.symm)]
    by_cases ha : a.color = L
    · rw [if_pos ha] at h
      exact absurd h (by simp)
    · rw [if_neg ha] at h
      by_cases hb : b.color = L
      · rw [if_pos hb]
      · rw [if_neg hb] at h
        exact absurd h (by simp)

theorem compare_trans (a b c : Card) (L : Color) (h1 : a.compare b L = true)
    (h2 : b.compare c L = true) : a.compare c L = true := by
  unfold Card.compare at h1 h2 ⊢
  by_cases hab : a.color = b.color
  · rw [if_pos hab] at h1
    simp only [decide_eq_true_eq] at h1
    by_cases hbc : b.color = c.color
    · rw [if_pos hbc] at h2
      simp only [decide_eq_true_eq] at h2
      rw [if_pos (hab.trans hbc)]
      simp only [decide_eq_true_eq]
      omega
    · rw [if_neg hbc] at h2
      by_cases hb : b.color = L
      · rw [if_pos hb] at h2
        exact absurd h2 (by simp)
      · rw [if_neg hb] at h2
        by_cases hcL : c.color = L
        · rw [if_neg (by rw [hab]; exact hbc), if_neg (by rw [hab]; exact hb), if_pos hcL]
        · rw [if_neg hcL] at h2
          exact absurd h2 (by simp)
  · rw [if_neg hab] at h1
    by_cases ha : a.color = L
    · rw [if_pos ha] at h1
      exact absurd h1 (by simp)
    · rw [if_neg ha] at h1
      by_cases hb : b.color = L
      · by_cases hbc : b.color = c.color
        · rw [if_neg (by rw [← hbc]; exact hab), if_neg ha, if_pos (by rw [← hbc]; exact hb)]
        · rw [if_neg hbc, if_pos hb] at h2
          exact absurd h2 (by simp)
      · rw [if_neg hb] at h1
        exact absurd h1 (by simp)

/-- C40. For every suit `L` the relation `a.compare(b, L)`, "`a` is weaker than
`b`", is a strict partial order on cards: no card is weaker than itself, no two
cards are each weaker than the other, and if `a` is weaker than `b` and `b` than
`c` then `a` is weaker than `c`. The scan of `calculate_points` over a trick
whose first card is of the suit `L`, started by the seat `first_move`, ends with
the seat `k` places after it, for a `k` of 0 to 3 such that the `k`-th card of
the trick is weaker than none of the first four cards of the trick. -/
theorem compare_strict_order (L : Color) :
    (∀ a : Card, a.compare a L = false) ∧
    (∀ a b : Card, a.compare b L = true → b.compare a L = false) ∧
    (∀ a b c : Card, a.compare b L = true → b.compare c L = true → a.compare c L = true) ∧
    (∀ (trick_cards : List Card) (lead_card : Card) (first_move : Int),
      0 ≤ first_move → first_move ≤ 3 → trick_cards.get? 0 = some lead_card →
      lead_card.color = L →
      ∃ (k : Nat) (w : Card), k ≤ 3 ∧
        winner_loop trick_cards L first_move [1, 2, 3] lead_card first_move =
          c_rem (first_move + (k : Int)) 4 ∧
        trick_cards.get? k = some w ∧
        ∀ (j : Nat) (c : Card), j ≤ 3 → trick_cards.get? j = some c →
          w.compare c L = false) := by
  refine ⟨fun a => compare_irrefl a L, fun a b => compare_asymm a b L,
    fun a b c => compare_trans a b c L, ?_⟩
  intro tc lead fm hf1 hf2 hget hL
  obtain ⟨k, w, hk1, hk2, hk3, hk4, hk5, hk6⟩ := winner_loop_spec tc L fm [1, 2, 3] lead 0 hget hL
  have hfm0 : c_rem (fm + ((0 : Nat) : Int)) 4 = fm := by
    rw [c_rem_nonneg _ (by omega)]
    omega
  rw [hfm0] at hk1
  refine ⟨k, w, ?_, hk1, hk2, ?_⟩
  · rcases hk5 with h5 | h5
    · omega
    · simp only [List.mem_cons, List.mem_singleton, List.not_mem_nil, or_false] at h5
      omega
  · intro j c hj hc
    unfold Card.compare
    by_cases hcol : w.color = c.color
    · rw [if_pos hcol]
      simp only [decide_eq_false_iff_not, not_lt]
      have hcL : c.color = L := by rw [← hcol]; exact hk3
      have hj4 : j = 0 ∨ j ∈ [1, 2, 3] := by
        have : j = 0 ∨ j = 1 ∨ j = 2 ∨ j = 3 := by omega
        rcases this with h | h | h | h
        · exact Or.inl h
        · exact Or.inr (by simp [h])
        · exact Or.inr (by simp [h])
        · exact Or.inr (by simp [h])
      rcases hj4 with h0 | hmem
      · rw [h0, hget] at hc
        simp only [Option.some.injEq] at hc
        rw [← hc]
        exact hk4
      · exact hk6 j hmem c hc hcL
    · rw [if_neg hcol, if_pos hk3]

theorem compare_strict_order_witness :
    Card.compare ⟨"2".toList, Color.Hearts, 2⟩ ⟨"A".toList, Color.Spades, 14⟩ Color.Spades =
      true :=
  (compare_strict_order Color.Spades).2.2.1 ⟨"2".toList, Color.Hearts, 2⟩
    ⟨"5".toList, Color.Spades, 5⟩ ⟨"A".toList, Color.Spades, 14⟩ (by decide) (by decide)

end ServerGameState

namespace ServerGameState

/-! ## The recorded tricks and the opener of the next -/

theorem trickinv_of_eq {s s1 : ServerGameState} (h : TrickInv s)
    (h1 : s1.deal_started = true → s.deal_started = true)
    (h2 : s1.taken_messages = s.taken_messages) (h3 : s1.first_move = s.first_move)
    (h4 : s1.starting_player = s.starting_player) : TrickInv s1 := by
  refine ⟨?_, ?_, ?_⟩
  · intro hd
    rw [h2]
    exact h.numbered (h1 hd)
  · intro hd
    rw [h2, h3, h4]
    exact h.opener_first (h1 hd)
  · intro hd
    rw [h2, h3]
    exact h.opener_next (h1 hd)

theorem trickinv_start_deal {s s1 : ServerGameState} (hs : start_deal s = ok s1) :
    TrickInv s1 := by
  obtain ⟨-, heap, e⟩ := start_deal_ok s s1 hs
  clear hs
  subst e
  refine ⟨?_, fun _ _ => rfl, ?_⟩
  · intro _ i m hm
    simp at hm
  · intro _ m hm
    simp at hm

theorem trickinv_continue_trick {done : List PosMap} {s s1 : ServerGameState}
    (hinv : Inv done s) (hds : s.deal_started = true) (h : TrickInv s) (now : Int)
    (hs : continue_trick s now = ok s1) : TrickInv s1 := by
  cases hts : s.trick_started with
  | false =>
    obtain ⟨-, e⟩ := continue_trick_open s s1 now hts hs
    rw [e]
    exact trickinv_of_eq h id rfl rfl rfl
  | true =>
    by_cases hmv : s.current_move = 4
    · obtain ⟨-, c, rest, W, -, -, e⟩ := continue_trick_close s s1 now hts hmv hs
      obtain ⟨-, -, -, hA, -⟩ := hinv.phase hds
      obtain ⟨-, -, hlen, -⟩ := hA hts
      rw [e]
      refine ⟨?_, ?_, ?_⟩
      · intro _ i m hm
        dsimp only at hm
        by_cases hi : i < s.taken_messages.length
        · rw [List.getElem?_append_left hi] at hm
          exact h.numbered hds i m hm
        · rw [List.getElem?_append_right (by omega)] at hm
          have hi0 : i - s.taken_messages.length = 0 := by
            by_contra hne
            have : ([(⟨MessageType.TAKEN,
                std_to_string s.current_trick ++ cards_data s.trick_cards ++
                  to_string_Position (order_at W),
                Payload.TAKEN s.current_trick s.trick_cards (order_at W)⟩ :
                  Message)])[i - s.taken_messages.length]? = none := by
              rw [List.getElem?_eq_none_iff]
              simp only [List.length_singleton]
              omega
            rw [this] at hm
            exact absurd hm (by simp)
          rw [hi0] at hm
          simp only [List.getElem?_cons_zero, Option.some.injEq] at hm
          rw [← hm]
          refine ⟨s.trick_cards, order_at W, ?_⟩
          have : ((i : Int) + 1) = s.current_trick := by omega
          rw [this]
      · intro _ hnil
        dsimp only at hnil
        simp at hnil
      · intro _ m hm
        dsimp only at hm
        rw [List.getLast?_append_of_ne_nil _ (by simp)] at hm
        simp only [List.getLast?_singleton, Option.some.injEq] at hm
        rw [← hm]
        exact ⟨_, _, rfl⟩
    · cases haw : s.awaited_player with
      | none =>
        obtain ⟨-, e⟩ := continue_trick_prompt s s1 now hts hmv haw hs
        rw [e]
        exact trickinv_of_eq h id rfl rfl rfl
      | some p =>
        rw [continue_trick_waiting s now hts hmv (by rw [haw]; rfl)] at hs
        simp only [ok.injEq] at hs
        rw [← hs]
        exact h

theorem trickinv_continue_deal {done : List PosMap} {s s1 : ServerGameState}
    (hinv : Inv done s) (hds : s.deal_started = true) (h : TrickInv s) (now : Int)
    (hs : continue_deal s now = ok s1) : TrickInv s1 := by
  by_cases hct : 13 < s.current_trick
  · obtain ⟨score, total, -, -, e⟩ := continue_deal_close s s1 now hct hs
    rw [e]
    refine ⟨?_, ?_, ?_⟩ <;> intro hf <;> simp at hf
  · unfold continue_deal at hs
    rw [if_pos (by omega)] at hs
    exact trickinv_continue_trick hinv hds h now hs

theorem trickinv_continue_game {done : List PosMap} {s s1 : ServerGameState}
    (hinv : Inv done s) (h : TrickInv s) (now : Int)
    (hs : continue_game s now = ok s1) : TrickInv s1 := by
  unfold continue_game at hs
  cases hr : are_players_ready s with
  | false =>
    simp only [hr, Bool.not_false, if_true, ok.injEq] at hs
    rw [← hs]
    exact h
  | true =>
    simp only [hr, Bool.not_true, Bool.false_eq_true, if_false] at hs
    cases hds : s.deal_started with
    | false =>
      have hnd : (!s.deal_started) = true := by rw [hds]; rfl
      simp only [hnd, if_true] at hs
      split at hs
      · simp only [ok.injEq] at hs
        obtain ⟨heap, e⟩ := end_game_eq s
        rw [← hs, e]
        exact trickinv_of_eq h id rfl rfl rfl
      · obtain ⟨s2, h2, h3⟩ := bind_eq_ok _ _ _ hs
        obtain ⟨hinv2, hds2, -⟩ := inv_start_deal hinv hds h2
        exact trickinv_continue_deal hinv2 hds2 (trickinv_start_deal h2) now h3
    | true =>
      have hnd : (!s.deal_started) = false := by rw [hds]; rfl
      simp only [hnd, Bool.false_eq_true, if_false] at hs
      exact trickinv_continue_deal hinv hds h now hs

/-- In every state the server can be in, the recorded tricks of the deal in
progress are numbered from 1 on and the seat to open the next trick is the opener
of the deal before the first trick and the taker of the last trick after it. -/
theorem reachable_trickinv {done : List PosMap} {s : ServerGameState} (h : Reachable done s) :
    TrickInv s := by
  induction h with
  | init schedule timeout u heap hparse =>
    refine ⟨?_, ?_, ?_⟩ <;> intro hf <;> simp [init] at hf
  | @new_player done s _ position socket now ih =>
    obtain ⟨m, heap, e⟩ := new_player_eq s position socket now
    rw [e]
    exact trickinv_of_eq ih id rfl rfl rfl
  | @disconnect_client done s _ socket ih =>
    obtain ⟨m, e⟩ := disconnect_client_eq s socket
    rw [e]
    exact trickinv_of_eq ih id rfl rfl rfl
  | @handle_trick_message done s _ socket t cards hcards ih =>
    by_cases hacc : (handle_trick_message s socket t cards).2 = ok none
    · obtain ⟨⟨h1, h2⟩, p, c, hp, ha, ht, hc, hv⟩ :=
        (handle_trick_message_accepts_iff s socket t cards).mp hacc
      rw [handle_trick_message_accepted s socket t cards p c h1 h2 hp ha ht hc hv]
      exact trickinv_of_eq ih id rfl rfl rfl
    · rw [handle_trick_message_state s socket t cards hacc]
      exact ih
  | @continue_game done s s1 hr now hs ih =>
    exact trickinv_continue_game (reachable_inv hr) ih now hs
  | @sockets done s _ heap ih => exact trickinv_of_eq ih id rfl rfl rfl

end ServerGameState

namespace ServerGameState

/-! ## The awaited seat -/

/-- A call of `continue_trick` after which a seat is awaited that was not
awaited before: the call sent that seat the prompt of the state it leaves. -/
theorem continue_trick_prompted {s s1 : ServerGameState} (now : Int) (p : Position)
    (hs : continue_trick s now = ok s1) (hnew : s.awaited_player = none)
    (hp : s1.awaited_player = some p) :
    s1.heap = (on_socket s p fun sock =>
      (sock.send (trick_line s1)).await_message MessageType.TRICK s1.timeout now).heap ∧
    s1.player_sockets = s.player_sockets ∧ s1.deal_started = s.deal_started ∧
    ∀ q, deal_line s1 q = deal_line s q := by
  cases hts : s.trick_started with
  | false =>
    obtain ⟨-, e⟩ := continue_trick_open s s1 now hts hs
    rw [e] at hp
    simp only [Option.some.injEq] at hp
    rw [← hp, e]
    exact ⟨rfl, rfl, rfl, fun _ => rfl⟩
  | true =>
    by_cases hmv : s.current_move = 4
    · obtain ⟨-, c, rest, W, -, -, e⟩ := continue_trick_close s s1 now hts hmv hs
      rw [e] at hp
      dsimp only at hp
      rw [hnew] at hp
      exact absurd hp (by simp)
    · obtain ⟨-, e⟩ := continue_trick_prompt s s1 now hts hmv hnew hs
      rw [e] at hp
      simp only [Option.some.injEq] at hp
      rw [← hp, e]
      exact ⟨rfl, rfl, rfl, fun _ => rfl⟩

/-- After a call of `continue_trick` that leaves a trick open, a seat is
awaited. -/
theorem continue_trick_awaits {s s1 : ServerGameState} (now : Int)
    (hs : continue_trick s now = ok s1) (hts1 : s1.trick_started = true) :
    s1.awaited_player.isSome = true := by
  cases hts : s.trick_started with
  | false =>
    obtain ⟨-, e⟩ := continue_trick_open s s1 now hts hs
    rw [e]
    rfl
  | true =>
    by_cases hmv : s.current_move = 4
    · obtain ⟨-, c, rest, W, -, -, e⟩ := continue_trick_close s s1 now hts hmv hs
      rw [e] at hts1
      exact absurd hts1 (by simp)
    · cases haw : s.awaited_player with
      | none =>
        obtain ⟨-, e⟩ := continue_trick_prompt s s1 now hts hmv haw hs
        rw [e]
        rfl
      | some q =>
        rw [continue_trick_waiting s now hts hmv (by rw [haw]; rfl)] at hs
        simp only [ok.injEq] at hs
        rw [← hs, haw]
        rfl

/-- What a call of `continue_game` that found the four seats taken comes to:
`end_game`, the end of a deal, or `continue_trick`, in the state it is called in
or in the state `start_deal` leaves. -/
theorem continue_game_cases {s s1 : ServerGameState} (now : Int)
    (hready : are_players_ready s = true) (hs : continue_game s now = ok s1) :
    s1.deal_started = false ∨
    ∃ s2, (s2 = s ∨ (s.deal_started = false ∧ start_deal s = ok s2)) ∧
      s2.deal_started = true ∧ continue_trick s2 now = ok s1 := by
  unfold continue_game at hs
  simp only [hready, Bool.not_true, Bool.false_eq_true, if_false] at hs
  have hdeal : ∀ s2, s2.deal_started = true → continue_deal s2 now = ok s1 →
      s1.deal_started = false ∨ continue_trick s2 now = ok s1 := by
    intro s2 _ h3
    by_cases hct : 13 < s2.current_trick
    · obtain ⟨score, total, -, -, e⟩ := continue_deal_close s2 s1 now hct h3
      left
      rw [e]
    · right
      unfold continue_deal at h3
      rw [if_pos (by omega)] at h3
      exact h3
  cases hds : s.deal_started with
  | false =>
    have hnd : (!s.deal_started) = true := by rw [hds]; rfl
    simp only [hnd, if_true] at hs
    split at hs
    · simp only [ok.injEq] at hs
      obtain ⟨heap, e⟩ := end_game_eq s
      left
      rw [← hs, e]
      exact hds
    · obtain ⟨s2, h2, h3⟩ := bind_eq_ok _ _ _ hs
      obtain ⟨-, heap, e⟩ := start_deal_ok s s2 h2
      have hds2 : s2.deal_started = true := by rw [e]
      rcases hdeal s2 hds2 h3 with h | h
      · exact Or.inl h
      · exact Or.inr ⟨s2, Or.inr ⟨rfl, h2⟩, hds2, h⟩
  | true =>
    have hnd : (!s.deal_started) = false := by rw [hds]; rfl
    simp only [hnd, Bool.false_eq_true, if_false] at hs
    rcases hdeal s hds hs with h | h
    · exact Or.inl h
    · exact Or.inr ⟨s, Or.inl rfl, hds, h⟩

/-- C34. The awaited seat in the states the server can be in. If a seat is
awaited, a deal and a trick are in progress, fewer than four cards have been
played in the trick, and the seat is the one as many places after the opener of
the trick as cards have been played; so no seat is awaited when no trick is in
progress. After a call of `continue_game` that found the four seats taken and
leaves a deal in progress, a seat is awaited exactly if a trick is in progress
with fewer than four cards played. -/
theorem awaited_in_open_trick {done : List PosMap} {s : ServerGameState}
    (hr : Reachable done s) :
    (∀ p, s.awaited_player = some p →
      s.deal_started = true ∧ s.trick_started = true ∧ s.current_move < 4 ∧
      s.current_move = (s.trick_cards.length : Int) ∧
      p = order_at ((s.current_move + s.first_move) % 4)) ∧
    (s.trick_started = false → s.awaited_player = none) ∧
    (∀ (now : Int) (s1 : ServerGameState), are_players_ready s = true →
      continue_game s now = ok s1 → s1.deal_started = true →
      (s1.awaited_player.isSome = true ↔ s1.trick_started = true ∧ s1.current_move < 4)) := by
  have hinv := reachable_inv hr
  have hawait : ∀ {done1 : List PosMap} {t : ServerGameState}, Inv done1 t →
      ∀ p, t.awaited_player = some p →
      t.deal_started = true ∧ t.trick_started = true ∧ t.current_move < 4 ∧
      t.current_move = (t.trick_cards.length : Int) ∧
      p = order_at ((t.current_move + t.first_move) % 4) := by
    intro done1 t ht p hp
    obtain ⟨h1, h2, h3, h4⟩ := ht.awaited p hp
    obtain ⟨hf1, hf2, -⟩ := ht.phase h1
    have hm := ht.move_len
    refine ⟨h1, h2, by omega, hm, ?_⟩
    rw [h4, c_rem_nonneg _ (by omega)]
  refine ⟨hawait hinv, ?_, ?_⟩
  · intro hts
    cases hp : s.awaited_player with
    | none => rfl
    | some p =>
      have := (hawait hinv p hp).2.1
      rw [hts] at this
      exact absurd this (by simp)
  · intro now s1 hready hs hds1
    have hinv1 := inv_continue_game hinv now hs
    constructor
    · intro hsome
      obtain ⟨p, hp⟩ := Option.isSome_iff_exists.1 hsome
      obtain ⟨-, h2, h3, -⟩ := hawait hinv1 p hp
      exact ⟨h2, h3⟩
    · rintro ⟨hts1, -⟩
      rcases continue_game_cases now hready hs with h | ⟨s2, -, -, h⟩
      · rw [hds1] at h
        exact absurd h (by simp)
      · exact continue_trick_awaits now h hts1

set_option maxRecDepth 100000 in
theorem awaited_in_open_trick_witness :
    demo_east_prompted.awaited_player.isSome = true ↔
      demo_east_prompted.trick_started = true ∧ demo_east_prompted.current_move < 4 :=
  (awaited_in_open_trick demo_one_reachable).2.2 0 demo_east_prompted (by decide) (by decide)
    (by decide)

set_option maxRecDepth 100000 in
/-- North has played the ace of spades in the first trick of the demonstration
deal and `handle_trick_message` has returned; the next call of `continue_game`
has not come yet. A deal and a trick are in progress, one card has been played,
and no seat is awaited: East is awaited only once `continue_game` has run. -/
theorem no_seat_awaited_after_a_card :
    Reachable [] demo_one ∧
    demo_one = (handle_trick_message demo_dealt 0 1 [⟨"A".toList, Color.Spades, 14⟩]).1 ∧
    (handle_trick_message demo_dealt 0 1 [⟨"A".toList, Color.Spades, 14⟩]).2 = ok none ∧
    demo_one.deal_started = true ∧ demo_one.trick_started = true ∧
    demo_one.trick_cards = [⟨"A".toList, Color.Spades, 14⟩] ∧ demo_one.current_move = 1 ∧
    demo_one.awaited_player = none ∧
    continue_game demo_one 0 = ok demo_east_prompted ∧
    demo_east_prompted.awaited_player = some Position.East :=
  ⟨demo_one_reachable, by decide, by decide, by decide, by decide, by decide, by decide,
    by decide, by decide, by decide⟩

/-! ## The order of play -/

/-- C35. The order of play. In a state the server can be in with the four seats
taken, a call of `continue_game` that returns and after which a seat `p` is
awaited, none having been awaited before, has prompted `p`: a deal and a trick
numbered 1 to 13 are in progress, `k` cards have been played in it, at most
three, and `p` is the seat `k` places after the seat `first_move` in the order
North, East, South, West; `first_move`, the opener of the trick, is the opener
the schedule names for the deal while no trick of the deal is recorded, and the
taker of the last recorded trick after that. The prompt is the line `TRICK` with
the number of the trick and the cards played so far in the order played: the
write queue of the socket of `p` is what it was, then the `DEAL` lines of the
seats the socket holds if the call started the deal, then that line; the socket
awaits a `TRICK` and its deadline is `now` plus a thousand times the timeout, in
the integers of the machine; every other socket has its write queue grown by its
`DEAL` lines if the call started the deal, and is otherwise as it was. -/
theorem prompt_follows_turn_order {done : List PosMap} {s s1 : ServerGameState}
    (hr : Reachable done s) (now : Int) (hready : are_players_ready s = true)
    (hs : continue_game s now = ok s1) (p : Position) (hnew : s.awaited_player = none)
    (hp : s1.awaited_player = some p) :
    s1.deal_started = true ∧ s1.trick_started = true ∧
    1 ≤ s1.current_trick ∧ s1.current_trick ≤ 13 ∧
    s1.current_trick = (s1.taken_messages.length : Int) + 1 ∧
    s1.trick_cards.length ≤ 3 ∧ s1.current_move = (s1.trick_cards.length : Int) ∧
    0 ≤ s1.first_move ∧ s1.first_move ≤ 3 ∧
    p = order_at ((s1.first_move + (s1.trick_cards.length : Int)) % 4) ∧
    (s1.taken_messages = [] →
      s1.first_move = position_order s1.starting_player ∧
      s1.starting_player =
        s1.starting_players.getD (s1.current_deal - 1).toNat Position.North) ∧
    (∀ m, s1.taken_messages.getLast? = some m →
      ∃ trick_number cards,
        m.payload = Payload.TAKEN trick_number cards (order_at s1.first_move)) ∧
    trick_line s1 = Message.to_string ⟨MessageType.TRICK,
      std_to_string s1.current_trick ++ cards_data s1.trick_cards,
      Payload.TRICK s1.current_trick s1.trick_cards⟩ ∧
    ∀ j, s1.heap[j]? = (s.heap[j]?).map fun (sock : Socket) =>
      if s.player_sockets.get p = some j then
        (⟨sock.write_queue ++
            (if s.deal_started = true then []
              else List.flatMap
                (seat_order.filter fun q => decide (s.player_sockets.get q = some j))
                (deal_line s1)) ++
            trick_line s1,
          some MessageType.TRICK,
          long_long_value (now + int_value (s1.timeout * 1000)),
          sock.closed, sock.all_messages_received⟩ : Socket)
      else
        (⟨sock.write_queue ++
            (if s.deal_started = true then []
              else List.flatMap
                (seat_order.filter fun q => decide (s.player_sockets.get q = some j))
                (deal_line s1)),
          sock.awaited_message, sock.timestamp, sock.closed,
          sock.all_messages_received⟩ : Socket) := by
  have hinv := reachable_inv hr
  have hr1 := Reachable.continue_game hr now hs
  have hinv1 := reachable_inv hr1
  have hti1 := reachable_trickinv hr1
  have hdi1 := reachable_dealinv hr1
  obtain ⟨h1, h2, h3, h4⟩ := hinv1.awaited p hp
  obtain ⟨hf1, hf2, -, hA, -⟩ := hinv1.phase h1
  obtain ⟨hc1, hc2, hc3, -⟩ := hA h2
  have hm := hinv1.move_len
  refine ⟨h1, h2, hc1, hc2, by omega, by omega, hm, hf1, hf2, ?_, ?_, hti1.opener_next h1,
    rfl, ?_⟩
  · rw [h4, c_rem_nonneg _ (by omega), hm, add_comm]
  · intro hnil
    exact ⟨hti1.opener_first h1 hnil, hdi1.opener_sched h1⟩
  · rcases continue_game_cases now hready hs with h | ⟨s2, hs2, hds2, h⟩
    · rw [h1] at h
      exact absurd h (by simp)
    · intro j
      rcases hs2 with e | ⟨hds, hst⟩
      · rw [e] at h hds2
        obtain ⟨hheap, -, -, -⟩ := continue_trick_prompted now p h hnew hp
        rw [hheap, on_socket_getElem?]
        simp only [hds2, if_true, List.append_nil]
        by_cases hj : s.player_sockets.get p = some j
        · simp only [hj, if_true]
          rfl
        · simp only [hj, if_false]
          cases s.heap[j]? with
          | none => rfl
          | some sock => rfl
      · obtain ⟨-, heap, e⟩ := start_deal_ok s s2 hst
        have hnew2 : s2.awaited_player = none := by
          rw [e]
          exact hnew
        have hps2 : s2.player_sockets = s.player_sockets := by rw [e]
        obtain ⟨hheap, -, -, hdl⟩ := continue_trick_prompted now p h hnew2 hp
        have hdl2 : deal_line s1 = deal_line s2 := funext hdl
        rw [hheap, on_socket_getElem?, hps2, start_deal_heap s s2 hst j, hdl2]
        simp only [hds, Bool.false_eq_true, if_false]
        by_cases hj : s.player_sockets.get p = some j
        · simp only [hj, if_true]
          cases s.heap[j]? with
          | none => rfl
          | some sock => rfl
        · simp only [hj, if_false]

set_option maxRecDepth 100000 in
/-- North has played the ace of spades in the first trick of the demonstration
deal, opened by North: the next `continue_game`, at the time 0 with a timeout of
5 seconds, prompts East, the seat one place after North; the socket 1, which
holds East, has `TRICK1AS` appended to its write queue after the `DEAL` it got
before, awaits a `TRICK` and has the deadline 5000; the socket 0 is as it was. -/
theorem prompt_follows_turn_order_witness :
    Reachable [] demo_one ∧ are_players_ready demo_one = true ∧
    continue_game demo_one 0 = ok demo_east_prompted ∧
    demo_one.awaited_player = none ∧
    demo_east_prompted.awaited_player = some Position.East ∧
    demo_east_prompted.trick_cards.length ≤ 3 ∧
    Position.East = order_at ((demo_east_prompted.first_move +
      (demo_east_prompted.trick_cards.length : Int)) % 4) ∧
    (∀ j, demo_east_prompted.heap[j]? = (demo_one.heap[j]?).map fun (sock : Socket) =>
      if demo_one.player_sockets.get Position.East = some j then
        (⟨sock.write_queue ++
            (if demo_one.deal_started = true then []
              else List.flatMap
                (seat_order.filter fun q => decide (demo_one.player_sockets.get q = some j))
                (deal_line demo_east_prompted)) ++
            trick_line demo_east_prompted,
          some MessageType.TRICK,
          long_long_value (0 + int_value (demo_east_prompted.timeout * 1000)),
          sock.closed, sock.all_messages_received⟩ : Socket)
      else
        (⟨sock.write_queue ++
            (if demo_one.deal_started = true then []
              else List.flatMap
                (seat_order.filter fun q => decide (demo_one.player_sockets.get q = some j))
                (deal_line demo_east_prompted)),
          sock.awaited_message, sock.timestamp, sock.closed,
          sock.all_messages_received⟩ : Socket)) ∧
    demo_one.first_move = 0 ∧ demo_one.trick_cards = [⟨"A".toList, Color.Spades, 14⟩] ∧
    demo_one.player_sockets.get Position.East = some 1 ∧
    demo_one.timeout = 5 ∧
    trick_line demo_east_prompted = "TRICK1AS\r\n".toList ∧
    demo_one.heap[1]? = some ⟨"DEAL1NAHKSQCJD10H9S8C7D6H5S4C3D2H\r\n".toList, none, 5000,
      false, false⟩ ∧
    demo_east_prompted.heap[1]? =
      some ⟨"DEAL1NAHKSQCJD10H9S8C7D6H5S4C3D2H\r\nTRICK1AS\r\n".toList,
        some MessageType.TRICK, 5000, false, false⟩ ∧
    demo_east_prompted.heap[0]? = demo_one.heap[0]? := by
  have h := prompt_follows_turn_order demo_one_reachable 0 (by decide)
    (show continue_game demo_one 0 = ok demo_east_prompted by decide) Position.East
    (by decide) (by decide)
  exact ⟨demo_one_reachable, by decide, by decide, by decide, by decide, h.2.2.2.2.2.1,
    h.2.2.2.2.2.2.2.2.2.1, h.2.2.2.2.2.2.2.2.2.2.2.2.2, by decide, by decide, by decide,
    by decide, by decide, by decide, by decide, by decide⟩

end ServerGameState

namespace ServerGameState

/-! ## A connection on two seats -/

theorem demo_double_reachable : Reachable [] demo_double :=
  Reachable.new_player (Reachable.new_player (Reachable.new_player demo_alone_reachable
    Position.East 0 0) Position.South 2 0) Position.West 3 0

set_option maxRecDepth 1000000 in
/-- C37. In the demonstration match the socket 0 sends `IAM` for North and then
`IAM` for East, both seats empty: `new_player` returns no `BUSY` either time and
the socket holds the two seats. With South and West taken by the sockets 2 and 3
the four seats are filled by three connections, the deal starts and North is
prompted. The card of North then comes from the socket 0, for which
`find_position` returns East, the first seat of the map that holds it: the
ace of spades, a valid move of North, is answered with `WRONG` and the state
stays as it is. -/
theorem socket_holds_two_seats :
    Reachable [] demo_double ∧
    demo_alone.player_sockets = ⟨some 0, none, none, none⟩ ∧
    new_player demo_alone Position.East 0 0 =
      ((new_player demo_alone Position.East 0 0).1, ok none) ∧
    (new_player demo_alone Position.East 0 0).1.player_sockets =
      ⟨some 0, some 0, none, none⟩ ∧
    demo_double.player_sockets = ⟨some 0, some 0, some 2, some 3⟩ ∧
    seats_held demo_double 0 = 2 ∧
    are_players_ready demo_double = true ∧
    continue_game demo_double 0 = ok demo_double_dealt ∧
    (∃ done, Reachable done demo_double_dealt) ∧
    demo_double_dealt.deal_started = true ∧
    demo_double_dealt.awaited_player = some Position.North ∧
    is_valid_move demo_double_dealt ⟨"A".toList, Color.Spades, 14⟩ Position.North = true ∧
    find_position demo_double_dealt 0 = some Position.East ∧
    (∀ socket, find_position demo_double_dealt socket ≠ some Position.North) ∧
    handle_trick_message demo_double_dealt 0 1 [⟨"A".toList, Color.Spades, 14⟩] =
      (demo_double_dealt, ok (some ⟨MessageType.WRONG, "1".toList, Payload.WRONG 1⟩)) := by
  refine ⟨demo_double_reachable, by decide, by decide, by decide, by decide, by decide,
    by decide, by decide, reachable_tick demo_double_reachable 0, by decide, by decide,
    by decide, by decide, ?_, by decide⟩
  intro socket h
  unfold find_position at h
  have h1 := List.find?_some h
  have h2 : demo_double_dealt.player_sockets.get Position.North = some socket := by
    simpa using h1
  have h3 : socket = 0 := by
    have : demo_double_dealt.player_sockets.get Position.North = some 0 := by decide
    rw [this] at h2
    exact (Option.some.inj h2).symm
  rw [h3] at h
  exact absurd h (by decide)

end ServerGameState

namespace ServerGameState

/-! ## What a deal is worth in all -/

theorem won_amount_seats (deal_type : DealType) (m : Message) :
    won_amount deal_type Position.North m + won_amount deal_type Position.East m +
      won_amount deal_type Position.South m + won_amount deal_type Position.West m =
    match m.payload with
    | Payload.TAKEN trick_number cards _ => trick_score deal_type cards trick_number
    | _ => 0 := by
  unfold won_amount
  cases m.payload with
  | TAKEN trick_number cards taken_by => cases taken_by <;> simp
  | _ => simp

theorem taken_payload {done : List PosMap} {s : ServerGameState} (h : Inv done s)
    (m : Message) (hm : m ∈ s.taken_messages) :
    ∃ trick_number cards taken_by, m.payload = Payload.TAKEN trick_number cards taken_by := by
  have h4 := h.taken_four m hm
  unfold taken_cards at h4
  cases hp : m.payload with
  | TAKEN trick_number cards taken_by => exact ⟨_, _, _, rfl⟩
  | _ => rw [hp] at h4; simp at h4

/-- The amounts of a list of recorded tricks, added up: so much for each trick,
for each heart, queen, jack or king and king of hearts among their cards, and
for each trick numbered 7 or 13. -/
theorem trick_scores_sum (deal_type : DealType) : ∀ l : List Message,
    (∀ m ∈ l, ∃ trick_number cards taken_by,
      m.payload = Payload.TAKEN trick_number cards taken_by) →
    (l.map fun m => won_amount deal_type Position.North m +
      won_amount deal_type Position.East m + won_amount deal_type Position.South m +
      won_amount deal_type Position.West m).sum =
    (if deal_type = DealType.TRICK ∨ deal_type = DealType.BANDIT then (l.length : Int) else 0) +
    (if deal_type = DealType.HEART ∨ deal_type = DealType.BANDIT then
      (((l.flatMap taken_cards).countP fun c => decide (c.color = Color.Hearts) : Nat) : Int)
      else 0) +
    (if deal_type = DealType.QUEEN ∨ deal_type = DealType.BANDIT then
      5 * (((l.flatMap taken_cards).countP fun c => decide (c.figure = "Q".toList) : Nat) : Int)
      else 0) +
    (if deal_type = DealType.LORD ∨ deal_type = DealType.BANDIT then
      2 * (((l.flatMap taken_cards).countP fun c =>
        decide (c.figure = "J".toList ∨ c.figure = "K".toList) : Nat) : Int) else 0) +
    (if deal_type = DealType.KING_HEART ∨ deal_type = DealType.BANDIT then
      18 * (((l.flatMap taken_cards).countP fun c =>
        decide (c.figure = "K".toList ∧ c.color = Color.Hearts) : Nat) : Int) else 0) +
    (if deal_type = DealType.SEVENTH_LAST ∨ deal_type = DealType.BANDIT then
      10 * ((l.countP fun m => decide (taken_number m = 7 ∨ taken_number m = 13) : Nat) : Int)
      else 0)
  | [], _ => by simp
  | m :: l, h => by
    obtain ⟨n, cards, w, hp⟩ := h m (List.mem_cons_self _ _)
    have ih := trick_scores_sum deal_type l fun x hx => h x (List.mem_cons_of_mem _ hx)
    have htc : taken_cards m = cards := by
      unfold taken_cards
      rw [hp]
    have htn : taken_number m = n := by
      unfold taken_number
      rw [hp]
    have hhead : won_amount deal_type Position.North m + won_amount deal_type Position.East m +
        won_amount deal_type Position.South m + won_amount deal_type Position.West m =
        trick_score deal_type cards n := by
      rw [won_amount_seats, hp]
    rw [List.map_cons, List.sum_cons, ih, hhead, trick_score_eq]
    simp only [List.flatMap_cons, List.countP_append, List.countP_cons, htc, htn,
      List.length_cons]
    clear ih hhead htc htn hp h
    by_cases hn : n = 7 ∨ n = 13
    · simp only [hn, if_true, decide_True]
      cases deal_type <;> simp <;> omega
    · simp only [hn, if_false, decide_False]
      cases deal_type <;> simp <;> omega

theorem numbers_of_numbered : ∀ (l : List Message) (k : Nat),
    (∀ (i : Nat) (m : Message), l[i]? = some m →
      ∃ cards taken_by, m.payload = Payload.TAKEN (((k + i : Nat) : Int) + 1) cards taken_by) →
    l.map taken_number = (List.range' (k + 1) l.length).map fun (i : Nat) => (i : Int)
  | [], _, _ => rfl
  | m :: l, k, h => by
    obtain ⟨cards, w, hp⟩ := h 0 m (by simp)
    have ih := numbers_of_numbered l (k + 1) (by
      intro i x hx
      have := h (i + 1) x (by simpa using hx)
      have e : k + (i + 1) = k + 1 + i := by omega
      rw [e] at this
      exact this)
    rw [List.map_cons, ih, List.length_cons, List.range'_succ, List.map_cons]
    congr 1
    unfold taken_number
    rw [hp]
    simp

set_option maxRecDepth 100000 in
theorem pack_counts :
    Card.pack.countP (fun c => decide (c.color = Color.Hearts)) = 13 ∧
    Card.pack.countP (fun c => decide (c.figure = "Q".toList)) = 4 ∧
    Card.pack.countP (fun c => decide (c.figure = "J".toList ∨ c.figure = "K".toList)) = 8 ∧
    Card.pack.countP (fun c => decide (c.figure = "K".toList ∧ c.color = Color.Hearts)) = 1 := by
  decide

theorem numbered_bonus_count (l : List Message) (hlen : l.length = 13)
    (h : ∀ (i : Nat) (m : Message), l[i]? = some m →
      ∃ cards taken_by, m.payload = Payload.TAKEN ((i : Int) + 1) cards taken_by) :
    l.countP (fun m => decide (taken_number m = 7 ∨ taken_number m = 13)) = 2 := by
  have hmap := numbers_of_numbered l 0 (by
    intro i m hm
    obtain ⟨cards, w, hp⟩ := h i m hm
    refine ⟨cards, w, ?_⟩
    rw [hp]
    simp)
  have hc : l.countP (fun m => decide (taken_number m = 7 ∨ taken_number m = 13)) =
      (l.map taken_number).countP (fun n => decide (n = 7 ∨ n = 13)) := by
    rw [List.countP_map]
    rfl
  rw [hc, hmap, hlen]
  decide

/-- The cards of the thirteen recorded tricks of a deal are the cards dealt. -/
theorem completed_perm {done : List PosMap} {s : ServerGameState} (h : Inv done s)
    (hds : s.deal_started = true) (hlen : s.taken_messages.length = 13)
    (hpart : List.Perm s.starting_hands.flatten Card.pack) :
    List.Perm (completed_cards s) Card.pack := by
  have hcons := (h.conserve hds).trans hpart
  have hl := hcons.length_eq
  have hc := completed_cards_length h
  rw [hlen] at hc
  rw [Card.pack_length] at hl
  simp only [List.length_append] at hl
  have hnil : s.current_hands.flatten ++ in_progress s = [] := by
    apply List.eq_nil_of_length_eq_zero
    simp only [List.length_append]
    omega
  rw [hnil, List.nil_append] at hcons
  exact hcons

/-- C38. The points of a complete deal. In a state the server can be in with a
deal in progress whose thirteen tricks are closed (`current_trick` past 13),
the four hands dealt being a rearrangement of the pack of 52: thirteen tricks
are recorded and the four deal scores add up to 13 for the deal type 1, 13 for
the type 2, 20 for the type 3, 16 for the type 4, 18 for the type 5, 20 for the
type 6 and 100 for the type 7, whatever was played; and the next call of
`continue_game` with the four seats taken returns and sends every seat the
`SCORE` built from these deal scores, followed by the `TOTAL`. -/
theorem deal_scores_total {done : List PosMap} {s : ServerGameState} (hr : Reachable done s)
    (hds : s.deal_started = true) (hct : 13 < s.current_trick)
    (hpart : List.Perm s.starting_hands.flatten Card.pack) :
    s.taken_messages.length = 13 ∧
    s.deal_scores.at Position.North + s.deal_scores.at Position.East +
      s.deal_scores.at Position.South + s.deal_scores.at Position.West =
        spec_deal_total s.deal_type ∧
    (∀ now : Int, are_players_ready s = true →
      ∃ (score total : Message) (s1 : ServerGameState),
        continue_game s now = ok s1 ∧ SCOREMessage s.deal_scores = ok score ∧
        score.payload = Payload.SCORE s.deal_scores ∧
        ∀ i, s1.heap[i]? = (s.heap[i]?).map fun (sock : Socket) =>
          sock.sent (seats_held s i) (score.to_string ++ total.to_string)) := by
  have h := reachable_inv hr
  have hti := reachable_trickinv hr
  obtain ⟨-, -, -, hA, hB⟩ := h.phase hds
  have hts : s.trick_started = false := by
    cases ht : s.trick_started with
    | false => rfl
    | true =>
      have := hA ht
      omega
  have hlen : s.taken_messages.length = 13 := by
    rcases (hB hts).1 with h1 | h1
    · omega
    · exact h1.2
  refine ⟨hlen, ?_, ?_⟩
  · have hperm := completed_perm h hds hlen hpart
    unfold completed_cards at hperm
    have hsum := trick_scores_sum s.deal_type s.taken_messages
      (fun m hm => taken_payload h m hm)
    rw [numbered_bonus_count s.taken_messages hlen (hti.numbered hds), hlen,
      hperm.countP_eq, hperm.countP_eq, hperm.countP_eq, hperm.countP_eq,
      pack_counts.1, pack_counts.2.1, pack_counts.2.2.1, pack_counts.2.2.2] at hsum
    rw [h.deal_sum Position.North, h.deal_sum Position.East, h.deal_sum Position.South,
      h.deal_sum Position.West, ← List.sum_map_add, ← List.sum_map_add, ← List.sum_map_add,
      hsum]
    cases s.deal_type <;> simp [spec_deal_total]
  · intro now hready
    obtain ⟨s1, hs1⟩ := continue_deal_close_ok s now h.deal_keys hct
    have hcg : continue_game s now = ok s1 := by
      rw [continue_game_started s now hready hds]
      exact hs1
    obtain ⟨score, total, hscore, -, e⟩ := continue_deal_close s s1 now hct hs1
    refine ⟨score, total, s1, hcg, hscore, SCORE_ctor_payload _ _ hscore, ?_⟩
    intro i
    rw [e]
    show (send_to_all _ seat_order s).heap[i]? = _
    rw [send_to_all_getElem?]
    simp [seats_held]

set_option maxRecDepth 1000000 in
theorem deal_scores_total_witness :
    demo_deal_played.deal_type = DealType.TRICK ∧
    demo_deal_played.deal_scores = ⟨some 3, some 3, some 3, some 4⟩ ∧
    demo_deal_played.deal_scores.at Position.North +
      demo_deal_played.deal_scores.at Position.East +
      demo_deal_played.deal_scores.at Position.South +
      demo_deal_played.deal_scores.at Position.West = 13 := by
  obtain ⟨done, hr⟩ := demo_deal_played_reachable
  exact ⟨by decide, by decide,
    (deal_scores_total hr (by decide) (by decide) (by decide)).2.1⟩

end ServerGameState

end Kierki
